import Mathlib

/-!
# yui-ibc-solidity: the connection codec, the slot calculators, the handshake

A shallow embedding of `pkg/ibc/connection/Connection.pb.go` (the generated
gogo-protobuf codec of `ConnectionEnd`, `Counterparty`, `MerklePrefix` and
`Version`) and of the test harness of `pkg/testing/chains.go` (slot calculators,
identifier bookkeeping, header polling, receipt waiting, handshake and packet
calls, proof queries), a model of the connection handshake and of the packet receive that the
specification describes, and the properties proved about them.

Conventions of the embedding

* a Go `byte` is a `Fin 256`; in the codec a Go `string` and a `[]byte` value are
  the list of their bytes (a nil slice and an empty slice are the same list);
* a pointer field is an `Option`, `none` being the nil pointer; a
  `*TestConnection` of the harness, through which the harness writes, is a position
  in the list of connection objects of the state;
* machine integers are `Nat`/`Int` with the wrap-around written out
  (`toInt64`, `toInt32`, `toUint64`, `addInt`); Go's `int` is 64 bits wide;
* a function that can return an error, panic, or loop returns `Except Error`;
  loops are structural recursions on a bound, `Error.outOfFuel` marking an
  exhausted bound.
-/

namespace connection

/-! ## Machine integers and bytes -/

/-- Go `byte`. -/
abbrev Byte := Fin 256

/-- Go `uint8(x)`: the low eight bits. -/
def uint8 (x : Nat) : Byte := ⟨x % 256, Nat.mod_lt x (by decide)⟩

/-- Go `int(x)` / `int64(x)` of an unsigned 64-bit pattern: two's complement. -/
def toInt64 (x : Nat) : Int :=
  if x % 2 ^ 64 < 2 ^ 63 then ((x % 2 ^ 64 : Nat) : Int) else ((x % 2 ^ 64 : Nat) : Int) - 2 ^ 64

/-- Go `int32(x)` of an unsigned pattern: the low 32 bits, two's complement. -/
def toInt32 (x : Nat) : Int :=
  if x % 2 ^ 32 < 2 ^ 31 then ((x % 2 ^ 32 : Nat) : Int) else ((x % 2 ^ 32 : Nat) : Int) - 2 ^ 32

/-- Go `uint64(x)` of a signed integer: sign extension, then the 64-bit pattern. -/
def toUint64 (x : Int) : Nat := (x % 2 ^ 64).toNat

/-- Go `a + b` on `int`: 64-bit wrap-around addition. -/
def addInt (a b : Int) : Int := toInt64 (toUint64 (a + b))

/-- The errors and abnormal outcomes of the package. -/
inductive Error where
  /-- `ErrInvalidLengthConnection` -/
  | ErrInvalidLengthConnection
  /-- `ErrIntOverflowConnection` -/
  | ErrIntOverflowConnection
  /-- `ErrUnexpectedEndOfGroupConnection` -/
  | ErrUnexpectedEndOfGroupConnection
  /-- `io.ErrUnexpectedEOF` -/
  | ErrUnexpectedEOF
  /-- `proto: <msg>: wiretype end group for non-group` -/
  | wiretypeEndGroup (msg : String)
  /-- `proto: <msg>: illegal tag <fieldNum> (wire type <wire>)` -/
  | illegalTag (msg : String) (fieldNum : Int) (wire : Nat)
  /-- `proto: wrong wireType = <wireType> for field <field>` -/
  | wrongWireType (wireType : Nat) (field : String)
  /-- `proto: illegal wireType <wireType>` -/
  | illegalWireType (wireType : Nat)
  /-- A run-time panic: index or slice bounds out of range, nil dereference. -/
  | panic
  /-- The bound of a loop of the embedding was exhausted. -/
  | outOfFuel
  deriving DecidableEq, Repr

instance {ε α : Type} [DecidableEq ε] [DecidableEq α] : DecidableEq (Except ε α) :=
  fun a b =>
    match a, b with
    | .ok x, .ok y => if h : x = y then isTrue (by rw [h]) else isFalse (fun e => h (by cases e; rfl))
    | .error x, .error y =>
      if h : x = y then isTrue (by rw [h]) else isFalse (fun e => h (by cases e; rfl))
    | .ok _, .error _ => isFalse (fun e => by cases e)
    | .error _, .ok _ => isFalse (fun e => by cases e)

/-! ## The messages -/

/-- `type Version struct` -/
structure Version where
  Identifier : List Byte := []
  Features : List (List Byte) := []
  deriving DecidableEq, Repr

/-- `type MerklePrefix struct` -/
structure MerklePrefix where
  KeyPrefix : List Byte := []
  deriving DecidableEq, Repr

/-- `type Counterparty struct` -/
structure Counterparty where
  ClientId : List Byte := []
  ConnectionId : List Byte := []
  Prefix : Option MerklePrefix := none
  deriving DecidableEq, Repr

/-- `type ConnectionEnd struct`; `State` is the `int32` enum `ConnectionEnd_State`,
`DelayPeriod` a `uint64`. -/
structure ConnectionEnd where
  ClientId : List Byte := []
  Versions : List (Option Version) := []
  State : Int := 0
  Counterparty : Option connection.Counterparty := none
  DelayPeriod : Nat := 0
  deriving DecidableEq, Repr

/-- `ConnectionEnd_STATE_UNINITIALIZED_UNSPECIFIED` -/
def ConnectionEnd_STATE_UNINITIALIZED_UNSPECIFIED : Int := 0
/-- `ConnectionEnd_STATE_INIT` -/
def ConnectionEnd_STATE_INIT : Int := 1
/-- `ConnectionEnd_STATE_TRYOPEN` -/
def ConnectionEnd_STATE_TRYOPEN : Int := 2
/-- `ConnectionEnd_STATE_OPEN` -/
def ConnectionEnd_STATE_OPEN : Int := 3

/-- The values the Go types allow: `State` an `int32`, `DelayPeriod` a `uint64`. -/
def ConnectionEnd.WellTyped (m : ConnectionEnd) : Prop :=
  -(2 : Int) ^ 31 ≤ m.State ∧ m.State < 2 ^ 31 ∧ m.DelayPeriod < 2 ^ 64

instance (m : ConnectionEnd) : Decidable m.WellTyped := by
  unfold ConnectionEnd.WellTyped; infer_instance

/-- No entry of `m.Versions` is the nil pointer. -/
def ConnectionEnd.NoNilVersion (m : ConnectionEnd) : Prop :=
  ∀ v ∈ m.Versions, v ≠ none

instance (m : ConnectionEnd) : Decidable m.NoNilVersion := by
  unfold ConnectionEnd.NoNilVersion; infer_instance

/-! ## Size -/

/-- `math/bits.Len64` on a value below `2^64`: the number of bits needed to
represent `x`, `0` for `x = 0`. -/
def Len64Aux : Nat → Nat → Nat
  | 0, _ => 0
  | k + 1, x => if x = 0 then 0 else Len64Aux k (x / 2) + 1

/-- `math/bits.Len64` -/
def Len64 (x : Nat) : Nat := Len64Aux 64 x

/-- `func sovConnection(x uint64) (n int)` -/
def sovConnection (x : Nat) : Nat := (Len64 (x ||| 1) + 6) / 7

/-- The summand `1 + l + sovConnection(uint64(l))` of a length-delimited field. -/
def sizeLenField (l : Nat) : Nat := 1 + l + sovConnection l

/-- `func (m *Version) Size() (n int)` on a non-nil receiver. -/
def Version.Size (m : Version) : Nat :=
  (if m.Identifier.length > 0 then sizeLenField m.Identifier.length else 0)
  + (m.Features.map fun s => sizeLenField s.length).sum

/-- `func (m *Version) Size() (n int)`: `0` on the nil receiver. -/
def Version.SizePtr : Option Version → Nat
  | none => 0
  | some m => m.Size

/-- `func (m *MerklePrefix) Size() (n int)` on a non-nil receiver. -/
def MerklePrefix.Size (m : MerklePrefix) : Nat :=
  if m.KeyPrefix.length > 0 then sizeLenField m.KeyPrefix.length else 0

/-- `func (m *Counterparty) Size() (n int)` on a non-nil receiver. -/
def Counterparty.Size (m : Counterparty) : Nat :=
  (if m.ClientId.length > 0 then sizeLenField m.ClientId.length else 0)
  + (if m.ConnectionId.length > 0 then sizeLenField m.ConnectionId.length else 0)
  + (match m.Prefix with
     | some p => sizeLenField p.Size
     | none => 0)

/-- `func (m *ConnectionEnd) Size() (n int)` on a non-nil receiver. -/
def ConnectionEnd.Size (m : ConnectionEnd) : Nat :=
  (if m.ClientId.length > 0 then sizeLenField m.ClientId.length else 0)
  + (m.Versions.map fun e => sizeLenField (Version.SizePtr e)).sum
  + (if m.State ≠ 0 then 1 + sovConnection (toUint64 m.State) else 0)
  + (match m.Counterparty with
     | some c => sizeLenField c.Size
     | none => 0)
  + (if m.DelayPeriod ≠ 0 then 1 + sovConnection m.DelayPeriod else 0)

/-! ## Marshal: writing a buffer from its end -/

/-- Go `dAtA[i] = b`; panics when `i` is out of range. -/
def storeByte (dAtA : List Byte) (i : Int) (b : Byte) : Except Error (List Byte) :=
  if 0 ≤ i ∧ i < dAtA.length then .ok (dAtA.set i.toNat b) else .error .panic

/-- Go `copy(dAtA[i:], src)`: slicing panics unless `0 ≤ i ≤ len(dAtA)`, then
`min(len(dAtA) - i, len(src))` bytes are copied. -/
def copyAt (dAtA : List Byte) (i : Int) (src : List Byte) : Except Error (List Byte) :=
  if 0 ≤ i ∧ i ≤ dAtA.length then
    .ok (dAtA.take i.toNat ++ src.take (dAtA.length - i.toNat)
          ++ dAtA.drop (i.toNat + src.length))
  else .error .panic

/-- The loop `for v >= 1<<7 { dAtA[offset] = uint8(v&0x7f | 0x80); v >>= 7; offset++ }`
of `encodeVarintConnection` followed by `dAtA[offset] = uint8(v)`. A `uint64`
leaves the loop after at most nine rounds. -/
def encodeVarintLoop : Nat → List Byte → Int → Nat → Except Error (List Byte)
  | 0, _, _, _ => .error .outOfFuel
  | fuel + 1, dAtA, offset, v =>
    if v ≥ 1 <<< 7 then
      match storeByte dAtA offset (uint8 (v &&& 0x7f ||| 0x80)) with
      | .error e => .error e
      | .ok dAtA => encodeVarintLoop fuel dAtA (offset + 1) (v >>> 7)
    else storeByte dAtA offset (uint8 v)

/-- `func encodeVarintConnection(dAtA []byte, offset int, v uint64) int`; the
result is the written buffer and the returned base offset. -/
def encodeVarintConnection (dAtA : List Byte) (offset : Int) (v : Nat) :
    Except Error (List Byte × Int) :=
  let offset := offset - sovConnection v
  let base := offset
  match encodeVarintLoop 10 dAtA offset v with
  | .error e => .error e
  | .ok dAtA => .ok (dAtA, base)

/-- The block `i = encodeVarintConnection(dAtA, i, v); i--; dAtA[i] = tag`. -/
def writeVarintField (tag : Byte) (v : Nat) (st : List Byte × Int) :
    Except Error (List Byte × Int) :=
  match encodeVarintConnection st.1 st.2 v with
  | .error e => .error e
  | .ok (dAtA, i) =>
    match storeByte dAtA (i - 1) tag with
    | .error e => .error e
    | .ok dAtA => .ok (dAtA, i - 1)

/-- The block `i -= len(s); copy(dAtA[i:], s);
i = encodeVarintConnection(dAtA, i, uint64(len(s))); i--; dAtA[i] = tag`. -/
def writeBytesField (tag : Byte) (s : List Byte) (st : List Byte × Int) :
    Except Error (List Byte × Int) :=
  let i := st.2 - s.length
  match copyAt st.1 i s with
  | .error e => .error e
  | .ok dAtA => writeVarintField tag s.length (dAtA, i)

/-- The block `size, err := x.MarshalToSizedBuffer(dAtA[:i]); if err != nil { return 0, err };
i -= size; i = encodeVarintConnection(dAtA, i, uint64(size)); i--; dAtA[i] = tag`.
The callee writes through the sub-slice `dAtA[:i]` into the caller's buffer. -/
def writeMsgField (tag : Byte) (marshalTo : List Byte → Except Error (List Byte × Int))
    (st : List Byte × Int) : Except Error (List Byte × Int) :=
  if 0 ≤ st.2 ∧ st.2 ≤ st.1.length then
    match marshalTo (st.1.take st.2.toNat) with
    | .error e => .error e
    | .ok (sub, size) =>
      let dAtA := sub ++ st.1.drop st.2.toNat
      let i := st.2 - size
      writeVarintField tag (toUint64 size) (dAtA, i)
  else .error .panic

/-- The block `if x != nil { <writeMsgField> }` of a nested message behind a pointer. -/
def writeOptMsgField {α : Type} (tag : Byte)
    (marshalTo : α → List Byte → Except Error (List Byte × Int)) (x : Option α)
    (st : List Byte × Int) : Except Error (List Byte × Int) :=
  match x with
  | some p => writeMsgField tag (marshalTo p) st
  | none => .ok st

/-- The loop `for iNdEx := len(m.Features) - 1; iNdEx >= 0; iNdEx--` of
`Version.MarshalToSizedBuffer`: the last feature is written first. -/
def Version.writeFeatures : List (List Byte) → List Byte × Int → Except Error (List Byte × Int)
  | [], st => .ok st
  | s :: rest, st =>
    match Version.writeFeatures rest st with
    | .error e => .error e
    | .ok st => writeBytesField 0x12 s st

/-- `func (m *Version) MarshalToSizedBuffer(dAtA []byte) (int, error)` on a non-nil
receiver; the result is the written buffer and the returned count. -/
def Version.MarshalToSizedBuffer (m : Version) (dAtA : List Byte) :
    Except Error (List Byte × Int) :=
  let st : List Byte × Int := (dAtA, dAtA.length)
  match (if m.Features.length > 0 then Version.writeFeatures m.Features st else .ok st) with
  | .error e => .error e
  | .ok st =>
    match (if m.Identifier.length > 0 then writeBytesField 0xa m.Identifier st else .ok st) with
    | .error e => .error e
    | .ok st => .ok (st.1, (dAtA.length : Int) - st.2)

/-- `Version.MarshalToSizedBuffer` through a pointer: the nil receiver panics on
its first field access. -/
def Version.MarshalToSizedBufferPtr : Option Version → List Byte → Except Error (List Byte × Int)
  | none, _ => .error .panic
  | some m, dAtA => m.MarshalToSizedBuffer dAtA

/-- `func (m *MerklePrefix) MarshalToSizedBuffer(dAtA []byte) (int, error)` -/
def MerklePrefix.MarshalToSizedBuffer (m : MerklePrefix) (dAtA : List Byte) :
    Except Error (List Byte × Int) :=
  let st : List Byte × Int := (dAtA, dAtA.length)
  match (if m.KeyPrefix.length > 0 then writeBytesField 0xa m.KeyPrefix st else .ok st) with
  | .error e => .error e
  | .ok st => .ok (st.1, (dAtA.length : Int) - st.2)

/-- `func (m *Counterparty) MarshalToSizedBuffer(dAtA []byte) (int, error)` -/
def Counterparty.MarshalToSizedBuffer (m : Counterparty) (dAtA : List Byte) :
    Except Error (List Byte × Int) :=
  let st : List Byte × Int := (dAtA, dAtA.length)
  match writeOptMsgField 0x1a MerklePrefix.MarshalToSizedBuffer m.Prefix st with
  | .error e => .error e
  | .ok st =>
    match (if m.ConnectionId.length > 0 then writeBytesField 0x12 m.ConnectionId st
           else .ok st) with
    | .error e => .error e
    | .ok st =>
      match (if m.ClientId.length > 0 then writeBytesField 0xa m.ClientId st else .ok st) with
      | .error e => .error e
      | .ok st => .ok (st.1, (dAtA.length : Int) - st.2)

/-- The loop `for iNdEx := len(m.Versions) - 1; iNdEx >= 0; iNdEx--` of
`ConnectionEnd.MarshalToSizedBuffer`: the last version is written first. -/
def ConnectionEnd.writeVersions :
    List (Option Version) → List Byte × Int → Except Error (List Byte × Int)
  | [], st => .ok st
  | v :: rest, st =>
    match ConnectionEnd.writeVersions rest st with
    | .error e => .error e
    | .ok st => writeMsgField 0x12 (Version.MarshalToSizedBufferPtr v) st

/-- `func (m *ConnectionEnd) MarshalToSizedBuffer(dAtA []byte) (int, error)` -/
def ConnectionEnd.MarshalToSizedBuffer (m : ConnectionEnd) (dAtA : List Byte) :
    Except Error (List Byte × Int) :=
  let st : List Byte × Int := (dAtA, dAtA.length)
  match (if m.DelayPeriod ≠ 0 then writeVarintField 0x28 m.DelayPeriod st else .ok st) with
  | .error e => .error e
  | .ok st =>
    match writeOptMsgField 0x22 Counterparty.MarshalToSizedBuffer m.Counterparty st with
    | .error e => .error e
    | .ok st =>
      match (if m.State ≠ 0 then writeVarintField 0x18 (toUint64 m.State) st else .ok st) with
      | .error e => .error e
      | .ok st =>
        match (if m.Versions.length > 0 then ConnectionEnd.writeVersions m.Versions st
               else .ok st) with
        | .error e => .error e
        | .ok st =>
          match (if m.ClientId.length > 0 then writeBytesField 0xa m.ClientId st
                 else .ok st) with
          | .error e => .error e
          | .ok st => .ok (st.1, (dAtA.length : Int) - st.2)

/-- The body shared by the four `Marshal` methods: `size := m.Size();
dAtA = make([]byte, size); n, err := m.MarshalToSizedBuffer(dAtA[:size]);
if err != nil { return nil, err }; return dAtA[:n], nil`. -/
def marshalWith (size : Nat) (marshalTo : List Byte → Except Error (List Byte × Int)) :
    Except Error (List Byte) :=
  match marshalTo (List.replicate size 0) with
  | .error e => .error e
  | .ok (dAtA, n) =>
    if 0 ≤ n ∧ n ≤ dAtA.length then .ok (dAtA.take n.toNat) else .error .panic

/-- `func (m *Version) Marshal() (dAtA []byte, err error)` -/
def Version.Marshal (m : Version) : Except Error (List Byte) :=
  marshalWith m.Size m.MarshalToSizedBuffer

/-- `func (m *MerklePrefix) Marshal() (dAtA []byte, err error)` -/
def MerklePrefix.Marshal (m : MerklePrefix) : Except Error (List Byte) :=
  marshalWith m.Size m.MarshalToSizedBuffer

/-- `func (m *Counterparty) Marshal() (dAtA []byte, err error)` -/
def Counterparty.Marshal (m : Counterparty) : Except Error (List Byte) :=
  marshalWith m.Size m.MarshalToSizedBuffer

/-- `func (m *ConnectionEnd) Marshal() (dAtA []byte, err error)` -/
def ConnectionEnd.Marshal (m : ConnectionEnd) : Except Error (List Byte) :=
  marshalWith m.Size m.MarshalToSizedBuffer

/-! ## Unmarshal: reading a buffer by index -/

/-- Go `dAtA[i]`; panics when `i` is out of range. -/
def loadByte (dAtA : List Byte) (i : Int) : Except Error Byte :=
  if 0 ≤ i then
    match dAtA[i.toNat]? with
    | some b => .ok b
    | none => .error .panic
  else .error .panic

/-- Go `dAtA[lo:hi]`; panics unless `0 ≤ lo ≤ hi ≤ len(dAtA)`. -/
def slice (dAtA : List Byte) (lo hi : Int) : Except Error (List Byte) :=
  if 0 ≤ lo ∧ lo ≤ hi ∧ hi ≤ dAtA.length then .ok ((dAtA.take hi.toNat).drop lo.toNat)
  else .error .panic

/-- The varint loop of the decoders,
`for shift := uint(0); ; shift += 7 { if shift >= 64 { return ErrIntOverflowConnection };
if iNdEx >= l { return io.ErrUnexpectedEOF }; b := dAtA[iNdEx]; iNdEx++;
x |= T(b&0x7F) << shift; if b < 0x80 { break } }`,
for an accumulator `x` of a `w`-bit integer type `T` (its bit pattern is kept: a
shifted value loses the bits at and above `w`). The first argument bounds the
rounds: the eleventh round has `shift = 70`. The result is the pattern of `x` and
the index after the varint. -/
def readVarint (w : Nat) (dAtA : List Byte) : Nat → Nat → Int → Nat → Except Error (Nat × Int)
  | 0, _, _, _ => .error .ErrIntOverflowConnection
  | n + 1, shift, iNdEx, x =>
    if shift ≥ 64 then .error .ErrIntOverflowConnection
    else if iNdEx ≥ dAtA.length then .error .ErrUnexpectedEOF
    else
      match loadByte dAtA iNdEx with
      | .error e => .error e
      | .ok b =>
        let x := x ||| ((b.val &&& 0x7F) <<< shift) % 2 ^ w
        if b.val < 0x80 then .ok (x, iNdEx + 1)
        else readVarint w dAtA n (shift + 7) (iNdEx + 1) x

/-- The block that reads the length of a length-delimited field: the varint loop,
`intStringLen := int(stringLen); if intStringLen < 0 { return ErrInvalidLengthConnection };
postIndex := iNdEx + intStringLen; if postIndex < 0 { return ErrInvalidLengthConnection };
if postIndex > l { return io.ErrUnexpectedEOF }` (the variants that accumulate in an
`int` hold the same 64-bit pattern). The result is `(iNdEx, postIndex)`. -/
def readLength (dAtA : List Byte) (iNdEx : Int) : Except Error (Int × Int) :=
  match readVarint 64 dAtA 10 0 iNdEx 0 with
  | .error e => .error e
  | .ok (stringLen, iNdEx) =>
    let intStringLen := toInt64 stringLen
    if intStringLen < 0 then .error .ErrInvalidLengthConnection
    else
      let postIndex := addInt iNdEx intStringLen
      if postIndex < 0 then .error .ErrInvalidLengthConnection
      else if postIndex > dAtA.length then .error .ErrUnexpectedEOF
      else .ok (iNdEx, postIndex)

/-- The varint loop of `skipConnection` (wire type 0):
`if shift >= 64 {..}; if iNdEx >= l {..}; iNdEx++; if dAtA[iNdEx-1] < 0x80 { break }`. -/
def skipVarint (dAtA : List Byte) : Nat → Nat → Int → Except Error Int
  | 0, _, _ => .error .ErrIntOverflowConnection
  | n + 1, shift, iNdEx =>
    if shift ≥ 64 then .error .ErrIntOverflowConnection
    else if iNdEx ≥ dAtA.length then .error .ErrUnexpectedEOF
    else
      match loadByte dAtA (iNdEx + 1 - 1) with
      | .error e => .error e
      | .ok b =>
        if b.val < 0x80 then .ok (iNdEx + 1)
        else skipVarint dAtA n (shift + 7) (iNdEx + 1)

/-- The `switch wireType` of `skipConnection`: the new `(iNdEx, depth)`. -/
def skipBody (dAtA : List Byte) (wireType : Nat) (iNdEx depth : Int) :
    Except Error (Int × Int) :=
  if wireType = 0 then
    match skipVarint dAtA 10 0 iNdEx with
    | .error e => .error e
    | .ok iNdEx => .ok (iNdEx, depth)
  else if wireType = 1 then .ok (addInt iNdEx 8, depth)
  else if wireType = 2 then
    match readVarint 64 dAtA 10 0 iNdEx 0 with
    | .error e => .error e
    | .ok (length, iNdEx) =>
      if toInt64 length < 0 then .error .ErrInvalidLengthConnection
      else .ok (addInt iNdEx (toInt64 length), depth)
  else if wireType = 3 then .ok (iNdEx, addInt depth 1)
  else if wireType = 4 then
    if depth = 0 then .error .ErrUnexpectedEndOfGroupConnection
    else .ok (iNdEx, addInt depth (-1))
  else if wireType = 5 then .ok (addInt iNdEx 4, depth)
  else .error (.illegalWireType wireType)

/-- The loop `for iNdEx < l { ... }` of `skipConnection`, and the
`return 0, io.ErrUnexpectedEOF` after it. -/
def skipLoop (dAtA : List Byte) : Nat → Int → Int → Except Error Int
  | 0, _, _ => .error .outOfFuel
  | fuel + 1, iNdEx, depth =>
    if iNdEx < dAtA.length then
      match readVarint 64 dAtA 10 0 iNdEx 0 with
      | .error e => .error e
      | .ok (wire, iNdEx) =>
        let wireType := wire &&& 0x7
        match skipBody dAtA wireType iNdEx depth with
        | .error e => .error e
        | .ok (iNdEx, depth) =>
          if iNdEx < 0 then .error .ErrInvalidLengthConnection
          else if depth = 0 then .ok iNdEx
          else skipLoop dAtA fuel iNdEx depth
    else .error .ErrUnexpectedEOF

/-- `func skipConnection(dAtA []byte) (n int, err error)`; every round of the loop
reads at least the tag byte, so `len(dAtA) + 1` rounds are enough. -/
def skipConnection (dAtA : List Byte) : Except Error Int :=
  skipLoop dAtA (dAtA.length + 1) 0 0

/-- The `default:` case of the four `Unmarshal` methods: `iNdEx = preIndex;
skippy, err := skipConnection(dAtA[iNdEx:]); if err != nil { return err };
if (skippy < 0) || (iNdEx+skippy) < 0 { return ErrInvalidLengthConnection };
if (iNdEx + skippy) > l { return io.ErrUnexpectedEOF }; iNdEx += skippy`. -/
def skipField (dAtA : List Byte) (preIndex : Int) : Except Error Int :=
  let iNdEx := preIndex
  match slice dAtA iNdEx dAtA.length with
  | .error e => .error e
  | .ok rest =>
    match skipConnection rest with
    | .error e => .error e
    | .ok skippy =>
      if skippy < 0 ∨ addInt iNdEx skippy < 0 then .error .ErrInvalidLengthConnection
      else if addInt iNdEx skippy > dAtA.length then .error .ErrUnexpectedEOF
      else .ok (addInt iNdEx skippy)

/-- The loop `for iNdEx < l { <one field> }` of the four `Unmarshal` methods and the
`if iNdEx > l { return io.ErrUnexpectedEOF }; return nil` after it; `field` is the
loop body. -/
def unmarshalLoop {α : Type} (field : List Byte → Int → α → Except Error (α × Int))
    (dAtA : List Byte) : Nat → Int → α → Except Error α
  | 0, _, _ => .error .outOfFuel
  | fuel + 1, iNdEx, m =>
    if iNdEx < dAtA.length then
      match field dAtA iNdEx m with
      | .error e => .error e
      | .ok (m, iNdEx) => unmarshalLoop field dAtA fuel iNdEx m
    else if iNdEx > dAtA.length then .error .ErrUnexpectedEOF
    else .ok m

/-- The block of a `string`/`bytes` field: the length, then `dAtA[iNdEx:postIndex]`
and `iNdEx = postIndex`. -/
def readBytes (dAtA : List Byte) (iNdEx : Int) : Except Error (List Byte × Int) :=
  match readLength dAtA iNdEx with
  | .error e => .error e
  | .ok (iNdEx, postIndex) =>
    match slice dAtA iNdEx postIndex with
    | .error e => .error e
    | .ok s => .ok (s, postIndex)

/-- One round of the loop of `func (m *Version) Unmarshal(dAtA []byte) error`. -/
def Version.unmarshalField (dAtA : List Byte) (iNdEx : Int) (m : Version) :
    Except Error (Version × Int) :=
  let preIndex := iNdEx
  match readVarint 64 dAtA 10 0 iNdEx 0 with
  | .error e => .error e
  | .ok (wire, iNdEx) =>
    let fieldNum := toInt32 (wire >>> 3)
    let wireType := wire &&& 0x7
    if wireType = 4 then .error (.wiretypeEndGroup "Version")
    else if fieldNum ≤ 0 then .error (.illegalTag "Version" fieldNum wire)
    else if fieldNum = 1 then
      if wireType ≠ 2 then .error (.wrongWireType wireType "Identifier")
      else
        match readBytes dAtA iNdEx with
        | .error e => .error e
        | .ok (s, iNdEx) => .ok ({ m with Identifier := s }, iNdEx)
    else if fieldNum = 2 then
      if wireType ≠ 2 then .error (.wrongWireType wireType "Features")
      else
        match readBytes dAtA iNdEx with
        | .error e => .error e
        | .ok (s, iNdEx) => .ok ({ m with Features := m.Features ++ [s] }, iNdEx)
    else
      match skipField dAtA preIndex with
      | .error e => .error e
      | .ok iNdEx => .ok (m, iNdEx)

/-- `func (m *Version) Unmarshal(dAtA []byte) error`: the message after the call, or
the error. Every round reads at least one byte, so `len(dAtA) + 1` rounds are enough. -/
def Version.Unmarshal (m : Version) (dAtA : List Byte) : Except Error Version :=
  unmarshalLoop Version.unmarshalField dAtA (dAtA.length + 1) 0 m

/-- One round of the loop of `func (m *MerklePrefix) Unmarshal(dAtA []byte) error`. -/
def MerklePrefix.unmarshalField (dAtA : List Byte) (iNdEx : Int) (m : MerklePrefix) :
    Except Error (MerklePrefix × Int) :=
  let preIndex := iNdEx
  match readVarint 64 dAtA 10 0 iNdEx 0 with
  | .error e => .error e
  | .ok (wire, iNdEx) =>
    let fieldNum := toInt32 (wire >>> 3)
    let wireType := wire &&& 0x7
    if wireType = 4 then .error (.wiretypeEndGroup "MerklePrefix")
    else if fieldNum ≤ 0 then .error (.illegalTag "MerklePrefix" fieldNum wire)
    else if fieldNum = 1 then
      if wireType ≠ 2 then .error (.wrongWireType wireType "KeyPrefix")
      else
        match readBytes dAtA iNdEx with
        | .error e => .error e
        | .ok (s, iNdEx) => .ok ({ m with KeyPrefix := s }, iNdEx)
    else
      match skipField dAtA preIndex with
      | .error e => .error e
      | .ok iNdEx => .ok (m, iNdEx)

/-- `func (m *MerklePrefix) Unmarshal(dAtA []byte) error` -/
def MerklePrefix.Unmarshal (m : MerklePrefix) (dAtA : List Byte) : Except Error MerklePrefix :=
  unmarshalLoop MerklePrefix.unmarshalField dAtA (dAtA.length + 1) 0 m

/-- One round of the loop of `func (m *Counterparty) Unmarshal(dAtA []byte) error`. -/
def Counterparty.unmarshalField (dAtA : List Byte) (iNdEx : Int) (m : Counterparty) :
    Except Error (Counterparty × Int) :=
  let preIndex := iNdEx
  match readVarint 64 dAtA 10 0 iNdEx 0 with
  | .error e => .error e
  | .ok (wire, iNdEx) =>
    let fieldNum := toInt32 (wire >>> 3)
    let wireType := wire &&& 0x7
    if wireType = 4 then .error (.wiretypeEndGroup "Counterparty")
    else if fieldNum ≤ 0 then .error (.illegalTag "Counterparty" fieldNum wire)
    else if fieldNum = 1 then
      if wireType ≠ 2 then .error (.wrongWireType wireType "ClientId")
      else
        match readBytes dAtA iNdEx with
        | .error e => .error e
        | .ok (s, iNdEx) => .ok ({ m with ClientId := s }, iNdEx)
    else if fieldNum = 2 then
      if wireType ≠ 2 then .error (.wrongWireType wireType "ConnectionId")
      else
        match readBytes dAtA iNdEx with
        | .error e => .error e
        | .ok (s, iNdEx) => .ok ({ m with ConnectionId := s }, iNdEx)
    else if fieldNum = 3 then
      if wireType ≠ 2 then .error (.wrongWireType wireType "Prefix")
      else
        match readBytes dAtA iNdEx with
        | .error e => .error e
        | .ok (s, iNdEx) =>
          match MerklePrefix.Unmarshal (m.Prefix.getD {}) s with
          | .error e => .error e
          | .ok p => .ok ({ m with Prefix := some p }, iNdEx)
    else
      match skipField dAtA preIndex with
      | .error e => .error e
      | .ok iNdEx => .ok (m, iNdEx)

/-- `func (m *Counterparty) Unmarshal(dAtA []byte) error` -/
def Counterparty.Unmarshal (m : Counterparty) (dAtA : List Byte) : Except Error Counterparty :=
  unmarshalLoop Counterparty.unmarshalField dAtA (dAtA.length + 1) 0 m

/-- One round of the loop of `func (m *ConnectionEnd) Unmarshal(dAtA []byte) error`. -/
def ConnectionEnd.unmarshalField (dAtA : List Byte) (iNdEx : Int) (m : ConnectionEnd) :
    Except Error (ConnectionEnd × Int) :=
  let preIndex := iNdEx
  match readVarint 64 dAtA 10 0 iNdEx 0 with
  | .error e => .error e
  | .ok (wire, iNdEx) =>
    let fieldNum := toInt32 (wire >>> 3)
    let wireType := wire &&& 0x7
    if wireType = 4 then .error (.wiretypeEndGroup "ConnectionEnd")
    else if fieldNum ≤ 0 then .error (.illegalTag "ConnectionEnd" fieldNum wire)
    else if fieldNum = 1 then
      if wireType ≠ 2 then .error (.wrongWireType wireType "ClientId")
      else
        match readBytes dAtA iNdEx with
        | .error e => .error e
        | .ok (s, iNdEx) => .ok ({ m with ClientId := s }, iNdEx)
    else if fieldNum = 2 then
      if wireType ≠ 2 then .error (.wrongWireType wireType "Versions")
      else
        match readBytes dAtA iNdEx with
        | .error e => .error e
        | .ok (s, iNdEx) =>
          match Version.Unmarshal {} s with
          | .error e => .error e
          | .ok v => .ok ({ m with Versions := m.Versions ++ [some v] }, iNdEx)
    else if fieldNum = 3 then
      if wireType ≠ 0 then .error (.wrongWireType wireType "State")
      else
        match readVarint 32 dAtA 10 0 iNdEx 0 with
        | .error e => .error e
        | .ok (x, iNdEx) => .ok ({ m with State := toInt32 x }, iNdEx)
    else if fieldNum = 4 then
      if wireType ≠ 2 then .error (.wrongWireType wireType "Counterparty")
      else
        match readBytes dAtA iNdEx with
        | .error e => .error e
        | .ok (s, iNdEx) =>
          match Counterparty.Unmarshal (m.Counterparty.getD {}) s with
          | .error e => .error e
          | .ok c => .ok ({ m with Counterparty := some c }, iNdEx)
    else if fieldNum = 5 then
      if wireType ≠ 0 then .error (.wrongWireType wireType "DelayPeriod")
      else
        match readVarint 64 dAtA 10 0 iNdEx 0 with
        | .error e => .error e
        | .ok (x, iNdEx) => .ok ({ m with DelayPeriod := x }, iNdEx)
    else
      match skipField dAtA preIndex with
      | .error e => .error e
      | .ok iNdEx => .ok (m, iNdEx)

/-- `func (m *ConnectionEnd) Unmarshal(dAtA []byte) error` -/
def ConnectionEnd.Unmarshal (m : ConnectionEnd) (dAtA : List Byte) :
    Except Error ConnectionEnd :=
  unmarshalLoop ConnectionEnd.unmarshalField dAtA (dAtA.length + 1) 0 m

/-! ## The reference wire layout

The layout of section 6 of the specification, written front to back: a tag is
`field-number<<3 | wire-type`, strings, bytes and nested messages carry a varint
length prefix, integers and enums are raw varints. -/

/-- The base-128 digits of `v`, least significant first, the high bit set on every
byte but the last; the first argument bounds the number of bytes. -/
def varintAux : Nat → Nat → List Byte
  | 0, _ => []
  | fuel + 1, v => if v < 128 then [uint8 v] else uint8 (v % 128 + 128) :: varintAux fuel (v / 128)

/-- The varint of a `uint64`: at most ten bytes. -/
def varint (v : Nat) : List Byte := varintAux 10 v

/-- The tag byte `field-number<<3 | wire-type`. -/
def tag (fieldNum wireType : Nat) : Byte := uint8 (fieldNum <<< 3 ||| wireType)

/-- A length-delimited field (wire type 2): tag, varint length, payload. -/
def lenField (fieldNum : Nat) (payload : List Byte) : List Byte :=
  tag fieldNum 2 :: (varint payload.length ++ payload)

/-- An integer or enum field (wire type 0): tag, varint value. -/
def varintField (fieldNum : Nat) (v : Nat) : List Byte :=
  tag fieldNum 0 :: varint v

/-- A length-delimited field of a nested message behind a pointer: nothing for nil. -/
def optLenField (fieldNum : Nat) : Option (List Byte) → List Byte
  | some payload => lenField fieldNum payload
  | none => []

/-- The layout of a `Version`. -/
def Version.wire (m : Version) : List Byte :=
  (if m.Identifier = [] then [] else lenField 1 m.Identifier)
  ++ (m.Features.map (lenField 2)).flatten

/-- The layout of a `Version` behind a pointer. -/
def Version.wirePtr : Option Version → List Byte
  | none => []
  | some m => m.wire

/-- The layout of a `MerklePrefix`. -/
def MerklePrefix.wire (m : MerklePrefix) : List Byte :=
  if m.KeyPrefix = [] then [] else lenField 1 m.KeyPrefix

/-- The layout of a `Counterparty`. -/
def Counterparty.wire (m : Counterparty) : List Byte :=
  (if m.ClientId = [] then [] else lenField 1 m.ClientId)
  ++ (if m.ConnectionId = [] then [] else lenField 2 m.ConnectionId)
  ++ optLenField 3 (m.Prefix.map MerklePrefix.wire)

/-- The top-level fields of a `ConnectionEnd`, in ascending field-number order. -/
def ConnectionEnd.fields (m : ConnectionEnd) : List (List Byte) :=
  (if m.ClientId = [] then [] else [lenField 1 m.ClientId])
  ++ m.Versions.map (fun v => lenField 2 (Version.wirePtr v))
  ++ (if m.State = 0 then [] else [varintField 3 (toUint64 m.State)])
  ++ (m.Counterparty.map fun c => lenField 4 c.wire).toList
  ++ (if m.DelayPeriod = 0 then [] else [varintField 5 m.DelayPeriod])

/-- The layout of a `ConnectionEnd`: its fields one after the other. -/
def ConnectionEnd.wire (m : ConnectionEnd) : List Byte := m.fields.flatten

/-! ## Predicates and functions the proofs are stated with -/

/-- The buffer and index after `B` has been written at the end of the first `n`
bytes of `dAtA`. -/
def bufAfter (dAtA : List Byte) (n : Nat) (B : List Byte) : List Byte × Int :=
  (dAtA.take (n - B.length) ++ B ++ dAtA.drop n, ((n - B.length : Nat) : Int))

/-- `op` writes `b` just before the bytes already written. -/
def Emits (op : List Byte × Int → Except Error (List Byte × Int)) (b : List Byte) : Prop :=
  ∀ (dAtA : List Byte) (n : Nat) (B : List Byte), n ≤ dAtA.length → B.length + b.length ≤ n →
    op (bufAfter dAtA n B) = .ok (bufAfter dAtA n (b ++ B))

/-- `op` overwrites the bytes before the index with `b`. -/
def EmitsAt (op : List Byte × Int → Except Error (List Byte × Int)) (b : List Byte) : Prop :=
  ∀ (pre junk post : List Byte), junk.length = b.length →
    op (pre ++ junk ++ post, ((pre.length + junk.length : Nat) : Int)) = .ok (pre ++ b ++ post, (pre.length : Int))

/-- The result of a `MarshalToSizedBuffer` that writes `w` at the end of its buffer. -/
def WritesTail (marshalTo : List Byte → Except Error (List Byte × Int)) (w : List Byte) : Prop :=
  ∀ buf : List Byte, w.length ≤ buf.length →
      marshalTo buf = .ok (buf.take (buf.length - w.length) ++ w, (w.length : Int))

/-- `field` reads `bytes` as one field, with effect `f` on the message. -/
def DecodesField {α : Type} (field : List Byte → Int → α → Except Error (α × Int))
    (bytes : List Byte) (f : α → α) : Prop :=
  bytes ≠ [] ∧ ∀ (dAtA pre post : List Byte) (m : α), dAtA = pre ++ (bytes ++ post) →
    dAtA.length < 2 ^ 63 →
    field dAtA (pre.length : Int) m = .ok (f m, ((pre.length + bytes.length : Nat) : Int))

/-- The effects of a list of fields, applied in order. -/
def applyItems {α : Type} (items : List (List Byte × (α → α))) (m : α) : α :=
  items.foldl (fun m it => it.2 m) m

/-- The bytes of a list of fields, one after the other. -/
def itemBytes {α : Type} (items : List (List Byte × (α → α))) : List Byte :=
  (items.map Prod.fst).flatten

/-- The fields of a `Version` with their effect on the message being decoded. -/
def Version.items (v : Version) : List (List Byte × (Version → Version)) :=
  (if v.Identifier = [] then []
   else [(lenField 1 v.Identifier, fun x => { x with Identifier := v.Identifier })])
  ++ v.Features.map (fun s => (lenField 2 s, fun x => { x with Features := x.Features ++ [s] }))

/-- Decoding the layout of `v` into `x`: set scalars overwrite, repeated fields append. -/
def Version.merge (x v : Version) : Version :=
  { Identifier := if v.Identifier = [] then x.Identifier else v.Identifier
    Features := x.Features ++ v.Features }

/-- The fields of a `MerklePrefix` with their effect. -/
def MerklePrefix.items (p : MerklePrefix) : List (List Byte × (MerklePrefix → MerklePrefix)) :=
  if p.KeyPrefix = [] then []
  else [(lenField 1 p.KeyPrefix, fun x => { x with KeyPrefix := p.KeyPrefix })]

/-- Decoding the layout of `p` into `x`. -/
def MerklePrefix.merge (x p : MerklePrefix) : MerklePrefix :=
  { KeyPrefix := if p.KeyPrefix = [] then x.KeyPrefix else p.KeyPrefix }

/-- Decoding an optional nested prefix into the prefix already present. -/
def MerklePrefix.mergeOpt : Option MerklePrefix → Option MerklePrefix → Option MerklePrefix
  | x, some p => some (MerklePrefix.merge (x.getD {}) p)
  | x, none => x

/-- The fields of a `Counterparty` with their effect. -/
def Counterparty.items (c : Counterparty) : List (List Byte × (Counterparty → Counterparty)) :=
  (if c.ClientId = [] then []
   else [(lenField 1 c.ClientId, fun x => { x with ClientId := c.ClientId })])
  ++ (if c.ConnectionId = [] then []
      else [(lenField 2 c.ConnectionId, fun x => { x with ConnectionId := c.ConnectionId })])
  ++ (c.Prefix.map fun p => (lenField 3 p.wire,
        fun x : Counterparty => { x with Prefix := some (MerklePrefix.merge (x.Prefix.getD {}) p) })).toList

/-- Decoding the layout of `c` into `x`. -/
def Counterparty.merge (x c : Counterparty) : Counterparty :=
  { ClientId := if c.ClientId = [] then x.ClientId else c.ClientId
    ConnectionId := if c.ConnectionId = [] then x.ConnectionId else c.ConnectionId
    Prefix := MerklePrefix.mergeOpt x.Prefix c.Prefix }

/-- Decoding an optional nested counterparty into the one already present. -/
def Counterparty.mergeOpt : Option Counterparty → Option Counterparty → Option Counterparty
  | x, some c => some (Counterparty.merge (x.getD {}) c)
  | x, none => x

/-- The fields of a `ConnectionEnd` with their effect. -/
def ConnectionEnd.items (m : ConnectionEnd) : List (List Byte × (ConnectionEnd → ConnectionEnd)) :=
  (if m.ClientId = [] then []
   else [(lenField 1 m.ClientId, fun x => { x with ClientId := m.ClientId })])
  ++ m.Versions.map (fun v => (lenField 2 (Version.wirePtr v),
        fun x : ConnectionEnd => { x with Versions := x.Versions ++ [some (v.getD {})] }))
  ++ (if m.State = 0 then []
      else [(varintField 3 (toUint64 m.State), fun x => { x with State := m.State })])
  ++ (m.Counterparty.map fun c => (lenField 4 c.wire,
        fun x : ConnectionEnd =>
          { x with Counterparty := some (Counterparty.merge (x.Counterparty.getD {}) c) })).toList
  ++ (if m.DelayPeriod = 0 then []
      else [(varintField 5 m.DelayPeriod, fun x => { x with DelayPeriod := m.DelayPeriod })])

/-- Decoding the layout of `m` into `x`. -/
def ConnectionEnd.merge (x m : ConnectionEnd) : ConnectionEnd :=
  { ClientId := if m.ClientId = [] then x.ClientId else m.ClientId
    Versions := x.Versions ++ m.Versions.map (fun v => some (v.getD {}))
    State := if m.State = 0 then x.State else m.State
    Counterparty := Counterparty.mergeOpt x.Counterparty m.Counterparty
    DelayPeriod := if m.DelayPeriod = 0 then x.DelayPeriod else m.DelayPeriod }

/-- A varint as the decoders accept it: continuation bytes (high bit set) closed by
one byte without the high bit. -/
def isVarintBytes : List Byte → Bool
  | [] => false
  | [b] => decide (b.val < 0x80)
  | b :: b' :: bs => decide (b.val ≥ 0x80) && isVarintBytes (b' :: bs)

/-- A well-formed body of a field of wire type 0 (a varint of at most ten bytes),
1 (8 bytes), 2 (a varint length followed by that many bytes) or 5 (4 bytes). -/
def WellFormedBody (wireType : Nat) (body : List Byte) : Prop :=
  (wireType = 0 ∧ isVarintBytes body = true ∧ body.length ≤ 10)
  ∨ (wireType = 1 ∧ body.length = 8)
  ∨ (wireType = 2 ∧ ∃ payload : List Byte, body = varint payload.length ++ payload)
  ∨ (wireType = 5 ∧ body.length = 4)

/-- A field on the wire: the varint of its tag `fieldNum<<3 | wireType`, then its body. -/
def rawField (fieldNum wireType : Nat) (body : List Byte) : List Byte :=
  varint (fieldNum <<< 3 ||| wireType) ++ body

/-- `Version.Marshal` through a pointer. -/
def Version.MarshalPtr (v : Option Version) : Except Error (List Byte) :=
  marshalWith (Version.SizePtr v) (Version.MarshalToSizedBufferPtr v)

/-- The bytes a `Marshal` call returned; none when it failed. -/
def bytesOf : Except Error (List Byte) → List Byte
  | .ok b => b
  | .error _ => []

/-- The field `[0x22, varint(Size(cp)), Marshal(cp)]` of a present counterparty. -/
def Counterparty.layoutField : Option Counterparty → List Byte
  | some c => [tag 4 2] ++ varint c.Size ++ bytesOf c.Marshal
  | none => []

/-- The reference layout of a `ConnectionEnd`, in ascending field-number order: the
client id if non-empty, one field per version in list order, the state if non-zero,
the counterparty if present, the delay period if non-zero. -/
def ConnectionEnd.layout (m : ConnectionEnd) : List Byte :=
  (if m.ClientId = [] then [] else [tag 1 2] ++ varint m.ClientId.length ++ m.ClientId)
  ++ (m.Versions.map fun v =>
        [tag 2 2] ++ varint (Version.SizePtr v) ++ bytesOf (Version.MarshalPtr v)).flatten
  ++ (if m.State = 0 then [] else [tag 3 0] ++ varint (toUint64 m.State))
  ++ Counterparty.layoutField m.Counterparty
  ++ (if m.DelayPeriod = 0 then [] else [tag 5 0] ++ varint m.DelayPeriod)

/-- A message that uses every field. -/
def sampleConnectionEnd : ConnectionEnd :=
  { ClientId := [105, 98, 102, 116, 50]
    Versions := [some { Identifier := [49], Features := [[79, 82], [], [79, 82]] }, some {}]
    State := -2
    Counterparty := some { ClientId := [99], ConnectionId := [], Prefix := some { KeyPrefix := [105, 98, 99] } }
    DelayPeriod := 300 }

/-! ## More of the package, and what the later proofs are stated with -/

/-- A second message: no client id, one version, state `OPEN`, a counterparty with
a connection id and an empty prefix, no delay period. -/
def sampleUpdate : ConnectionEnd :=
  { Versions := [some { Identifier := [50] }]
    State := 3
    Counterparty := some { ConnectionId := [120], Prefix := some {} } }

/-- An error value the package returns to its caller, as against a run-time panic
and the exhausted bound of the embedding. -/
def Error.returned : Error → Bool
  | .panic => false
  | .outOfFuel => false
  | _ => true

/-- The call returned: nil (a result) or an error value. An out-of-range read or
slice of the buffer would be a panic. -/
def Returns {α : Type} (r : Except Error α) : Prop :=
  match r with
  | .ok _ => True
  | .error e => e.returned = true

/-- A round of a field loop that started at index `i` of a buffer of length `l`
returned an error value, or moved the index forward, to at most `l`. -/
def Progress {α : Type} (l : Nat) (i : Int) (r : Except Error (α × Int)) : Prop :=
  match r with
  | .ok (_, i') => i < i' ∧ i' ≤ l
  | .error e => e.returned = true

/-- `skipConnection` returned an error value or a length of at least 1. -/
def SkipsForward (r : Except Error Int) : Prop :=
  match r with
  | .ok n => 1 ≤ n
  | .error e => e.returned = true

/-- The sub-slice a length-delimited field hands to a nested `Unmarshal` is strictly
shorter than the buffer of length `l`. -/
def ShorterSlice (l : Nat) (r : Except Error (List Byte × Int)) : Prop :=
  match r with
  | .ok (s, _) => s.length < l
  | .error _ => True

/-- Ten bytes `0xff`: a varint that does not end within ten bytes. -/
def sampleRun : List Byte := List.replicate 10 0xff

/-- Bytes that are no encoding: a client id field whose length prefix runs past the
end of the input. -/
def sampleGarbage : List Byte := [0x0a, 0xff, 0xff, 0x03, 0x01]

/-- The wire type the `switch fieldNum` of `ConnectionEnd.Unmarshal` requires for
the field numbers 1 to 5. -/
def ConnectionEnd.declaredWireType : Nat → Nat
  | 1 => 2
  | 2 => 2
  | 3 => 0
  | 4 => 2
  | 5 => 0
  | _ => 0

/-- The field name in the `wrong wireType` error of the field numbers 1 to 5. -/
def ConnectionEnd.fieldName : Nat → String
  | 1 => "ClientId"
  | 2 => "Versions"
  | 3 => "State"
  | 4 => "Counterparty"
  | 5 => "DelayPeriod"
  | _ => ""

/-- The message made of the first `j` top-level fields of `m`, counted in the order
of the layout: `ClientId` if set, each entry of `Versions`, `State` if set,
`Counterparty` if present, `DelayPeriod` if set. -/
def ConnectionEnd.truncate (m : ConnectionEnd) (j : Nat) : ConnectionEnd :=
  let a := if m.ClientId = [] then 0 else 1
  let n := m.Versions.length
  let s := if m.State = 0 then 0 else 1
  let c := if m.Counterparty = none then 0 else 1
  { ClientId := if 0 < j then m.ClientId else []
    Versions := m.Versions.take (j - a)
    State := if a + n < j then m.State else 0
    Counterparty := if a + n + s < j then m.Counterparty else none
    DelayPeriod := if a + n + s + c < j then m.DelayPeriod else 0 }

/-- `func (m *ConnectionEnd) XXX_Marshal(b []byte, deterministic bool) ([]byte, error)`.
The slice `b` is given by its bytes and by `spare`, the bytes of its backing array
between its length and its capacity, so that `b[:cap(b)]` is `b ++ spare`.
`messageInfoMarshal` is `xxx_messageInfo_ConnectionEnd.Marshal`, code of the
protobuf library. The result is the returned slice and `b[:cap(b)]` as the call
leaves it. -/
def ConnectionEnd.XXX_Marshal
    (messageInfoMarshal : List Byte → List Byte → ConnectionEnd → Bool
      → Except Error (List Byte × List Byte))
    (m : ConnectionEnd) (b spare : List Byte) (deterministic : Bool) :
    Except Error (List Byte × List Byte) :=
  if deterministic then messageInfoMarshal b spare m deterministic
  else
    let b := b ++ spare
    match m.MarshalToSizedBuffer b with
    | .error e => .error e
    | .ok (b, n) =>
      match slice b 0 n with
      | .error e => .error e
      | .ok r => .ok (r, b)

/-- `op` panics when fewer than `len(b)` bytes are left before the bytes already
written. -/
def Overruns (op : List Byte × Int → Except Error (List Byte × Int)) (b : List Byte) : Prop :=
  ∀ (dAtA : List Byte) (n : Nat) (B : List Byte), n ≤ dAtA.length → B.length ≤ n →
    n < B.length + b.length → op (bufAfter dAtA n B) = .error .panic

/-- `op` panics at an index below `len(b)`. -/
def OverrunsAt (op : List Byte × Int → Except Error (List Byte × Int)) (b : List Byte) : Prop :=
  ∀ (buf : List Byte) (i : Nat), i ≤ buf.length → i < b.length →
    op (buf, (i : Int)) = .error .panic

/-- A `MarshalToSizedBuffer` that panics on a buffer shorter than `w`. -/
def PanicsShort (marshalTo : List Byte → Except Error (List Byte × Int)) (w : List Byte) : Prop :=
  ∀ buf : List Byte, buf.length < w.length → marshalTo buf = .error .panic

/-- A message with one version, the nil pointer. -/
def sampleNilVersion : ConnectionEnd := { Versions := [none] }

/-! ## The state enumeration tables -/

/-- `var ConnectionEnd_State_name = map[int32]string{...}`. A Go map is the list of
its entries; `m[k]` is `List.lookup k m`. -/
def ConnectionEnd_State_name : List (Int × String) :=
  [ (0, "STATE_UNINITIALIZED_UNSPECIFIED"),
    (1, "STATE_INIT"),
    (2, "STATE_TRYOPEN"),
    (3, "STATE_OPEN") ]

/-- `var ConnectionEnd_State_value = map[string]int32{...}` -/
def ConnectionEnd_State_value : List (String × Int) :=
  [ ("STATE_UNINITIALIZED_UNSPECIFIED", 0),
    ("STATE_INIT", 1),
    ("STATE_TRYOPEN", 2),
    ("STATE_OPEN", 3) ]

/-! ## The same bytes further on in a buffer -/

/-- Two runs of a reader on the same bytes at the same place, one in a buffer where
`d1` bytes come before them and one where `d2` do: both stopped `j` bytes in, past
`j0` and within the `l` bytes, with the same value; or both returned the same error;
or the first returned `io.ErrUnexpectedEOF` and the second
`ErrInvalidLengthConnection`. -/
def Shifted {α : Type} (l d1 d2 j0 : Nat) (r1 r2 : Except Error (α × Int)) : Prop :=
  (∃ (a : α) (j : Nat), j0 < j ∧ j ≤ l ∧ r1 = .ok (a, ((d1 + j : Nat) : Int))
      ∧ r2 = .ok (a, ((d2 + j : Nat) : Int)))
  ∨ (∃ e, r1 = .error e ∧ r2 = .error e)
  ∨ (r1 = .error .ErrUnexpectedEOF ∧ r2 = .error .ErrInvalidLengthConnection)

/-- The results of two decodings are the same, or the first is `io.ErrUnexpectedEOF`
and the second `ErrInvalidLengthConnection`. -/
def SameOrOverflow {α : Type} (r1 r2 : Except Error α) : Prop :=
  r1 = r2 ∨ (r1 = .error .ErrUnexpectedEOF ∧ r2 = .error .ErrInvalidLengthConnection)

end connection

/-! ## The slot calculators of `pkg/testing/chains.go`

In the test helpers a Go `string` holds text (identifiers, hex digits) and is a
`String`. -/

namespace testing

open connection (Byte)

/-- A fixed-size byte array `[N]byte`, the result type of the slot getters of the
contract binding (`N = 32` for a Solidity `bytes32`). The binding is generated
code outside the sources at hand; its array length is kept as a parameter. -/
abbrev Key (N : Nat) := Fin N → Byte

/-- The four slot getters of the `ibcstore.Ibcstore` contract binding as seen through
`chain.CallOpts(context.Background())`: a read-only call returns a key or an error.
The contract behind the binding is not part of the sources at hand, so the getters
are parameters. -/
structure Ibcstore (N : Nat) where
  ConnectionCommitmentSlot : String → Except String (Key N)
  ChannelCommitmentSlot : String → String → Except String (Key N)
  PacketCommitmentSlot : String → String → Nat → Except String (Key N)
  PacketAcknowledgementCommitmentSlot : String → String → Nat → Except String (Key N)

/-- `encoding/hex`: the digit of a value below 16 in `hextable = "0123456789abcdef"`. -/
def hexDigit (n : Nat) : Char := "0123456789abcdef".toList.getD n '0'

/-- `hex.EncodeToString`: two lower-case digits per byte, `hextable[v>>4]` then
`hextable[v&0x0f]`. -/
def EncodeToString (src : List Byte) : String :=
  String.mk (src.flatMap fun v => [hexDigit (v.val >>> 4), hexDigit (v.val &&& 0x0f)])

/-- The tail `return "0x" + hex.EncodeToString(key[:])` of the slot calculators. -/
def slotPath {N : Nat} (key : Key N) : String := "0x" ++ EncodeToString (List.ofFn key)

/-- `key, err := <getter>; require.NoError(chain.t, err); return "0x" + hex.EncodeToString(key[:])`:
a non-nil error fails the test on the spot, no path is returned. -/
def slotOf {N : Nat} (r : Except String (Key N)) : Except String String :=
  match r with
  | .error e => .error e
  | .ok key => .ok (slotPath key)

/-- `func (chain *Chain) ChannelStateCommitmentSlot(portID, channelID string) string` -/
def ChannelStateCommitmentSlot {N : Nat} (store : Ibcstore N) (portID channelID : String) :
    Except String String :=
  slotOf (store.ChannelCommitmentSlot portID channelID)

/-- `func (chain *Chain) PacketCommitmentSlot(portID, channelID string, sequence uint64) string` -/
def PacketCommitmentSlot {N : Nat} (store : Ibcstore N) (portID channelID : String)
    (sequence : Nat) : Except String String :=
  slotOf (store.PacketCommitmentSlot portID channelID sequence)

/-- `func (chain *Chain) PacketAcknowledgementCommitmentSlot(portID, channelID string, sequence uint64) string` -/
def PacketAcknowledgementCommitmentSlot {N : Nat} (store : Ibcstore N) (portID channelID : String)
    (sequence : Nat) : Except String String :=
  slotOf (store.PacketAcknowledgementCommitmentSlot portID channelID sequence)

/-- A logical fact whose storage slot the harness asks for: its kind and its
identifier tuple. -/
inductive Fact where
  | connection (connectionID : String)
  | channel (portID channelID : String)
  | packetCommitment (portID channelID : String) (sequence : Nat)
  | packetAcknowledgement (portID channelID : String) (sequence : Nat)
  deriving DecidableEq, Repr

/-- The key the contract returns for a fact. -/
def Fact.key {N : Nat} (store : Ibcstore N) : Fact → Except String (Key N)
  | .connection c => store.ConnectionCommitmentSlot c
  | .channel p c => store.ChannelCommitmentSlot p c
  | .packetCommitment p c s => store.PacketCommitmentSlot p c s
  | .packetAcknowledgement p c s => store.PacketAcknowledgementCommitmentSlot p c s

/-- A store whose getters return the all-zero 32-byte key for every fact. -/
def zeroStore : Ibcstore 32 :=
  { ConnectionCommitmentSlot := fun _ => .ok fun _ => 0
    ChannelCommitmentSlot := fun _ _ => .ok fun _ => 0
    PacketCommitmentSlot := fun _ _ _ => .ok fun _ => 0
    PacketAcknowledgementCommitmentSlot := fun _ _ _ => .ok fun _ => 0 }

/-! ## The harness of `pkg/testing/chains.go`: identifiers and bookkeeping -/

/-- `BesuIBFT2Client = "ibft2"` -/
def BesuIBFT2Client : String := "ibft2"

/-- `DefaultChannelVersion = "ics20-1"` -/
def DefaultChannelVersion : String := "ics20-1"

/-- `DefaultDelayPeriod uint64 = 0` -/
def DefaultDelayPeriod : Nat := 0

/-- `DefaultPrefix = "ibc"` -/
def DefaultPrefix : String := "ibc"

/-- `TransferPort = "transfer"` -/
def TransferPort : String := "transfer"

/-- Go `[]byte(s)`: the UTF-8 bytes of a string. -/
def stringBytes (s : String) : List Byte :=
  s.data.flatMap fun c => (String.utf8EncodeChar c).map fun b => b.val

/-- `fmt` verb `%v` on an unsigned integer (`uint64`): its decimal digits. -/
def formatUint (n : Nat) : String := Nat.repr n

/-- `fmt` verb `%v` on a signed integer (`int64`), also `strconv.Itoa`: the decimal
digits of the magnitude, after a minus sign when the value is negative. -/
def formatInt : Int → String
  | .ofNat n => Nat.repr n
  | .negSucc n => "-" ++ Nat.repr (n + 1)

/-- `TestChannel`, with the fields the harness assigns in `NextTestChannel`. The type
declaration is outside the sources at hand. -/
structure TestChannel where
  PortID : String
  ID : String
  ClientID : String
  CounterpartyClientID : String
  Version : String
  deriving DecidableEq, Repr

/-- `TestConnection`, with the fields the harness assigns in
`ConstructNextTestConnection` and the `Channels` slice `AddTestChannel` appends to
(`nil`, the empty list, in a fresh connection). The type declaration is outside the
sources at hand. -/
structure TestConnection where
  ID : String
  ClientID : String
  NextChannelVersion : String
  CounterpartyClientID : String
  Channels : List TestChannel := []
  deriving DecidableEq, Repr

/-- `*contract.ContractState` as far as the harness reads it:
`state.ParsedHeader.Base.Number`, a `*big.Int`, and the method `StorageProofRLP(i)`.
The type is declared outside the sources at hand; the pointers on the way to the
number are taken to be non-nil. -/
structure ContractState where
  Number : Int
  StorageProofRLP : Nat → List Byte := fun _ => []

/-- A `*TestConnection`: the position of the object among the `TestConnection`
objects allocated so far. A position beyond them stands for `nil`. -/
abbrev ConnPtr := Nat

/-- The fields of `Chain` that hold data. The contract bindings, the client and the
test handle `t` are passed to the functions that call them. -/
structure Chain where
  chainID : Int
  LastContractState : Option ContractState := none
  ClientIDs : List String := []
  Connections : List ConnPtr := []
  IBCID : Nat

/-- A chain together with the `TestConnection` objects that pointers refer to: the
state the bookkeeping functions read and write. -/
structure Harness where
  chain : Chain
  objects : List TestConnection

/-- A run-time panic of the harness. -/
inductive Panic where
  | nilDereference
  deriving DecidableEq, Repr

/-- Reading through a `*TestConnection`. -/
def Harness.load (h : Harness) (conn : ConnPtr) : Except Panic TestConnection :=
  match h.objects[conn]? with
  | some c => .ok c
  | none => .error .nilDereference

/-- The connection objects `chain.Connections` points to, in order (`none` where an
entry is `nil`). -/
def Harness.connections (h : Harness) : List (Option TestConnection) :=
  h.chain.Connections.map fun p => h.objects[p]?

/-- `func (chain *Chain) ConstructNextTestConnection(clientID, counterpartyClientID string) *TestConnection`:
a new object, `connectionID := fmt.Sprintf("connection-%v-%v-%v", uint64(len(chain.Connections)), chain.chainID, chain.IBCID)`. -/
def ConstructNextTestConnection (clientID counterpartyClientID : String) (h : Harness) :
    ConnPtr × Harness :=
  let connectionID := "connection-" ++ formatUint h.chain.Connections.length ++ "-"
    ++ formatInt h.chain.chainID ++ "-" ++ formatUint h.chain.IBCID
  (h.objects.length,
    { h with objects := h.objects ++ [{ ID := connectionID
                                        ClientID := clientID
                                        NextChannelVersion := DefaultChannelVersion
                                        CounterpartyClientID := counterpartyClientID }] })

/-- `func (chain *Chain) AddTestConnection(clientID, counterpartyClientID string) *TestConnection` -/
def AddTestConnection (clientID counterpartyClientID : String) (h : Harness) :
    ConnPtr × Harness :=
  let (conn, h1) := ConstructNextTestConnection clientID counterpartyClientID h
  (conn, { h1 with chain := { h1.chain with Connections := h1.chain.Connections ++ [conn] } })

/-- `func (chain *Chain) NextTestChannel(conn *TestConnection, portID string) TestChannel`:
`channelID := fmt.Sprintf("channel-%v-%v", chain.chainID, chain.IBCID)`. -/
def NextTestChannel (conn : ConnPtr) (portID : String) (h : Harness) :
    Except Panic (TestChannel × Harness) :=
  let channelID := "channel-" ++ formatInt h.chain.chainID ++ "-" ++ formatUint h.chain.IBCID
  match h.load conn with
  | .error e => .error e
  | .ok c =>
    .ok ({ PortID := portID
           ID := channelID
           ClientID := c.ClientID
           CounterpartyClientID := c.CounterpartyClientID
           Version := c.NextChannelVersion }, h)

/-- `func (chain *Chain) AddTestChannel(conn *TestConnection, portID string) TestChannel`:
`channel := chain.NextTestChannel(conn, portID)`, then
`conn.Channels = append(conn.Channels, channel)`. -/
def AddTestChannel (conn : ConnPtr) (portID : String) (h : Harness) :
    Except Panic (TestChannel × Harness) :=
  match NextTestChannel conn portID h with
  | .error e => .error e
  | .ok (channel, h1) =>
    match h1.load conn with
    | .error e => .error e
    | .ok c =>
      .ok (channel,
        { h1 with objects := h1.objects.set conn { c with Channels := c.Channels ++ [channel] } })

/-- The calls `AddTestConnection(clientID, counterpartyClientID)` for a list of
argument pairs, one after another; the pointers returned, in order, and the state
after the last call. -/
def addTestConnections : List (String × String) → Harness → List ConnPtr × Harness
  | [], h => ([], h)
  | (clientID, counterpartyClientID) :: rest, h =>
    let (conn, h1) := AddTestConnection clientID counterpartyClientID h
    let (conns, h2) := addTestConnections rest h1
    (conn :: conns, h2)

/-- The identifier `ConstructNextTestConnection` formats for index `n`. -/
def connectionIDAt (chainID : Int) (IBCID : Nat) (n : Nat) : String :=
  "connection-" ++ formatUint n ++ "-" ++ formatInt chainID ++ "-" ++ formatUint IBCID

/-- The value of a string of decimal digits, most significant digit first. -/
def decimalValue (cs : List Char) : Nat :=
  cs.foldl (fun a c => 10 * a + (c.toNat - 48)) 0

/-- The objects the calls of `AddTestConnection` for a list of argument pairs
allocate when the first of them gets index `n`. -/
def newConnections (chainID : Int) (IBCID : Nat) :
    Nat → List (String × String) → List TestConnection
  | _, [] => []
  | n, (clientID, counterpartyClientID) :: rest =>
    { ID := connectionIDAt chainID IBCID n
      ClientID := clientID
      NextChannelVersion := DefaultChannelVersion
      CounterpartyClientID := counterpartyClientID } :: newConnections chainID IBCID (n + 1) rest

/-- A chain with identifier 7 and IBC identifier 3 that tracks nothing yet. -/
def sampleChain : Chain := { chainID := 7, IBCID := 3 }

/-- The sample chain with no connection object allocated. -/
def sampleHarness : Harness := { chain := sampleChain, objects := [] }

/-- The sample chain after `AddTestConnection` was called twice: two tracked
connections, `connection-0-7-3` and `connection-1-7-3`, with no channel yet. -/
def sampleTwoConnections : Harness :=
  (addTestConnections [("ibft2-0-7-3", "ibft2-0-8-3"), ("ibft2-1-7-3", "ibft2-1-8-3")]
    sampleHarness).2

/-! ## The harness: header polling, transactions and receipts -/

/-- A `*gethtypes.Transaction`. The harness hands it on and never looks inside; it is
told apart by a number. -/
structure Transaction where
  hash : Nat
  deriving DecidableEq, Repr

/-- A `*gethtypes.Receipt`, of which the harness reads `Status` (`uint64`). -/
structure Receipt where
  Status : Nat
  deriving DecidableEq, Repr

/-- A non-nil Go `error`. A nil `error` is `none` of `Option GoError`. -/
inductive GoError where
  /-- An error that carries a message, as `fmt.Errorf(msg)` makes one. -/
  | message (msg : String)
  /-- `fmt.Errorf("failed to call transaction: %v %v", err, rc)` with `err == nil`. -/
  | failedToCallTransaction (rc : Receipt)
  deriving DecidableEq, Repr

/-- How a call of the harness ends when it does not return. -/
inductive Stop where
  /-- `panic(err)` -/
  | panicked (err : GoError)
  /-- The loop is still polling when the responses at hand are used up. -/
  | polling
  deriving DecidableEq, Repr

/-- The test of the loop in `UpdateHeader`:
`chain.LastContractState == nil || state.ParsedHeader.Base.Number.Cmp(chain.LastHeader().Base.Number) == 1`,
where `x.Cmp(y) == 1` says `x > y`. -/
def UpdateHeader.accepts (chain : Chain) (state : ContractState) : Bool :=
  match chain.LastContractState with
  | none => true
  | some last => decide (state.Number > last.Number)

/-- `func (chain *Chain) UpdateHeader()`. The loop has no bound of its own; the
responses of `chain.client.GetContractState(ctx, chain.ContractConfig.GetIBCStoreAddress(), nil, nil)`
are given as a list, one per call in order, and a loop that uses them all up without
returning is still polling. A response is a state or the error the loop panics with
(the 30 seconds of `ctx` running out is such an error of the client). Returns the
chain with the stored state and the responses not consumed. -/
def UpdateHeader (chain : Chain) :
    List (Except GoError ContractState) → Except Stop (Chain × List (Except GoError ContractState))
  | [] => .error .polling
  | .error err :: _ => .error (.panicked err)
  | .ok state :: rest =>
    if UpdateHeader.accepts chain state then
      .ok ({ chain with LastContractState := some state }, rest)
    else
      UpdateHeader chain rest

/-- `n` calls of `UpdateHeader` one after another on the same stream of responses:
the chain as it is after each call, in order. -/
def updateHeaders : Nat → Chain → List (Except GoError ContractState) → Except Stop (List Chain)
  | 0, _, _ => .ok []
  | n + 1, chain, polls =>
    match UpdateHeader chain polls with
    | .error e => .error e
    | .ok (chain1, rest) =>
      match updateHeaders n chain1 rest with
      | .error e => .error e
      | .ok chains => .ok (chain1 :: chains)

/-- The header number a chain has recorded is below the one another has recorded. -/
def Chain.recordedBelow (a b : Chain) : Prop :=
  ∃ sa sb, a.LastContractState = some sa ∧ b.LastContractState = some sb ∧ sa.Number < sb.Number

/-- The method of `contract.Client` the wait functions call:
`WaitForReceiptAndGet(ctx, tx)` returns a receipt or a non-nil error. The interface
and its implementations are outside the sources at hand. -/
structure Client where
  WaitForReceiptAndGet : Option Transaction → Except GoError Receipt

/-- What a function of the harness that may wait for a receipt returns: its `error`
result, and the transactions it asked the client a receipt for, in order. -/
structure Returned where
  err : Option GoError
  receiptQueries : List (Option Transaction)
  deriving DecidableEq, Repr

/-- `func (chain *Chain) WaitForReceiptAndGet(ctx context.Context, tx *gethtypes.Transaction) error` -/
def WaitForReceiptAndGet (client : Client) (tx : Option Transaction) : Returned :=
  match client.WaitForReceiptAndGet tx with
  | .error err => { err := some err, receiptQueries := [tx] }
  | .ok rc =>
    if rc.Status = 1 then
      { err := none, receiptQueries := [tx] }
    else
      { err := some (.failedToCallTransaction rc), receiptQueries := [tx] }

/-- `func (chain *Chain) WaitIfNoError(ctx context.Context) func(tx *gethtypes.Transaction, err error) error`,
applied to `(tx, err)`. -/
def WaitIfNoError (client : Client) (tx : Option Transaction) (err : Option GoError) : Returned :=
  match err with
  | some err => { err := some err, receiptQueries := [] }
  | none =>
    match WaitForReceiptAndGet client tx with
    | { err := some err, receiptQueries := qs } => { err := some err, receiptQueries := qs }
    | { err := none, receiptQueries := qs } => { err := none, receiptQueries := qs }

/-- A client whose receipts carry the hash of the transaction as their status, and
which has no receipt for a nil transaction. -/
def sampleClient : Client :=
  { WaitForReceiptAndGet := fun tx =>
      match tx with
      | some t => .ok { Status := t.hash }
      | none => .error (.message "not found") }

/-- Five responses of the client with the header numbers 5, 5, 3, 8 and 9. -/
def samplePolls : List (Except GoError ContractState) :=
  [.ok { Number := 5 }, .ok { Number := 5 }, .ok { Number := 3 }, .ok { Number := 8 },
    .ok { Number := 9 }]

/-- The sample chain holding a state with header number `n`. -/
def sampleChainAt (n : Int) : Chain :=
  { sampleChain with LastContractState := some { Number := n } }

/-! ## The harness: handshake and packet calls

The message types are declared by the contract bindings (`pkg/contract/...`), the
packet by `pkg/ibc/channel`, all outside the sources at hand; each structure has the
fields the harness assigns or reads, under their names. A binding call
`chain.<Contract>.<Method>(chain.TxOpts(ctx), msg)` returns a transaction and an
error and is a parameter of the function that makes it. -/

/-- `func (chain *Chain) GetCommitmentPrefix() []byte` -/
def GetCommitmentPrefix (_chain : Chain) : List Byte := stringBytes DefaultPrefix

/-- `type Proof struct` -/
structure Proof where
  Height : Nat
  Data : List Byte
  deriving DecidableEq, Repr

/-- The result `(*gethtypes.Transaction, error)` of a binding call with message `M`. -/
abbrev Submit (M : Type) := M → Option Transaction × Option GoError

/-- `ibcconnection.MerklePrefixData` -/
structure ibcconnection.MerklePrefixData where
  KeyPrefix : List Byte
  deriving DecidableEq, Repr

/-- `ibcconnection.CounterpartyData` -/
structure ibcconnection.CounterpartyData where
  ClientId : String
  ConnectionId : String
  Prefix : ibcconnection.MerklePrefixData
  deriving DecidableEq, Repr

/-- `ibcconnection.IBCMsgsMsgConnectionOpenInit` -/
structure ibcconnection.IBCMsgsMsgConnectionOpenInit where
  ClientId : String
  ConnectionId : String
  Counterparty : ibcconnection.CounterpartyData
  DelayPeriod : Nat
  deriving DecidableEq, Repr

/-- The message `ConnectionOpenInit` builds from the connection behind its pointer
`connection`. -/
def ConnectionOpenInit.msg (counterparty : Chain) (connection : TestConnection) :
    ibcconnection.IBCMsgsMsgConnectionOpenInit :=
  { ClientId := connection.ClientID
    ConnectionId := connection.ID
    Counterparty :=
      { ClientId := connection.CounterpartyClientID
        ConnectionId := ""
        Prefix := { KeyPrefix := GetCommitmentPrefix counterparty } }
    DelayPeriod := DefaultDelayPeriod }

/-- `func (chain *Chain) ConnectionOpenInit(ctx context.Context, counterparty *Chain, connection, counterpartyConnection *TestConnection) error`.
`submit` is `chain.IBCConnection.ConnectionOpenInit(chain.TxOpts(ctx), ·)`; reading
the fields of a nil `connection` panics. -/
def ConnectionOpenInit (client : Client) (submit : Submit ibcconnection.IBCMsgsMsgConnectionOpenInit)
    (h : Harness) (counterparty : Chain) (connection _counterpartyConnection : ConnPtr) :
    Except Panic Returned :=
  match h.load connection with
  | .error e => .error e
  | .ok c =>
    let (tx, err) := submit (ConnectionOpenInit.msg counterparty c)
    .ok (WaitIfNoError client tx err)

/-- The constants `channeltypes.INIT` and `channeltypes.TRYOPEN` of the channel
state enumeration, declared outside the sources at hand. -/
structure channeltypes where
  INIT : Int
  TRYOPEN : Int
  deriving DecidableEq, Repr

/-- Go `uint8(x)` of a signed integer (the channel enumerations are `int32`): the low
eight bits. -/
def uint8OfInt (x : Int) : Nat := (x % 256).toNat

/-- `ibcchannel.ChannelCounterpartyData` -/
structure ibcchannel.ChannelCounterpartyData where
  PortId : String
  ChannelId : String
  deriving DecidableEq, Repr

/-- `ibcchannel.ChannelData`; `State` and `Ordering` are `uint8`. -/
structure ibcchannel.ChannelData where
  State : Nat
  Ordering : Nat
  Counterparty : ibcchannel.ChannelCounterpartyData
  ConnectionHops : List String
  Version : String
  deriving DecidableEq, Repr

/-- `ibcchannel.IBCMsgsMsgChannelOpenInit` -/
structure ibcchannel.IBCMsgsMsgChannelOpenInit where
  ChannelId : String
  PortId : String
  Channel : ibcchannel.ChannelData
  deriving DecidableEq, Repr

/-- `ibcchannel.IBCMsgsMsgChannelOpenTry` -/
structure ibcchannel.IBCMsgsMsgChannelOpenTry where
  PortId : String
  ChannelId : String
  Channel : ibcchannel.ChannelData
  CounterpartyVersion : String
  ProofInit : List Byte
  ProofHeight : Nat
  deriving DecidableEq, Repr

/-- The message `ChannelOpenInit` builds; `order` is a `channeltypes.Channel_Order`,
an `int32`. -/
def ChannelOpenInit.msg (consts : channeltypes) (ch counterparty : TestChannel) (order : Int)
    (connectionID : String) : ibcchannel.IBCMsgsMsgChannelOpenInit :=
  { ChannelId := ch.ID
    PortId := ch.PortID
    Channel :=
      { State := uint8OfInt consts.INIT
        Ordering := uint8OfInt order
        Counterparty :=
          { PortId := counterparty.PortID
            ChannelId := "" }
        ConnectionHops := [connectionID]
        Version := ch.Version } }

/-- `func (chain *Chain) ChannelOpenInit(ctx context.Context, ch, counterparty TestChannel, order channeltypes.Channel_Order, connectionID string) error`.
`submit` is `chain.IBCChannel.ChannelOpenInit(chain.TxOpts(ctx), ·)`. -/
def ChannelOpenInit (consts : channeltypes) (client : Client)
    (submit : Submit ibcchannel.IBCMsgsMsgChannelOpenInit) (ch counterparty : TestChannel)
    (order : Int) (connectionID : String) : Returned :=
  let (tx, err) := submit (ChannelOpenInit.msg consts ch counterparty order connectionID)
  WaitIfNoError client tx err

/-- The message `ChannelOpenTry` builds once it has the proof. -/
def ChannelOpenTry.msg (consts : channeltypes) (ch counterpartyCh : TestChannel) (order : Int)
    (connectionID : String) (proof : Proof) : ibcchannel.IBCMsgsMsgChannelOpenTry :=
  { PortId := ch.PortID
    ChannelId := ch.ID
    Channel :=
      { State := uint8OfInt consts.TRYOPEN
        Ordering := uint8OfInt order
        Counterparty :=
          { PortId := counterpartyCh.PortID
            ChannelId := counterpartyCh.ID }
        ConnectionHops := [connectionID]
        Version := ch.Version }
    CounterpartyVersion := counterpartyCh.Version
    ProofInit := proof.Data
    ProofHeight := proof.Height }

/-- `func (chain *Chain) ChannelOpenTry(ctx context.Context, counterparty *Chain, ch, counterpartyCh TestChannel, order channeltypes.Channel_Order, connectionID string) error`.
`queryProof` is `counterparty.QueryProof(chain, ·, ·)` and `submit` is
`chain.IBCChannel.ChannelOpenTry(chain.TxOpts(ctx), ·)`; an error of the slot
calculator stops the test. -/
def ChannelOpenTry {N : Nat} (consts : channeltypes) (store : Ibcstore N)
    (queryProof : String → String → Except GoError Proof) (client : Client)
    (submit : Submit ibcchannel.IBCMsgsMsgChannelOpenTry) (ch counterpartyCh : TestChannel)
    (order : Int) (connectionID : String) : Except String Returned :=
  match ChannelStateCommitmentSlot store counterpartyCh.PortID counterpartyCh.ID with
  | .error e => .error e
  | .ok storageKey =>
    match queryProof ch.ClientID storageKey with
    | .error err => .ok { err := some err, receiptQueries := [] }
    | .ok proof =>
      let (tx, err) := submit (ChannelOpenTry.msg consts ch counterpartyCh order connectionID proof)
      .ok (WaitIfNoError client tx err)

/-- `channeltypes.Packet`, with the fields the harness reads. The type of
`TimeoutHeight`, `channeltypes.Height`, is declared outside the sources at hand,
which only convert it to the `HeightData` of a binding, a struct type with the same
fields; it is the parameter `H`, shared with the `PacketData` of the bindings. -/
structure Packet (H : Type) where
  Sequence : Nat
  SourcePort : String
  SourceChannel : String
  DestinationPort : String
  DestinationChannel : String
  Data : List Byte
  TimeoutHeight : H
  TimeoutTimestamp : Nat
  deriving DecidableEq, Repr

/-- `ibcchannel.PacketData` -/
structure ibcchannel.PacketData (H : Type) where
  Sequence : Nat
  SourcePort : String
  SourceChannel : String
  DestinationPort : String
  DestinationChannel : String
  Data : List Byte
  TimeoutHeight : H
  TimeoutTimestamp : Nat
  deriving DecidableEq, Repr

/-- `ibcchannel.IBCMsgsMsgPacketRecv` -/
structure ibcchannel.IBCMsgsMsgPacketRecv (H : Type) where
  Packet : ibcchannel.PacketData H
  Proof : List Byte
  ProofHeight : Nat
  deriving DecidableEq, Repr

/-- `ibcroutingmodule.PacketData` -/
structure ibcroutingmodule.PacketData (H : Type) where
  Sequence : Nat
  SourcePort : String
  SourceChannel : String
  DestinationPort : String
  DestinationChannel : String
  Data : List Byte
  TimeoutHeight : H
  TimeoutTimestamp : Nat
  deriving DecidableEq, Repr

/-- `ibcroutingmodule.IBCMsgsMsgPacketRecv` -/
structure ibcroutingmodule.IBCMsgsMsgPacketRecv (H : Type) where
  Packet : ibcroutingmodule.PacketData H
  Proof : List Byte
  ProofHeight : Nat
  deriving DecidableEq, Repr

/-- `ibcroutingmodule.IBCMsgsMsgPacketAcknowledgement` -/
structure ibcroutingmodule.IBCMsgsMsgPacketAcknowledgement (H : Type) where
  Packet : ibcroutingmodule.PacketData H
  Acknowledgement : List Byte
  Proof : List Byte
  ProofHeight : Nat
  deriving DecidableEq, Repr

/-- `func packetToCallData(packet channeltypes.Packet) ibcchannel.PacketData` -/
def packetToCallData {H : Type} (packet : Packet H) : ibcchannel.PacketData H :=
  { Sequence := packet.Sequence
    SourcePort := packet.SourcePort
    SourceChannel := packet.SourceChannel
    DestinationPort := packet.DestinationPort
    DestinationChannel := packet.DestinationChannel
    Data := packet.Data
    TimeoutHeight := packet.TimeoutHeight
    TimeoutTimestamp := packet.TimeoutTimestamp }

/-- The storage key `RecvPacket` passes to `QueryProof`:
`chain.PacketCommitmentSlot(packet.SourcePort, packet.SourceChannel, packet.Sequence)`. -/
def RecvPacket.storageKey {N : Nat} {H : Type} (store : Ibcstore N) (packet : Packet H) : Except String String :=
  PacketCommitmentSlot store packet.SourcePort packet.SourceChannel packet.Sequence

/-- `func (chain *Chain) RecvPacket(ctx context.Context, counterparty *Chain, ch, counterpartyCh TestChannel, packet channeltypes.Packet) error`.
`queryProof` is `counterparty.QueryProof(chain, ·, ·)` and `submit` is
`chain.IBCChannel.RecvPacket(chain.TxOpts(ctx), ·)`. -/
def RecvPacket {N : Nat} {H : Type} (store : Ibcstore N)
    (queryProof : String → String → Except GoError Proof) (client : Client)
    (submit : Submit (ibcchannel.IBCMsgsMsgPacketRecv H)) (ch _counterpartyCh : TestChannel)
    (packet : Packet H) : Except String Returned :=
  match RecvPacket.storageKey store packet with
  | .error e => .error e
  | .ok storageKey =>
    match queryProof ch.ClientID storageKey with
    | .error err => .ok { err := some err, receiptQueries := [] }
    | .ok proof =>
      let (tx, err) := submit
        { Packet := packetToCallData packet
          Proof := proof.Data
          ProofHeight := proof.Height }
      .ok (WaitIfNoError client tx err)

/-- The storage key `HandlePacketRecv` passes to `QueryProof`:
`chain.PacketCommitmentSlot(packet.SourcePort, packet.SourceChannel, packet.Sequence)`. -/
def HandlePacketRecv.storageKey {N : Nat} {H : Type} (store : Ibcstore N) (packet : Packet H) :
    Except String String :=
  PacketCommitmentSlot store packet.SourcePort packet.SourceChannel packet.Sequence

/-- `func (chain *Chain) HandlePacketRecv(ctx context.Context, counterparty *Chain, ch, counterpartyCh TestChannel, packet channeltypes.Packet) error`.
`submit` is `chain.IBCRoutingModule.RecvPacket(chain.TxOpts(ctx), ·)`. -/
def HandlePacketRecv {N : Nat} {H : Type} (store : Ibcstore N)
    (queryProof : String → String → Except GoError Proof) (client : Client)
    (submit : Submit (ibcroutingmodule.IBCMsgsMsgPacketRecv H)) (ch _counterpartyCh : TestChannel)
    (packet : Packet H) : Except String Returned :=
  match HandlePacketRecv.storageKey store packet with
  | .error e => .error e
  | .ok storageKey =>
    match queryProof ch.ClientID storageKey with
    | .error err => .ok { err := some err, receiptQueries := [] }
    | .ok proof =>
      let (tx, err) := submit
        { Packet :=
            { Sequence := packet.Sequence
              SourcePort := packet.SourcePort
              SourceChannel := packet.SourceChannel
              DestinationPort := packet.DestinationPort
              DestinationChannel := packet.DestinationChannel
              Data := packet.Data
              TimeoutHeight := packet.TimeoutHeight
              TimeoutTimestamp := packet.TimeoutTimestamp }
          Proof := proof.Data
          ProofHeight := proof.Height }
      .ok (WaitIfNoError client tx err)

/-- The storage key `HandlePacketAcknowledgement` passes to `QueryProof`:
`chain.PacketAcknowledgementCommitmentSlot(packet.DestinationPort, packet.DestinationChannel, packet.Sequence)`. -/
def HandlePacketAcknowledgement.storageKey {N : Nat} {H : Type} (store : Ibcstore N) (packet : Packet H) :
    Except String String :=
  PacketAcknowledgementCommitmentSlot store packet.DestinationPort packet.DestinationChannel
    packet.Sequence

/-- `func (chain *Chain) HandlePacketAcknowledgement(ctx context.Context, counterparty *Chain, ch, counterpartyCh TestChannel, packet channeltypes.Packet, acknowledgement []byte) error`.
`submit` is `chain.IBCRoutingModule.AcknowledgePacket(chain.TxOpts(ctx), ·)`. -/
def HandlePacketAcknowledgement {N : Nat} {H : Type} (store : Ibcstore N)
    (queryProof : String → String → Except GoError Proof) (client : Client)
    (submit : Submit (ibcroutingmodule.IBCMsgsMsgPacketAcknowledgement H))
    (ch _counterpartyCh : TestChannel) (packet : Packet H) (acknowledgement : List Byte) :
    Except String Returned :=
  match HandlePacketAcknowledgement.storageKey store packet with
  | .error e => .error e
  | .ok storageKey =>
    match queryProof ch.ClientID storageKey with
    | .error err => .ok { err := some err, receiptQueries := [] }
    | .ok proof =>
      let (tx, err) := submit
        { Packet :=
            { Sequence := packet.Sequence
              SourcePort := packet.SourcePort
              SourceChannel := packet.SourceChannel
              DestinationPort := packet.DestinationPort
              DestinationChannel := packet.DestinationChannel
              Data := packet.Data
              TimeoutHeight := packet.TimeoutHeight
              TimeoutTimestamp := packet.TimeoutTimestamp }
          Acknowledgement := acknowledgement
          Proof := proof.Data
          ProofHeight := proof.Height }
      .ok (WaitIfNoError client tx err)

/-- A store whose packet getters return, as a 32-byte key, the length of the port
identifier, the length of the channel identifier and the low byte of the sequence,
followed by zeros (the acknowledgement getter with a leading 1 in the last byte);
the other getters return the all-zero key. -/
def lengthStore : Ibcstore 32 :=
  { ConnectionCommitmentSlot := fun _ => .ok fun _ => 0
    ChannelCommitmentSlot := fun _ _ => .ok fun _ => 0
    PacketCommitmentSlot := fun portID channelID sequence => .ok fun i =>
      if i.val = 0 then connection.uint8 portID.length
      else if i.val = 1 then connection.uint8 channelID.length
      else if i.val = 2 then connection.uint8 sequence
      else 0
    PacketAcknowledgementCommitmentSlot := fun portID channelID sequence => .ok fun i =>
      if i.val = 0 then connection.uint8 portID.length
      else if i.val = 1 then connection.uint8 channelID.length
      else if i.val = 2 then connection.uint8 sequence
      else if i.val = 31 then 1
      else 0 }

/-- A packet from `transfer`/`channel-7-3` to `transfer`/`channel-8-3` with
sequence 1; its timeout height is a pair of numbers. -/
def transferPacket : Packet (Nat × Nat) :=
  { Sequence := 1
    SourcePort := "transfer"
    SourceChannel := "channel-7-3"
    DestinationPort := "transfer"
    DestinationChannel := "channel-8-3"
    Data := [1, 2, 3]
    TimeoutHeight := (0, 100)
    TimeoutTimestamp := 0 }

/-- The channel state constants as the IBC enumeration numbers them. -/
def sampleStates : channeltypes := { INIT := 1, TRYOPEN := 2 }

/-- A channel end on port `transfer` with the given channel and client
identifiers. -/
def sampleChannel (id clientID counterpartyClientID : String) : TestChannel :=
  { PortID := "transfer"
    ID := id
    ClientID := clientID
    CounterpartyClientID := counterpartyClientID
    Version := "ics20-1" }

/-- The channel end `channel-7-3` of the sample chain. -/
def channelA : TestChannel := sampleChannel "channel-7-3" "ibft2-0-7-3" "ibft2-0-8-3"

/-- The channel end `channel-8-3` of its counterparty. -/
def channelB : TestChannel := sampleChannel "channel-8-3" "ibft2-0-8-3" "ibft2-0-7-3"

/-- A binding call that always returns the transaction with hash 1 and no error. -/
def sampleSubmit (M : Type) : Submit M := fun _ => (some { hash := 1 }, none)

/-- A proof query that always returns a one-byte proof at height 10. -/
def sampleQueryProof : String → String → Except GoError Proof :=
  fun _ _ => .ok { Height := 10, Data := [1] }

/-! ## The harness: client identifiers -/

/-- `func (chain *Chain) NewClientID(clientType string) string`:
`clientID := fmt.Sprintf("%s-%s-%v-%v", clientType, strconv.Itoa(len(chain.ClientIDs)), chain.chainID, chain.IBCID)`,
then `chain.ClientIDs = append(chain.ClientIDs, clientID)`. -/
def NewClientID (clientType : String) (chain : Chain) : String × Chain :=
  let clientID := clientType ++ "-" ++ formatInt (Int.ofNat chain.ClientIDs.length) ++ "-"
    ++ formatInt chain.chainID ++ "-" ++ formatUint chain.IBCID
  (clientID, { chain with ClientIDs := chain.ClientIDs ++ [clientID] })

/-- The calls `NewClientID(clientType)` for a list of client types, one after
another; the identifiers returned, in order, and the chain after the last call. -/
def newClientIDs : List String → Chain → List String × Chain
  | [], chain => ([], chain)
  | clientType :: rest, chain =>
    let (clientID, chain1) := NewClientID clientType chain
    let (clientIDs, chain2) := newClientIDs rest chain1
    (clientID :: clientIDs, chain2)

/-- The identifier `NewClientID` formats for a client type at index `n`. -/
def clientIDAt (chainID : Int) (IBCID : Nat) (clientType : String) (n : Nat) : String :=
  clientType ++ "-" ++ formatUint n ++ "-" ++ formatInt chainID ++ "-" ++ formatUint IBCID

/-- The identifiers the calls of `NewClientID` for a list of client types return
when the first of them gets index `n`. -/
def clientIDsFrom (chainID : Int) (IBCID : Nat) : Nat → List String → List String
  | _, [] => []
  | n, clientType :: rest =>
    clientIDAt chainID IBCID clientType n :: clientIDsFrom chainID IBCID (n + 1) rest

/-! ## The harness: proof queries and packet sending -/

/-- `strings.HasPrefix(s, prefix)`: `len(s) >= len(prefix) && s[:len(prefix)] == prefix`,
on the bytes of the strings. -/
def HasPrefix (s pre : String) : Bool := (stringBytes pre).isPrefixOf (stringBytes s)

/-- `(*big.Int).Uint64()`: the low 64 bits of the magnitude (the library leaves the
result undefined when the number is no `uint64`). -/
def bigUint64 (x : Int) : Nat := x.natAbs % 2 ^ 64

/-- `clienttypes.ClientState`, of which the harness reads `LatestHeight` (`uint64`). -/
structure ClientState where
  LatestHeight : Nat
  deriving DecidableEq, Repr

/-- A query the harness sends to a chain. -/
inductive Query where
  /-- `IBFT2Client.GetClientState(opts, clientID)` -/
  | clientState (clientID : String)
  /-- `client.GetContractState(ctx, address, storageKeys, height)` -/
  | contractState (storageKeys : List (List Byte)) (height : Int)
  deriving DecidableEq, Repr

/-- What a query function of the harness leaves: the queries it sent, in order, and
its result, or the message of the error on which `require.NoError` stopped the
test. -/
structure Queried (α : Type) where
  queries : List Query
  outcome : Except String α

/-- `func (chain *Chain) GetClientState(clientID string) *clienttypes.ClientState`.
`ibft2GetClientState` is `chain.IBFT2Client.GetClientState(chain.CallOpts(ctx), ·)`. -/
def GetClientState (ibft2GetClientState : String → Except String ClientState)
    (clientID : String) : Queried ClientState :=
  match ibft2GetClientState clientID with
  | .error e => { queries := [.clientState clientID], outcome := .error e }
  | .ok cs =>
    { queries := [.clientState clientID], outcome := .ok { LatestHeight := cs.LatestHeight } }

/-- `func (chain *Chain) GetContractState(counterparty *Chain, counterpartyClientID string, storageKeys [][]byte) (*contract.ContractState, error)`.
`ibft2GetClientState` is the binding of `counterparty`, `clientGetContractState` is
`chain.client.GetContractState(ctx, chain.ContractConfig.GetIBCStoreAddress(), ·, ·)`;
the height is `big.NewInt(int64(height))`. -/
def GetContractState (ibft2GetClientState : String → Except String ClientState)
    (clientGetContractState : List (List Byte) → Int → Except GoError ContractState)
    (counterpartyClientID : String) (storageKeys : List (List Byte)) :
    Queried (Except GoError ContractState) :=
  let r := GetClientState ibft2GetClientState counterpartyClientID
  match r.outcome with
  | .error e => { queries := r.queries, outcome := .error e }
  | .ok cs =>
    let height := cs.LatestHeight
    { queries := r.queries ++ [.contractState storageKeys (connection.toInt64 height)]
      outcome := .ok (clientGetContractState storageKeys (connection.toInt64 height)) }

/-- `func (chain *Chain) QueryProof(counterparty *Chain, counterpartyClientID string, storageKey string) (*Proof, error)`;
the result `(nil, err)` is `.error err`, the result `(&Proof{...}, nil)` is `.ok`. -/
def QueryProof (ibft2GetClientState : String → Except String ClientState)
    (clientGetContractState : List (List Byte) → Int → Except GoError ContractState)
    (counterpartyClientID storageKey : String) : Queried (Except GoError Proof) :=
  if !HasPrefix storageKey "0x" then
    { queries := [], outcome := .ok (.error (.message "storageKey must be hex string")) }
  else
    let r := GetContractState ibft2GetClientState clientGetContractState counterpartyClientID
      [stringBytes storageKey]
    match r.outcome with
    | .error e => { queries := r.queries, outcome := .error e }
    | .ok (.error err) => { queries := r.queries, outcome := .ok (.error err) }
    | .ok (.ok s) =>
      { queries := r.queries
        outcome := .ok (.ok { Height := bigUint64 s.Number, Data := s.StorageProofRLP 0 }) }

/-- `func (chain *Chain) SendPacket(ctx context.Context, packet channeltypes.Packet) error`.
`submit` is `chain.IBCChannel.SendPacket(chain.TxOpts(ctx), ·)`. -/
def SendPacket {H : Type} (client : Client) (submit : Submit (ibcchannel.PacketData H))
    (packet : Packet H) : Returned :=
  let (tx, err) := submit (packetToCallData packet)
  WaitIfNoError client tx err

/-- The packet image of `ibcchannel` in the type of `ibcroutingmodule`: each of the
eight fields with the same value. -/
def ibcroutingmodule.PacketData.ofCallData {H : Type} (d : ibcchannel.PacketData H) :
    ibcroutingmodule.PacketData H :=
  { Sequence := d.Sequence
    SourcePort := d.SourcePort
    SourceChannel := d.SourceChannel
    DestinationPort := d.DestinationPort
    DestinationChannel := d.DestinationChannel
    Data := d.Data
    TimeoutHeight := d.TimeoutHeight
    TimeoutTimestamp := d.TimeoutTimestamp }

/-- A client-state binding that knows one client, `ibft2-0-7-3`, at height 12. -/
def sampleClientStates : String → Except String ClientState :=
  fun clientID =>
    if clientID = "ibft2-0-7-3" then .ok { LatestHeight := 12 } else .error "client not found"

/-- A contract-state query answered with the header number equal to the height
asked for and a storage proof that names the key count. -/
def sampleContractStates : List (List Byte) → Int → Except GoError ContractState :=
  fun storageKeys height =>
    .ok { Number := height
          StorageProofRLP := fun i => [connection.uint8 i, connection.uint8 storageKeys.length] }

end testing

/-! ## The handshake and the packet receive of the specification

The contracts that implement the handshake and the packet lifecycle are called by
`pkg/testing/chains.go` but are not part of the sources at hand; the definitions of
this section follow sections 3, 4 and 7 of the specification. -/

namespace protocol

open connection (Byte)

/-- Modelled from the spec: the error taxonomy of section 7; the contracts that
raise these errors are not part of the sources at hand. -/
inductive Error where
  | AlreadyExists
  | InvalidState
  | InvalidVersionSet
  | NoMatchingVersion
  | ProofVerificationFailed
  | UnexpectedSequence
  | PacketAlreadyReceived
  | PacketTimedOut
  | NoSuchCommitment
  | ConnectionNotOpen
  | ChannelNotOpen
  deriving DecidableEq, Repr

/-- Modelled from the spec: `state ∈ {UNINITIALIZED, INIT, TRYOPEN, OPEN}` of section 3,
the connection states the IBCConnection contract (not part of the sources at hand)
keeps. -/
inductive ConnState where
  | UNINITIALIZED
  | INIT
  | TRYOPEN
  | OPEN
  deriving DecidableEq, Repr

/-- Modelled from the spec: `Version {identifier, features}` of section 3, as the
IBCConnection contract (not part of the sources at hand) stores it. -/
structure Version where
  identifier : String
  features : List String
  deriving DecidableEq, Repr

/-- Modelled from the spec: the embedded `Counterparty {clientId, connectionId, prefix}`
of section 3, as the IBCConnection contract (not part of the sources at hand) stores
it. -/
structure Counterparty where
  clientId : String
  connectionId : String
  keyPrefix : List Byte
  deriving DecidableEq, Repr

/-- Modelled from the spec: `ConnectionEnd` of section 3, as the IBCConnection
contract (not part of the sources at hand) stores it. -/
structure ConnectionEnd where
  clientId : String
  versions : List Version
  state : ConnState
  counterparty : Counterparty
  delayPeriod : Nat
  deriving DecidableEq, Repr

/-- Modelled from the spec: the connection store of the ledger state boundary of
section 6, keyed by connection id; the IBCConnection contract that owns it is not
part of the sources at hand. -/
abbrev ConnStore := String → Option ConnectionEnd

/-- Modelled from the spec: the state of the connection `id` in the store of the
IBCConnection contract (not part of the sources at hand); a connection is
UNINITIALIZED until an operation creates it (section 4.1). -/
def connState (s : ConnStore) (id : String) : ConnState :=
  match s id with
  | some e => e.state
  | none => .UNINITIALIZED

/-- Modelled from the spec: persisting one ConnectionEnd in the store of the
IBCConnection contract (not part of the sources at hand). -/
def ConnStore.set (s : ConnStore) (id : String) (e : ConnectionEnd) : ConnStore :=
  fun k => if k = id then some e else s k

/-- Modelled from the spec: `Verify` of section 4.4 for connection facts. The
light client contract behind it is not part of the sources at hand; the trusted
consensus state is inside the function, the arguments are the proof height, the
proof bytes, the prefix, the connection id the path is derived from, and the
expected value. -/
abbrev Verifier := Nat → List Byte → List Byte → String → ConnectionEnd → Bool

/-- Modelled from the spec: what the IBCConnection contract (not part of the sources
at hand) is configured with, its own commitment prefix (section 3, `Prefix`) and the
versions it supports (section 4.1, `OpenTry`). -/
structure Config where
  keyPrefix : List Byte
  supportedVersions : List Version

/-- Modelled from the spec: `OpenInit` of section 4.1 of the IBCConnection contract
(not part of the sources at hand), with the externally supplied identifier of
section 9. Creates a ConnectionEnd in INIT with no
`counterparty.connectionId`; `AlreadyExists` if the identifier is initialized,
`InvalidVersionSet` if no version is proposed. -/
def OpenInit (s : ConnStore) (connectionId clientId counterpartyClientId : String)
    (counterpartyPrefix : List Byte) (delayPeriod : Nat) (proposedVersions : List Version) :
    Except Error ConnStore :=
  if (s connectionId).isSome then .error .AlreadyExists
  else if proposedVersions = [] then .error .InvalidVersionSet
  else .ok (s.set connectionId
    { clientId := clientId
      versions := proposedVersions
      state := .INIT
      counterparty :=
        { clientId := counterpartyClientId, connectionId := "", keyPrefix := counterpartyPrefix }
      delayPeriod := delayPeriod })

/-- Modelled from the spec: "intersecting supported versions with
`counterpartyVersions`" in `OpenTry` of the IBCConnection contract (not part of the
sources at hand). -/
def intersectVersions (supported counterpartyVersions : List Version) : List Version :=
  supported.filter fun v => decide (v ∈ counterpartyVersions)

/-- Modelled from the spec: `OpenTry` of section 4.1 of the IBCConnection contract
(not part of the sources at hand). The local precondition of the
path UNINITIALIZED → TRYOPEN is that the identifier is not initialized
(`InvalidState`); the proof must show a counterparty ConnectionEnd in INIT whose
counterparty fields reference this side (`ProofVerificationFailed`); the versions
are intersected (`NoMatchingVersion`); the new ConnectionEnd is in TRYOPEN. -/
def OpenTry (cfg : Config) (verify : Verifier) (s : ConnStore)
    (connectionId counterpartyConnectionId counterpartyClientId : String)
    (counterpartyPrefix : List Byte) (delayPeriod : Nat) (counterpartyVersions : List Version)
    (clientId : String) (proofInit : List Byte) (proofHeight : Nat) : Except Error ConnStore :=
  if (s connectionId).isSome then .error .InvalidState
  else if verify proofHeight proofInit counterpartyPrefix counterpartyConnectionId
      { clientId := counterpartyClientId
        versions := counterpartyVersions
        state := .INIT
        counterparty := { clientId := clientId, connectionId := "", keyPrefix := cfg.keyPrefix }
        delayPeriod := delayPeriod } = false then .error .ProofVerificationFailed
  else if intersectVersions cfg.supportedVersions counterpartyVersions = [] then
    .error .NoMatchingVersion
  else .ok (s.set connectionId
    { clientId := clientId
      versions := intersectVersions cfg.supportedVersions counterpartyVersions
      state := .TRYOPEN
      counterparty :=
        { clientId := counterpartyClientId, connectionId := counterpartyConnectionId,
          keyPrefix := counterpartyPrefix }
      delayPeriod := delayPeriod })

/-- Modelled from the spec: the counterparty ConnectionEnd `OpenAck` of the
IBCConnection contract (not part of the sources at hand) asks the verifier for: in
TRYOPEN, referencing this side, with the chosen version. -/
def expectedTry (cfg : Config) (e : ConnectionEnd) (connectionId : String)
    (chosenVersion : Version) : ConnectionEnd :=
  { clientId := e.counterparty.clientId
    versions := [chosenVersion]
    state := .TRYOPEN
    counterparty := { clientId := e.clientId, connectionId := connectionId, keyPrefix := cfg.keyPrefix }
    delayPeriod := e.delayPeriod }

/-- Modelled from the spec: `OpenAck` of section 4.1 of the IBCConnection contract
(not part of the sources at hand). Requires local state INIT
(`InvalidState`), verifies that the counterparty ConnectionEnd is in TRYOPEN and
references this side with the same version (`ProofVerificationFailed`), then moves
the local state to OPEN and records `counterparty.connectionId`. -/
def OpenAck (cfg : Config) (verify : Verifier) (s : ConnStore)
    (connectionId counterpartyConnectionId : String) (chosenVersion : Version)
    (proofTry : List Byte) (proofHeight : Nat) : Except Error ConnStore :=
  match s connectionId with
  | none => .error .InvalidState
  | some e =>
    if e.state ≠ .INIT then .error .InvalidState
    else if verify proofHeight proofTry e.counterparty.keyPrefix counterpartyConnectionId
        (expectedTry cfg e connectionId chosenVersion) = false then
      .error .ProofVerificationFailed
    else .ok (s.set connectionId
      { e with
        state := .OPEN
        versions := [chosenVersion]
        counterparty := { e.counterparty with connectionId := counterpartyConnectionId } })

/-- Modelled from the spec: `OpenConfirm` of section 4.1 of the IBCConnection
contract (not part of the sources at hand). Requires local state
TRYOPEN (`InvalidState`), verifies that the counterparty ConnectionEnd is OPEN
(`ProofVerificationFailed`), then moves the local state to OPEN. -/
def OpenConfirm (cfg : Config) (verify : Verifier) (s : ConnStore) (connectionId : String)
    (proofAck : List Byte) (proofHeight : Nat) : Except Error ConnStore :=
  match s connectionId with
  | none => .error .InvalidState
  | some e =>
    if e.state ≠ .TRYOPEN then .error .InvalidState
    else if verify proofHeight proofAck e.counterparty.keyPrefix e.counterparty.connectionId
        { clientId := e.counterparty.clientId
          versions := e.versions
          state := .OPEN
          counterparty :=
            { clientId := e.clientId, connectionId := connectionId, keyPrefix := cfg.keyPrefix }
          delayPeriod := e.delayPeriod } = false then
      .error .ProofVerificationFailed
    else .ok (s.set connectionId { e with state := .OPEN })

/-- Modelled from the spec: the four operations of section 4.1 of the IBCConnection
contract (not part of the sources at hand) with their arguments. -/
inductive ConnOp where
  | openInit (connectionId clientId counterpartyClientId : String)
      (counterpartyPrefix : List Byte) (delayPeriod : Nat) (proposedVersions : List Version)
  | openTry (connectionId counterpartyConnectionId counterpartyClientId : String)
      (counterpartyPrefix : List Byte) (delayPeriod : Nat) (counterpartyVersions : List Version)
      (clientId : String) (proofInit : List Byte) (proofHeight : Nat)
  | openAck (connectionId counterpartyConnectionId : String) (chosenVersion : Version)
      (proofTry : List Byte) (proofHeight : Nat)
  | openConfirm (connectionId : String) (proofAck : List Byte) (proofHeight : Nat)

/-- Modelled from the spec: one call of an operation of the IBCConnection contract
(not part of the sources at hand). -/
def ConnOp.run (cfg : Config) (verify : Verifier) (s : ConnStore) : ConnOp → Except Error ConnStore
  | .openInit c cl ccl pre d vs => OpenInit s c cl ccl pre d vs
  | .openTry c cc ccl pre d vs cl proof h => OpenTry cfg verify s c cc ccl pre d vs cl proof h
  | .openAck c cc v proof h => OpenAck cfg verify s c cc v proof h
  | .openConfirm c proof h => OpenConfirm cfg verify s c proof h

/-- Modelled from the spec: "no partial state is persisted unless the whole transition
succeeds" (section 4.1) for the IBCConnection contract (not part of the sources at
hand): the store after a call is the new store on success and the old store on
failure. -/
def storeAfter (s : ConnStore) (r : Except Error ConnStore) : ConnStore :=
  match r with
  | .ok s' => s'
  | .error _ => s

/-- One step forward along UNINITIALIZED → INIT → OPEN or UNINITIALIZED → TRYOPEN → OPEN,
the two paths of section 4.1. -/
def ConnState.next : ConnState → ConnState → Bool
  | .UNINITIALIZED, .INIT => true
  | .UNINITIALIZED, .TRYOPEN => true
  | .INIT, .OPEN => true
  | .TRYOPEN, .OPEN => true
  | _, _ => false

/-- Modelled from the spec: `Verify` "returns false on any structurally invalid proof,
stale height, or mismatched expected value" (section 4.4; the light client contract
is not part of the sources at hand). A verifier is sound for the counterparty states
`remote` (one connection store per height) when it accepts an expected value only if
the counterparty holds exactly that value at the proof height. -/
def Verifier.Sound (verify : Verifier) (remote : Nat → ConnStore) : Prop :=
  ∀ (h : Nat) (proof pre : List Byte) (id : String) (e : ConnectionEnd),
    verify h proof pre id e = true → remote h id = some e

/-- The verifier that reads the counterparty state itself. -/
def idealVerifier (remote : Nat → ConnStore) : Verifier :=
  fun h _ _ id e => decide (remote h id = some e)

/-- The two ledgers of the witness: the local connection `a` in INIT, the
counterparty connection `b` in INIT at every height. -/
def sampleEnd : ConnectionEnd :=
  { clientId := "client-a"
    versions := [{ identifier := "1", features := ["ORDER_ORDERED", "ORDER_UNORDERED"] }]
    state := .INIT
    counterparty := { clientId := "client-b", connectionId := "", keyPrefix := [105, 98, 99] }
    delayPeriod := 0 }

/-- The local store of the witness. -/
def sampleLocal : ConnStore := fun k => if k = "a" then some sampleEnd else none

/-- The counterparty states of the witness. -/
def sampleRemote : Nat → ConnStore := fun _ k => if k = "b" then some sampleEnd else none

/-- Modelled from the spec: `ordering ∈ {ORDERED, UNORDERED}` of section 3, as the
IBCChannel contract (not part of the sources at hand) stores it. -/
inductive Order where
  | ORDERED
  | UNORDERED
  deriving DecidableEq, Repr

/-- Modelled from the spec: `Packet` of section 3 as the IBCChannel contract (not
part of the sources at hand) receives it; `timeoutHeight` is
`(revisionNumber, revisionHeight)`. -/
structure Packet where
  sequence : Nat
  sourcePort : String
  sourceChannel : String
  destinationPort : String
  destinationChannel : String
  data : List Byte
  timeoutHeight : Nat × Nat
  timeoutTimestamp : Nat
  deriving DecidableEq, Repr

/-- The packet identity `(sourcePort, sourceChannel, sequence)` of section 3. -/
def Packet.identity (p : Packet) : String × String × Nat :=
  (p.sourcePort, p.sourceChannel, p.sequence)

/-- Modelled from the spec: what the receiving side of the packet lifecycle of
section 4.3 keeps: per receiving channel `(port, channel)` its ordering and its
`nextRecvSequence`, the received-sequence set, the acknowledgement commitments, and
the local height and time the timeouts are compared with. The IBCChannel contract
that owns this state is not part of the sources at hand. -/
structure RecvState where
  ordering : String × String → Order
  nextRecvSequence : String × String → Nat
  received : List (String × String × Nat)
  acks : List ((String × String × Nat) × List Byte)
  height : Nat × Nat
  time : Nat

/-- Modelled from the spec: the timeout test of `Recv` in the IBCChannel contract
(not part of the sources at hand): a packet has timed out when its `timeoutHeight`
or its `timeoutTimestamp` (0 = disabled) has elapsed relative to the local state. -/
def timedOut (st : RecvState) (p : Packet) : Bool :=
  (decide (p.timeoutHeight ≠ (0, 0))
    && (decide (p.timeoutHeight.1 < st.height.1)
      || (decide (p.timeoutHeight.1 = st.height.1) && decide (p.timeoutHeight.2 ≤ st.height.2))))
  || (decide (p.timeoutTimestamp ≠ 0) && decide (p.timeoutTimestamp ≤ st.time))

/-- Modelled from the spec: `Verify` of section 4.4 for the sender's packet
commitment (the light client contract is not part of the sources at hand): proof
height, proof bytes and the packet whose commitment is expected. -/
abbrev PacketVerifier := Nat → List Byte → Packet → Bool

/-- Modelled from the spec: `Recv` of section 4.3 of the IBCChannel contract (not
part of the sources at hand), in the order of its sentences:
the commitment proof (`ProofVerificationFailed`); on an ORDERED channel
`packet.sequence == nextRecvSequence` (`UnexpectedSequence`), advancing it, on an
UNORDERED channel the packet must not be in the received set
(`PacketAlreadyReceived`); the timeout (`PacketTimedOut`); then the acknowledgement
commitment is stored and the application's bytes are returned. `app` is the
application that produces the acknowledgement. -/
def Recv (verify : PacketVerifier) (app : Packet → List Byte) (st : RecvState) (packet : Packet)
    (proofCommitment : List Byte) (proofHeight : Nat) : Except Error (RecvState × List Byte) :=
  let ch := (packet.destinationPort, packet.destinationChannel)
  if verify proofHeight proofCommitment packet = false then .error .ProofVerificationFailed
  else if st.ordering ch = .ORDERED ∧ packet.sequence ≠ st.nextRecvSequence ch then
    .error .UnexpectedSequence
  else if st.ordering ch = .UNORDERED ∧ packet.identity ∈ st.received then
    .error .PacketAlreadyReceived
  else if timedOut st packet = true then .error .PacketTimedOut
  else
    .ok ({ st with
            nextRecvSequence := fun c =>
              if c = ch ∧ st.ordering ch = .ORDERED then st.nextRecvSequence c + 1
              else st.nextRecvSequence c
            received := packet.identity :: st.received
            acks := (packet.identity, app packet) :: st.acks },
         app packet)

/-- A receiving side for the witness: channel `("transfer", "ordered")` is ORDERED, every
other channel UNORDERED, nothing received yet. -/
def sampleRecvState : RecvState :=
  { ordering := fun c => if c = ("transfer", "ordered") then .ORDERED else .UNORDERED
    nextRecvSequence := fun _ => 1
    received := []
    acks := []
    height := (0, 10)
    time := 1000 }

/-- A packet for the witness, to the channel `ch` with sequence `n`. -/
def samplePacket (ch : String) (n : Nat) : Packet :=
  { sequence := n
    sourcePort := "transfer"
    sourceChannel := "channel-0"
    destinationPort := "transfer"
    destinationChannel := ch
    data := [1]
    timeoutHeight := (0, 0)
    timeoutTimestamp := 0 }

end protocol

/-! # Theorems -/

namespace connection

/-! ## Arithmetic of varints -/

theorem uint8_val (x : Nat) : (uint8 x).val = x % 256 := rfl

theorem and_0x7F (x : Nat) : x &&& 0x7F = x % 128 := by
  have h := Nat.and_pow_two_sub_one_eq_mod x 7
  simpa using h

theorem or_0x80 (x : Nat) (h : x < 128) : x ||| 0x80 = x + 128 := by
  have h2 := Nat.mul_add_lt_is_or (i := 7) (b := x) (by simpa using h) 1
  rw [Nat.or_comm]
  simp at h2
  omega

theorem contByte_val (v : Nat) : (uint8 (v &&& 0x7f ||| 0x80)).val = v % 128 + 128 := by
  rw [uint8_val, and_0x7F, or_0x80 _ (Nat.mod_lt _ (by decide))]
  have := Nat.mod_lt v (show 128 > 0 by decide)
  omega

theorem contByte_eq (v : Nat) : uint8 (v &&& 0x7f ||| 0x80) = uint8 (v % 128 + 128) := by
  apply Fin.ext
  rw [contByte_val, uint8_val]
  have := Nat.mod_lt v (show 128 > 0 by decide)
  omega

theorem Len64Aux_le_iff (k : Nat) : ∀ (x n : Nat), x < 2 ^ k → (Len64Aux k x ≤ n ↔ x < 2 ^ n) := by
  induction k with
  | zero =>
    intro x n hx
    have : x = 0 := by simpa using hx
    subst this
    simp [Len64Aux]
  | succ k ih =>
    intro x n hx
    unfold Len64Aux
    by_cases h0 : x = 0
    · subst h0; simp
    · rw [if_neg h0]
      have hx2 : x / 2 < 2 ^ k := by
        rw [Nat.div_lt_iff_lt_mul (by decide)]
        rw [Nat.pow_succ] at hx; exact hx
      cases n with
      | zero =>
        simp
        omega
      | succ n =>
        rw [Nat.add_le_add_iff_right, ih _ _ hx2, Nat.div_lt_iff_lt_mul (by decide), Nat.pow_succ]

theorem or_one_lt_two_pow (x j : Nat) (hj : 0 < j) : (x ||| 1) < 2 ^ j ↔ x < 2 ^ j := by
  constructor
  · intro h
    have : x ≤ x ||| 1 := by
      apply Nat.le_of_testBit
      intro i hi
      simp [hi]
    omega
  · intro h
    apply Nat.or_lt_two_pow h
    exact Nat.one_lt_two_pow (by omega)

theorem sov_le_iff (x j : Nat) (hx : x < 2 ^ 64) (hj : 0 < j) :
    sovConnection x ≤ j ↔ x < 2 ^ (7 * j) := by
  unfold sovConnection Len64
  have h1 : (x ||| 1) < 2 ^ 64 := (or_one_lt_two_pow x 64 (by decide)).2 hx
  rw [← or_one_lt_two_pow x (7 * j) (by omega), ← Len64Aux_le_iff 64 _ _ h1]
  omega

theorem sov_pos (x : Nat) : 0 < sovConnection x := by
  unfold sovConnection Len64
  have : 0 < Len64Aux 64 (x ||| 1) := by
    unfold Len64Aux
    have : x ||| 1 ≠ 0 := by
      intro h
      have := congrArg (fun y => y.testBit 0) h
      simp at this
    rw [if_neg this]; omega
  omega

theorem varintAux_length_pos (fuel v : Nat) (h : 0 < fuel) : 0 < (varintAux fuel v).length := by
  cases fuel with
  | zero => omega
  | succ f => unfold varintAux; split <;> simp

theorem varintAux_length_le_iff (fuel : Nat) : ∀ (v j : Nat), v < 2 ^ (7 * fuel) → 0 < j → 0 < fuel →
    ((varintAux fuel v).length ≤ j ↔ v < 2 ^ (7 * j)) := by
  induction fuel with
  | zero => intro v j _ _ h; omega
  | succ fuel ih =>
    intro v j hv hj _
    unfold varintAux
    by_cases h : v < 128
    · rw [if_pos h]
      simp
      constructor
      · intro _
        calc v < 2 ^ 7 := h
          _ ≤ 2 ^ (7 * j) := Nat.pow_le_pow_right (by decide) (by omega)
      · intro _; omega
    · rw [if_neg h]
      have hv2 : v / 128 < 2 ^ (7 * fuel) := by
        rw [Nat.div_lt_iff_lt_mul (by decide)]
        have : 2 ^ (7 * (fuel + 1)) = 2 ^ (7 * fuel) * 128 := by
          rw [Nat.mul_add, Nat.pow_add]
        omega
      have hfuel : 0 < fuel := by
        rcases Nat.eq_zero_or_pos fuel with h0 | h0
        · subst h0; simp at hv2; omega
        · exact h0
      simp only [List.length_cons]
      cases j with
      | zero => omega
      | succ j =>
        rw [Nat.add_le_add_iff_right]
        rcases Nat.eq_zero_or_pos j with h0 | h0
        · subst h0
          have hp := varintAux_length_pos fuel (v / 128) hfuel
          constructor
          · intro hl; omega
          · intro hl
            have : (2:Nat) ^ (7 * (0 + 1)) = 128 := by decide
            omega
        · rw [ih _ _ hv2 h0 hfuel, Nat.div_lt_iff_lt_mul (by decide)]
          have : 2 ^ (7 * (j + 1)) = 2 ^ (7 * j) * 128 := by
            rw [Nat.mul_add, Nat.pow_add]
          omega

theorem varint_length (v : Nat) (hv : v < 2 ^ 64) : (varint v).length = sovConnection v := by
  have hv70 : v < 2 ^ (7 * 10) :=
    Nat.lt_of_lt_of_le hv (Nat.pow_le_pow_right (by decide) (by decide))
  have h1 := fun j hj => varintAux_length_le_iff 10 v j hv70 hj (by decide)
  have h2 := fun j hj => sov_le_iff v j hv hj
  have p1 := varintAux_length_pos 10 v (by decide)
  have p2 := sov_pos v
  unfold varint
  apply Nat.le_antisymm
  · exact (h1 _ p2).2 ((h2 _ p2).1 (Nat.le_refl _))
  · exact (h2 _ p1).2 ((h1 _ p1).1 (Nat.le_refl _))

theorem varint_length_le (v : Nat) : (varint v).length ≤ 10 := by
  unfold varint
  have : ∀ fuel v, (varintAux fuel v).length ≤ fuel := by
    intro fuel
    induction fuel with
    | zero => intro v; simp [varintAux]
    | succ f ih =>
      intro v; unfold varintAux; split
      · simp
      · simp; exact ih _
  exact this 10 v

/-! ## Writing a buffer from its end -/

theorem Emits.of_at {op b} (h : EmitsAt op b) : Emits op b := by
  intro dAtA n B hn hB
  unfold bufAfter
  have h1 := h (dAtA.take (n - B.length - b.length))
    ((dAtA.drop (n - B.length - b.length)).take b.length) (B ++ dAtA.drop n)
    (by simp; omega)
  have e1 : dAtA.take (n - B.length) = dAtA.take (n - B.length - b.length)
      ++ (dAtA.drop (n - B.length - b.length)).take b.length := by
    rw [← List.take_add]
    congr 1; omega
  have e2 : (((dAtA.take (n - B.length - b.length)).length
      + ((dAtA.drop (n - B.length - b.length)).take b.length).length : Nat) : Int)
      = ((n - B.length : Nat) : Int) := by
    congr 1; simp; omega
  have e3 : (dAtA.take (n - B.length - b.length)).length = n - (b ++ B).length := by
    simp; omega
  rw [e2] at h1
  rw [e1]
  simp only [List.append_assoc] at h1 ⊢
  rw [h1, e3]
  simp
  omega

theorem storeByte_at (pre post : List Byte) (x b : Byte) :
    storeByte (pre ++ x :: post) (pre.length : Int) b = .ok (pre ++ b :: post) := by
  unfold storeByte
  rw [if_pos (by simp)]
  simp

theorem copyAt_at (pre junk post src : List Byte) (h : junk.length = src.length) :
    copyAt (pre ++ junk ++ post) (pre.length : Int) src = .ok (pre ++ src ++ post) := by
  unfold copyAt
  rw [if_pos (by simp; omega)]
  simp only [Int.toNat_ofNat, List.append_assoc]
  congr 1
  rw [List.take_left' rfl]
  congr 1
  rw [List.take_of_length_le (by simp; omega)]
  congr 1
  rw [← List.append_assoc, List.drop_left' (by simp; omega)]

theorem encodeVarintLoop_at (fuel : Nat) : ∀ (pre junk post : List Byte) (v : Nat),
    v < 2 ^ (7 * fuel) → 0 < fuel → junk.length = (varintAux fuel v).length →
    encodeVarintLoop fuel (pre ++ junk ++ post) (pre.length : Int) v
      = .ok (pre ++ varintAux fuel v ++ post) := by
  induction fuel with
  | zero => intro _ _ _ _ _ h; omega
  | succ fuel ih =>
    intro pre junk post v hv _ hj
    unfold encodeVarintLoop
    unfold varintAux at hj ⊢
    by_cases h : v < 128
    · rw [if_neg (by simp; omega)]
      rw [if_pos h] at hj ⊢
      match junk, hj with
      | [x], _ => simp [storeByte_at]
    · rw [if_pos (by simp; omega)]
      rw [if_neg h] at hj ⊢
      match junk, hj with
      | x :: junk, hj =>
        have hv2 : v / 128 < 2 ^ (7 * fuel) := by
          rw [Nat.div_lt_iff_lt_mul (by decide)]
          have : 2 ^ (7 * (fuel + 1)) = 2 ^ (7 * fuel) * 128 := by
            rw [Nat.mul_add, Nat.pow_add]
          omega
        have hfuel : 0 < fuel := by
          rcases Nat.eq_zero_or_pos fuel with h0 | h0
          · subst h0; simp at hv2; omega
          · exact h0
        have h3 := ih (pre ++ [uint8 (v % 128 + 128)]) junk post (v / 128) hv2 hfuel
          (by simpa using hj)
        simp only [List.cons_append, List.append_assoc, storeByte_at, contByte_eq]
        simp only [List.append_assoc, List.length_append, List.length_singleton,
          List.singleton_append, Nat.cast_add, Nat.cast_one] at h3
        rw [Nat.shiftRight_eq_div_pow]
        exact h3

theorem encodeVarintConnection_at (pre junk post : List Byte) (v : Nat) (hv : v < 2 ^ 64)
    (hj : junk.length = (varint v).length) :
    encodeVarintConnection (pre ++ junk ++ post) ((pre.length + junk.length : Nat) : Int) v
      = .ok (pre ++ varint v ++ post, (pre.length : Int)) := by
  unfold encodeVarintConnection
  have e : ((pre.length + junk.length : Nat) : Int) - (sovConnection v : Int) = (pre.length : Int) := by
    rw [← varint_length v hv, ← hj]; push_cast; omega
  have hv70 : v < 2 ^ (7 * 10) :=
    Nat.lt_of_lt_of_le hv (Nat.pow_le_pow_right (by decide) (by decide))
  simp only [e]
  rw [encodeVarintLoop_at 10 pre junk post v hv70 (by decide) hj]
  rfl

theorem writeVarintField_at (t : Byte) (v : Nat) (hv : v < 2 ^ 64) :
    EmitsAt (writeVarintField t v) (t :: varint v) := by
  intro pre junk post hj
  match junk, hj with
  | x :: junk, hj =>
    unfold writeVarintField
    have h := encodeVarintConnection_at (pre ++ [x]) junk post v hv (by simpa using hj)
    have e : (((pre ++ [x]).length + junk.length : Nat) : Int)
        = ((pre.length + (x :: junk).length : Nat) : Int) := by
      simp; omega
    rw [e] at h
    simp only [List.append_assoc, List.singleton_append, List.cons_append, List.nil_append] at h
    simp only [List.append_assoc, List.cons_append, h]
    have e2 : ((pre ++ [x]).length : Int) - 1 = (pre.length : Int) := by simp
    rw [e2, storeByte_at]

theorem writeBytesField_at (t : Byte) (s : List Byte) (hs : s.length < 2 ^ 64) :
    EmitsAt (writeBytesField t s) (t :: (varint s.length ++ s)) := by
  intro pre junk post hj
  unfold writeBytesField
  have hlen : junk.length = (1 + (varint s.length).length) + s.length := by
    simp at hj; omega
  have hsplit : junk = junk.take (1 + (varint s.length).length)
      ++ junk.drop (1 + (varint s.length).length) := (List.take_append_drop _ _).symm
  generalize hj1 : junk.take (1 + (varint s.length).length) = j1 at hsplit
  generalize hj2 : junk.drop (1 + (varint s.length).length) = j2 at hsplit
  have hl1 : j1.length = 1 + (varint s.length).length := by
    rw [← hj1]; simp; omega
  have hl2 : j2.length = s.length := by
    rw [← hj2]; simp; omega
  subst hsplit
  have e : ((pre.length + (j1 ++ j2).length : Nat) : Int) - (s.length : Int)
      = ((pre ++ j1).length : Int) := by
    simp; omega
  have hc := copyAt_at (pre ++ j1) j2 post s hl2
  simp only [List.append_assoc] at hc
  simp only [e, List.append_assoc, hc]
  have hw := writeVarintField_at t s.length hs pre j1 (s ++ post) (by simp; omega)
  have e3 : ((pre.length + j1.length : Nat) : Int) = ((pre ++ j1).length : Int) := by simp
  rw [e3] at hw
  simp only [List.append_assoc] at hw
  rw [hw]
  simp

/-! ## MarshalToSizedBuffer writes the reference layout -/

theorem toUint64_natCast (n : Nat) (h : n < 2 ^ 64) : toUint64 (n : Int) = n := by
  unfold toUint64
  have : ((n : Int) % 2 ^ 64) = (n : Int) := Int.emod_eq_of_lt (by omega) (by exact_mod_cast h)
  rw [this]; simp

theorem writeMsgField_at (t : Byte) (marshalTo : List Byte → Except Error (List Byte × Int))
    (w : List Byte) (hw : w.length < 2 ^ 64)
    (hM : ∀ buf : List Byte, w.length ≤ buf.length →
      marshalTo buf = .ok (buf.take (buf.length - w.length) ++ w, (w.length : Int))) :
    EmitsAt (writeMsgField t marshalTo) (t :: (varint w.length ++ w)) := by
  intro pre junk post hj
  unfold writeMsgField
  have hlen : junk.length = (1 + (varint w.length).length) + w.length := by
    simp at hj; omega
  have hsplit : junk = junk.take (1 + (varint w.length).length)
      ++ junk.drop (1 + (varint w.length).length) := (List.take_append_drop _ _).symm
  generalize hj1 : junk.take (1 + (varint w.length).length) = j1 at hsplit
  generalize hj2 : junk.drop (1 + (varint w.length).length) = j2 at hsplit
  have hl1 : j1.length = 1 + (varint w.length).length := by
    rw [← hj1]; simp; omega
  have hl2 : j2.length = w.length := by
    rw [← hj2]; simp; omega
  subst hsplit
  simp only []
  rw [if_pos (by simp; omega)]
  have e1 : List.take ((pre.length + (j1 ++ j2).length : Nat) : Int).toNat (pre ++ (j1 ++ j2) ++ post)
      = pre ++ j1 ++ j2 := by
    rw [Int.toNat_ofNat, ← List.append_assoc pre, List.take_left' (by simp)]
  have e2 : List.drop ((pre.length + (j1 ++ j2).length : Nat) : Int).toNat (pre ++ (j1 ++ j2) ++ post)
      = post := by
    rw [Int.toNat_ofNat, ← List.append_assoc pre, List.drop_left' (by simp)]
  have e3 : List.take ((pre ++ j1 ++ j2).length - w.length) (pre ++ j1 ++ j2) = pre ++ j1 := by
    rw [List.take_left' (by simp; omega)]
  rw [e1, e2, hM _ (by simp; omega), e3]
  simp only []
  rw [toUint64_natCast _ hw]
  have hwf := writeVarintField_at t w.length hw pre j1 (w ++ post) (by simp; omega)
  have e4 : ((pre.length + (j1 ++ j2).length : Nat) : Int) - (w.length : Int)
      = ((pre.length + j1.length : Nat) : Int) := by
    simp; omega
  rw [e4]
  simp only [List.append_assoc] at hwf ⊢
  rw [hwf]
  simp

theorem Emits.seq {op1 op2 : List Byte × Int → Except Error (List Byte × Int)} {b1 b2 : List Byte}
    (h1 : Emits op1 b1) (h2 : Emits op2 b2) :
    Emits (fun st => match op1 st with
      | .error e => .error e
      | .ok st => op2 st) (b2 ++ b1) := by
  intro dAtA n B hn hB
  simp only []
  rw [h1 dAtA n B hn (by simp at hB; omega)]
  simp only []
  rw [h2 dAtA n (b1 ++ B) hn (by simp at hB ⊢; omega)]
  simp

theorem Emits.skip : Emits (fun st => .ok st) [] := by
  intro dAtA n B _ _
  simp

theorem Emits.cond {op : List Byte × Int → Except Error (List Byte × Int)} {b : List Byte}
    (c : Prop) [Decidable c] (h : c → Emits op b) :
    Emits (fun st => if c then op st else .ok st) (if c then b else []) := by
  by_cases hc : c
  · simp only [if_pos hc]; exact h hc
  · simp only [if_neg hc]; exact Emits.skip

theorem tag_1_2 : tag 1 2 = 0xa := by decide

theorem tag_2_2 : tag 2 2 = 0x12 := by decide

theorem tag_3_2 : tag 3 2 = 0x1a := by decide

theorem tag_4_2 : tag 4 2 = 0x22 := by decide

theorem tag_3_0 : tag 3 0 = 0x18 := by decide

theorem tag_5_0 : tag 5 0 = 0x28 := by decide

theorem emits_bytesField (t : Byte) (s : List Byte) (hs : s.length < 2 ^ 64) :
    Emits (fun st => if s.length > 0 then writeBytesField t s st else .ok st)
      (if s = [] then [] else t :: (varint s.length ++ s)) := by
  have h := Emits.cond (s.length > 0) (fun _ => Emits.of_at (writeBytesField_at t s hs))
  by_cases hs0 : s = []
  · subst hs0; simpa using h
  · have : s.length > 0 := List.length_pos.2 hs0
    simpa [hs0, this] using h

theorem emits_varintField (t : Byte) (v : Nat) (hv : v < 2 ^ 64) :
    Emits (fun st => if v ≠ 0 then writeVarintField t v st else .ok st)
      (if v = 0 then [] else t :: varint v) := by
  have h := Emits.cond (v ≠ 0) (fun _ => Emits.of_at (writeVarintField_at t v hv))
  by_cases hs0 : v = 0
  · subst hs0; simpa using h
  · simpa [hs0] using h

theorem bufAfter_start (buf : List Byte) : (buf, (buf.length : Int)) = bufAfter buf buf.length [] := by
  simp [bufAfter]

theorem bufAfter_finish (buf w : List Byte) (h : w.length ≤ buf.length) :
    (Except.ok ((bufAfter buf buf.length w).1, (buf.length : Int) - (bufAfter buf buf.length w).2)
      : Except Error (List Byte × Int))
      = .ok (buf.take (buf.length - w.length) ++ w, (w.length : Int)) := by
  simp [bufAfter]
  omega

theorem emits_writeFeatures (fs : List (List Byte)) (h : ∀ s ∈ fs, s.length < 2 ^ 64) :
    Emits (Version.writeFeatures fs) ((fs.map (lenField 2)).flatten) := by
  induction fs with
  | nil => exact Emits.skip
  | cons s rest ih =>
    have h1 := ih (fun s hs => h s (List.mem_cons_of_mem _ hs))
    have h2 := Emits.of_at (writeBytesField_at 0x12 s (h s (List.mem_cons_self _ _)))
    have := Emits.seq h1 h2
    simpa [Version.writeFeatures, lenField, tag_2_2] using this

theorem Version.version_writesTail (m : Version) (hI : m.Identifier.length < 2 ^ 64)
    (hF : ∀ s ∈ m.Features, s.length < 2 ^ 64) :
    WritesTail m.MarshalToSizedBuffer m.wire := by
  intro buf hlen
  have h1 : Emits (fun st => if m.Features.length > 0 then Version.writeFeatures m.Features st
      else .ok st) ((m.Features.map (lenField 2)).flatten) := by
    by_cases h0 : m.Features = []
    · simpa [h0] using Emits.skip
    · have hp : m.Features.length > 0 := List.length_pos.2 h0
      simpa [hp] using emits_writeFeatures m.Features hF
  have h2 := emits_bytesField 0xa m.Identifier hI
  have hw : m.wire = (if m.Identifier = [] then [] else 0xa :: (varint m.Identifier.length
      ++ m.Identifier)) ++ (m.Features.map (lenField 2)).flatten := by
    simp only [Version.wire, lenField, tag_1_2]
  generalize (m.Features.map (lenField 2)).flatten = b1 at h1 hw
  generalize (if m.Identifier = [] then [] else 0xa :: (varint m.Identifier.length
      ++ m.Identifier)) = b2 at h2 hw
  rw [hw] at hlen ⊢
  simp only [List.length_append] at hlen
  have a1 := h1 buf buf.length [] (Nat.le_refl _) (by simp only [List.length_nil]; omega)
  have a2 := h2 buf buf.length (b1 ++ []) (Nat.le_refl _)
    (by simp only [List.length_append, List.length_nil]; omega)
  simp only [] at a1 a2
  unfold Version.MarshalToSizedBuffer
  simp only []
  rw [bufAfter_start, a1]
  simp only []
  rw [a2]
  simp only [List.append_nil]
  rw [bufAfter_finish _ _ (by simp only [List.length_append]; omega)]

theorem MerklePrefix.merkle_writesTail (m : MerklePrefix) (hK : m.KeyPrefix.length < 2 ^ 64) :
    WritesTail m.MarshalToSizedBuffer m.wire := by
  intro buf hlen
  have h1 := emits_bytesField 0xa m.KeyPrefix hK
  have hw : m.wire = (if m.KeyPrefix = [] then [] else 0xa :: (varint m.KeyPrefix.length
      ++ m.KeyPrefix)) := by
    simp only [MerklePrefix.wire, lenField, tag_1_2]
  generalize (if m.KeyPrefix = [] then [] else 0xa :: (varint m.KeyPrefix.length
      ++ m.KeyPrefix)) = b1 at h1 hw
  rw [hw] at hlen ⊢
  have a1 := h1 buf buf.length [] (Nat.le_refl _) (by simp only [List.length_nil]; omega)
  simp only [] at a1
  unfold MerklePrefix.MarshalToSizedBuffer
  simp only []
  rw [bufAfter_start, a1]
  simp only [List.append_nil]
  rw [bufAfter_finish _ _ hlen]

theorem Counterparty.counterparty_writesTail (m : Counterparty) (hC : m.ClientId.length < 2 ^ 64)
    (hN : m.ConnectionId.length < 2 ^ 64)
    (hP : ∀ p, m.Prefix = some p → p.KeyPrefix.length < 2 ^ 64 ∧ p.wire.length < 2 ^ 64) :
    WritesTail m.MarshalToSizedBuffer m.wire := by
  intro buf hlen
  have h1 : Emits (writeOptMsgField 0x1a MerklePrefix.MarshalToSizedBuffer m.Prefix)
      (optLenField 3 (m.Prefix.map MerklePrefix.wire)) := by
    cases hp : m.Prefix with
    | none => exact Emits.skip
    | some p =>
      simp only [Option.map, optLenField, lenField, tag_3_2]
      exact Emits.of_at (writeMsgField_at 0x1a _ p.wire (hP p hp).2 (p.merkle_writesTail (hP p hp).1))
  have h2 := emits_bytesField 0x12 m.ConnectionId hN
  have h3 := emits_bytesField 0xa m.ClientId hC
  have hw : m.wire = (if m.ClientId = [] then [] else 0xa :: (varint m.ClientId.length
      ++ m.ClientId)) ++ ((if m.ConnectionId = [] then [] else 0x12 :: (varint m.ConnectionId.length
      ++ m.ConnectionId)) ++ optLenField 3 (m.Prefix.map MerklePrefix.wire)) := by
    simp only [Counterparty.wire, lenField, tag_1_2, tag_2_2, List.append_assoc]
  generalize optLenField 3 (m.Prefix.map MerklePrefix.wire) = b1 at h1 hw
  generalize (if m.ConnectionId = [] then [] else 0x12 :: (varint m.ConnectionId.length
      ++ m.ConnectionId)) = b2 at h2 hw
  generalize (if m.ClientId = [] then [] else 0xa :: (varint m.ClientId.length
      ++ m.ClientId)) = b3 at h3 hw
  rw [hw] at hlen ⊢
  simp only [List.length_append] at hlen
  have a1 := h1 buf buf.length [] (Nat.le_refl _) (by simp only [List.length_nil]; omega)
  have a2 := h2 buf buf.length (b1 ++ []) (Nat.le_refl _)
    (by simp only [List.length_append, List.length_nil]; omega)
  have a3 := h3 buf buf.length (b2 ++ (b1 ++ [])) (Nat.le_refl _)
    (by simp only [List.length_append, List.length_nil]; omega)
  simp only [] at a1 a2 a3
  unfold Counterparty.MarshalToSizedBuffer
  simp only []
  rw [bufAfter_start, a1]
  simp only []
  rw [a2]
  simp only []
  rw [a3]
  simp only [List.append_nil]
  rw [bufAfter_finish _ _ (by simp only [List.length_append]; omega)]

theorem emits_writeVersions (vs : List (Option Version))
    (h : ∀ v ∈ vs, ∃ x, v = some x ∧ x.Identifier.length < 2 ^ 64
      ∧ (∀ s ∈ x.Features, s.length < 2 ^ 64) ∧ x.wire.length < 2 ^ 64) :
    Emits (ConnectionEnd.writeVersions vs)
      ((vs.map (fun v => lenField 2 (Version.wirePtr v))).flatten) := by
  induction vs with
  | nil => exact Emits.skip
  | cons v rest ih =>
    have h1 := ih (fun s hs => h s (List.mem_cons_of_mem _ hs))
    obtain ⟨x, hx, hI, hF, hW⟩ := h v (List.mem_cons_self _ _)
    subst hx
    have h2 := Emits.of_at (writeMsgField_at 0x12 _ x.wire hW (x.version_writesTail hI hF))
    have := Emits.seq h1 h2
    simpa [ConnectionEnd.writeVersions, lenField, tag_2_2, Version.wirePtr,
      Version.MarshalToSizedBufferPtr] using this

theorem flatten_ite_singleton (c : Prop) [Decidable c] (x : List Byte) :
    (if c then [] else [x]).flatten = if c then [] else x := by
  split <;> simp

theorem ConnectionEnd.wire_eq (m : ConnectionEnd) :
    m.wire = (if m.ClientId = [] then [] else 0xa :: (varint m.ClientId.length ++ m.ClientId))
      ++ ((m.Versions.map (fun v => lenField 2 (Version.wirePtr v))).flatten
      ++ ((if m.State = 0 then [] else 0x18 :: varint (toUint64 m.State))
      ++ (optLenField 4 (m.Counterparty.map Counterparty.wire)
      ++ (if m.DelayPeriod = 0 then [] else 0x28 :: varint m.DelayPeriod)))) := by
  unfold ConnectionEnd.wire ConnectionEnd.fields
  simp only [List.flatten_append, flatten_ite_singleton, List.append_assoc, lenField, varintField,
    tag_1_2, tag_3_0, tag_5_0]
  cases m.Counterparty <;> simp [optLenField, lenField]

theorem toUint64_lt (x : Int) : toUint64 x < 2 ^ 64 := by
  unfold toUint64
  have h1 : 0 ≤ x % 2 ^ 64 := Int.emod_nonneg _ (by decide)
  have h2 : x % 2 ^ 64 < 2 ^ 64 := Int.emod_lt_of_pos _ (by decide)
  omega

theorem toUint64_eq_zero (x : Int) (h1 : -(2 : Int) ^ 31 ≤ x) (h2 : x < 2 ^ 31) :
    toUint64 x = 0 ↔ x = 0 := by
  unfold toUint64
  constructor
  · intro h
    have h3 : x % 2 ^ 64 = 0 := by
      have : 0 ≤ x % 2 ^ 64 := Int.emod_nonneg _ (by decide)
      omega
    omega
  · intro h; subst h; rfl

theorem ConnectionEnd.connectionEnd_writesTail (m : ConnectionEnd) (hC : m.ClientId.length < 2 ^ 64)
    (hV : ∀ v ∈ m.Versions, ∃ x, v = some x ∧ x.Identifier.length < 2 ^ 64
      ∧ (∀ s ∈ x.Features, s.length < 2 ^ 64) ∧ x.wire.length < 2 ^ 64)
    (hP : ∀ c, m.Counterparty = some c → c.wire.length < 2 ^ 64 ∧ c.ClientId.length < 2 ^ 64
      ∧ c.ConnectionId.length < 2 ^ 64
      ∧ ∀ p, c.Prefix = some p → p.KeyPrefix.length < 2 ^ 64 ∧ p.wire.length < 2 ^ 64)
    (hD : m.DelayPeriod < 2 ^ 64) :
    WritesTail m.MarshalToSizedBuffer m.wire := by
  intro buf hlen
  have h1 := emits_varintField 0x28 m.DelayPeriod hD
  have h2 : Emits (writeOptMsgField 0x22 Counterparty.MarshalToSizedBuffer m.Counterparty)
      (optLenField 4 (m.Counterparty.map Counterparty.wire)) := by
    cases hp : m.Counterparty with
    | none => exact Emits.skip
    | some c =>
      simp only [Option.map, optLenField, lenField, tag_4_2]
      obtain ⟨hw, hc1, hc2, hc3⟩ := hP c hp
      exact Emits.of_at (writeMsgField_at 0x22 _ c.wire hw (c.counterparty_writesTail hc1 hc2 hc3))
  have h3 : Emits (fun st => if m.State ≠ 0 then writeVarintField 0x18 (toUint64 m.State) st
      else .ok st) (if m.State = 0 then [] else 0x18 :: varint (toUint64 m.State)) := by
    by_cases h0 : m.State = 0
    · simpa [h0] using Emits.skip
    · simpa [h0] using Emits.of_at (writeVarintField_at 0x18 _ (toUint64_lt m.State))
  have h4 : Emits (fun st => if m.Versions.length > 0 then ConnectionEnd.writeVersions m.Versions st
      else .ok st) ((m.Versions.map (fun v => lenField 2 (Version.wirePtr v))).flatten) := by
    by_cases h0 : m.Versions = []
    · simpa [h0] using Emits.skip
    · have hp : m.Versions.length > 0 := List.length_pos.2 h0
      simpa [hp] using emits_writeVersions m.Versions hV
  have h5 := emits_bytesField 0xa m.ClientId hC
  have hw := m.wire_eq
  generalize (if m.DelayPeriod = 0 then [] else 0x28 :: varint m.DelayPeriod) = b1 at h1 hw
  generalize optLenField 4 (m.Counterparty.map Counterparty.wire) = b2 at h2 hw
  generalize (if m.State = 0 then [] else 0x18 :: varint (toUint64 m.State)) = b3 at h3 hw
  generalize (m.Versions.map (fun v => lenField 2 (Version.wirePtr v))).flatten = b4 at h4 hw
  generalize (if m.ClientId = [] then [] else 0xa :: (varint m.ClientId.length
      ++ m.ClientId)) = b5 at h5 hw
  rw [hw] at hlen ⊢
  simp only [List.length_append] at hlen
  have a1 := h1 buf buf.length [] (Nat.le_refl _) (by simp only [List.length_nil]; omega)
  have a2 := h2 buf buf.length (b1 ++ []) (Nat.le_refl _)
    (by simp only [List.length_append, List.length_nil]; omega)
  have a3 := h3 buf buf.length (b2 ++ (b1 ++ [])) (Nat.le_refl _)
    (by simp only [List.length_append, List.length_nil]; omega)
  have a4 := h4 buf buf.length (b3 ++ (b2 ++ (b1 ++ []))) (Nat.le_refl _)
    (by simp only [List.length_append, List.length_nil]; omega)
  have a5 := h5 buf buf.length (b4 ++ (b3 ++ (b2 ++ (b1 ++ [])))) (Nat.le_refl _)
    (by simp only [List.length_append, List.length_nil]; omega)
  simp only [] at a1 a2 a3 a4 a5
  unfold ConnectionEnd.MarshalToSizedBuffer
  simp only []
  rw [bufAfter_start, a1]
  simp only []
  rw [a2]
  simp only []
  rw [a3]
  simp only []
  rw [a4]
  simp only []
  rw [a5]
  simp only [List.append_nil]
  rw [bufAfter_finish _ _ (by simp only [List.length_append]; omega)]

theorem marshalWith_eq (size : Nat) (marshalTo : List Byte → Except Error (List Byte × Int))
    (w : List Byte) (h : WritesTail marshalTo w) (hsz : w.length = size) :
    marshalWith size marshalTo = .ok w := by
  unfold marshalWith
  rw [h _ (by simp [hsz])]
  simp [hsz]

/-! ## Size is the length of the layout -/

theorem lt_two_pow_64_of_lt_63 {n : Nat} (h : n < 2 ^ 63) : n < 2 ^ 64 :=
  Nat.lt_trans h (by decide)

theorem lenField_length (n : Nat) (p : List Byte) (h : p.length < 2 ^ 64) :
    (lenField n p).length = sizeLenField p.length := by
  simp only [lenField, sizeLenField, List.length_cons, List.length_append, varint_length _ h]
  omega

theorem lt_sizeLenField (l : Nat) : l < sizeLenField l := by
  unfold sizeLenField; omega

theorem mem_le_sum_map {α : Type} (f : α → Nat) (l : List α) (a : α) (h : a ∈ l) :
    f a ≤ (l.map f).sum := by
  induction l with
  | nil => cases h
  | cons x xs ih =>
    simp only [List.map_cons, List.sum_cons]
    rcases List.mem_cons.1 h with h | h
    · subst h; omega
    · have := ih h; omega

theorem length_flatten_map_lenField (n : Nat) (l : List (List Byte)) (h : ∀ s ∈ l, s.length < 2 ^ 64) :
    ((l.map (lenField n)).flatten).length = (l.map fun s => sizeLenField s.length).sum := by
  induction l with
  | nil => rfl
  | cons x xs ih =>
    simp only [List.map_cons, List.flatten_cons, List.length_append, List.sum_cons]
    rw [ih (fun s hs => h s (List.mem_cons_of_mem _ hs)),
      lenField_length n x (h x (List.mem_cons_self _ _))]

theorem Version.version_bounds (v : Version) (N : Nat) (h : v.Size < N) :
    v.Identifier.length < N ∧ ∀ s ∈ v.Features, s.length < N := by
  unfold Version.Size at h
  constructor
  · by_cases h0 : v.Identifier.length > 0
    · rw [if_pos h0] at h
      have := lt_sizeLenField v.Identifier.length
      omega
    · omega
  · intro s hs
    have h1 := mem_le_sum_map (fun s : List Byte => sizeLenField s.length) v.Features s hs
    have h2 := lt_sizeLenField s.length
    simp only [] at h1
    omega

theorem Version.version_wire_length (v : Version) (h : v.Size < 2 ^ 64) : v.wire.length = v.Size := by
  obtain ⟨hI, hF⟩ := v.version_bounds _ h
  unfold Version.wire Version.Size
  rw [List.length_append, length_flatten_map_lenField 2 _ hF]
  congr 1
  by_cases h0 : v.Identifier = []
  · simp [h0]
  · have : v.Identifier.length > 0 := List.length_pos.2 h0
    rw [if_neg h0, if_pos this, lenField_length _ _ hI]

theorem MerklePrefix.merkle_bounds (p : MerklePrefix) (N : Nat) (h : p.Size < N) :
    p.KeyPrefix.length < N := by
  unfold MerklePrefix.Size at h
  by_cases h0 : p.KeyPrefix.length > 0
  · rw [if_pos h0] at h
    have := lt_sizeLenField p.KeyPrefix.length
    omega
  · omega

theorem MerklePrefix.merkle_wire_length (p : MerklePrefix) (h : p.Size < 2 ^ 64) :
    p.wire.length = p.Size := by
  have hK := p.merkle_bounds _ h
  unfold MerklePrefix.wire MerklePrefix.Size
  by_cases h0 : p.KeyPrefix = []
  · simp [h0]
  · have : p.KeyPrefix.length > 0 := List.length_pos.2 h0
    rw [if_neg h0, if_pos this, lenField_length _ _ hK]

theorem Counterparty.counterparty_bounds (c : Counterparty) (N : Nat) (h : c.Size < N) :
    c.ClientId.length < N ∧ c.ConnectionId.length < N ∧ ∀ p, c.Prefix = some p → p.Size < N := by
  unfold Counterparty.Size at h
  refine ⟨?_, ?_, ?_⟩
  · by_cases h0 : c.ClientId.length > 0
    · rw [if_pos h0] at h
      have := lt_sizeLenField c.ClientId.length
      omega
    · omega
  · by_cases h0 : c.ConnectionId.length > 0
    · rw [if_pos h0] at h
      have := lt_sizeLenField c.ConnectionId.length
      omega
    · omega
  · intro p hp
    rw [hp] at h
    simp only [] at h
    have := lt_sizeLenField p.Size
    omega

theorem Counterparty.counterparty_wire_length (c : Counterparty) (h : c.Size < 2 ^ 64) :
    c.wire.length = c.Size := by
  obtain ⟨hC, hN, hP⟩ := c.counterparty_bounds _ h
  unfold Counterparty.wire Counterparty.Size
  rw [List.length_append, List.length_append]
  congr 1
  · congr 1
    · by_cases h0 : c.ClientId = []
      · simp [h0]
      · have : c.ClientId.length > 0 := List.length_pos.2 h0
        rw [if_neg h0, if_pos this, lenField_length _ _ hC]
    · by_cases h0 : c.ConnectionId = []
      · simp [h0]
      · have : c.ConnectionId.length > 0 := List.length_pos.2 h0
        rw [if_neg h0, if_pos this, lenField_length _ _ hN]
  · cases hp : c.Prefix with
    | none => rfl
    | some p =>
      have h1 := p.merkle_wire_length (hP p hp)
      simp only [Option.map, optLenField]
      rw [lenField_length _ _ (by rw [h1]; exact hP p hp), h1]

theorem Counterparty.counterparty_writesTail_of_size (c : Counterparty) (h : c.Size < 2 ^ 64) :
    WritesTail c.MarshalToSizedBuffer c.wire := by
  obtain ⟨hC, hN, hP⟩ := c.counterparty_bounds _ h
  apply c.counterparty_writesTail hC hN
  intro p hp
  exact ⟨p.merkle_bounds _ (hP p hp), by rw [p.merkle_wire_length (hP p hp)]; exact hP p hp⟩

theorem Version.version_writesTail_of_size (v : Version) (h : v.Size < 2 ^ 64) :
    WritesTail v.MarshalToSizedBuffer v.wire := by
  obtain ⟨hI, hF⟩ := v.version_bounds _ h
  exact v.version_writesTail hI hF

theorem MerklePrefix.merkle_writesTail_of_size (p : MerklePrefix) (h : p.Size < 2 ^ 64) :
    WritesTail p.MarshalToSizedBuffer p.wire :=
  p.merkle_writesTail (p.merkle_bounds _ h)

theorem ConnectionEnd.connectionEnd_bounds (m : ConnectionEnd) (N : Nat) (h : m.Size < N) :
    m.ClientId.length < N ∧ (∀ v ∈ m.Versions, Version.SizePtr v < N)
      ∧ (∀ c, m.Counterparty = some c → c.Size < N) := by
  unfold ConnectionEnd.Size at h
  refine ⟨?_, ?_, ?_⟩
  · by_cases h0 : m.ClientId.length > 0
    · rw [if_pos h0] at h
      have := lt_sizeLenField m.ClientId.length
      omega
    · omega
  · intro v hv
    have h1 := mem_le_sum_map (fun e => sizeLenField (Version.SizePtr e)) m.Versions v hv
    have h2 := lt_sizeLenField (Version.SizePtr v)
    simp only [] at h1
    omega
  · intro c hc
    rw [hc] at h
    simp only [] at h
    have := lt_sizeLenField c.Size
    omega

theorem length_flatten_versions (l : List (Option Version))
    (h : ∀ v ∈ l, v ≠ none ∧ Version.SizePtr v < 2 ^ 64) :
    ((l.map (fun v => lenField 2 (Version.wirePtr v))).flatten).length
      = (l.map fun e => sizeLenField (Version.SizePtr e)).sum := by
  induction l with
  | nil => rfl
  | cons x xs ih =>
    simp only [List.map_cons, List.flatten_cons, List.length_append, List.sum_cons]
    rw [ih (fun s hs => h s (List.mem_cons_of_mem _ hs))]
    congr 1
    obtain ⟨h1, h2⟩ := h x (List.mem_cons_self _ _)
    cases x with
    | none => exact absurd rfl h1
    | some v =>
      simp only [Version.wirePtr, Version.SizePtr] at h2 ⊢
      rw [lenField_length _ _ (by rw [v.version_wire_length h2]; exact h2), v.version_wire_length h2]

theorem ConnectionEnd.connectionEnd_wire_length (m : ConnectionEnd) (hnil : m.NoNilVersion)
    (hwt : m.WellTyped) (h : m.Size < 2 ^ 64) : m.wire.length = m.Size := by
  obtain ⟨hC, hV, hP⟩ := m.connectionEnd_bounds _ h
  rw [m.wire_eq]
  unfold ConnectionEnd.Size
  simp only [List.length_append]
  rw [length_flatten_versions m.Versions (fun v hv => ⟨hnil v hv, hV v hv⟩)]
  have e1 : (if m.ClientId = [] then [] else 0xa :: (varint m.ClientId.length ++ m.ClientId)).length
      = (if m.ClientId.length > 0 then sizeLenField m.ClientId.length else 0) := by
    by_cases h0 : m.ClientId = []
    · simp [h0]
    · have : m.ClientId.length > 0 := List.length_pos.2 h0
      rw [if_neg h0, if_pos this, ← lenField_length 1 _ hC]
      rfl
  have e3 : (if m.State = 0 then [] else 0x18 :: varint (toUint64 m.State)).length
      = (if m.State ≠ 0 then 1 + sovConnection (toUint64 m.State) else 0) := by
    by_cases h0 : m.State = 0
    · simp [h0]
    · rw [if_neg h0, if_pos h0, List.length_cons, varint_length _ (toUint64_lt _)]
      omega
  have e5 : (if m.DelayPeriod = 0 then [] else 0x28 :: varint m.DelayPeriod).length
      = (if m.DelayPeriod ≠ 0 then 1 + sovConnection m.DelayPeriod else 0) := by
    by_cases h0 : m.DelayPeriod = 0
    · simp [h0]
    · rw [if_neg h0, if_pos h0, List.length_cons, varint_length _ hwt.2.2]
      omega
  rw [e1, e3, e5]
  cases hp : m.Counterparty with
  | none =>
    simp only [Option.map, optLenField, List.length_nil]
    omega
  | some c =>
    have h1 := c.counterparty_wire_length (hP c hp)
    simp only [Option.map, optLenField]
    rw [lenField_length _ _ (by rw [h1]; exact hP c hp), h1]
    omega

theorem ConnectionEnd.connectionEnd_writesTail_of_size (m : ConnectionEnd) (hnil : m.NoNilVersion)
    (hwt : m.WellTyped) (h : m.Size < 2 ^ 64) :
    WritesTail m.MarshalToSizedBuffer m.wire := by
  obtain ⟨hC, hV, hP⟩ := m.connectionEnd_bounds _ h
  apply m.connectionEnd_writesTail hC ?_ ?_ hwt.2.2
  · intro v hv
    cases v with
    | none => exact absurd rfl (hnil _ hv)
    | some x =>
      have hx : x.Size < 2 ^ 64 := hV _ hv
      obtain ⟨hI, hF⟩ := x.version_bounds _ hx
      exact ⟨x, rfl, hI, hF, by rw [x.version_wire_length hx]; exact hx⟩
  · intro c hc
    have hx := hP c hc
    obtain ⟨h1, h2, h3⟩ := c.counterparty_bounds _ hx
    refine ⟨by rw [c.counterparty_wire_length hx]; exact hx, h1, h2, ?_⟩
    intro p hp
    exact ⟨p.merkle_bounds _ (h3 p hp), by rw [p.merkle_wire_length (h3 p hp)]; exact h3 p hp⟩

theorem Version.version_Marshal_eq (v : Version) (h : v.Size < 2 ^ 64) : v.Marshal = .ok v.wire :=
  marshalWith_eq _ _ _ (v.version_writesTail_of_size h) (v.version_wire_length h)

theorem MerklePrefix.merkle_Marshal_eq (p : MerklePrefix) (h : p.Size < 2 ^ 64) :
    p.Marshal = .ok p.wire :=
  marshalWith_eq _ _ _ (p.merkle_writesTail_of_size h) (p.merkle_wire_length h)

theorem Counterparty.counterparty_Marshal_eq (c : Counterparty) (h : c.Size < 2 ^ 64) :
    c.Marshal = .ok c.wire :=
  marshalWith_eq _ _ _ (c.counterparty_writesTail_of_size h) (c.counterparty_wire_length h)

theorem ConnectionEnd.connectionEnd_Marshal_eq (m : ConnectionEnd) (hnil : m.NoNilVersion)
    (hwt : m.WellTyped) (h : m.Size < 2 ^ 64) : m.Marshal = .ok m.wire :=
  marshalWith_eq _ _ _ (m.connectionEnd_writesTail_of_size hnil hwt h) (m.connectionEnd_wire_length hnil hwt h)

/-! ## Reading -/

theorem loadByte_at (dAtA pre rest : List Byte) (b : Byte) (h : dAtA = pre ++ b :: rest) :
    loadByte dAtA (pre.length : Int) = .ok b := by
  subst h
  unfold loadByte
  rw [if_pos (by omega)]
  simp only [Int.toNat_ofNat]
  rw [List.getElem?_append_right (Nat.le_refl _)]
  simp

theorem or_split (v s w : Nat) :
    ((v % 128) <<< s) % 2 ^ w ||| ((v / 128) <<< (s + 7)) % 2 ^ w = (v <<< s) % 2 ^ w := by
  apply Nat.eq_of_testBit_eq
  intro i
  have e128 : (128 : Nat) = 2 ^ 7 := by decide
  rw [e128]
  simp only [Nat.testBit_or, Nat.testBit_mod_two_pow, Nat.testBit_shiftLeft,
    ← Nat.shiftRight_eq_div_pow, Nat.testBit_shiftRight]
  by_cases hw : i < w <;> simp only [hw, decide_True, decide_False, Bool.true_and, Bool.false_and,
    Bool.or_false]
  by_cases hs : i ≥ s
  · simp only [hs, decide_True, Bool.true_and]
    by_cases h7 : i - s < 7
    · have : ¬ (i ≥ s + 7) := by omega
      simp [h7, this]
    · have h8 : i ≥ s + 7 := by omega
      have e : 7 + (i - (s + 7)) = i - s := by omega
      simp [h7, h8, e]
  · have : ¬ (i ≥ s + 7) := by omega
    simp [hs, this]

theorem contByte_and (v : Nat) : (uint8 (v % 128 + 128)).val &&& 0x7F = v % 128 := by
  rw [and_0x7F, uint8_val]
  have := Nat.mod_lt v (show 128 > 0 by decide)
  omega

theorem contByte_ge (v : Nat) : ¬ (uint8 (v % 128 + 128)).val < 0x80 := by
  rw [uint8_val]
  have := Nat.mod_lt v (show 128 > 0 by decide)
  omega

theorem lastByte_and (v : Nat) (h : v < 128) : (uint8 v).val &&& 0x7F = v := by
  rw [and_0x7F, uint8_val]
  omega

theorem lastByte_lt (v : Nat) (h : v < 128) : (uint8 v).val < 0x80 := by
  rw [uint8_val]
  omega

theorem readVarint_aux (w : Nat) (dAtA : List Byte) (n : Nat) :
    ∀ (pre rest : List Byte) (v shift x : Nat), dAtA = pre ++ (varintAux n v ++ rest) →
      v < 2 ^ (7 * n) → 0 < n → shift + 7 * n ≤ 70 →
      readVarint w dAtA n shift (pre.length : Int) x
        = .ok (x ||| (v <<< shift) % 2 ^ w, ((pre.length + (varintAux n v).length : Nat) : Int)) := by
  induction n with
  | zero => intro _ _ _ _ _ _ _ h; omega
  | succ n ih =>
    intro pre rest v shift x hd hv _ hs
    unfold readVarint
    rw [if_neg (by omega)]
    unfold varintAux at hd ⊢
    by_cases h : v < 128
    · rw [if_pos h] at hd ⊢
      rw [if_neg (by subst hd; simp), loadByte_at dAtA pre rest (uint8 v) (by simpa using hd)]
      simp only [lastByte_and v h, lastByte_lt v h, if_true]
      simp
    · rw [if_neg h] at hd ⊢
      rw [if_neg (by subst hd; simp; omega), loadByte_at dAtA pre _ (uint8 (v % 128 + 128))
        (by simpa using hd)]
      simp only [contByte_and, contByte_ge, if_false]
      have hv2 : v / 128 < 2 ^ (7 * n) := by
        rw [Nat.div_lt_iff_lt_mul (by decide)]
        have : 2 ^ (7 * (n + 1)) = 2 ^ (7 * n) * 128 := by
          rw [Nat.mul_add, Nat.pow_add]
        omega
      have hn : 0 < n := by
        rcases Nat.eq_zero_or_pos n with h0 | h0
        · subst h0; simp at hv2; omega
        · exact h0
      have h3 := ih (pre ++ [uint8 (v % 128 + 128)]) rest (v / 128) (shift + 7)
        (x ||| (v % 128) <<< shift % 2 ^ w) (by simpa using hd) hv2 hn (by omega)
      simp only [List.length_append, List.length_singleton, Nat.cast_add, Nat.cast_one] at h3
      rw [h3, Nat.or_assoc, or_split]
      simp only [List.length_cons, Nat.cast_add, Nat.cast_one]
      congr 2
      omega

theorem readVarint_varint (w : Nat) (dAtA pre rest : List Byte) (v : Nat)
    (hd : dAtA = pre ++ (varint v ++ rest)) (hv : v < 2 ^ 64) :
    readVarint w dAtA 10 0 (pre.length : Int) 0
      = .ok (v % 2 ^ w, ((pre.length + (varint v).length : Nat) : Int)) := by
  have hv70 : v < 2 ^ (7 * 10) :=
    Nat.lt_of_lt_of_le hv (Nat.pow_le_pow_right (by decide) (by decide))
  have := readVarint_aux w dAtA 10 pre rest v 0 0 hd hv70 (by decide) (by decide)
  simpa [varint] using this

theorem varint_small (t : Nat) (h : t < 128) : varint t = [uint8 t] := by
  simp [varint, varintAux, h]

theorem readVarint_tag (dAtA pre rest : List Byte) (t : Byte) (ht : t.val < 128)
    (hd : dAtA = pre ++ t :: rest) :
    readVarint 64 dAtA 10 0 (pre.length : Int) 0 = .ok (t.val, (pre.length : Int) + 1) := by
  have e : varint t.val = [t] := by
    rw [varint_small _ ht]
    congr 1
    apply Fin.ext
    rw [uint8_val]; omega
  have := readVarint_varint 64 dAtA pre rest t.val (by rw [e]; simpa using hd) (by omega)
  rw [this, e]
  have : t.val % 2 ^ 64 = t.val := Nat.mod_eq_of_lt (by omega)
  rw [this]
  simp

theorem slice_at (dAtA pre a post : List Byte) (hd : dAtA = pre ++ (a ++ post)) :
    slice dAtA (pre.length : Int) ((pre.length + a.length : Nat) : Int) = .ok a := by
  subst hd
  unfold slice
  rw [if_pos (by simp)]
  simp only [Int.toNat_ofNat]
  rw [← List.append_assoc, List.take_left' (by simp), List.drop_left' rfl]

theorem toInt64_natCast (n : Nat) (h : n < 2 ^ 63) : toInt64 n = (n : Int) := by
  unfold toInt64
  have : n % 2 ^ 64 = n := Nat.mod_eq_of_lt (by omega)
  rw [this, if_pos h]

theorem addInt_natCast (a b : Nat) (h : a + b < 2 ^ 63) :
    addInt (a : Int) (b : Int) = ((a + b : Nat) : Int) := by
  unfold addInt
  have : ((a : Int) + (b : Int)) = ((a + b : Nat) : Int) := by push_cast; rfl
  rw [this, toUint64_natCast _ (by omega), toInt64_natCast _ h]

theorem readBytes_at (dAtA pre s post : List Byte) (hd : dAtA = pre ++ (varint s.length ++ (s ++ post)))
    (hl : dAtA.length < 2 ^ 63) :
    readBytes dAtA (pre.length : Int)
      = .ok (s, ((pre.length + ((varint s.length).length + s.length) : Nat) : Int)) := by
  have hlen : dAtA.length = pre.length + ((varint s.length).length + (s.length + post.length)) := by
    rw [hd]; simp
  unfold readBytes readLength
  rw [readVarint_varint 64 dAtA pre (s ++ post) s.length hd (by omega)]
  have e1 : s.length % 2 ^ 64 = s.length := Nat.mod_eq_of_lt (by omega)
  simp only [e1]
  rw [toInt64_natCast _ (by omega), addInt_natCast _ _ (by omega)]
  rw [if_neg (by omega), if_neg (by omega), if_neg (by omega)]
  simp only []
  have h2 := slice_at dAtA (pre ++ varint s.length) s post (by rw [hd]; simp)
  simp only [List.length_append] at h2
  rw [h2]
  simp only [Nat.add_assoc]

/-! ## The field loop -/

theorem unmarshalLoop_items {α : Type} (field : List Byte → Int → α → Except Error (α × Int))
    (items : List (List Byte × (α → α))) :
    (∀ it ∈ items, DecodesField field it.1 it.2) →
    ∀ (dAtA pre : List Byte) (m : α) (fuel : Nat), dAtA = pre ++ itemBytes items →
      dAtA.length < 2 ^ 63 → (itemBytes items).length < fuel →
      unmarshalLoop field dAtA fuel (pre.length : Int) m = .ok (applyItems items m) := by
  induction items with
  | nil =>
    intro _ dAtA pre m fuel hd _ hf
    cases fuel with
    | zero => omega
    | succ fuel =>
      have : dAtA = pre := by simpa [itemBytes] using hd
      subst this
      unfold unmarshalLoop
      rw [if_neg (by omega), if_neg (by omega)]
      rfl
  | cons it rest ih =>
    intro h dAtA pre m fuel hd hl hf
    obtain ⟨hne, hstep⟩ := h it (List.mem_cons_self _ _)
    have hb : itemBytes (it :: rest) = it.1 ++ itemBytes rest := by
      simp [itemBytes]
    rw [hb] at hd hf
    have hpos : 0 < it.1.length := List.length_pos.2 hne
    cases fuel with
    | zero => omega
    | succ fuel =>
      unfold unmarshalLoop
      rw [if_pos (by rw [hd]; simp; omega), hstep dAtA pre _ m hd hl]
      simp only []
      have := ih (fun x hx => h x (List.mem_cons_of_mem _ hx)) dAtA (pre ++ it.1) (it.2 m) fuel
        (by rw [hd]; simp) hl (by simp at hf; omega)
      simp only [List.length_append] at this
      rw [this]
      rfl

theorem unmarshal_items {α : Type} (field : List Byte → Int → α → Except Error (α × Int))
    (items : List (List Byte × (α → α))) (h : ∀ it ∈ items, DecodesField field it.1 it.2)
    (hl : (itemBytes items).length < 2 ^ 63) (m : α) :
    unmarshalLoop field (itemBytes items) ((itemBytes items).length + 1) 0 m
      = .ok (applyItems items m) := by
  have := unmarshalLoop_items field items h (itemBytes items) [] m ((itemBytes items).length + 1)
    (by simp) hl (by omega)
  simpa using this

theorem applyItems_append {α : Type} (a b : List (List Byte × (α → α))) (m : α) :
    applyItems (a ++ b) m = applyItems b (applyItems a m) := by
  simp [applyItems, List.foldl_append]

theorem itemBytes_append {α : Type} (a b : List (List Byte × (α → α))) :
    itemBytes (a ++ b) = itemBytes a ++ itemBytes b := by
  simp [itemBytes]

/-! ### Tags -/

theorem tag_val_1_2 : (tag 1 2).val < 128 ∧ toInt32 ((tag 1 2).val >>> 3) = 1
    ∧ (tag 1 2).val &&& 0x7 = 2 := by decide

theorem tag_val_2_2 : (tag 2 2).val < 128 ∧ toInt32 ((tag 2 2).val >>> 3) = 2
    ∧ (tag 2 2).val &&& 0x7 = 2 := by decide

theorem tag_val_3_2 : (tag 3 2).val < 128 ∧ toInt32 ((tag 3 2).val >>> 3) = 3
    ∧ (tag 3 2).val &&& 0x7 = 2 := by decide

theorem tag_val_4_2 : (tag 4 2).val < 128 ∧ toInt32 ((tag 4 2).val >>> 3) = 4
    ∧ (tag 4 2).val &&& 0x7 = 2 := by decide

theorem tag_val_3_0 : (tag 3 0).val < 128 ∧ toInt32 ((tag 3 0).val >>> 3) = 3
    ∧ (tag 3 0).val &&& 0x7 = 0 := by decide

theorem tag_val_5_0 : (tag 5 0).val < 128 ∧ toInt32 ((tag 5 0).val >>> 3) = 5
    ∧ (tag 5 0).val &&& 0x7 = 0 := by decide

theorem lenField_ne_nil (n : Nat) (s : List Byte) : lenField n s ≠ [] := by
  simp [lenField]

theorem varintField_ne_nil (n v : Nat) : varintField n v ≠ [] := by
  simp [varintField]

theorem readBytes_after_tag (dAtA pre s post : List Byte) (n : Nat)
    (hd : dAtA = pre ++ (lenField n s ++ post)) (hl : dAtA.length < 2 ^ 63) :
    readBytes dAtA ((pre.length : Int) + 1)
      = .ok (s, ((pre.length + (lenField n s).length : Nat) : Int)) := by
  have := readBytes_at dAtA (pre ++ [tag n 2]) s post (by rw [hd]; simp [lenField]) hl
  simp only [List.length_append, List.length_singleton, Nat.cast_add, Nat.cast_one] at this
  rw [this]
  simp only [lenField, List.length_cons, List.length_append]
  congr 2
  push_cast
  omega

theorem readVarint_after_tag (w : Nat) (dAtA pre post : List Byte) (n v : Nat)
    (hd : dAtA = pre ++ (varintField n v ++ post)) (hv : v < 2 ^ 64) :
    readVarint w dAtA 10 0 ((pre.length : Int) + 1) 0
      = .ok (v % 2 ^ w, ((pre.length + (varintField n v).length : Nat) : Int)) := by
  have := readVarint_varint w dAtA (pre ++ [tag n 0]) post v (by rw [hd]; simp [varintField]) hv
  simp only [List.length_append, List.length_singleton, Nat.cast_add, Nat.cast_one] at this
  rw [this]
  simp only [varintField, List.length_cons]
  congr 2
  push_cast
  omega

theorem readTag_lenField (dAtA pre s post : List Byte) (n : Nat) (ht : (tag n 2).val < 128)
    (hd : dAtA = pre ++ (lenField n s ++ post)) :
    readVarint 64 dAtA 10 0 (pre.length : Int) 0 = .ok ((tag n 2).val, (pre.length : Int) + 1) :=
  readVarint_tag dAtA pre ((varint s.length ++ s) ++ post) (tag n 2) ht
    (by rw [hd]; simp [lenField])

theorem readTag_varintField (dAtA pre post : List Byte) (n v : Nat) (ht : (tag n 0).val < 128)
    (hd : dAtA = pre ++ (varintField n v ++ post)) :
    readVarint 64 dAtA 10 0 (pre.length : Int) 0 = .ok ((tag n 0).val, (pre.length : Int) + 1) :=
  readVarint_tag dAtA pre (varint v ++ post) (tag n 0) ht
    (by rw [hd]; simp [varintField])

/-! ### The fields of Version -/

theorem Version.decodes_Identifier (s : List Byte) :
    DecodesField Version.unmarshalField (lenField 1 s) (fun x => { x with Identifier := s }) := by
  refine ⟨lenField_ne_nil _ _, ?_⟩
  intro dAtA pre post m hd hl
  unfold Version.unmarshalField
  rw [readTag_lenField dAtA pre s post 1 tag_val_1_2.1 hd]
  simp only [tag_val_1_2.2.1, tag_val_1_2.2.2]
  rw [readBytes_after_tag dAtA pre s post 1 hd hl]
  simp

theorem Version.decodes_Feature (s : List Byte) :
    DecodesField Version.unmarshalField (lenField 2 s)
      (fun x => { x with Features := x.Features ++ [s] }) := by
  refine ⟨lenField_ne_nil _ _, ?_⟩
  intro dAtA pre post m hd hl
  unfold Version.unmarshalField
  rw [readTag_lenField dAtA pre s post 2 tag_val_2_2.1 hd]
  simp only [tag_val_2_2.2.1, tag_val_2_2.2.2]
  rw [readBytes_after_tag dAtA pre s post 2 hd hl]
  simp

/-! ### Version round trip -/

theorem Version.version_itemBytes_items (v : Version) : itemBytes v.items = v.wire := by
  unfold Version.items Version.wire
  rw [itemBytes_append]
  congr 1
  · by_cases h : v.Identifier = [] <;> simp [h, itemBytes]
  · simp [itemBytes, Function.comp_def]

theorem Version.version_decodes_items (v : Version) :
    ∀ it ∈ v.items, DecodesField Version.unmarshalField it.1 it.2 := by
  intro it hit
  unfold Version.items at hit
  rcases List.mem_append.1 hit with h | h
  · by_cases h0 : v.Identifier = []
    · simp [h0] at h
    · simp only [if_neg h0, List.mem_singleton] at h
      subst h
      exact Version.decodes_Identifier _
  · obtain ⟨s, _, hs⟩ := List.mem_map.1 h
    subst hs
    exact Version.decodes_Feature _

theorem applyItems_features (fs : List (List Byte)) (x : Version) :
    applyItems (fs.map (fun s => (lenField 2 s,
      fun x : Version => { x with Features := x.Features ++ [s] }))) x
      = { x with Features := x.Features ++ fs } := by
  induction fs generalizing x with
  | nil => simp [applyItems]
  | cons s rest ih =>
    simp only [List.map_cons, applyItems, List.foldl_cons]
    have := ih { x with Features := x.Features ++ [s] }
    simp only [applyItems] at this
    rw [this]
    simp

theorem Version.version_applyItems_items (v x : Version) : applyItems v.items x = x.merge v := by
  unfold Version.items
  rw [applyItems_append, applyItems_features]
  by_cases h : v.Identifier = [] <;> simp [h, applyItems, Version.merge]

theorem Version.version_merge_empty (v : Version) : Version.merge {} v = v := by
  cases v with
  | mk i f => by_cases h : i = [] <;> simp [Version.merge, h]

theorem Version.version_Unmarshal_wire (x v : Version) (h : v.wire.length < 2 ^ 63) :
    Version.Unmarshal x v.wire = .ok (x.merge v) := by
  unfold Version.Unmarshal
  rw [← v.version_itemBytes_items] at h ⊢
  rw [unmarshal_items _ _ v.version_decodes_items h, v.version_applyItems_items]

/-! ### MerklePrefix round trip -/

theorem MerklePrefix.decodes_KeyPrefix (s : List Byte) :
    DecodesField MerklePrefix.unmarshalField (lenField 1 s) (fun x => { x with KeyPrefix := s }) := by
  refine ⟨lenField_ne_nil _ _, ?_⟩
  intro dAtA pre post m hd hl
  unfold MerklePrefix.unmarshalField
  rw [readTag_lenField dAtA pre s post 1 tag_val_1_2.1 hd]
  simp only [tag_val_1_2.2.1, tag_val_1_2.2.2]
  rw [readBytes_after_tag dAtA pre s post 1 hd hl]
  simp

theorem MerklePrefix.merkle_itemBytes_items (p : MerklePrefix) : itemBytes p.items = p.wire := by
  unfold MerklePrefix.items MerklePrefix.wire
  by_cases h : p.KeyPrefix = [] <;> simp [h, itemBytes]

theorem MerklePrefix.merkle_decodes_items (p : MerklePrefix) :
    ∀ it ∈ p.items, DecodesField MerklePrefix.unmarshalField it.1 it.2 := by
  intro it hit
  unfold MerklePrefix.items at hit
  by_cases h0 : p.KeyPrefix = []
  · simp [h0] at hit
  · simp only [if_neg h0, List.mem_singleton] at hit
    subst hit
    exact MerklePrefix.decodes_KeyPrefix _

theorem MerklePrefix.merkle_applyItems_items (p x : MerklePrefix) : applyItems p.items x = x.merge p := by
  unfold MerklePrefix.items
  by_cases h : p.KeyPrefix = [] <;> simp [h, applyItems, MerklePrefix.merge]

theorem MerklePrefix.merkle_merge_empty (p : MerklePrefix) : MerklePrefix.merge {} p = p := by
  cases p with
  | mk k => by_cases h : k = [] <;> simp [MerklePrefix.merge, h]

theorem MerklePrefix.merkle_Unmarshal_wire (x p : MerklePrefix) (h : p.wire.length < 2 ^ 63) :
    MerklePrefix.Unmarshal x p.wire = .ok (x.merge p) := by
  unfold MerklePrefix.Unmarshal
  rw [← p.merkle_itemBytes_items] at h ⊢
  rw [unmarshal_items _ _ p.merkle_decodes_items h, p.merkle_applyItems_items]

/-! ### Counterparty round trip -/

theorem lenField_payload_lt (dAtA pre s post : List Byte) (n : Nat)
    (hd : dAtA = pre ++ (lenField n s ++ post)) (hl : dAtA.length < 2 ^ 63) :
    s.length < 2 ^ 63 := by
  have : dAtA.length = pre.length + ((lenField n s).length + post.length) := by
    rw [hd]; simp
  simp only [lenField, List.length_cons, List.length_append] at this
  omega

theorem Counterparty.counterparty_decodes_ClientId (s : List Byte) :
    DecodesField Counterparty.unmarshalField (lenField 1 s) (fun x => { x with ClientId := s }) := by
  refine ⟨lenField_ne_nil _ _, ?_⟩
  intro dAtA pre post m hd hl
  unfold Counterparty.unmarshalField
  rw [readTag_lenField dAtA pre s post 1 tag_val_1_2.1 hd]
  simp only [tag_val_1_2.2.1, tag_val_1_2.2.2]
  rw [readBytes_after_tag dAtA pre s post 1 hd hl]
  simp

theorem Counterparty.decodes_ConnectionId (s : List Byte) :
    DecodesField Counterparty.unmarshalField (lenField 2 s)
      (fun x => { x with ConnectionId := s }) := by
  refine ⟨lenField_ne_nil _ _, ?_⟩
  intro dAtA pre post m hd hl
  unfold Counterparty.unmarshalField
  rw [readTag_lenField dAtA pre s post 2 tag_val_2_2.1 hd]
  simp only [tag_val_2_2.2.1, tag_val_2_2.2.2]
  rw [readBytes_after_tag dAtA pre s post 2 hd hl]
  simp

theorem Counterparty.decodes_Prefix (p : MerklePrefix) :
    DecodesField Counterparty.unmarshalField (lenField 3 p.wire)
      (fun x => { x with Prefix := some (MerklePrefix.merge (x.Prefix.getD {}) p) }) := by
  refine ⟨lenField_ne_nil _ _, ?_⟩
  intro dAtA pre post m hd hl
  unfold Counterparty.unmarshalField
  rw [readTag_lenField dAtA pre p.wire post 3 tag_val_3_2.1 hd]
  simp only [tag_val_3_2.2.1, tag_val_3_2.2.2]
  rw [readBytes_after_tag dAtA pre p.wire post 3 hd hl]
  simp only []
  rw [MerklePrefix.merkle_Unmarshal_wire _ _ (lenField_payload_lt dAtA pre _ post 3 hd hl)]
  simp

theorem Counterparty.counterparty_itemBytes_items (c : Counterparty) : itemBytes c.items = c.wire := by
  unfold Counterparty.items Counterparty.wire
  rw [itemBytes_append, itemBytes_append]
  congr 1
  · congr 1
    · by_cases h : c.ClientId = [] <;> simp [h, itemBytes]
    · by_cases h : c.ConnectionId = [] <;> simp [h, itemBytes]
  · cases c.Prefix <;> simp [itemBytes, optLenField]

theorem Counterparty.counterparty_decodes_items (c : Counterparty) :
    ∀ it ∈ c.items, DecodesField Counterparty.unmarshalField it.1 it.2 := by
  intro it hit
  unfold Counterparty.items at hit
  rcases List.mem_append.1 hit with h | h
  · rcases List.mem_append.1 h with h | h
    · by_cases h0 : c.ClientId = []
      · simp [h0] at h
      · simp only [if_neg h0, List.mem_singleton] at h
        subst h
        exact Counterparty.counterparty_decodes_ClientId _
    · by_cases h0 : c.ConnectionId = []
      · simp [h0] at h
      · simp only [if_neg h0, List.mem_singleton] at h
        subst h
        exact Counterparty.decodes_ConnectionId _
  · cases hp : c.Prefix with
    | none => simp [hp] at h
    | some p =>
      simp only [hp, Option.map, Option.toList, List.mem_singleton] at h
      subst h
      exact Counterparty.decodes_Prefix p

theorem Counterparty.counterparty_applyItems_items (c x : Counterparty) : applyItems c.items x = x.merge c := by
  unfold Counterparty.items
  rw [applyItems_append, applyItems_append]
  by_cases h1 : c.ClientId = [] <;> by_cases h2 : c.ConnectionId = [] <;>
    cases hp : c.Prefix <;>
    simp [h1, h2, hp, applyItems, Counterparty.merge, MerklePrefix.mergeOpt]

theorem Counterparty.counterparty_merge_empty (c : Counterparty) : Counterparty.merge {} c = c := by
  cases c with
  | mk a b p =>
    by_cases h1 : a = [] <;> by_cases h2 : b = [] <;> cases p <;>
      simp [Counterparty.merge, MerklePrefix.mergeOpt, MerklePrefix.merkle_merge_empty, h1, h2]

theorem Counterparty.counterparty_Unmarshal_wire (x c : Counterparty) (h : c.wire.length < 2 ^ 63) :
    Counterparty.Unmarshal x c.wire = .ok (x.merge c) := by
  unfold Counterparty.Unmarshal
  rw [← c.counterparty_itemBytes_items] at h ⊢
  rw [unmarshal_items _ _ c.counterparty_decodes_items h, c.counterparty_applyItems_items]

/-! ### ConnectionEnd round trip -/

theorem toInt32_toUint64 (s : Int) (h1 : -(2 : Int) ^ 31 ≤ s) (h2 : s < 2 ^ 31) :
    toInt32 (toUint64 s % 2 ^ 32) = s := by
  unfold toInt32 toUint64
  have e : ((s % 2 ^ 64).toNat % 2 ^ 32 % 2 ^ 32 : Nat) = (s % 2 ^ 32).toNat := by
    omega
  rw [e]
  split <;> omega

theorem ConnectionEnd.connectionEnd_decodes_ClientId (s : List Byte) :
    DecodesField ConnectionEnd.unmarshalField (lenField 1 s) (fun x => { x with ClientId := s }) := by
  refine ⟨lenField_ne_nil _ _, ?_⟩
  intro dAtA pre post m hd hl
  unfold ConnectionEnd.unmarshalField
  rw [readTag_lenField dAtA pre s post 1 tag_val_1_2.1 hd]
  simp only [tag_val_1_2.2.1, tag_val_1_2.2.2]
  rw [readBytes_after_tag dAtA pre s post 1 hd hl]
  simp

theorem ConnectionEnd.decodes_Version (v : Option Version) :
    DecodesField ConnectionEnd.unmarshalField (lenField 2 (Version.wirePtr v))
      (fun x => { x with Versions := x.Versions ++ [some (v.getD {})] }) := by
  refine ⟨lenField_ne_nil _ _, ?_⟩
  intro dAtA pre post m hd hl
  unfold ConnectionEnd.unmarshalField
  rw [readTag_lenField dAtA pre _ post 2 tag_val_2_2.1 hd]
  simp only [tag_val_2_2.2.1, tag_val_2_2.2.2]
  rw [readBytes_after_tag dAtA pre _ post 2 hd hl]
  simp only []
  have hlen := lenField_payload_lt dAtA pre _ post 2 hd hl
  cases v with
  | none =>
    simp only [Version.wirePtr]
    have : Version.Unmarshal {} [] = .ok {} := by decide
    rw [this]
    simp
  | some v =>
    simp only [Version.wirePtr] at hlen ⊢
    rw [Version.version_Unmarshal_wire _ _ hlen, Version.version_merge_empty]
    simp

theorem ConnectionEnd.decodes_State (s : Int) (h1 : -(2 : Int) ^ 31 ≤ s) (h2 : s < 2 ^ 31) :
    DecodesField ConnectionEnd.unmarshalField (varintField 3 (toUint64 s))
      (fun x => { x with State := s }) := by
  refine ⟨varintField_ne_nil _ _, ?_⟩
  intro dAtA pre post m hd hl
  unfold ConnectionEnd.unmarshalField
  rw [readTag_varintField dAtA pre post 3 _ tag_val_3_0.1 hd]
  simp only [tag_val_3_0.2.1, tag_val_3_0.2.2]
  rw [readVarint_after_tag 32 dAtA pre post 3 _ hd (toUint64_lt s)]
  simp only []
  rw [toInt32_toUint64 s h1 h2]
  simp

theorem ConnectionEnd.decodes_Counterparty (c : connection.Counterparty) :
    DecodesField ConnectionEnd.unmarshalField (lenField 4 c.wire)
      (fun x => { x with Counterparty := some (Counterparty.merge (x.Counterparty.getD {}) c) }) := by
  refine ⟨lenField_ne_nil _ _, ?_⟩
  intro dAtA pre post m hd hl
  unfold ConnectionEnd.unmarshalField
  rw [readTag_lenField dAtA pre c.wire post 4 tag_val_4_2.1 hd]
  simp only [tag_val_4_2.2.1, tag_val_4_2.2.2]
  rw [readBytes_after_tag dAtA pre c.wire post 4 hd hl]
  simp only []
  rw [Counterparty.counterparty_Unmarshal_wire _ _ (lenField_payload_lt dAtA pre _ post 4 hd hl)]
  simp

theorem ConnectionEnd.decodes_DelayPeriod (v : Nat) (hv : v < 2 ^ 64) :
    DecodesField ConnectionEnd.unmarshalField (varintField 5 v)
      (fun x => { x with DelayPeriod := v }) := by
  refine ⟨varintField_ne_nil _ _, ?_⟩
  intro dAtA pre post m hd hl
  unfold ConnectionEnd.unmarshalField
  rw [readTag_varintField dAtA pre post 5 _ tag_val_5_0.1 hd]
  simp only [tag_val_5_0.2.1, tag_val_5_0.2.2]
  rw [readVarint_after_tag 64 dAtA pre post 5 _ hd hv, Nat.mod_eq_of_lt hv]
  simp

theorem ConnectionEnd.map_fst_items (m : ConnectionEnd) : m.items.map Prod.fst = m.fields := by
  unfold ConnectionEnd.items ConnectionEnd.fields
  simp only [List.map_append, List.map_map]
  congr 1
  · congr 1
    · congr 1
      · congr 1
        by_cases h : m.ClientId = [] <;> simp [h]
      · by_cases h : m.State = 0 <;> simp [h]
    · cases m.Counterparty <;> simp
  · by_cases h : m.DelayPeriod = 0 <;> simp [h]

theorem ConnectionEnd.connectionEnd_itemBytes_items (m : ConnectionEnd) : itemBytes m.items = m.wire := by
  unfold itemBytes ConnectionEnd.wire
  rw [m.map_fst_items]

theorem ConnectionEnd.connectionEnd_decodes_items (m : ConnectionEnd) (hwt : m.WellTyped) :
    ∀ it ∈ m.items, DecodesField ConnectionEnd.unmarshalField it.1 it.2 := by
  intro it hit
  unfold ConnectionEnd.items at hit
  rcases List.mem_append.1 hit with h | h
  · rcases List.mem_append.1 h with h | h
    · rcases List.mem_append.1 h with h | h
      · rcases List.mem_append.1 h with h | h
        · by_cases h0 : m.ClientId = []
          · simp [h0] at h
          · simp only [if_neg h0, List.mem_singleton] at h
            subst h
            exact ConnectionEnd.connectionEnd_decodes_ClientId _
        · obtain ⟨v, _, hv⟩ := List.mem_map.1 h
          subst hv
          exact ConnectionEnd.decodes_Version v
      · by_cases h0 : m.State = 0
        · simp [h0] at h
        · simp only [if_neg h0, List.mem_singleton] at h
          subst h
          exact ConnectionEnd.decodes_State _ hwt.1 hwt.2.1
    · cases hp : m.Counterparty with
      | none => simp [hp] at h
      | some c =>
        simp only [hp, Option.map, Option.toList, List.mem_singleton] at h
        subst h
        exact ConnectionEnd.decodes_Counterparty c
  · by_cases h0 : m.DelayPeriod = 0
    · simp [h0] at h
    · simp only [if_neg h0, List.mem_singleton] at h
      subst h
      exact ConnectionEnd.decodes_DelayPeriod _ hwt.2.2

theorem applyItems_versions (vs : List (Option Version)) (x : ConnectionEnd) :
    applyItems (vs.map (fun v => (lenField 2 (Version.wirePtr v),
      fun x : ConnectionEnd => { x with Versions := x.Versions ++ [some (v.getD {})] }))) x
      = { x with Versions := x.Versions ++ vs.map (fun v => some (v.getD {})) } := by
  induction vs generalizing x with
  | nil => simp [applyItems]
  | cons s rest ih =>
    simp only [List.map_cons, applyItems, List.foldl_cons]
    have := ih { x with Versions := x.Versions ++ [some (s.getD {})] }
    simp only [applyItems] at this
    rw [this]
    simp

theorem ConnectionEnd.connectionEnd_applyItems_items (m x : ConnectionEnd) :
    applyItems m.items x = x.merge m := by
  unfold ConnectionEnd.items
  rw [applyItems_append, applyItems_append, applyItems_append, applyItems_append,
    applyItems_versions]
  by_cases h1 : m.ClientId = [] <;> by_cases h2 : m.State = 0 <;>
    by_cases h3 : m.DelayPeriod = 0 <;> cases hp : m.Counterparty <;>
    simp [h1, h2, h3, hp, applyItems, ConnectionEnd.merge, Counterparty.mergeOpt]

theorem map_some_getD (vs : List (Option Version)) (h : ∀ v ∈ vs, v ≠ none) :
    vs.map (fun v => some (v.getD {})) = vs := by
  induction vs with
  | nil => rfl
  | cons v rest ih =>
    simp only [List.map_cons]
    rw [ih (fun x hx => h x (List.mem_cons_of_mem _ hx))]
    cases v with
    | none => exact absurd rfl (h none (List.mem_cons_self _ _))
    | some v => rfl

theorem ConnectionEnd.connectionEnd_merge_empty (m : ConnectionEnd) (hnil : m.NoNilVersion) :
    ConnectionEnd.merge {} m = m := by
  have hv := map_some_getD m.Versions hnil
  cases m with
  | mk a vs s c d =>
    simp only at hv
    by_cases h1 : a = [] <;> by_cases h2 : s = 0 <;> by_cases h3 : d = 0 <;> cases c <;>
      simp [ConnectionEnd.merge, Counterparty.mergeOpt, Counterparty.counterparty_merge_empty, h1, h2, h3, hv]

theorem ConnectionEnd.connectionEnd_Unmarshal_wire (x m : ConnectionEnd) (hwt : m.WellTyped)
    (h : m.wire.length < 2 ^ 63) :
    ConnectionEnd.Unmarshal x m.wire = .ok (x.merge m) := by
  unfold ConnectionEnd.Unmarshal
  rw [← m.connectionEnd_itemBytes_items] at h ⊢
  rw [unmarshal_items _ _ (m.connectionEnd_decodes_items hwt) h, m.connectionEnd_applyItems_items]

/-! ## Unknown fields -/

theorem skipVarint_at (dAtA : List Byte) (n : Nat) :
    ∀ (pre body rest : List Byte) (shift : Nat), dAtA = pre ++ (body ++ rest) →
      isVarintBytes body = true → body.length ≤ n → shift + 7 * n ≤ 70 →
      skipVarint dAtA n shift (pre.length : Int)
        = .ok ((pre.length + body.length : Nat) : Int) := by
  induction n with
  | zero =>
    intro pre body rest shift _ hb hl _
    cases body with
    | nil => simp [isVarintBytes] at hb
    | cons b bs => simp at hl
  | succ n ih =>
    intro pre body rest shift hd hb hl hs
    unfold skipVarint
    rw [if_neg (by omega)]
    have e : (pre.length : Int) + 1 - 1 = (pre.length : Int) := by omega
    match body, hb, hl with
    | [b], hb, _ =>
      simp only [isVarintBytes, decide_eq_true_eq] at hb
      rw [if_neg (by subst hd; simp), e, loadByte_at dAtA pre rest b (by simpa using hd)]
      simp [hb]
    | b :: b' :: bs, hb, hl =>
      simp only [isVarintBytes, Bool.and_eq_true, decide_eq_true_eq] at hb
      rw [if_neg (by subst hd; simp; omega), e,
        loadByte_at dAtA pre (b' :: bs ++ rest) b (by simpa using hd)]
      have hge : ¬ b.val < 0x80 := by omega
      simp only [hge, if_false]
      have := ih (pre ++ [b]) (b' :: bs) rest (shift + 7) (by simpa using hd) hb.2
        (by simp at hl ⊢; omega) (by omega)
      simp only [List.length_append, List.length_singleton, Nat.cast_add, Nat.cast_one] at this
      rw [this]
      simp only [List.length_cons]
      congr 1
      push_cast
      omega

theorem tag_arith (n wt : Nat) (hn : n < 2 ^ 29) (hwt : wt < 8) :
    (n <<< 3 ||| wt) < 2 ^ 64 ∧ (n <<< 3 ||| wt) >>> 3 = n ∧ (n <<< 3 ||| wt) &&& 0x7 = wt := by
  have h1 : n <<< 3 ||| wt = 8 * n + wt := by
    rw [Nat.shiftLeft_eq, Nat.mul_comm]
    exact (Nat.mul_add_lt_is_or (i := 3) (by simpa using hwt) n).symm
  have h2 : ∀ x : Nat, x &&& 0x7 = x % 8 := fun x => by
    simpa using Nat.and_pow_two_sub_one_eq_mod x 3
  rw [h1, h2, Nat.shiftRight_eq_div_pow]
  refine ⟨by omega, by omega, by omega⟩

theorem skipConnection_rawField (n wt : Nat) (body post : List Byte) (hn : n < 2 ^ 29)
    (hb : WellFormedBody wt body) (hl : (rawField n wt body ++ post).length < 2 ^ 63) :
    skipConnection (rawField n wt body ++ post) = .ok ((rawField n wt body).length : Int) := by
  have hwt : wt < 8 := by
    rcases hb with h | h | h | h <;> omega
  obtain ⟨a1, _, a3⟩ := tag_arith n wt hn hwt
  have htl := varint_length_le (n <<< 3 ||| wt)
  have hpos := varintAux_length_pos 10 (n <<< 3 ||| wt) (by decide)
  generalize hdata : rawField n wt body ++ post = dAtA at hl ⊢
  have hd : dAtA = [] ++ (varint (n <<< 3 ||| wt) ++ (body ++ post)) := by
    rw [← hdata]; simp [rawField]
  have hlen : dAtA.length = (varint (n <<< 3 ||| wt)).length + (body.length + post.length) := by
    rw [hd]; simp
  have hraw : (rawField n wt body).length = (varint (n <<< 3 ||| wt)).length + body.length := by
    simp [rawField]
  have hread := readVarint_varint 64 dAtA [] (body ++ post) _ hd a1
  simp only [List.length_nil, Nat.cast_zero, Nat.zero_add, Nat.mod_eq_of_lt a1] at hread
  unfold skipConnection skipLoop
  rw [if_pos (by unfold varint at hlen; omega), hread]
  simp only [a3]
  have hd2 : dAtA = varint (n <<< 3 ||| wt) ++ (body ++ post) := by simpa using hd
  rcases hb with ⟨h0, hv, hvl⟩ | ⟨h0, hbl⟩ | ⟨h0, payload, hp⟩ | ⟨h0, hbl⟩
  · subst h0
    unfold skipBody
    rw [if_pos rfl, skipVarint_at dAtA 10 _ body post 0 hd2 hv hvl (by decide)]
    simp only []
    rw [if_neg (by omega), if_pos trivial, hraw]
  · subst h0
    unfold skipBody
    rw [if_neg (by decide), if_pos rfl]
    simp only []
    have : addInt ((varint (n <<< 3 ||| 1)).length : Int) 8
        = (((varint (n <<< 3 ||| 1)).length + 8 : Nat) : Int) := by
      have := addInt_natCast (varint (n <<< 3 ||| 1)).length 8 (by omega)
      simpa using this
    rw [this, if_neg (by omega), if_pos trivial, hraw, hbl]
  · subst h0
    unfold skipBody
    rw [if_neg (by decide), if_neg (by decide), if_pos rfl]
    have hbody : body.length = (varint payload.length).length + payload.length := by
      rw [hp]; simp
    have hpl : payload.length < 2 ^ 63 := by omega
    have := readVarint_varint 64 dAtA (varint (n <<< 3 ||| 2)) (payload ++ post) payload.length
      (by rw [hd2, hp]; simp) (by omega)
    rw [this]
    simp only [Nat.mod_eq_of_lt (show payload.length < 2 ^ 64 by omega)]
    rw [toInt64_natCast _ hpl, if_neg (by omega), addInt_natCast _ _ (by omega)]
    simp only []
    rw [if_neg (by omega), if_pos trivial, hraw, hbody]
    congr 1
    push_cast
    omega
  · subst h0
    unfold skipBody
    rw [if_neg (by decide), if_neg (by decide), if_neg (by decide), if_neg (by decide),
      if_neg (by decide), if_pos rfl]
    simp only []
    have : addInt ((varint (n <<< 3 ||| 5)).length : Int) 4
        = (((varint (n <<< 3 ||| 5)).length + 4 : Nat) : Int) := by
      have := addInt_natCast (varint (n <<< 3 ||| 5)).length 4 (by omega)
      simpa using this
    rw [this, if_neg (by omega), if_pos trivial, hraw, hbl]

theorem skipField_rawField (dAtA pre post : List Byte) (n wt : Nat) (body : List Byte)
    (hn : n < 2 ^ 29) (hb : WellFormedBody wt body)
    (hd : dAtA = pre ++ (rawField n wt body ++ post)) (hl : dAtA.length < 2 ^ 63) :
    skipField dAtA (pre.length : Int)
      = .ok ((pre.length + (rawField n wt body).length : Nat) : Int) := by
  have hlen : dAtA.length = pre.length + ((rawField n wt body).length + post.length) := by
    rw [hd]; simp
  unfold skipField
  have hs := slice_at dAtA pre (rawField n wt body ++ post) [] (by rw [hd]; simp)
  have e : ((pre.length + (rawField n wt body ++ post).length : Nat) : Int) = (dAtA.length : Int) := by
    rw [hlen]; simp
  rw [e] at hs
  simp only []
  rw [hs]
  simp only []
  rw [skipConnection_rawField n wt body post hn hb (by simp at hlen ⊢; omega)]
  simp only []
  rw [addInt_natCast _ _ (by omega), if_neg (by omega), if_neg (by omega)]

theorem toInt32_small (n : Nat) (h : n < 2 ^ 29) : toInt32 n = (n : Int) := by
  unfold toInt32
  have : n % 2 ^ 32 = n := Nat.mod_eq_of_lt (by omega)
  rw [this, if_pos (by omega)]

theorem ConnectionEnd.decodes_unknown (n wt : Nat) (body : List Byte) (h6 : 6 ≤ n)
    (hn : n < 2 ^ 29) (hb : WellFormedBody wt body) :
    DecodesField ConnectionEnd.unmarshalField (rawField n wt body) (fun x => x) := by
  have hwt : wt < 8 ∧ wt ≠ 4 := by
    rcases hb with h | h | h | h <;> omega
  obtain ⟨a1, a2, a3⟩ := tag_arith n wt hn hwt.1
  have hpos := varintAux_length_pos 10 (n <<< 3 ||| wt) (by decide)
  constructor
  · intro h
    have h1 : (varint (n <<< 3 ||| wt)).length = 0 := by
      have := congrArg List.length h
      simp only [rawField, List.length_append, List.length_nil] at this
      omega
    unfold varint at h1
    omega
  · intro dAtA pre post m hd hl
    unfold ConnectionEnd.unmarshalField
    have hread := readVarint_varint 64 dAtA pre (body ++ post) (n <<< 3 ||| wt)
      (by rw [hd]; simp [rawField]) a1
    rw [hread]
    simp only [Nat.mod_eq_of_lt a1, a2, a3, toInt32_small n hn]
    rw [if_neg hwt.2, if_neg (by omega), if_neg (by omega), if_neg (by omega), if_neg (by omega),
      if_neg (by omega), if_neg (by omega), skipField_rawField dAtA pre post n wt body hn hb hd hl]

theorem ConnectionEnd.wire_lt (m : ConnectionEnd) (hnil : m.NoNilVersion) (hwt : m.WellTyped)
    (hsz : m.Size < 2 ^ 63) : m.wire.length < 2 ^ 63 := by
  rw [m.connectionEnd_wire_length hnil hwt (lt_two_pow_64_of_lt_63 hsz)]; exact hsz

theorem ConnectionEnd.Unmarshal_insert (m : ConnectionEnd) (hnil : m.NoNilVersion)
    (hwt : m.WellTyped) (n wt : Nat) (body : List Byte) (h6 : 6 ≤ n) (hn : n < 2 ^ 29)
    (hb : WellFormedBody wt body) (k : Nat)
    (hsz : m.Size + (rawField n wt body).length < 2 ^ 63) :
    ConnectionEnd.Unmarshal {}
      ((m.fields.take k).flatten ++ rawField n wt body ++ (m.fields.drop k).flatten) = .ok m := by
  have hw := m.connectionEnd_wire_length hnil hwt (by omega)
  let items' := m.items.take k ++ ((rawField n wt body, fun x : ConnectionEnd => x) :: m.items.drop k)
  have hbytes : itemBytes items'
      = (m.fields.take k).flatten ++ rawField n wt body ++ (m.fields.drop k).flatten := by
    simp only [items', itemBytes, List.map_append, List.map_cons, List.flatten_append,
      List.flatten_cons, List.map_take, List.map_drop, m.map_fst_items, List.append_assoc]
  have hdec : ∀ it ∈ items', DecodesField ConnectionEnd.unmarshalField it.1 it.2 := by
    intro it hit
    rcases List.mem_append.1 hit with h | h
    · exact m.connectionEnd_decodes_items hwt it (List.mem_of_mem_take h)
    · rcases List.mem_cons.1 h with h | h
      · subst h; exact ConnectionEnd.decodes_unknown n wt body h6 hn hb
      · exact m.connectionEnd_decodes_items hwt it (List.mem_of_mem_drop h)
  have happly : applyItems items' ({} : ConnectionEnd) = m := by
    have h1 : applyItems items' ({} : ConnectionEnd)
        = applyItems (m.items.take k ++ m.items.drop k) {} := by
      simp only [items', applyItems, List.foldl_append, List.foldl_cons]
    rw [h1, List.take_append_drop, m.connectionEnd_applyItems_items, m.connectionEnd_merge_empty hnil]
  have hlen : (itemBytes items').length < 2 ^ 63 := by
    rw [hbytes]
    have : ((m.fields.take k).flatten ++ (m.fields.drop k).flatten).length = m.wire.length := by
      rw [← List.flatten_append, List.take_append_drop]; rfl
    simp only [List.length_append] at this ⊢
    omega
  unfold ConnectionEnd.Unmarshal
  rw [← hbytes, unmarshal_items _ _ hdec hlen, happly]

/-! ## An invariant of the field loop -/

theorem toInt32_range (x : Nat) : -(2 : Int) ^ 31 ≤ toInt32 x ∧ toInt32 x < 2 ^ 31 := by
  unfold toInt32
  have := Nat.mod_lt x (show 2 ^ 32 > 0 by decide)
  split <;> constructor <;> omega

theorem unmarshalLoop_invariant {α : Type} (field : List Byte → Int → α → Except Error (α × Int))
    (P : α → Prop)
    (hstep : ∀ dAtA i m m' i', P m → field dAtA i m = .ok (m', i') → P m') :
    ∀ (fuel : Nat) (dAtA : List Byte) (i : Int) (m m' : α), P m →
      unmarshalLoop field dAtA fuel i m = .ok m' → P m' := by
  intro fuel
  induction fuel with
  | zero => intro dAtA i m m' _ h; simp [unmarshalLoop] at h
  | succ fuel ih =>
    intro dAtA i m m' hP h
    unfold unmarshalLoop at h
    split at h
    · split at h
      · cases h
      · rename_i m1 i1 heq
        exact ih dAtA i1 m1 m' (hstep _ _ _ _ _ hP heq) h
    · split at h
      · cases h
      · cases h; exact hP

theorem ConnectionEnd.field_state_range (dAtA : List Byte) (i : Int) (m m' : ConnectionEnd)
    (i' : Int) (hP : -(2 : Int) ^ 31 ≤ m.State ∧ m.State < 2 ^ 31)
    (h : ConnectionEnd.unmarshalField dAtA i m = .ok (m', i')) :
    -(2 : Int) ^ 31 ≤ m'.State ∧ m'.State < 2 ^ 31 := by
  unfold ConnectionEnd.unmarshalField at h
  simp only [] at h
  split at h
  · cases h
  · repeat' split at h
    all_goals first
      | (cases h; done)
      | (cases h; first | exact hP | exact toInt32_range _)

/-! ## The codec: round trip, layout, unknown fields, state -/

theorem ConnectionEnd.layout_eq_wire (m : ConnectionEnd) (hnil : m.NoNilVersion)
    (hsz : m.Size < 2 ^ 64) : m.layout = m.wire := by
  obtain ⟨_, hV, hP⟩ := m.connectionEnd_bounds _ hsz
  rw [m.wire_eq]
  unfold ConnectionEnd.layout
  simp only [List.append_assoc, tag_1_2, tag_2_2, tag_3_0, tag_4_2, tag_5_0, List.singleton_append,
    List.cons_append, List.nil_append]
  congr 1
  congr 1
  · congr 1
    apply List.map_congr_left
    intro v hv
    cases v with
    | none => exact absurd rfl (hnil _ hv)
    | some x =>
      have hx : x.Size < 2 ^ 64 := hV _ hv
      have e : Version.MarshalPtr (some x) = x.Marshal := rfl
      simp only [Version.SizePtr, Version.wirePtr, e, x.version_Marshal_eq hx, bytesOf, lenField,
        tag_2_2, x.version_wire_length hx]
  · congr 1
    congr 1
    cases hc : m.Counterparty with
    | none => rfl
    | some c =>
      have hx := hP c hc
      simp only [Counterparty.layoutField, Option.map, optLenField, lenField, c.counterparty_Marshal_eq hx,
        bytesOf, tag_4_2, c.counterparty_wire_length hx, List.singleton_append, List.cons_append,
        List.nil_append]

/-- C1: encode then decode is a value round trip for `ConnectionEnd`. For every
`m` without a nil `Versions` entry, with `State` an `int32` and `DelayPeriod` a
`uint64`, and of a size Go can allocate, `Marshal` succeeds and `Unmarshal` of its
bytes into a fresh message returns exactly `m`. -/
theorem ConnectionEnd.roundtrip (m : ConnectionEnd) (hnil : m.NoNilVersion) (hwt : m.WellTyped)
    (hsz : m.Size < 2 ^ 63) :
    ∃ b, m.Marshal = .ok b ∧ ConnectionEnd.Unmarshal {} b = .ok m := by
  refine ⟨m.wire, m.connectionEnd_Marshal_eq hnil hwt (lt_two_pow_64_of_lt_63 hsz), ?_⟩
  rw [ConnectionEnd.connectionEnd_Unmarshal_wire _ m hwt (m.wire_lt hnil hwt hsz), m.connectionEnd_merge_empty hnil]

theorem ConnectionEnd.roundtrip_witness :
    ∃ b, sampleConnectionEnd.Marshal = .ok b
      ∧ ConnectionEnd.Unmarshal {} b = .ok sampleConnectionEnd :=
  ConnectionEnd.roundtrip sampleConnectionEnd (by decide) (by decide) (by decide)

/-- C2: encode then decode is a value round trip for each nested message on its
own: for every `Counterparty`, `MerklePrefix` and `Version` of a size Go can
allocate, `Marshal` succeeds and `Unmarshal` of its bytes into a fresh value returns
the value (a nil and an empty `KeyPrefix`/`Features` are the same list here). -/
theorem nested_roundtrip (c : Counterparty) (p : MerklePrefix) (v : Version)
    (hc : c.Size < 2 ^ 63) (hp : p.Size < 2 ^ 63) (hv : v.Size < 2 ^ 63) :
    (∃ b, c.Marshal = .ok b ∧ Counterparty.Unmarshal {} b = .ok c)
    ∧ (∃ b, p.Marshal = .ok b ∧ MerklePrefix.Unmarshal {} b = .ok p)
    ∧ (∃ b, v.Marshal = .ok b ∧ Version.Unmarshal {} b = .ok v) := by
  have hc' := lt_two_pow_64_of_lt_63 hc
  have hp' := lt_two_pow_64_of_lt_63 hp
  have hv' := lt_two_pow_64_of_lt_63 hv
  refine ⟨⟨c.wire, c.counterparty_Marshal_eq hc', ?_⟩, ⟨p.wire, p.merkle_Marshal_eq hp', ?_⟩,
    ⟨v.wire, v.version_Marshal_eq hv', ?_⟩⟩
  · rw [Counterparty.counterparty_Unmarshal_wire _ c (by rw [c.counterparty_wire_length hc']; exact hc), c.counterparty_merge_empty]
  · rw [MerklePrefix.merkle_Unmarshal_wire _ p (by rw [p.merkle_wire_length hp']; exact hp), p.merkle_merge_empty]
  · rw [Version.version_Unmarshal_wire _ v (by rw [v.version_wire_length hv']; exact hv), v.version_merge_empty]

theorem nested_roundtrip_witness :
    (∃ b, Counterparty.Marshal { ClientId := [99], Prefix := some {} } = .ok b
      ∧ Counterparty.Unmarshal {} b = .ok { ClientId := [99], Prefix := some {} })
    ∧ (∃ b, MerklePrefix.Marshal { KeyPrefix := [105, 98, 99] } = .ok b
      ∧ MerklePrefix.Unmarshal {} b = .ok { KeyPrefix := [105, 98, 99] })
    ∧ (∃ b, Version.Marshal { Identifier := [49], Features := [[], [7], [7]] } = .ok b
      ∧ Version.Unmarshal {} b = .ok { Identifier := [49], Features := [[], [7], [7]] }) :=
  nested_roundtrip { ClientId := [99], Prefix := some {} } { KeyPrefix := [105, 98, 99] }
    { Identifier := [49], Features := [[], [7], [7]] } (by decide) (by decide) (by decide)

/-- C3: `Marshal` equals the reference wire layout. For every well-typed `m`
without a nil `Versions` entry, `Marshal(m)` is `ConnectionEnd.layout m`: the fields
in ascending field-number order, the nested `Marshal` calls succeed, the tag bytes
`field-number<<3 | wire-type` are `0x0A`, `0x12`, `0x18`, `0x22`, `0x28`, and the
empty message encodes to the empty byte string. -/
theorem ConnectionEnd.Marshal_layout (m : ConnectionEnd) (hnil : m.NoNilVersion)
    (hwt : m.WellTyped) (hsz : m.Size < 2 ^ 63) :
    m.Marshal = .ok m.layout
    ∧ (∀ v ∈ m.Versions, ∃ b, Version.MarshalPtr v = .ok b)
    ∧ (∀ c, m.Counterparty = some c → ∃ b, c.Marshal = .ok b)
    ∧ (tag 1 2 = 0x0A ∧ tag 2 2 = 0x12 ∧ tag 3 0 = 0x18 ∧ tag 4 2 = 0x22 ∧ tag 5 0 = 0x28)
    ∧ ConnectionEnd.Marshal {} = .ok [] := by
  have hsz' := lt_two_pow_64_of_lt_63 hsz
  obtain ⟨_, hV, hP⟩ := m.connectionEnd_bounds _ hsz'
  refine ⟨?_, ?_, ?_, by decide, by decide⟩
  · rw [m.layout_eq_wire hnil hsz']; exact m.connectionEnd_Marshal_eq hnil hwt hsz'
  · intro v hv
    cases v with
    | none => exact absurd rfl (hnil _ hv)
    | some x => exact ⟨x.wire, x.version_Marshal_eq (hV _ hv)⟩
  · intro c hc
    exact ⟨c.wire, c.counterparty_Marshal_eq (hP c hc)⟩

theorem ConnectionEnd.Marshal_layout_witness :
    sampleConnectionEnd.Marshal = .ok sampleConnectionEnd.layout
    ∧ (∀ v ∈ sampleConnectionEnd.Versions, ∃ b, Version.MarshalPtr v = .ok b)
    ∧ (∀ c, sampleConnectionEnd.Counterparty = some c → ∃ b, c.Marshal = .ok b)
    ∧ (tag 1 2 = 0x0A ∧ tag 2 2 = 0x12 ∧ tag 3 0 = 0x18 ∧ tag 4 2 = 0x22 ∧ tag 5 0 = 0x28)
    ∧ ConnectionEnd.Marshal {} = .ok [] :=
  ConnectionEnd.Marshal_layout sampleConnectionEnd (by decide) (by decide) (by decide)

/-- C4: unknown fields are skippable. For every well-typed `m` without a nil
`Versions` entry, every field number `6 ≤ n < 2^29` and every well-formed body of
wire type 0, 1, 2 or 5, `Marshal(m)` is the concatenation of `m.fields`, and
`Unmarshal` of these bytes with the unknown field inserted after the first `k`
fields (any `k`) returns exactly `m`. -/
theorem ConnectionEnd.unknown_field_skipped (m : ConnectionEnd) (hnil : m.NoNilVersion)
    (hwt : m.WellTyped) (n wt : Nat) (body : List Byte) (h6 : 6 ≤ n) (hn : n < 2 ^ 29)
    (hb : WellFormedBody wt body) (k : Nat)
    (hsz : m.Size + (rawField n wt body).length < 2 ^ 63) :
    m.Marshal = .ok m.fields.flatten
    ∧ ConnectionEnd.Unmarshal {}
        ((m.fields.take k).flatten ++ rawField n wt body ++ (m.fields.drop k).flatten) = .ok m :=
  ⟨m.connectionEnd_Marshal_eq hnil hwt (by omega), m.Unmarshal_insert hnil hwt n wt body h6 hn hb k hsz⟩

theorem ConnectionEnd.unknown_field_skipped_witness :
    sampleConnectionEnd.Marshal = .ok sampleConnectionEnd.fields.flatten
    ∧ ConnectionEnd.Unmarshal {}
        ((sampleConnectionEnd.fields.take 2).flatten ++ rawField 1000 2 (varint 3 ++ [1, 2, 3])
          ++ (sampleConnectionEnd.fields.drop 2).flatten) = .ok sampleConnectionEnd :=
  ConnectionEnd.unknown_field_skipped sampleConnectionEnd (by decide) (by decide) 1000 2
    (varint 3 ++ [1, 2, 3]) (by decide) (by decide)
    (Or.inr (Or.inr (Or.inl ⟨rfl, [1, 2, 3], rfl⟩))) 2 (by decide)

/-- C5, as stated, fails: the unknown field `[0x30, 0x01]` (field 6, varint 1) appended
to the encoding of the empty message decodes to the empty message, whose encoding
is empty: the bytes of the field are gone. -/
theorem unknown_field_not_preserved :
    rawField 6 0 [0x01] = [0x30, 0x01]
    ∧ ConnectionEnd.Marshal {} = .ok []
    ∧ ConnectionEnd.Unmarshal {} ([] ++ [0x30, 0x01]) = .ok {}
    ∧ ConnectionEnd.Marshal {} ≠ .ok ([] ++ [0x30, 0x01]) := by
  decide

/-- C5, amended: unknown fields are dropped by decode. For every well-typed `m`
without a nil `Versions` entry and every well-formed unknown field `f` (field number
`6 ≤ n < 2^29`, wire type 0, 1, 2 or 5), `Unmarshal` of `Marshal(m) ++ f` succeeds
with `m` itself, so the re-encoding is `Marshal(m)`, which does not contain `f`. -/
theorem ConnectionEnd.unknown_field_dropped (m : ConnectionEnd) (hnil : m.NoNilVersion)
    (hwt : m.WellTyped) (n wt : Nat) (body : List Byte) (h6 : 6 ≤ n) (hn : n < 2 ^ 29)
    (hb : WellFormedBody wt body) (hsz : m.Size + (rawField n wt body).length < 2 ^ 63) :
    ∃ b m', m.Marshal = .ok b
      ∧ ConnectionEnd.Unmarshal {} (b ++ rawField n wt body) = .ok m'
      ∧ m' = m ∧ m'.Marshal = .ok b ∧ b ≠ b ++ rawField n wt body := by
  have hM := m.connectionEnd_Marshal_eq hnil hwt (by omega)
  refine ⟨m.wire, m, hM, ?_, rfl, hM, ?_⟩
  · have := m.Unmarshal_insert hnil hwt n wt body h6 hn hb m.fields.length hsz
    simpa [ConnectionEnd.wire] using this
  · intro h
    have h1 := congrArg List.length h
    have h2 := (ConnectionEnd.decodes_unknown n wt body h6 hn hb).1
    have h3 : 0 < (rawField n wt body).length := List.length_pos.2 h2
    simp only [List.length_append] at h1
    omega

theorem ConnectionEnd.unknown_field_dropped_witness :
    ∃ b m', sampleConnectionEnd.Marshal = .ok b
      ∧ ConnectionEnd.Unmarshal {} (b ++ rawField 6 0 [0x01]) = .ok m'
      ∧ m' = sampleConnectionEnd ∧ m'.Marshal = .ok b ∧ b ≠ b ++ rawField 6 0 [0x01] :=
  ConnectionEnd.unknown_field_dropped sampleConnectionEnd (by decide) (by decide) 6 0 [0x01]
    (by decide) (by decide) (Or.inl ⟨rfl, by decide, by decide⟩) (by decide)

/-- C6, as stated, fails: `[0x18, 0x04]` decodes without error to a message whose
`State` is 4, none of the four defined states. -/
theorem state_outside_enum :
    ConnectionEnd.Unmarshal {} [0x18, 0x04] = .ok { State := 4 }
    ∧ ¬ ((4 : Int) = ConnectionEnd_STATE_UNINITIALIZED_UNSPECIFIED
        ∨ (4 : Int) = ConnectionEnd_STATE_INIT
        ∨ (4 : Int) = ConnectionEnd_STATE_TRYOPEN
        ∨ (4 : Int) = ConnectionEnd_STATE_OPEN) := by
  decide

/-- C6, amended: for every byte string on which `Unmarshal` (into a fresh message)
succeeds, the resulting `State` is an `int32`, `-2^31 ≤ State < 2^31`; the decoder
does not restrict it to the four defined states. -/
theorem ConnectionEnd.Unmarshal_state_int32 (dAtA : List Byte) (m : ConnectionEnd)
    (h : ConnectionEnd.Unmarshal {} dAtA = .ok m) :
    -(2 : Int) ^ 31 ≤ m.State ∧ m.State < 2 ^ 31 :=
  unmarshalLoop_invariant ConnectionEnd.unmarshalField
    (fun m => -(2 : Int) ^ 31 ≤ m.State ∧ m.State < 2 ^ 31)
    ConnectionEnd.field_state_range _ dAtA 0 {} m (by decide) h

theorem ConnectionEnd.Unmarshal_state_int32_witness :
    -(2 : Int) ^ 31 ≤ ({ State := 4 } : ConnectionEnd).State
      ∧ ({ State := 4 } : ConnectionEnd).State < 2 ^ 31 :=
  ConnectionEnd.Unmarshal_state_int32 [0x18, 0x04] { State := 4 } (by decide)

/-! ## Canonical varints -/

theorem varintAux_getElem? (fuel : Nat) : ∀ (v k : Nat), v < 2 ^ (7 * fuel) →
    k < (varintAux fuel v).length →
    (varintAux fuel v)[k]?
      = some (uint8 (((v >>> (7 * k)) &&& 0x7F)
          ||| (if k + 1 < (varintAux fuel v).length then 0x80 else 0))) := by
  induction fuel with
  | zero => intro v k _ hk; simp [varintAux] at hk
  | succ fuel ih =>
    intro v k hv hk
    unfold varintAux at hk ⊢
    by_cases h : v < 128
    · simp only [h, if_true, List.length_singleton] at hk ⊢
      have hk0 : k = 0 := by omega
      subst hk0
      simp only [Nat.mul_zero, Nat.shiftRight_zero, List.getElem?_cons_zero, Nat.lt_irrefl,
        if_false, Nat.or_zero, and_0x7F, Option.some.injEq]
      rw [Nat.mod_eq_of_lt h]
    · simp only [h, if_false, List.length_cons] at hk ⊢
      have hfuel : 0 < fuel := by
        rcases Nat.eq_zero_or_pos fuel with h0 | h0
        · subst h0; simp at hv; omega
        · exact h0
      have hpos := varintAux_length_pos fuel (v / 128) hfuel
      cases k with
      | zero =>
        have h1 : 0 + 1 < (varintAux fuel (v / 128)).length + 1 := by omega
        simp only [Nat.mul_zero, Nat.shiftRight_zero, List.getElem?_cons_zero, h1, if_true,
          Option.some.injEq]
        exact (contByte_eq v).symm
      | succ k =>
        have hv' : v / 128 < 2 ^ (7 * fuel) := by
          have : (2 : Nat) ^ (7 * (fuel + 1)) = 2 ^ (7 * fuel) * 128 := by
            rw [Nat.mul_add, Nat.pow_add]
          rw [this] at hv
          exact Nat.div_lt_of_lt_mul (by rw [Nat.mul_comm]; exact hv)
        have hk' : k < (varintAux fuel (v / 128)).length := by omega
        rw [List.getElem?_cons_succ, ih (v / 128) k hv' hk']
        have e1 : (v / 128) >>> (7 * k) = v >>> (7 * (k + 1)) := by
          rw [Nat.shiftRight_eq_div_pow, Nat.shiftRight_eq_div_pow, Nat.div_div_eq_div_mul]
          congr 1
          rw [Nat.mul_add, Nat.pow_add, Nat.mul_comm]
        have e2 : (k + 1 < (varintAux fuel (v / 128)).length)
            ↔ (k + 1 + 1 < (varintAux fuel (v / 128)).length + 1) := by omega
        rw [e1]
        simp only [e2]

theorem varint_getElem? (v k : Nat) (hv : v < 2 ^ 64) (hk : k < sovConnection v) :
    (varint v)[k]?
      = some (uint8 (((v >>> (7 * k)) &&& 0x7F) ||| (if k + 1 < sovConnection v then 0x80 else 0))) := by
  have hl := varint_length v hv
  unfold varint at hl ⊢
  have := varintAux_getElem? 10 v k (Nat.lt_of_lt_of_le hv (by decide)) (by omega)
  rw [hl] at this
  exact this

/-- C25: varints are written in canonical minimal base-128 form. For every `uint64`
`v` and every offset with `sovConnection(v) ≤ offset ≤ len(buf)`,
`encodeVarintConnection(buf, offset, v)` returns `offset - sovConnection(v)` and a
buffer of the same length in which byte `k` of the range
`[offset - sovConnection(v), offset)` is `(v >> 7k) & 0x7F` with the high bit set on
every byte but the last and every byte outside the range is unchanged;
`sovConnection(v)` is the least `n ≥ 1` with `v < 2^(7n)` and lies between 1
and 10. -/
theorem encodeVarintConnection_canonical (buf : List Byte) (offset v : Nat) (hv : v < 2 ^ 64)
    (h1 : sovConnection v ≤ offset) (h2 : offset ≤ buf.length) :
    (∃ out, encodeVarintConnection buf (offset : Int) v
        = .ok (out, ((offset - sovConnection v : Nat) : Int))
      ∧ out.length = buf.length
      ∧ (∀ k, k < sovConnection v →
          out[offset - sovConnection v + k]?
            = some (uint8 (((v >>> (7 * k)) &&& 0x7F)
                ||| (if k + 1 < sovConnection v then 0x80 else 0))))
      ∧ (∀ i, i < offset - sovConnection v ∨ offset ≤ i → out[i]? = buf[i]?))
    ∧ 1 ≤ sovConnection v ∧ sovConnection v ≤ 10
    ∧ v < 2 ^ (7 * sovConnection v)
    ∧ ∀ n, 1 ≤ n → v < 2 ^ (7 * n) → sovConnection v ≤ n := by
  have hlen := varint_length v hv
  have hpos := sov_pos v
  refine ⟨?_, hpos, ?_, ?_, ?_⟩
  · have hsplit : buf = buf.take (offset - sovConnection v)
        ++ (buf.drop (offset - sovConnection v)).take (sovConnection v) ++ buf.drop offset := by
      have e : buf.drop offset
          = (buf.drop (offset - sovConnection v)).drop (sovConnection v) := by
        rw [List.drop_drop]
        congr 1
        omega
      rw [e, List.append_assoc, List.take_append_drop, List.take_append_drop]
    have hpre : (buf.take (offset - sovConnection v)).length = offset - sovConnection v := by
      rw [List.length_take]; omega
    have hjunk : ((buf.drop (offset - sovConnection v)).take (sovConnection v)).length
        = (varint v).length := by
      rw [List.length_take, List.length_drop, hlen]; omega
    have hjl : ((buf.drop (offset - sovConnection v)).take (sovConnection v)).length
        = sovConnection v := by rw [hjunk, hlen]
    have henc := encodeVarintConnection_at (buf.take (offset - sovConnection v))
      ((buf.drop (offset - sovConnection v)).take (sovConnection v)) (buf.drop offset) v hv hjunk
    rw [← hsplit, hpre, hjl] at henc
    have hoff : offset - sovConnection v + sovConnection v = offset := by omega
    rw [hoff] at henc
    refine ⟨_, henc, ?_, ?_, ?_⟩
    · simp only [List.length_append, hpre, hlen, List.length_drop]
      omega
    · intro k hk
      rw [List.append_assoc, List.getElem?_append_right (by rw [hpre]; omega), hpre]
      have e : offset - sovConnection v + k - (offset - sovConnection v) = k := by omega
      rw [e, List.getElem?_append_left (by rw [hlen]; exact hk)]
      exact varint_getElem? v k hv hk
    · intro i hi
      rcases hi with hi | hi
      · rw [List.append_assoc, List.getElem?_append_left (by rw [hpre]; exact hi),
          List.getElem?_take_of_lt hi]
      · rw [List.getElem?_append_right (by
            simp only [List.length_append, hpre, hlen]; omega)]
        simp only [List.length_append, hpre, hlen, List.getElem?_drop]
        congr 1
        omega
  · exact (sov_le_iff v 10 hv (by decide)).mpr (Nat.lt_of_lt_of_le hv (by decide))
  · exact (sov_le_iff v (sovConnection v) hv hpos).mp (le_refl _)
  · intro n hn hvn
    exact (sov_le_iff v n hv hn).mpr hvn

theorem encodeVarintConnection_canonical_witness :
    (∃ out, encodeVarintConnection [9, 9, 9, 9, 9] ((4 : Nat) : Int) 300
        = .ok (out, ((4 - sovConnection 300 : Nat) : Int))
      ∧ out.length = [(9 : Byte), 9, 9, 9, 9].length
      ∧ (∀ k, k < sovConnection 300 →
          out[4 - sovConnection 300 + k]?
            = some (uint8 (((300 >>> (7 * k)) &&& 0x7F)
                ||| (if k + 1 < sovConnection 300 then 0x80 else 0))))
      ∧ (∀ i, i < 4 - sovConnection 300 ∨ 4 ≤ i → out[i]? = [(9 : Byte), 9, 9, 9, 9][i]?))
    ∧ 1 ≤ sovConnection 300 ∧ sovConnection 300 ≤ 10
    ∧ 300 < 2 ^ (7 * sovConnection 300)
    ∧ ∀ n, 1 ≤ n → 300 < 2 ^ (7 * n) → sovConnection 300 ≤ n :=
  encodeVarintConnection_canonical [9, 9, 9, 9, 9] 4 300 (by decide) (by decide) (by decide)

/-! ## Size and Marshal -/

theorem WritesTail.exact {marshalTo : List Byte → Except Error (List Byte × Int)} {w : List Byte}
    (h : WritesTail marshalTo w) (size : Nat) (hsz : w.length = size) :
    marshalWith size marshalTo = .ok w ∧ w.length = size
      ∧ ∀ buf : List Byte, buf.length = size → marshalTo buf = .ok (w, (size : Int)) := by
  refine ⟨marshalWith_eq size marshalTo w h hsz, hsz, ?_⟩
  intro buf hb
  have := h buf (by omega)
  rw [this]
  have e : buf.length - w.length = 0 := by omega
  rw [e, hsz]
  simp

/-- C22: `Size` agrees with `Marshal` and `Marshal` never fails. For every
`ConnectionEnd` (no nil `Versions` entry, `State` an `int32`, `DelayPeriod` a
`uint64`), `Counterparty`, `MerklePrefix` and `Version` whose size fits a Go `int`,
`Marshal` returns a nil error and a byte string of length exactly `Size`, and
`MarshalToSizedBuffer` on any buffer of exactly `Size` bytes returns without a panic
(so without a write at a negative index), returns `Size` and leaves that byte string
in the buffer whatever the buffer held before: every byte of it is written. -/
theorem Marshal_length_Size (m : ConnectionEnd) (c : Counterparty) (p : MerklePrefix)
    (v : Version) (hnil : m.NoNilVersion) (hwt : m.WellTyped) (hm : m.Size < 2 ^ 63)
    (hc : c.Size < 2 ^ 63) (hp : p.Size < 2 ^ 63) (hv : v.Size < 2 ^ 63) :
    (∃ b, m.Marshal = .ok b ∧ b.length = m.Size
      ∧ ∀ buf : List Byte, buf.length = m.Size →
          m.MarshalToSizedBuffer buf = .ok (b, (m.Size : Int)))
    ∧ (∃ b, c.Marshal = .ok b ∧ b.length = c.Size
      ∧ ∀ buf : List Byte, buf.length = c.Size →
          c.MarshalToSizedBuffer buf = .ok (b, (c.Size : Int)))
    ∧ (∃ b, p.Marshal = .ok b ∧ b.length = p.Size
      ∧ ∀ buf : List Byte, buf.length = p.Size →
          p.MarshalToSizedBuffer buf = .ok (b, (p.Size : Int)))
    ∧ (∃ b, v.Marshal = .ok b ∧ b.length = v.Size
      ∧ ∀ buf : List Byte, buf.length = v.Size →
          v.MarshalToSizedBuffer buf = .ok (b, (v.Size : Int))) := by
  have hm' := lt_two_pow_64_of_lt_63 hm
  have hc' := lt_two_pow_64_of_lt_63 hc
  have hp' := lt_two_pow_64_of_lt_63 hp
  have hv' := lt_two_pow_64_of_lt_63 hv
  exact ⟨⟨m.wire, (m.connectionEnd_writesTail_of_size hnil hwt hm').exact m.Size
      (m.connectionEnd_wire_length hnil hwt hm')⟩,
    ⟨c.wire, (c.counterparty_writesTail_of_size hc').exact c.Size
      (c.counterparty_wire_length hc')⟩,
    ⟨p.wire, (p.merkle_writesTail_of_size hp').exact p.Size (p.merkle_wire_length hp')⟩,
    ⟨v.wire, (v.version_writesTail_of_size hv').exact v.Size (v.version_wire_length hv')⟩⟩

theorem Marshal_length_Size_witness :
    (∃ b, sampleConnectionEnd.Marshal = .ok b ∧ b.length = sampleConnectionEnd.Size
      ∧ ∀ buf : List Byte, buf.length = sampleConnectionEnd.Size →
          sampleConnectionEnd.MarshalToSizedBuffer buf = .ok (b, (sampleConnectionEnd.Size : Int)))
    ∧ (∃ b, Counterparty.Marshal { ClientId := [99], Prefix := some {} } = .ok b
      ∧ b.length = Counterparty.Size { ClientId := [99], Prefix := some {} }
      ∧ ∀ buf : List Byte, buf.length = Counterparty.Size { ClientId := [99], Prefix := some {} } →
          Counterparty.MarshalToSizedBuffer { ClientId := [99], Prefix := some {} } buf
            = .ok (b, (Counterparty.Size { ClientId := [99], Prefix := some {} } : Int)))
    ∧ (∃ b, MerklePrefix.Marshal { KeyPrefix := [105, 98, 99] } = .ok b
      ∧ b.length = MerklePrefix.Size { KeyPrefix := [105, 98, 99] }
      ∧ ∀ buf : List Byte, buf.length = MerklePrefix.Size { KeyPrefix := [105, 98, 99] } →
          MerklePrefix.MarshalToSizedBuffer { KeyPrefix := [105, 98, 99] } buf
            = .ok (b, (MerklePrefix.Size { KeyPrefix := [105, 98, 99] } : Int)))
    ∧ (∃ b, Version.Marshal { Identifier := [49], Features := [[], [7]] } = .ok b
      ∧ b.length = Version.Size { Identifier := [49], Features := [[], [7]] }
      ∧ ∀ buf : List Byte, buf.length = Version.Size { Identifier := [49], Features := [[], [7]] } →
          Version.MarshalToSizedBuffer { Identifier := [49], Features := [[], [7]] } buf
            = .ok (b, (Version.Size { Identifier := [49], Features := [[], [7]] } : Int))) :=
  Marshal_length_Size sampleConnectionEnd { ClientId := [99], Prefix := some {} }
    { KeyPrefix := [105, 98, 99] } { Identifier := [49], Features := [[], [7]] }
    (by decide) (by decide) (by decide) (by decide) (by decide) (by decide)

/-! ## Decoding a concatenation -/

theorem ConnectionEnd.Unmarshal_wire_append (a b : ConnectionEnd) (hnil : a.NoNilVersion)
    (ha : a.WellTyped) (hb : b.WellTyped) (h : (a.wire ++ b.wire).length < 2 ^ 63) :
    ConnectionEnd.Unmarshal {} (a.wire ++ b.wire) = .ok (a.merge b) := by
  have hi : itemBytes (a.items ++ b.items) = a.wire ++ b.wire := by
    rw [itemBytes_append, a.connectionEnd_itemBytes_items, b.connectionEnd_itemBytes_items]
  have hd : ∀ it ∈ a.items ++ b.items, DecodesField ConnectionEnd.unmarshalField it.1 it.2 := by
    intro it hit
    rcases List.mem_append.mp hit with h1 | h1
    · exact a.connectionEnd_decodes_items ha it h1
    · exact b.connectionEnd_decodes_items hb it h1
  have := unmarshal_items ConnectionEnd.unmarshalField (a.items ++ b.items) hd
    (by rw [hi]; exact h) ({} : ConnectionEnd)
  rw [hi] at this
  unfold ConnectionEnd.Unmarshal
  rw [this, applyItems_append, a.connectionEnd_applyItems_items, b.connectionEnd_applyItems_items,
    a.connectionEnd_merge_empty hnil]

/-- C29: decoding a concatenation merges. For all `ConnectionEnd` values `a` and `b`
(no nil `Versions` entry), `Unmarshal` of `Marshal(a) ++ Marshal(b)` into a fresh
message succeeds; in the result `ClientId`, `State` and `DelayPeriod` are those of
`b` where `b`'s value is non-empty or non-zero and those of `a` otherwise,
`Versions` is `a.Versions ++ b.Versions`, and `Counterparty` is the field-wise merge
of the two counterparties by the same rule: absent only if absent in both, `a`'s if
`b` has none, and otherwise with `ClientId` and `ConnectionId` taken from `b`'s when
non-empty, the prefix absent only if absent in both and its `KeyPrefix` replaced by
`b`'s when `b`'s is non-empty. -/
theorem Unmarshal_concat_merges (a b : ConnectionEnd) (hna : a.NoNilVersion)
    (hnb : b.NoNilVersion) (hwa : a.WellTyped) (hwb : b.WellTyped)
    (hsz : a.Size + b.Size < 2 ^ 63) :
    ∃ ba bb r, a.Marshal = .ok ba ∧ b.Marshal = .ok bb
      ∧ ConnectionEnd.Unmarshal {} (ba ++ bb) = .ok r
      ∧ r.ClientId = (if b.ClientId = [] then a.ClientId else b.ClientId)
      ∧ r.State = (if b.State = 0 then a.State else b.State)
      ∧ r.DelayPeriod = (if b.DelayPeriod = 0 then a.DelayPeriod else b.DelayPeriod)
      ∧ r.Versions = a.Versions ++ b.Versions
      ∧ (r.Counterparty = none ↔ a.Counterparty = none ∧ b.Counterparty = none)
      ∧ (b.Counterparty = none → r.Counterparty = a.Counterparty)
      ∧ (∀ cb, b.Counterparty = some cb →
          r.Counterparty = some
            { ClientId := if cb.ClientId = [] then (a.Counterparty.getD {}).ClientId
                          else cb.ClientId
              ConnectionId := if cb.ConnectionId = [] then (a.Counterparty.getD {}).ConnectionId
                              else cb.ConnectionId
              Prefix :=
                match cb.Prefix with
                | none => (a.Counterparty.getD {}).Prefix
                | some pb =>
                  some { KeyPrefix :=
                    if pb.KeyPrefix = [] then ((a.Counterparty.getD {}).Prefix.getD {}).KeyPrefix
                    else pb.KeyPrefix } }) := by
  have ha63 : a.Size < 2 ^ 63 := by omega
  have hb63 : b.Size < 2 ^ 63 := by omega
  have hla := a.connectionEnd_wire_length hna hwa (lt_two_pow_64_of_lt_63 ha63)
  have hlb := b.connectionEnd_wire_length hnb hwb (lt_two_pow_64_of_lt_63 hb63)
  refine ⟨a.wire, b.wire, a.merge b,
    a.connectionEnd_Marshal_eq hna hwa (lt_two_pow_64_of_lt_63 ha63),
    b.connectionEnd_Marshal_eq hnb hwb (lt_two_pow_64_of_lt_63 hb63),
    ConnectionEnd.Unmarshal_wire_append a b hna hwa hwb
      (by rw [List.length_append, hla, hlb]; exact hsz),
    rfl, rfl, rfl, ?_, ?_, ?_, ?_⟩
  · simp only [ConnectionEnd.merge]
    rw [map_some_getD b.Versions hnb]
  · simp only [ConnectionEnd.merge]
    cases b.Counterparty with
    | none => simp [Counterparty.mergeOpt]
    | some cb => simp [Counterparty.mergeOpt]
  · intro hb
    simp only [ConnectionEnd.merge, hb, Counterparty.mergeOpt]
  · intro cb hb
    simp only [ConnectionEnd.merge, hb, Counterparty.mergeOpt, Counterparty.merge]
    cases cb.Prefix with
    | none => simp [MerklePrefix.mergeOpt]
    | some pb => simp [MerklePrefix.mergeOpt, MerklePrefix.merge]

theorem Unmarshal_concat_merges_witness :
    ∃ ba bb r, sampleConnectionEnd.Marshal = .ok ba ∧ sampleUpdate.Marshal = .ok bb
      ∧ ConnectionEnd.Unmarshal {} (ba ++ bb) = .ok r
      ∧ r.ClientId = (if sampleUpdate.ClientId = [] then sampleConnectionEnd.ClientId
                      else sampleUpdate.ClientId)
      ∧ r.State = (if sampleUpdate.State = 0 then sampleConnectionEnd.State
                   else sampleUpdate.State)
      ∧ r.DelayPeriod = (if sampleUpdate.DelayPeriod = 0 then sampleConnectionEnd.DelayPeriod
                         else sampleUpdate.DelayPeriod)
      ∧ r.Versions = sampleConnectionEnd.Versions ++ sampleUpdate.Versions
      ∧ (r.Counterparty = none
          ↔ sampleConnectionEnd.Counterparty = none ∧ sampleUpdate.Counterparty = none)
      ∧ (sampleUpdate.Counterparty = none → r.Counterparty = sampleConnectionEnd.Counterparty)
      ∧ (∀ cb, sampleUpdate.Counterparty = some cb →
          r.Counterparty = some
            { ClientId := if cb.ClientId = []
                            then (sampleConnectionEnd.Counterparty.getD {}).ClientId
                          else cb.ClientId
              ConnectionId := if cb.ConnectionId = []
                                then (sampleConnectionEnd.Counterparty.getD {}).ConnectionId
                              else cb.ConnectionId
              Prefix :=
                match cb.Prefix with
                | none => (sampleConnectionEnd.Counterparty.getD {}).Prefix
                | some pb =>
                  some { KeyPrefix :=
                    if pb.KeyPrefix = []
                      then ((sampleConnectionEnd.Counterparty.getD {}).Prefix.getD {}).KeyPrefix
                    else pb.KeyPrefix } }) :=
  Unmarshal_concat_merges sampleConnectionEnd sampleUpdate (by decide) (by decide) (by decide)
    (by decide) (by decide)

/-! ## Tags that are rejected -/

theorem tag_eq (n wt : Nat) (hwt : wt < 8) : n <<< 3 ||| wt = 8 * n + wt := by
  rw [Nat.shiftLeft_eq, Nat.mul_comm]
  exact (Nat.mul_add_lt_is_or (i := 3) (by simpa using hwt) n).symm

theorem and_0x7 (x : Nat) : x &&& 0x7 = x % 8 := by
  simpa using Nat.and_pow_two_sub_one_eq_mod x 3

theorem unmarshalLoop_first_error {α : Type}
    (field : List Byte → Int → α → Except Error (α × Int)) (dAtA : List Byte) (fuel : Nat)
    (m : α) (e : Error) (h0 : dAtA ≠ []) (h : field dAtA 0 m = .error e) :
    unmarshalLoop field dAtA (fuel + 1) 0 m = .error e := by
  have hl : (0 : Int) < dAtA.length := by
    have := List.length_pos.mpr h0
    omega
  simp only [unmarshalLoop, hl, if_true, h]

theorem readVarint_first (rest : List Byte) (x : Nat) (hx : x < 2 ^ 64) :
    readVarint 64 (varint x ++ rest) 10 0 0 0 = .ok (x, ((varint x).length : Int)) := by
  have := readVarint_varint 64 (varint x ++ rest) [] rest x (by simp) hx
  rw [Nat.mod_eq_of_lt hx] at this
  simpa using this

theorem varint_ne_nil (x : Nat) : varint x ≠ [] := by
  intro h
  have := varintAux_length_pos 10 x (by decide)
  unfold varint at h
  rw [h] at this
  simp at this

theorem ConnectionEnd.Unmarshal_endGroup (m : ConnectionEnd) (rest : List Byte) (x : Nat)
    (hx : x < 2 ^ 64) (h4 : x &&& 0x7 = 4) :
    ConnectionEnd.Unmarshal m (varint x ++ rest) = .error (.wiretypeEndGroup "ConnectionEnd") := by
  unfold ConnectionEnd.Unmarshal
  apply unmarshalLoop_first_error _ _ _ _ _ (by simp [varint_ne_nil])
  unfold ConnectionEnd.unmarshalField
  rw [readVarint_first rest x hx]
  simp only [h4, if_true]

theorem ConnectionEnd.Unmarshal_illegalTag (m : ConnectionEnd) (rest : List Byte) (x : Nat)
    (hx : x < 2 ^ 64) (h4 : x &&& 0x7 ≠ 4) (h0 : toInt32 (x >>> 3) ≤ 0) :
    ConnectionEnd.Unmarshal m (varint x ++ rest)
      = .error (.illegalTag "ConnectionEnd" (toInt32 (x >>> 3)) x) := by
  unfold ConnectionEnd.Unmarshal
  apply unmarshalLoop_first_error _ _ _ _ _ (by simp [varint_ne_nil])
  unfold ConnectionEnd.unmarshalField
  rw [readVarint_first rest x hx]
  simp only [h4, if_false, h0, if_true]

theorem ConnectionEnd.Unmarshal_wrongWireType (m : ConnectionEnd) (rest : List Byte)
    (f w : Nat) (h1 : 1 ≤ f) (h5 : f ≤ 5) (hw : w < 8) (h4 : w ≠ 4)
    (hne : w ≠ ConnectionEnd.declaredWireType f) :
    ConnectionEnd.Unmarshal m (varint (f <<< 3 ||| w) ++ rest)
      = .error (.wrongWireType w (ConnectionEnd.fieldName f)) := by
  obtain ⟨a1, a2, a3⟩ := tag_arith f w (by omega) hw
  unfold ConnectionEnd.Unmarshal
  apply unmarshalLoop_first_error _ _ _ _ _ (by simp [varint_ne_nil])
  unfold ConnectionEnd.unmarshalField
  rw [readVarint_first rest _ a1]
  simp only [a2, a3, toInt32_small f (by omega)]
  have hf : f = 1 ∨ f = 2 ∨ f = 3 ∨ f = 4 ∨ f = 5 := by omega
  rcases hf with rfl | rfl | rfl | rfl | rfl <;>
    simp_all [ConnectionEnd.declaredWireType, ConnectionEnd.fieldName]

/-- C28: a declared field with the wrong wire type is an error, not an unknown
field. For each field number `f` in 1..5 and every wire type `w` in 0..7 different
from the declared one, `Unmarshal` of any input whose first tag byte is `f<<3 | w`
returns an error (the end-group error for `w = 4`, the wrong-wire-type error of the
field otherwise); a first tag byte with field number 0 and any wire type `w0` is
rejected (end group for `w0 = 4`, illegal tag otherwise); and a first tag with wire
type 4 is rejected as an end group for every field number `g`. -/
theorem wrong_wire_type_rejected (m : ConnectionEnd) (rest : List Byte) (f w w0 g : Nat)
    (h1 : 1 ≤ f) (h5 : f ≤ 5) (hw : w < 8) (hne : w ≠ ConnectionEnd.declaredWireType f)
    (hw0 : w0 < 8) (hg : g <<< 3 ||| 4 < 2 ^ 64) :
    ConnectionEnd.Unmarshal m (uint8 (f <<< 3 ||| w) :: rest)
      = .error (if w = 4 then .wiretypeEndGroup "ConnectionEnd"
                else .wrongWireType w (ConnectionEnd.fieldName f))
    ∧ ConnectionEnd.Unmarshal m (uint8 (0 <<< 3 ||| w0) :: rest)
      = .error (if w0 = 4 then .wiretypeEndGroup "ConnectionEnd"
                else .illegalTag "ConnectionEnd" 0 w0)
    ∧ ConnectionEnd.Unmarshal m (varint (g <<< 3 ||| 4) ++ rest)
      = .error (.wiretypeEndGroup "ConnectionEnd") := by
  refine ⟨?_, ?_, ?_⟩
  · obtain ⟨a1, a2, a3⟩ := tag_arith f w (by omega) hw
    have hsmall : f <<< 3 ||| w < 128 := by rw [tag_eq f w hw]; omega
    have e : uint8 (f <<< 3 ||| w) :: rest = varint (f <<< 3 ||| w) ++ rest := by
      rw [varint_small _ hsmall]; rfl
    rw [e]
    by_cases h4 : w = 4
    · rw [if_pos h4]
      exact ConnectionEnd.Unmarshal_endGroup m rest _ a1 (by rw [a3]; exact h4)
    · rw [if_neg h4]
      exact ConnectionEnd.Unmarshal_wrongWireType m rest f w h1 h5 hw h4 hne
  · obtain ⟨a1, a2, a3⟩ := tag_arith 0 w0 (by decide) hw0
    have hsmall : 0 <<< 3 ||| w0 < 128 := by rw [tag_eq 0 w0 hw0]; omega
    have e : uint8 (0 <<< 3 ||| w0) :: rest = varint (0 <<< 3 ||| w0) ++ rest := by
      rw [varint_small _ hsmall]; rfl
    have hval : 0 <<< 3 ||| w0 = w0 := by rw [tag_eq 0 w0 hw0]; omega
    rw [e]
    by_cases h4 : w0 = 4
    · rw [if_pos h4]
      exact ConnectionEnd.Unmarshal_endGroup m rest _ a1 (by rw [a3]; exact h4)
    · rw [if_neg h4]
      have := ConnectionEnd.Unmarshal_illegalTag m rest _ a1 (by rw [a3]; exact h4)
        (by rw [a2]; decide)
      rw [this, a2, hval]
      rfl
  · apply ConnectionEnd.Unmarshal_endGroup m rest _ hg
    rw [tag_eq g 4 (by decide), and_0x7]
    omega

theorem wrong_wire_type_rejected_witness :
    ConnectionEnd.Unmarshal {} (uint8 (3 <<< 3 ||| 2) :: [1, 0])
      = .error (if 2 = 4 then .wiretypeEndGroup "ConnectionEnd"
                else .wrongWireType 2 (ConnectionEnd.fieldName 3))
    ∧ ConnectionEnd.Unmarshal {} (uint8 (0 <<< 3 ||| 2) :: [1, 0])
      = .error (if 2 = 4 then .wiretypeEndGroup "ConnectionEnd"
                else .illegalTag "ConnectionEnd" 0 2)
    ∧ ConnectionEnd.Unmarshal {} (varint (1000 <<< 3 ||| 4) ++ [1, 0])
      = .error (.wiretypeEndGroup "ConnectionEnd") :=
  wrong_wire_type_rejected {} [1, 0] 3 2 2 1000 (by decide) (by decide) (by decide) (by decide)
    (by decide) (by decide)

/-! ## Over-long varints -/

theorem readVarint_overflow (w : Nat) (dAtA : List Byte) (n : Nat) :
    ∀ (pre run rest : List Byte) (shift x : Nat), dAtA = pre ++ (run ++ rest) →
      run.length = n → (∀ b ∈ run, 0x80 ≤ b.val) →
      readVarint w dAtA n shift (pre.length : Int) x = .error .ErrIntOverflowConnection := by
  induction n with
  | zero => intro pre run rest shift x _ _ _; rfl
  | succ n ih =>
    intro pre run rest shift x hd hrun hall
    cases run with
    | nil => simp at hrun
    | cons b run' =>
      unfold readVarint
      by_cases hs : shift ≥ 64
      · rw [if_pos hs]
      · rw [if_neg hs, if_neg (by rw [hd]; simp; omega),
          loadByte_at dAtA pre (run' ++ rest) b (by rw [hd]; simp)]
        have hb := hall b (List.mem_cons_self _ _)
        simp only []
        rw [if_neg (by omega)]
        have := ih (pre ++ [b]) run' rest (shift + 7)
          (x ||| ((b.val &&& 0x7F) <<< shift) % 2 ^ w) (by rw [hd]; simp)
          (by simpa using hrun) (fun c hc => hall c (List.mem_cons_of_mem _ hc))
        simpa using this

theorem skipVarint_overflow (dAtA : List Byte) (n : Nat) :
    ∀ (pre run rest : List Byte) (shift : Nat), dAtA = pre ++ (run ++ rest) →
      run.length = n → (∀ b ∈ run, 0x80 ≤ b.val) →
      skipVarint dAtA n shift (pre.length : Int) = .error .ErrIntOverflowConnection := by
  induction n with
  | zero => intro pre run rest shift _ _ _; rfl
  | succ n ih =>
    intro pre run rest shift hd hrun hall
    cases run with
    | nil => simp at hrun
    | cons b run' =>
      unfold skipVarint
      by_cases hs : shift ≥ 64
      · rw [if_pos hs]
      · have e : (pre.length : Int) + 1 - 1 = (pre.length : Int) := by omega
        rw [if_neg hs, if_neg (by rw [hd]; simp; omega), e,
          loadByte_at dAtA pre (run' ++ rest) b (by rw [hd]; simp)]
        have hb := hall b (List.mem_cons_self _ _)
        simp only []
        rw [if_neg (by omega)]
        have := ih (pre ++ [b]) run' rest (shift + 7) (by rw [hd]; simp)
          (by simpa using hrun) (fun c hc => hall c (List.mem_cons_of_mem _ hc))
        simpa using this

theorem unmarshalLoop_items_error {α : Type}
    (field : List Byte → Int → α → Except Error (α × Int))
    (items : List (List Byte × (α → α))) :
    (∀ it ∈ items, DecodesField field it.1 it.2) →
    ∀ (dAtA pre tail : List Byte) (m : α) (fuel : Nat) (e : Error),
      dAtA = pre ++ (itemBytes items ++ tail) → dAtA.length < 2 ^ 63 → tail ≠ [] →
      (itemBytes items).length < fuel →
      field dAtA ((pre.length + (itemBytes items).length : Nat) : Int) (applyItems items m)
        = .error e →
      unmarshalLoop field dAtA fuel (pre.length : Int) m = .error e := by
  induction items with
  | nil =>
    intro _ dAtA pre tail m fuel e hd _ ht hf he
    cases fuel with
    | zero => omega
    | succ fuel =>
      have hpos := List.length_pos.2 ht
      unfold unmarshalLoop
      rw [if_pos (by rw [hd]; simp [itemBytes]; omega)]
      simp only [itemBytes, List.map_nil, List.flatten_nil, List.length_nil, Nat.add_zero,
        applyItems, List.foldl_nil] at he
      rw [he]
  | cons it rest ih =>
    intro h dAtA pre tail m fuel e hd hl ht hf he
    obtain ⟨hne, hstep⟩ := h it (List.mem_cons_self _ _)
    have hb : itemBytes (it :: rest) = it.1 ++ itemBytes rest := by
      simp [itemBytes]
    rw [hb] at hd hf he
    have hpos : 0 < it.1.length := List.length_pos.2 hne
    cases fuel with
    | zero => omega
    | succ fuel =>
      unfold unmarshalLoop
      rw [if_pos (by rw [hd]; simp; omega),
        hstep dAtA pre (itemBytes rest ++ tail) m (by rw [hd]; simp) hl]
      simp only []
      have := ih (fun x hx => h x (List.mem_cons_of_mem _ hx)) dAtA (pre ++ it.1) tail (it.2 m)
        fuel e (by rw [hd]; simp) hl ht (by simp at hf; omega)
        (by
          have e1 : (pre ++ it.1).length + (itemBytes rest).length
              = pre.length + (it.1 ++ itemBytes rest).length := by
            simp only [List.length_append]; omega
          rw [e1]
          exact he)
      simp only [List.length_append] at this
      rw [this]

theorem readBytes_error (dAtA : List Byte) (i : Int) (e : Error)
    (h : readVarint 64 dAtA 10 0 i 0 = .error e) : readBytes dAtA i = .error e := by
  simp only [readBytes, readLength, h]

theorem readTag_at (dAtA pre tail : List Byte) (n wt : Nat) (ht : (tag n wt).val < 128)
    (hd : dAtA = pre ++ tag n wt :: tail) :
    readVarint 64 dAtA 10 0 (pre.length : Int) 0 = .ok ((tag n wt).val, (pre.length : Int) + 1) :=
  readVarint_tag dAtA pre tail (tag n wt) ht hd

theorem ConnectionEnd.field_error_len (dAtA pre tail : List Byte) (n : Nat)
    (hn : n = 1 ∨ n = 2 ∨ n = 4) (hd : dAtA = pre ++ tag n 2 :: tail) (e : Error)
    (h : readBytes dAtA ((pre.length : Int) + 1) = .error e) (m : ConnectionEnd) :
    ConnectionEnd.unmarshalField dAtA (pre.length : Int) m = .error e := by
  unfold ConnectionEnd.unmarshalField
  rcases hn with rfl | rfl | rfl
  · rw [readTag_at dAtA pre tail 1 2 tag_val_1_2.1 hd]
    simp only [tag_val_1_2.2.1, tag_val_1_2.2.2, h]
    simp
  · rw [readTag_at dAtA pre tail 2 2 tag_val_2_2.1 hd]
    simp only [tag_val_2_2.2.1, tag_val_2_2.2.2, h]
    simp
  · rw [readTag_at dAtA pre tail 4 2 tag_val_4_2.1 hd]
    simp only [tag_val_4_2.2.1, tag_val_4_2.2.2, h]
    simp

theorem ConnectionEnd.field_error_State (dAtA pre tail : List Byte)
    (hd : dAtA = pre ++ tag 3 0 :: tail) (e : Error)
    (h : readVarint 32 dAtA 10 0 ((pre.length : Int) + 1) 0 = .error e) (m : ConnectionEnd) :
    ConnectionEnd.unmarshalField dAtA (pre.length : Int) m = .error e := by
  unfold ConnectionEnd.unmarshalField
  rw [readTag_at dAtA pre tail 3 0 tag_val_3_0.1 hd]
  simp only [tag_val_3_0.2.1, tag_val_3_0.2.2, h]
  simp

theorem ConnectionEnd.field_error_DelayPeriod (dAtA pre tail : List Byte)
    (hd : dAtA = pre ++ tag 5 0 :: tail) (e : Error)
    (h : readVarint 64 dAtA 10 0 ((pre.length : Int) + 1) 0 = .error e) (m : ConnectionEnd) :
    ConnectionEnd.unmarshalField dAtA (pre.length : Int) m = .error e := by
  unfold ConnectionEnd.unmarshalField
  rw [readTag_at dAtA pre tail 5 0 tag_val_5_0.1 hd]
  simp only [tag_val_5_0.2.1, tag_val_5_0.2.2, h]
  simp

theorem Counterparty.counterparty_field_error_len (dAtA pre tail : List Byte) (n : Nat)
    (hn : n = 1 ∨ n = 2 ∨ n = 3) (hd : dAtA = pre ++ tag n 2 :: tail) (e : Error)
    (h : readBytes dAtA ((pre.length : Int) + 1) = .error e) (m : Counterparty) :
    Counterparty.unmarshalField dAtA (pre.length : Int) m = .error e := by
  unfold Counterparty.unmarshalField
  rcases hn with rfl | rfl | rfl
  · rw [readTag_at dAtA pre tail 1 2 tag_val_1_2.1 hd]
    simp only [tag_val_1_2.2.1, tag_val_1_2.2.2, h]
    simp
  · rw [readTag_at dAtA pre tail 2 2 tag_val_2_2.1 hd]
    simp only [tag_val_2_2.2.1, tag_val_2_2.2.2, h]
    simp
  · rw [readTag_at dAtA pre tail 3 2 tag_val_3_2.1 hd]
    simp only [tag_val_3_2.2.1, tag_val_3_2.2.2, h]
    simp

theorem MerklePrefix.merkle_field_error_len (dAtA pre tail : List Byte)
    (hd : dAtA = pre ++ tag 1 2 :: tail) (e : Error)
    (h : readBytes dAtA ((pre.length : Int) + 1) = .error e) (m : MerklePrefix) :
    MerklePrefix.unmarshalField dAtA (pre.length : Int) m = .error e := by
  unfold MerklePrefix.unmarshalField
  rw [readTag_at dAtA pre tail 1 2 tag_val_1_2.1 hd]
  simp only [tag_val_1_2.2.1, tag_val_1_2.2.2, h]
  simp

theorem Version.version_field_error_len (dAtA pre tail : List Byte) (n : Nat)
    (hn : n = 1 ∨ n = 2) (hd : dAtA = pre ++ tag n 2 :: tail) (e : Error)
    (h : readBytes dAtA ((pre.length : Int) + 1) = .error e) (m : Version) :
    Version.unmarshalField dAtA (pre.length : Int) m = .error e := by
  unfold Version.unmarshalField
  rcases hn with rfl | rfl
  · rw [readTag_at dAtA pre tail 1 2 tag_val_1_2.1 hd]
    simp only [tag_val_1_2.2.1, tag_val_1_2.2.2, h]
    simp
  · rw [readTag_at dAtA pre tail 2 2 tag_val_2_2.1 hd]
    simp only [tag_val_2_2.2.1, tag_val_2_2.2.2, h]
    simp

theorem readVarint_overflow_after (w : Nat) (dAtA pre run rest : List Byte) (t : Byte)
    (hd : dAtA = pre ++ t :: (run ++ rest)) (hrun : run.length = 10)
    (hall : ∀ b ∈ run, 0x80 ≤ b.val) :
    readVarint w dAtA 10 0 ((pre.length : Int) + 1) 0 = .error .ErrIntOverflowConnection := by
  have := readVarint_overflow w dAtA 10 (pre ++ [t]) run rest 0 0 (by rw [hd]; simp) hrun hall
  simpa using this

theorem ConnectionEnd.connectionEnd_field_overflow (dAtA pre run rest : List Byte)
    (hd : dAtA = pre ++ (run ++ rest)) (hrun : run.length = 10)
    (hall : ∀ b ∈ run, 0x80 ≤ b.val) (m : ConnectionEnd) :
    ConnectionEnd.unmarshalField dAtA (pre.length : Int) m = .error .ErrIntOverflowConnection := by
  unfold ConnectionEnd.unmarshalField
  rw [readVarint_overflow 64 dAtA 10 pre run rest 0 0 hd hrun hall]

theorem Counterparty.counterparty_field_overflow (dAtA pre run rest : List Byte)
    (hd : dAtA = pre ++ (run ++ rest)) (hrun : run.length = 10)
    (hall : ∀ b ∈ run, 0x80 ≤ b.val) (m : Counterparty) :
    Counterparty.unmarshalField dAtA (pre.length : Int) m = .error .ErrIntOverflowConnection := by
  unfold Counterparty.unmarshalField
  rw [readVarint_overflow 64 dAtA 10 pre run rest 0 0 hd hrun hall]

theorem MerklePrefix.merkle_field_overflow (dAtA pre run rest : List Byte)
    (hd : dAtA = pre ++ (run ++ rest)) (hrun : run.length = 10)
    (hall : ∀ b ∈ run, 0x80 ≤ b.val) (m : MerklePrefix) :
    MerklePrefix.unmarshalField dAtA (pre.length : Int) m = .error .ErrIntOverflowConnection := by
  unfold MerklePrefix.unmarshalField
  rw [readVarint_overflow 64 dAtA 10 pre run rest 0 0 hd hrun hall]

theorem Version.version_field_overflow (dAtA pre run rest : List Byte)
    (hd : dAtA = pre ++ (run ++ rest)) (hrun : run.length = 10)
    (hall : ∀ b ∈ run, 0x80 ≤ b.val) (m : Version) :
    Version.unmarshalField dAtA (pre.length : Int) m = .error .ErrIntOverflowConnection := by
  unfold Version.unmarshalField
  rw [readVarint_overflow 64 dAtA 10 pre run rest 0 0 hd hrun hall]

theorem ConnectionEnd.field_overflow_value (dAtA pre run rest : List Byte) (t : Byte)
    (ht : t ∈ [tag 1 2, tag 2 2, tag 3 0, tag 4 2, tag 5 0])
    (hd : dAtA = pre ++ t :: (run ++ rest)) (hrun : run.length = 10)
    (hall : ∀ b ∈ run, 0x80 ≤ b.val) (m : ConnectionEnd) :
    ConnectionEnd.unmarshalField dAtA (pre.length : Int) m = .error .ErrIntOverflowConnection := by
  have h64 := readVarint_overflow_after 64 dAtA pre run rest t hd hrun hall
  have h32 := readVarint_overflow_after 32 dAtA pre run rest t hd hrun hall
  simp only [List.mem_cons, List.mem_singleton, List.not_mem_nil, or_false] at ht
  rcases ht with rfl | rfl | rfl | rfl | rfl
  · exact ConnectionEnd.field_error_len dAtA pre _ 1 (Or.inl rfl) hd _ (readBytes_error _ _ _ h64) m
  · exact ConnectionEnd.field_error_len dAtA pre _ 2 (Or.inr (Or.inl rfl)) hd _
      (readBytes_error _ _ _ h64) m
  · exact ConnectionEnd.field_error_State dAtA pre _ hd _ h32 m
  · exact ConnectionEnd.field_error_len dAtA pre _ 4 (Or.inr (Or.inr rfl)) hd _
      (readBytes_error _ _ _ h64) m
  · exact ConnectionEnd.field_error_DelayPeriod dAtA pre _ hd _ h64 m

theorem skipConnection_overflow (run rest : List Byte) (hrun : run.length = 10)
    (hall : ∀ b ∈ run, 0x80 ≤ b.val) :
    skipConnection (run ++ rest) = .error .ErrIntOverflowConnection := by
  unfold skipConnection skipLoop
  have := readVarint_overflow 64 (run ++ rest) 10 [] run rest 0 0 (by simp) hrun hall
  simp only [List.length_nil, Nat.cast_zero] at this
  rw [if_pos (by simp; omega), this]

theorem skipConnection_overflow_body (g wt : Nat) (run rest : List Byte) (hg : g < 2 ^ 29)
    (hwt : wt = 0 ∨ wt = 2) (hrun : run.length = 10) (hall : ∀ b ∈ run, 0x80 ≤ b.val) :
    skipConnection (rawField g wt (run ++ rest)) = .error .ErrIntOverflowConnection := by
  obtain ⟨a1, a2, a3⟩ := tag_arith g wt hg (by omega)
  have hpos := varintAux_length_pos 10 (g <<< 3 ||| wt) (by decide)
  unfold skipConnection skipLoop
  have hread := readVarint_first (run ++ rest) (g <<< 3 ||| wt) a1
  have hdata : rawField g wt (run ++ rest) = varint (g <<< 3 ||| wt) ++ (run ++ rest) := rfl
  rw [hdata, if_pos (by
    simp only [List.length_append, Nat.cast_add, Nat.cast_zero]
    unfold varint
    omega), hread]
  simp only [a3]
  rcases hwt with rfl | rfl
  · have hov := skipVarint_overflow (varint (g <<< 3 ||| 0) ++ (run ++ rest)) 10
      (varint (g <<< 3 ||| 0)) run rest 0 rfl hrun hall
    simp only [skipBody, ↓reduceIte, hov, OfNat.ofNat_ne_zero, OfNat.ofNat_ne_one]
  · have hov := readVarint_overflow 64 (varint (g <<< 3 ||| 2) ++ (run ++ rest)) 10
      (varint (g <<< 3 ||| 2)) run rest 0 0 rfl hrun hall
    simp only [skipBody, ↓reduceIte, hov, OfNat.ofNat_ne_zero, OfNat.ofNat_ne_one]

theorem ConnectionEnd.Unmarshal_prefix_error (m0 m : ConnectionEnd) (tail : List Byte)
    (e : Error) (hwt : m0.WellTyped) (hl : (m0.wire ++ tail).length < 2 ^ 63) (ht : tail ≠ [])
    (he : ∀ m' : ConnectionEnd,
      ConnectionEnd.unmarshalField (m0.wire ++ tail) (m0.wire.length : Int) m' = .error e) :
    ConnectionEnd.Unmarshal m (m0.wire ++ tail) = .error e := by
  unfold ConnectionEnd.Unmarshal
  have hi := m0.connectionEnd_itemBytes_items
  have := unmarshalLoop_items_error ConnectionEnd.unmarshalField m0.items
    (m0.connectionEnd_decodes_items hwt) (m0.wire ++ tail) [] tail m
    ((m0.wire ++ tail).length + 1) e (by rw [hi]; simp) hl ht
    (by rw [hi]; simp only [List.length_append]; omega)
    (by rw [hi]; simpa using he _)
  simpa using this

/-- C27: over-long varints are rejected. Let `run` be ten bytes that all have the
high bit set. With `run` where the next tag is read (at the start of the input, or
for `ConnectionEnd` after the encoding of any message), the four `Unmarshal`
functions and `skipConnection` return `ErrIntOverflowConnection`; so they do with
`run` right after the tag of a declared field, where the length prefix or the
integer value of the field is read, and so does `skipConnection` with `run` as the
value of a varint field or as the length of a length-delimited field of any field
number. -/
theorem overlong_varint_rejected (run rest : List Byte) (m0 m : ConnectionEnd)
    (c : Counterparty) (p : MerklePrefix) (v : Version) (g : Nat)
    (hrun : run.length = 10) (hall : ∀ b ∈ run, 0x80 ≤ b.val) (hwt : m0.WellTyped)
    (hlen : m0.wire.length + 1 + run.length + rest.length < 2 ^ 63) (hg : g < 2 ^ 29) :
    (ConnectionEnd.Unmarshal m (m0.wire ++ (run ++ rest)) = .error .ErrIntOverflowConnection
      ∧ ∀ t ∈ [tag 1 2, tag 2 2, tag 3 0, tag 4 2, tag 5 0],
          ConnectionEnd.Unmarshal m (m0.wire ++ t :: (run ++ rest))
            = .error .ErrIntOverflowConnection)
    ∧ (Counterparty.Unmarshal c (run ++ rest) = .error .ErrIntOverflowConnection
      ∧ ∀ t ∈ [tag 1 2, tag 2 2, tag 3 2],
          Counterparty.Unmarshal c (t :: (run ++ rest)) = .error .ErrIntOverflowConnection)
    ∧ (MerklePrefix.Unmarshal p (run ++ rest) = .error .ErrIntOverflowConnection
      ∧ MerklePrefix.Unmarshal p (tag 1 2 :: (run ++ rest)) = .error .ErrIntOverflowConnection)
    ∧ (Version.Unmarshal v (run ++ rest) = .error .ErrIntOverflowConnection
      ∧ ∀ t ∈ [tag 1 2, tag 2 2],
          Version.Unmarshal v (t :: (run ++ rest)) = .error .ErrIntOverflowConnection)
    ∧ (skipConnection (run ++ rest) = .error .ErrIntOverflowConnection
      ∧ skipConnection (rawField g 0 (run ++ rest)) = .error .ErrIntOverflowConnection
      ∧ skipConnection (rawField g 2 (run ++ rest)) = .error .ErrIntOverflowConnection) := by
  have hne : run ++ rest ≠ [] := by
    intro h
    have := congrArg List.length h
    rw [List.length_append, hrun, List.length_nil] at this
    omega
  have h64 : ∀ t : Byte, readBytes (t :: (run ++ rest)) 1 = .error .ErrIntOverflowConnection := by
    intro t
    have := readVarint_overflow_after 64 (t :: (run ++ rest)) [] run rest t rfl hrun hall
    exact readBytes_error _ _ _ (by simpa using this)
  refine ⟨⟨?_, ?_⟩, ⟨?_, ?_⟩, ⟨?_, ?_⟩, ⟨?_, ?_⟩, ?_, ?_, ?_⟩
  · exact ConnectionEnd.Unmarshal_prefix_error m0 m _ _ hwt
      (by simp only [List.length_append]; omega) hne
      (fun m' => ConnectionEnd.connectionEnd_field_overflow _ m0.wire run rest rfl hrun hall m')
  · intro t ht
    exact ConnectionEnd.Unmarshal_prefix_error m0 m _ _ hwt
      (by simp only [List.length_append, List.length_cons]; omega) (by simp)
      (fun m' => ConnectionEnd.field_overflow_value _ m0.wire run rest t ht rfl hrun hall m')
  · unfold Counterparty.Unmarshal
    apply unmarshalLoop_first_error _ _ _ _ _ hne
    simpa using Counterparty.counterparty_field_overflow (run ++ rest) [] run rest rfl hrun hall c
  · intro t ht
    unfold Counterparty.Unmarshal
    apply unmarshalLoop_first_error _ _ _ _ _ (by simp)
    simp only [List.mem_cons, List.mem_singleton, List.not_mem_nil, or_false] at ht
    have hn : ∃ n, (n = 1 ∨ n = 2 ∨ n = 3) ∧ t = tag n 2 := by
      rcases ht with rfl | rfl | rfl
      · exact ⟨1, Or.inl rfl, rfl⟩
      · exact ⟨2, Or.inr (Or.inl rfl), rfl⟩
      · exact ⟨3, Or.inr (Or.inr rfl), rfl⟩
    obtain ⟨n, hn, rfl⟩ := hn
    simpa using Counterparty.counterparty_field_error_len (tag n 2 :: (run ++ rest)) [] _ n hn
      rfl _ (by simpa using h64 (tag n 2)) c
  · unfold MerklePrefix.Unmarshal
    apply unmarshalLoop_first_error _ _ _ _ _ hne
    simpa using MerklePrefix.merkle_field_overflow (run ++ rest) [] run rest rfl hrun hall p
  · unfold MerklePrefix.Unmarshal
    apply unmarshalLoop_first_error _ _ _ _ _ (by simp)
    simpa using MerklePrefix.merkle_field_error_len (tag 1 2 :: (run ++ rest)) [] _
      rfl _ (by simpa using h64 (tag 1 2)) p
  · unfold Version.Unmarshal
    apply unmarshalLoop_first_error _ _ _ _ _ hne
    simpa using Version.version_field_overflow (run ++ rest) [] run rest rfl hrun hall v
  · intro t ht
    unfold Version.Unmarshal
    apply unmarshalLoop_first_error _ _ _ _ _ (by simp)
    simp only [List.mem_cons, List.mem_singleton, List.not_mem_nil, or_false] at ht
    have hn : ∃ n, (n = 1 ∨ n = 2) ∧ t = tag n 2 := by
      rcases ht with rfl | rfl
      · exact ⟨1, Or.inl rfl, rfl⟩
      · exact ⟨2, Or.inr rfl, rfl⟩
    obtain ⟨n, hn, rfl⟩ := hn
    simpa using Version.version_field_error_len (tag n 2 :: (run ++ rest)) [] _ n hn
      rfl _ (by simpa using h64 (tag n 2)) v
  · exact skipConnection_overflow run rest hrun hall
  · exact skipConnection_overflow_body g 0 run rest hg (Or.inl rfl) hrun hall
  · exact skipConnection_overflow_body g 2 run rest hg (Or.inr rfl) hrun hall

theorem overlong_varint_rejected_witness :
    (ConnectionEnd.Unmarshal {} (sampleConnectionEnd.wire ++ (sampleRun ++ [1]))
        = .error .ErrIntOverflowConnection
      ∧ ∀ t ∈ [tag 1 2, tag 2 2, tag 3 0, tag 4 2, tag 5 0],
          ConnectionEnd.Unmarshal {} (sampleConnectionEnd.wire ++ t :: (sampleRun ++ [1]))
            = .error .ErrIntOverflowConnection)
    ∧ (Counterparty.Unmarshal {} (sampleRun ++ [1]) = .error .ErrIntOverflowConnection
      ∧ ∀ t ∈ [tag 1 2, tag 2 2, tag 3 2],
          Counterparty.Unmarshal {} (t :: (sampleRun ++ [1])) = .error .ErrIntOverflowConnection)
    ∧ (MerklePrefix.Unmarshal {} (sampleRun ++ [1]) = .error .ErrIntOverflowConnection
      ∧ MerklePrefix.Unmarshal {} (tag 1 2 :: (sampleRun ++ [1]))
          = .error .ErrIntOverflowConnection)
    ∧ (Version.Unmarshal {} (sampleRun ++ [1]) = .error .ErrIntOverflowConnection
      ∧ ∀ t ∈ [tag 1 2, tag 2 2],
          Version.Unmarshal {} (t :: (sampleRun ++ [1])) = .error .ErrIntOverflowConnection)
    ∧ (skipConnection (sampleRun ++ [1]) = .error .ErrIntOverflowConnection
      ∧ skipConnection (rawField 7 0 (sampleRun ++ [1])) = .error .ErrIntOverflowConnection
      ∧ skipConnection (rawField 7 2 (sampleRun ++ [1])) = .error .ErrIntOverflowConnection) :=
  overlong_varint_rejected sampleRun [1] sampleConnectionEnd {} {} {} {} 7 (by decide)
    (by simp only [sampleRun, List.mem_replicate]; rintro b ⟨-, rfl⟩; decide) (by decide)
    (by decide) (by decide)

/-! ## Safety and progress of the decoders on arbitrary input -/

theorem loadByte_ok (dAtA : List Byte) (i : Int) (h0 : 0 ≤ i) (hi : i < dAtA.length) :
    ∃ b, loadByte dAtA i = .ok b := by
  unfold loadByte
  rw [if_pos h0]
  have : i.toNat < dAtA.length := by omega
  rw [List.getElem?_eq_getElem this]
  exact ⟨_, rfl⟩

theorem readVarint_progress (w : Nat) (dAtA : List Byte) (n : Nat) :
    ∀ (shift : Nat) (i : Int) (x : Nat), 0 ≤ i →
      (∀ x' i', readVarint w dAtA n shift i x = .ok (x', i') → i < i' ∧ i' ≤ dAtA.length)
      ∧ (∀ e, readVarint w dAtA n shift i x = .error e →
          e = .ErrIntOverflowConnection ∨ e = .ErrUnexpectedEOF) := by
  induction n with
  | zero =>
    intro shift i x _
    constructor
    · intro x' i' h; simp [readVarint] at h
    · intro e h; simp only [readVarint, Except.error.injEq] at h; exact Or.inl h.symm
  | succ n ih =>
    intro shift i x h0
    unfold readVarint
    by_cases hs : shift ≥ 64
    · simp only [hs, if_true]
      exact ⟨fun _ _ h => (by cases h), fun e h => by cases h; exact Or.inl rfl⟩
    · by_cases hi : i ≥ dAtA.length
      · simp only [hs, if_false, hi, if_true]
        exact ⟨fun _ _ h => (by cases h), fun e h => by cases h; exact Or.inr rfl⟩
      · obtain ⟨b, hb⟩ := loadByte_ok dAtA i h0 (by omega)
        simp only [hs, if_false, hi, hb]
        by_cases hlt : b.val < 0x80
        · simp only [hlt, if_true]
          constructor
          · intro x' i' h
            cases h
            constructor <;> omega
          · intro e h; cases h
        · simp only [hlt, if_false]
          obtain ⟨h1, h2⟩ := ih (shift + 7) (i + 1)
            (x ||| ((b.val &&& 0x7F) <<< shift) % 2 ^ w) (by omega)
          constructor
          · intro x' i' h
            have := h1 x' i' h
            constructor <;> omega
          · exact h2

theorem skipVarint_progress (dAtA : List Byte) (n : Nat) :
    ∀ (shift : Nat) (i : Int), 0 ≤ i →
      (∀ i', skipVarint dAtA n shift i = .ok i' → i < i' ∧ i' ≤ dAtA.length)
      ∧ (∀ e, skipVarint dAtA n shift i = .error e →
          e = .ErrIntOverflowConnection ∨ e = .ErrUnexpectedEOF) := by
  induction n with
  | zero =>
    intro shift i _
    constructor
    · intro i' h; simp [skipVarint] at h
    · intro e h; simp only [skipVarint, Except.error.injEq] at h; exact Or.inl h.symm
  | succ n ih =>
    intro shift i h0
    unfold skipVarint
    by_cases hs : shift ≥ 64
    · simp only [hs, if_true]
      exact ⟨fun _ h => (by cases h), fun e h => by cases h; exact Or.inl rfl⟩
    · by_cases hi : i ≥ dAtA.length
      · simp only [hs, if_false, hi, if_true]
        exact ⟨fun _ h => (by cases h), fun e h => by cases h; exact Or.inr rfl⟩
      · have e1 : i + 1 - 1 = i := by omega
        obtain ⟨b, hb⟩ := loadByte_ok dAtA i h0 (by omega)
        simp only [hs, if_false, hi, e1, hb]
        by_cases hlt : b.val < 0x80
        · simp only [hlt, if_true]
          constructor
          · intro i' h
            cases h
            constructor <;> omega
          · intro e h; cases h
        · simp only [hlt, if_false]
          obtain ⟨h1, h2⟩ := ih (shift + 7) (i + 1) (by omega)
          constructor
          · intro i' h
            have := h1 i' h
            constructor <;> omega
          · exact h2

theorem toInt64_range (x : Nat) : -(2 : Int) ^ 63 ≤ toInt64 x ∧ toInt64 x < 2 ^ 63 := by
  unfold toInt64
  have := Nat.mod_lt x (show 2 ^ 64 > 0 by decide)
  split <;> constructor <;> omega

theorem addInt_range (a b : Int) : -(2 : Int) ^ 63 ≤ addInt a b ∧ addInt a b < 2 ^ 63 :=
  toInt64_range _

theorem addInt_nonneg (a b : Int) (ha : 0 ≤ a) (hb : 0 ≤ b) (ha' : a < 2 ^ 63)
    (hb' : b < 2 ^ 63) : addInt a b = a + b ∨ addInt a b < 0 := by
  unfold addInt toInt64 toUint64
  have h1 : (a + b) % 2 ^ 64 = a + b := Int.emod_eq_of_lt (by omega) (by omega)
  rw [h1]
  have h2 : (a + b).toNat % 2 ^ 64 = (a + b).toNat := Nat.mod_eq_of_lt (by omega)
  rw [h2]
  split
  · left; omega
  · right; omega

theorem readLength_progress (dAtA : List Byte) (i : Int) (hl : dAtA.length < 2 ^ 63)
    (h0 : 0 ≤ i) :
    (∀ i1 post, readLength dAtA i = .ok (i1, post) →
      i < i1 ∧ i1 ≤ post ∧ post ≤ dAtA.length)
    ∧ (∀ e, readLength dAtA i = .error e → e.returned = true) := by
  obtain ⟨h1, h2⟩ := readVarint_progress 64 dAtA 10 0 i 0 h0
  unfold readLength
  cases hr : readVarint 64 dAtA 10 0 i 0 with
  | error e =>
    simp only []
    refine ⟨fun _ _ h => (by cases h), fun e' h => ?_⟩
    cases h
    rcases h2 e hr with rfl | rfl <;> rfl
  | ok r =>
    obtain ⟨len, i1⟩ := r
    have hp := h1 len i1 hr
    have hrange := toInt64_range len
    simp only []
    by_cases hneg : toInt64 len < 0
    · simp only [hneg, if_true]
      exact ⟨fun _ _ h => (by cases h), fun e h => by cases h; rfl⟩
    · simp only [hneg, if_false]
      rcases addInt_nonneg i1 (toInt64 len) (by omega) (by omega) (by omega) hrange.2 with h | h
      · rw [h]
        by_cases hn : i1 + toInt64 len < 0
        · simp only [hn, if_true]
          exact ⟨fun _ _ h => (by cases h), fun e h => by cases h; rfl⟩
        · by_cases hg : i1 + toInt64 len > dAtA.length
          · simp only [hn, if_false, hg, if_true]
            exact ⟨fun _ _ h => (by cases h), fun e h => by cases h; rfl⟩
          · simp only [hn, if_false, hg]
            refine ⟨fun a b h => ?_, fun e h => by cases h⟩
            cases h
            refine ⟨by omega, by omega, by omega⟩
      · simp only [h, if_true]
        exact ⟨fun _ _ h => (by cases h), fun e h => by cases h; rfl⟩

theorem slice_ok (dAtA : List Byte) (lo hi : Int) (h0 : 0 ≤ lo) (h1 : lo ≤ hi)
    (h2 : hi ≤ dAtA.length) :
    ∃ s, slice dAtA lo hi = .ok s ∧ (s.length : Int) = hi - lo := by
  unfold slice
  rw [if_pos ⟨h0, h1, h2⟩]
  refine ⟨_, rfl, ?_⟩
  simp only [List.length_drop, List.length_take]
  omega

theorem readBytes_progress (dAtA : List Byte) (i : Int) (hl : dAtA.length < 2 ^ 63)
    (h0 : 0 ≤ i) :
    (∀ s post, readBytes dAtA i = .ok (s, post) →
      i < post ∧ post ≤ dAtA.length ∧ s.length < dAtA.length)
    ∧ (∀ e, readBytes dAtA i = .error e → e.returned = true) := by
  obtain ⟨h1, h2⟩ := readLength_progress dAtA i hl h0
  unfold readBytes
  cases hr : readLength dAtA i with
  | error e =>
    simp only []
    exact ⟨fun _ _ h => (by cases h), fun e' h => by cases h; exact h2 e hr⟩
  | ok r =>
    obtain ⟨i1, post⟩ := r
    obtain ⟨a1, a2, a3⟩ := h1 i1 post hr
    obtain ⟨s, hs, hlen⟩ := slice_ok dAtA i1 post (by omega) a2 a3
    simp only [hs]
    refine ⟨fun s' p' h => ?_, fun e h => by cases h⟩
    cases h
    refine ⟨by omega, a3, by omega⟩

theorem skipBody_progress (dAtA : List Byte) (wireType : Nat) (i depth : Int)
    (hl : dAtA.length < 2 ^ 63) (h0 : 0 ≤ i) (hi : i ≤ dAtA.length) :
    (∀ i2 d2, skipBody dAtA wireType i depth = .ok (i2, d2) →
      (i2 < 0 ∨ i ≤ i2) ∧ i2 < 2 ^ 63)
    ∧ (∀ e, skipBody dAtA wireType i depth = .error e → e.returned = true) := by
  unfold skipBody
  by_cases h0w : wireType = 0
  · obtain ⟨h1, h2⟩ := skipVarint_progress dAtA 10 0 i h0
    rw [if_pos h0w]
    cases hr : skipVarint dAtA 10 0 i with
    | error e =>
      simp only []
      refine ⟨fun _ _ h => (by cases h), fun e' h => ?_⟩
      cases h
      rcases h2 e hr with rfl | rfl <;> rfl
    | ok i2 =>
      have := h1 i2 hr
      simp only []
      refine ⟨fun a b h => ?_, fun e h => (by cases h)⟩
      cases h
      exact ⟨Or.inr (by omega), by omega⟩
  · by_cases h1w : wireType = 1
    · rw [if_neg h0w, if_pos h1w]
      refine ⟨fun a b h => ?_, fun e h => (by cases h)⟩
      cases h
      have hr := addInt_range i 8
      rcases addInt_nonneg i 8 h0 (by omega) (by omega) (by omega) with h | h
      · exact ⟨Or.inr (by omega), hr.2⟩
      · exact ⟨Or.inl h, hr.2⟩
    · by_cases h2w : wireType = 2
      · obtain ⟨h1, h2⟩ := readVarint_progress 64 dAtA 10 0 i 0 h0
        rw [if_neg h0w, if_neg h1w, if_pos h2w]
        cases hr : readVarint 64 dAtA 10 0 i 0 with
        | error e =>
          simp only []
          refine ⟨fun _ _ h => (by cases h), fun e' h => ?_⟩
          cases h
          rcases h2 e hr with rfl | rfl <;> rfl
        | ok r =>
          obtain ⟨len, i1⟩ := r
          have hp := h1 len i1 hr
          have hrange := toInt64_range len
          simp only []
          by_cases hneg : toInt64 len < 0
          · simp only [hneg, if_true]
            exact ⟨fun _ _ h => (by cases h), fun e h => by cases h; rfl⟩
          · simp only [hneg, if_false]
            refine ⟨fun a b h => ?_, fun e h => (by cases h)⟩
            cases h
            have hr2 := addInt_range i1 (toInt64 len)
            rcases addInt_nonneg i1 (toInt64 len) (by omega) (by omega) (by omega) hrange.2
              with h | h
            · exact ⟨Or.inr (by omega), hr2.2⟩
            · exact ⟨Or.inl h, hr2.2⟩
      · by_cases h3w : wireType = 3
        · rw [if_neg h0w, if_neg h1w, if_neg h2w, if_pos h3w]
          refine ⟨fun a b h => ?_, fun e h => ?_⟩
          · simp at h
            obtain ⟨rfl, -⟩ := h
            exact ⟨Or.inr (le_refl _), by omega⟩
          · simp at h
        · by_cases h4w : wireType = 4
          · rw [if_neg h0w, if_neg h1w, if_neg h2w, if_neg h3w, if_pos h4w]
            by_cases hd : depth = 0
            · refine ⟨fun a b h => ?_, fun e h => ?_⟩
              · simp [hd] at h
              · simp [hd] at h
                rw [← h]; rfl
            · refine ⟨fun a b h => ?_, fun e h => ?_⟩
              · simp [hd] at h
                obtain ⟨rfl, -⟩ := h
                exact ⟨Or.inr (le_refl _), by omega⟩
              · simp [hd] at h
          · by_cases h5w : wireType = 5
            · rw [if_neg h0w, if_neg h1w, if_neg h2w, if_neg h3w, if_neg h4w, if_pos h5w]
              refine ⟨fun a b h => ?_, fun e h => ?_⟩
              · simp at h
                obtain ⟨rfl, -⟩ := h
                have hr := addInt_range i 4
                rcases addInt_nonneg i 4 h0 (by omega) (by omega) (by omega) with h | h
                · exact ⟨Or.inr (by omega), hr.2⟩
                · exact ⟨Or.inl h, hr.2⟩
              · simp at h
            · rw [if_neg h0w, if_neg h1w, if_neg h2w, if_neg h3w, if_neg h4w, if_neg h5w]
              exact ⟨fun _ _ h => (by cases h), fun e h => by cases h; rfl⟩

theorem skipLoop_progress (dAtA : List Byte) (hl : dAtA.length < 2 ^ 63) (fuel : Nat) :
    ∀ (i depth : Int), 0 ≤ i → 1 ≤ fuel → (dAtA.length : Int) + 1 ≤ fuel + i →
      (∀ n, skipLoop dAtA fuel i depth = .ok n → i < n ∧ n < 2 ^ 63)
      ∧ (∀ e, skipLoop dAtA fuel i depth = .error e → e.returned = true) := by
  induction fuel with
  | zero => intro i depth _ h1 _; omega
  | succ fuel ih =>
    intro i depth h0 _ hf
    unfold skipLoop
    by_cases hi : i < dAtA.length
    · obtain ⟨h1, h2⟩ := readVarint_progress 64 dAtA 10 0 i 0 h0
      simp only [hi, if_true]
      cases hr : readVarint 64 dAtA 10 0 i 0 with
      | error e =>
        simp only []
        refine ⟨fun _ h => (by cases h), fun e' h => ?_⟩
        cases h
        rcases h2 e hr with rfl | rfl <;> rfl
      | ok r =>
        obtain ⟨wire, i1⟩ := r
        have hp := h1 wire i1 hr
        obtain ⟨b1, b2⟩ := skipBody_progress dAtA (wire &&& 0x7) i1 depth hl (by omega) hp.2
        simp only []
        cases hb : skipBody dAtA (wire &&& 0x7) i1 depth with
        | error e =>
          simp only []
          exact ⟨fun _ h => (by cases h), fun e' h => by cases h; exact b2 e hb⟩
        | ok r2 =>
          obtain ⟨i2, d2⟩ := r2
          have hq := b1 i2 d2 hb
          simp only []
          by_cases hneg : i2 < 0
          · simp only [hneg, if_true]
            exact ⟨fun _ h => (by cases h), fun e h => by cases h; rfl⟩
          · simp only [hneg, if_false]
            by_cases hd : d2 = 0
            · simp only [hd, if_true]
              refine ⟨fun n h => ?_, fun e h => (by cases h)⟩
              cases h
              constructor <;> omega
            · simp only [hd, if_false]
              obtain ⟨c1, c2⟩ := ih i2 d2 (by omega) (by omega) (by omega)
              refine ⟨fun n h => ?_, c2⟩
              have := c1 n h
              constructor <;> omega
    · simp only [hi, if_false]
      exact ⟨fun _ h => (by cases h), fun e h => by cases h; rfl⟩

theorem skipConnection_progress (dAtA : List Byte) (hl : dAtA.length < 2 ^ 63) :
    (∀ n, skipConnection dAtA = .ok n → 1 ≤ n ∧ n < 2 ^ 63)
    ∧ (∀ e, skipConnection dAtA = .error e → e.returned = true) := by
  obtain ⟨h1, h2⟩ := skipLoop_progress dAtA hl (dAtA.length + 1) 0 0 (le_refl _) (by omega)
    (by push_cast; omega)
  unfold skipConnection
  refine ⟨fun n h => ?_, h2⟩
  have := h1 n h
  constructor <;> omega

theorem skipField_progress (dAtA : List Byte) (pre : Int) (hl : dAtA.length < 2 ^ 63)
    (h0 : 0 ≤ pre) (hi : pre ≤ dAtA.length) :
    (∀ i', skipField dAtA pre = .ok i' → pre < i' ∧ i' ≤ dAtA.length)
    ∧ (∀ e, skipField dAtA pre = .error e → e.returned = true) := by
  obtain ⟨rest, hs, hlen⟩ := slice_ok dAtA pre dAtA.length h0 hi (le_refl _)
  obtain ⟨h1, h2⟩ := skipConnection_progress rest (by omega)
  unfold skipField
  simp only [hs]
  cases hr : skipConnection rest with
  | error e =>
    simp only []
    exact ⟨fun _ h => (by cases h), fun e' h => by cases h; exact h2 e hr⟩
  | ok skippy =>
    have hp := h1 skippy hr
    simp only []
    rcases addInt_nonneg pre skippy h0 (by omega) (by omega) hp.2 with h | h
    · rw [h]
      by_cases hc : skippy < 0 ∨ pre + skippy < 0
      · simp only [hc, if_true]
        exact ⟨fun _ h => (by cases h), fun e h => by cases h; rfl⟩
      · by_cases hg : pre + skippy > dAtA.length
        · simp only [hc, if_false, hg, if_true]
          exact ⟨fun _ h => (by cases h), fun e h => by cases h; rfl⟩
        · simp only [hc, if_false, hg]
          refine ⟨fun n h => ?_, fun e h => (by cases h)⟩
          cases h
          constructor <;> omega
    · simp only [h, or_true, if_true]
      exact ⟨fun _ h => (by cases h), fun e h => by cases h; rfl⟩

theorem progress_of (dAtA : List Byte) (hl : dAtA.length < 2 ^ 63) (i i1 i2 : Int) (wire : Nat)
    (h0 : 0 ≤ i) (htag : readVarint 64 dAtA 10 0 i 0 = .ok (wire, i1))
    (h : (∃ s, readBytes dAtA i1 = .ok (s, i2))
      ∨ (∃ w x, readVarint w dAtA 10 0 i1 0 = .ok (x, i2))
      ∨ skipField dAtA i = .ok i2) :
    i < i2 ∧ i2 ≤ dAtA.length := by
  have hp := (readVarint_progress 64 dAtA 10 0 i 0 h0).1 wire i1 htag
  rcases h with ⟨s, h⟩ | ⟨w, x, h⟩ | h
  · have := (readBytes_progress dAtA i1 hl (by omega)).1 s i2 h
    constructor <;> omega
  · have := (readVarint_progress w dAtA 10 0 i1 0 (by omega)).1 x i2 h
    constructor <;> omega
  · exact (skipField_progress dAtA i hl h0 (by omega)).1 i2 h

theorem returned_of (dAtA : List Byte) (hl : dAtA.length < 2 ^ 63) (i i1 : Int) (wire : Nat)
    (e : Error) (h0 : 0 ≤ i) (htag : readVarint 64 dAtA 10 0 i 0 = .ok (wire, i1))
    (h : readBytes dAtA i1 = .error e
      ∨ (∃ w, readVarint w dAtA 10 0 i1 0 = .error e)
      ∨ skipField dAtA i = .error e) :
    e.returned = true := by
  have hp := (readVarint_progress 64 dAtA 10 0 i 0 h0).1 wire i1 htag
  rcases h with h | ⟨w, h⟩ | h
  · exact (readBytes_progress dAtA i1 hl (by omega)).2 e h
  · rcases (readVarint_progress w dAtA 10 0 i1 0 (by omega)).2 e h with rfl | rfl <;> rfl
  · exact (skipField_progress dAtA i hl h0 (by omega)).2 e h

theorem returned_of_tag (dAtA : List Byte) (i : Int) (e : Error) (h0 : 0 ≤ i)
    (htag : readVarint 64 dAtA 10 0 i 0 = .error e) : e.returned = true := by
  rcases (readVarint_progress 64 dAtA 10 0 i 0 h0).2 e htag with rfl | rfl <;> rfl

theorem slice_shorter (dAtA : List Byte) (hl : dAtA.length < 2 ^ 63) (i i1 i2 : Int) (wire : Nat)
    (s : List Byte) (h0 : 0 ≤ i) (htag : readVarint 64 dAtA 10 0 i 0 = .ok (wire, i1))
    (h : readBytes dAtA i1 = .ok (s, i2)) : s.length < 2 ^ 63 := by
  have hp := (readVarint_progress 64 dAtA 10 0 i 0 h0).1 wire i1 htag
  have := (readBytes_progress dAtA i1 hl (by omega)).1 s i2 h
  omega

theorem unmarshalLoop_returns {α : Type} (field : List Byte → Int → α → Except Error (α × Int))
    (dAtA : List Byte)
    (hfield : ∀ (i : Int) (m : α), 0 ≤ i → Progress dAtA.length i (field dAtA i m))
    (fuel : Nat) : ∀ (i : Int) (m : α), 0 ≤ i → 1 ≤ fuel →
      (dAtA.length : Int) + 1 ≤ fuel + i → Returns (unmarshalLoop field dAtA fuel i m) := by
  induction fuel with
  | zero => intro i m _ h1 _; omega
  | succ fuel ih =>
    intro i m h0 _ hf
    unfold unmarshalLoop
    by_cases hi : i < dAtA.length
    · have hp := hfield i m h0
      rw [if_pos hi]
      cases hr : field dAtA i m with
      | error e =>
        rw [hr] at hp
        exact hp
      | ok r =>
        obtain ⟨m', i'⟩ := r
        rw [hr] at hp
        simp only [Progress] at hp
        simp only []
        exact ih i' m' (by omega) (by omega) (by omega)
    · rw [if_neg hi]
      by_cases hg : i > dAtA.length
      · rw [if_pos hg]; rfl
      · rw [if_neg hg]; trivial

theorem MerklePrefix.merkle_field_progress (dAtA : List Byte) (hl : dAtA.length < 2 ^ 63)
    (i : Int) (m : MerklePrefix) (h0 : 0 ≤ i) :
    Progress dAtA.length i (MerklePrefix.unmarshalField dAtA i m) := by
  cases hr : MerklePrefix.unmarshalField dAtA i m with
  | error e =>
    show e.returned = true
    unfold MerklePrefix.unmarshalField at hr
    simp only [] at hr
    repeat' split at hr
    all_goals first
      | (cases hr; done)
      | (cases hr; rfl)
      | (cases hr; exact returned_of_tag dAtA i _ h0 (by assumption))
      | (cases hr; exact returned_of dAtA hl i _ _ _ h0 (by assumption) (Or.inl (by assumption)))
      | (cases hr; exact returned_of dAtA hl i _ _ _ h0 (by assumption)
          (Or.inr (Or.inr (by assumption))))
  | ok r =>
    obtain ⟨m', i'⟩ := r
    show i < i' ∧ i' ≤ dAtA.length
    unfold MerklePrefix.unmarshalField at hr
    simp only [] at hr
    repeat' split at hr
    all_goals first
      | (cases hr; done)
      | (cases hr; exact progress_of dAtA hl i _ _ _ h0 (by assumption)
          (Or.inl ⟨_, by assumption⟩))
      | (cases hr; exact progress_of dAtA hl i _ _ _ h0 (by assumption)
          (Or.inr (Or.inr (by assumption))))

theorem MerklePrefix.merkle_Unmarshal_returns (m : MerklePrefix) (dAtA : List Byte)
    (hl : dAtA.length < 2 ^ 63) : Returns (MerklePrefix.Unmarshal m dAtA) :=
  unmarshalLoop_returns MerklePrefix.unmarshalField dAtA
    (fun i m h0 => MerklePrefix.merkle_field_progress dAtA hl i m h0) (dAtA.length + 1) 0 m
    (le_refl _) (by omega) (by push_cast; omega)

theorem Returns.error {α : Type} {r : Except Error α} {e : Error} (h : Returns r)
    (hr : r = .error e) : e.returned = true := by
  subst hr
  exact h

theorem Version.version_field_progress (dAtA : List Byte) (hl : dAtA.length < 2 ^ 63)
    (i : Int) (m : Version) (h0 : 0 ≤ i) :
    Progress dAtA.length i (Version.unmarshalField dAtA i m) := by
  cases hr : Version.unmarshalField dAtA i m with
  | error e =>
    show e.returned = true
    unfold Version.unmarshalField at hr
    simp only [] at hr
    repeat' split at hr
    all_goals first
      | (cases hr; done)
      | (cases hr; rfl)
      | (cases hr; exact returned_of_tag dAtA i _ h0 (by assumption))
      | (cases hr; exact returned_of dAtA hl i _ _ _ h0 (by assumption) (Or.inl (by assumption)))
      | (cases hr; exact returned_of dAtA hl i _ _ _ h0 (by assumption)
          (Or.inr (Or.inr (by assumption))))
  | ok r =>
    obtain ⟨m', i'⟩ := r
    show i < i' ∧ i' ≤ dAtA.length
    unfold Version.unmarshalField at hr
    simp only [] at hr
    repeat' split at hr
    all_goals first
      | (cases hr; done)
      | (cases hr; exact progress_of dAtA hl i _ _ _ h0 (by assumption)
          (Or.inl ⟨_, by assumption⟩))
      | (cases hr; exact progress_of dAtA hl i _ _ _ h0 (by assumption)
          (Or.inr (Or.inr (by assumption))))

theorem Version.version_Unmarshal_returns (m : Version) (dAtA : List Byte)
    (hl : dAtA.length < 2 ^ 63) : Returns (Version.Unmarshal m dAtA) :=
  unmarshalLoop_returns Version.unmarshalField dAtA
    (fun i m h0 => Version.version_field_progress dAtA hl i m h0) (dAtA.length + 1) 0 m
    (le_refl _) (by omega) (by push_cast; omega)

theorem Counterparty.counterparty_field_progress (dAtA : List Byte) (hl : dAtA.length < 2 ^ 63)
    (i : Int) (m : Counterparty) (h0 : 0 ≤ i) :
    Progress dAtA.length i (Counterparty.unmarshalField dAtA i m) := by
  cases hr : Counterparty.unmarshalField dAtA i m with
  | error e =>
    show e.returned = true
    unfold Counterparty.unmarshalField at hr
    simp only [] at hr
    repeat' split at hr
    all_goals first
      | (cases hr; done)
      | (cases hr; rfl)
      | (cases hr; exact returned_of_tag dAtA i _ h0 (by assumption))
      | (cases hr; exact returned_of dAtA hl i _ _ _ h0 (by assumption) (Or.inl (by assumption)))
      | (cases hr; exact returned_of dAtA hl i _ _ _ h0 (by assumption)
          (Or.inr (Or.inr (by assumption))))
      | (cases hr; exact (MerklePrefix.merkle_Unmarshal_returns _ _
          (slice_shorter dAtA hl i _ _ _ _ h0 (by assumption) (by assumption))).error
            (by assumption))
  | ok r =>
    obtain ⟨m', i'⟩ := r
    show i < i' ∧ i' ≤ dAtA.length
    unfold Counterparty.unmarshalField at hr
    simp only [] at hr
    repeat' split at hr
    all_goals first
      | (cases hr; done)
      | (cases hr; exact progress_of dAtA hl i _ _ _ h0 (by assumption)
          (Or.inl ⟨_, by assumption⟩))
      | (cases hr; exact progress_of dAtA hl i _ _ _ h0 (by assumption)
          (Or.inr (Or.inr (by assumption))))

theorem Counterparty.counterparty_Unmarshal_returns (m : Counterparty) (dAtA : List Byte)
    (hl : dAtA.length < 2 ^ 63) : Returns (Counterparty.Unmarshal m dAtA) :=
  unmarshalLoop_returns Counterparty.unmarshalField dAtA
    (fun i m h0 => Counterparty.counterparty_field_progress dAtA hl i m h0) (dAtA.length + 1) 0 m
    (le_refl _) (by omega) (by push_cast; omega)

set_option maxHeartbeats 1600000 in
theorem ConnectionEnd.connectionEnd_field_progress (dAtA : List Byte)
    (hl : dAtA.length < 2 ^ 63) (i : Int) (m : ConnectionEnd) (h0 : 0 ≤ i) :
    Progress dAtA.length i (ConnectionEnd.unmarshalField dAtA i m) := by
  cases hr : ConnectionEnd.unmarshalField dAtA i m with
  | error e =>
    show e.returned = true
    unfold ConnectionEnd.unmarshalField at hr
    simp only [] at hr
    repeat' split at hr
    all_goals first
      | (cases hr; done)
      | (cases hr; rfl)
      | (cases hr; exact returned_of_tag dAtA i _ h0 (by assumption))
      | (cases hr; exact returned_of dAtA hl i _ _ _ h0 (by assumption) (Or.inl (by assumption)))
      | (cases hr; exact returned_of dAtA hl i _ _ _ h0 (by assumption)
          (Or.inr (Or.inl ⟨_, by assumption⟩)))
      | (cases hr; exact returned_of dAtA hl i _ _ _ h0 (by assumption)
          (Or.inr (Or.inr (by assumption))))
      | (cases hr; exact (Version.version_Unmarshal_returns _ _
          (slice_shorter dAtA hl i _ _ _ _ h0 (by assumption) (by assumption))).error
            (by assumption))
      | (cases hr; exact (Counterparty.counterparty_Unmarshal_returns _ _
          (slice_shorter dAtA hl i _ _ _ _ h0 (by assumption) (by assumption))).error
            (by assumption))
  | ok r =>
    obtain ⟨m', i'⟩ := r
    show i < i' ∧ i' ≤ dAtA.length
    unfold ConnectionEnd.unmarshalField at hr
    simp only [] at hr
    repeat' split at hr
    all_goals first
      | (cases hr; done)
      | (cases hr; exact progress_of dAtA hl i _ _ _ h0 (by assumption)
          (Or.inl ⟨_, by assumption⟩))
      | (cases hr; exact progress_of dAtA hl i _ _ _ h0 (by assumption)
          (Or.inr (Or.inl ⟨_, _, by assumption⟩)))
      | (cases hr; exact progress_of dAtA hl i _ _ _ h0 (by assumption)
          (Or.inr (Or.inr (by assumption))))

theorem ConnectionEnd.connectionEnd_Unmarshal_returns (m : ConnectionEnd) (dAtA : List Byte)
    (hl : dAtA.length < 2 ^ 63) : Returns (ConnectionEnd.Unmarshal m dAtA) :=
  unmarshalLoop_returns ConnectionEnd.unmarshalField dAtA
    (fun i m h0 => ConnectionEnd.connectionEnd_field_progress dAtA hl i m h0) (dAtA.length + 1)
    0 m (le_refl _) (by omega) (by push_cast; omega)

theorem Returns.ne_panic {α : Type} {r : Except Error α} (h : Returns r) :
    r ≠ .error .panic := by
  intro hr
  have := h.error hr
  cases this

theorem Returns.ne_outOfFuel {α : Type} {r : Except Error α} (h : Returns r) :
    r ≠ .error .outOfFuel := by
  intro hr
  have := h.error hr
  cases this

theorem skipConnection_returns (dAtA : List Byte) (hl : dAtA.length < 2 ^ 63) :
    Returns (skipConnection dAtA) ∧ SkipsForward (skipConnection dAtA) := by
  obtain ⟨h1, h2⟩ := skipConnection_progress dAtA hl
  cases hr : skipConnection dAtA with
  | error e => exact ⟨h2 e hr, h2 e hr⟩
  | ok n => exact ⟨trivial, (h1 n hr).1⟩

theorem unmarshalLoop_fuel {α : Type} (field : List Byte → Int → α → Except Error (α × Int))
    (dAtA : List Byte)
    (hfield : ∀ (i : Int) (m : α), 0 ≤ i → Progress dAtA.length i (field dAtA i m))
    (fuel : Nat) : ∀ (fuel' : Nat) (i : Int) (m : α), 0 ≤ i → 1 ≤ fuel → 1 ≤ fuel' →
      (dAtA.length : Int) + 1 ≤ fuel + i → (dAtA.length : Int) + 1 ≤ fuel' + i →
      unmarshalLoop field dAtA fuel i m = unmarshalLoop field dAtA fuel' i m := by
  induction fuel with
  | zero => intro fuel' i m _ h1 _ _ _; omega
  | succ fuel ih =>
    intro fuel' i m h0 _ h1' hf hf'
    cases fuel' with
    | zero => omega
    | succ fuel' =>
      unfold unmarshalLoop
      by_cases hi : i < dAtA.length
      · have hp := hfield i m h0
        rw [if_pos hi, if_pos hi]
        cases hr : field dAtA i m with
        | error e => rfl
        | ok r =>
          obtain ⟨m', i'⟩ := r
          rw [hr] at hp
          simp only [Progress] at hp
          simp only []
          exact ih fuel' i' m' (by omega) (by omega) (by omega) (by omega) (by omega)
      · rw [if_neg hi, if_neg hi]

/-- C23: `Unmarshal` is safe on arbitrary input. For every byte string (a Go slice,
so shorter than `2^63` bytes) and every message decoded into, the four `Unmarshal`
functions and `skipConnection` return: the result is nil or an error value, never
the panic that a read of the buffer at an index outside `[0, len)` or an
out-of-range slice would raise. -/
theorem Unmarshal_safe (dAtA : List Byte) (m : ConnectionEnd) (c : Counterparty)
    (p : MerklePrefix) (v : Version) (hl : dAtA.length < 2 ^ 63) :
    (Returns (ConnectionEnd.Unmarshal m dAtA) ∧ ConnectionEnd.Unmarshal m dAtA ≠ .error .panic)
    ∧ (Returns (Counterparty.Unmarshal c dAtA) ∧ Counterparty.Unmarshal c dAtA ≠ .error .panic)
    ∧ (Returns (MerklePrefix.Unmarshal p dAtA) ∧ MerklePrefix.Unmarshal p dAtA ≠ .error .panic)
    ∧ (Returns (Version.Unmarshal v dAtA) ∧ Version.Unmarshal v dAtA ≠ .error .panic)
    ∧ (Returns (skipConnection dAtA) ∧ skipConnection dAtA ≠ .error .panic) :=
  ⟨⟨m.connectionEnd_Unmarshal_returns dAtA hl, (m.connectionEnd_Unmarshal_returns dAtA hl).ne_panic⟩,
    ⟨c.counterparty_Unmarshal_returns dAtA hl, (c.counterparty_Unmarshal_returns dAtA hl).ne_panic⟩,
    ⟨p.merkle_Unmarshal_returns dAtA hl, (p.merkle_Unmarshal_returns dAtA hl).ne_panic⟩,
    ⟨v.version_Unmarshal_returns dAtA hl, (v.version_Unmarshal_returns dAtA hl).ne_panic⟩,
    ⟨(skipConnection_returns dAtA hl).1, (skipConnection_returns dAtA hl).1.ne_panic⟩⟩

theorem Unmarshal_safe_witness :
    (Returns (ConnectionEnd.Unmarshal {} sampleGarbage)
      ∧ ConnectionEnd.Unmarshal {} sampleGarbage ≠ .error .panic)
    ∧ (Returns (Counterparty.Unmarshal {} sampleGarbage)
      ∧ Counterparty.Unmarshal {} sampleGarbage ≠ .error .panic)
    ∧ (Returns (MerklePrefix.Unmarshal {} sampleGarbage)
      ∧ MerklePrefix.Unmarshal {} sampleGarbage ≠ .error .panic)
    ∧ (Returns (Version.Unmarshal {} sampleGarbage)
      ∧ Version.Unmarshal {} sampleGarbage ≠ .error .panic)
    ∧ (Returns (skipConnection sampleGarbage) ∧ skipConnection sampleGarbage ≠ .error .panic) :=
  Unmarshal_safe sampleGarbage {} {} {} {} (by decide)

/-- C24: `Unmarshal` terminates on every input. A round of the field loop of each of
the four `Unmarshal` functions, started at an index `i ≥ 0` of a buffer, returns an
error or moves the index forward by at least one byte, to at most the length of the
buffer; `skipConnection` returns an error or a length of at least 1; the sub-slice a
length-delimited field hands to a nested `Unmarshal` is strictly shorter than the
buffer. So the loops end within `len + 1` rounds: the bound of the embedding is
never exhausted, and every larger bound gives the same result. -/
theorem Unmarshal_terminates (dAtA : List Byte) (i : Int) (m : ConnectionEnd)
    (c : Counterparty) (p : MerklePrefix) (v : Version) (hl : dAtA.length < 2 ^ 63)
    (h0 : 0 ≤ i) :
    (Progress dAtA.length i (ConnectionEnd.unmarshalField dAtA i m)
      ∧ Progress dAtA.length i (Counterparty.unmarshalField dAtA i c)
      ∧ Progress dAtA.length i (MerklePrefix.unmarshalField dAtA i p)
      ∧ Progress dAtA.length i (Version.unmarshalField dAtA i v))
    ∧ SkipsForward (skipConnection dAtA)
    ∧ ShorterSlice dAtA.length (readBytes dAtA i)
    ∧ (ConnectionEnd.Unmarshal m dAtA ≠ .error .outOfFuel
      ∧ Counterparty.Unmarshal c dAtA ≠ .error .outOfFuel
      ∧ MerklePrefix.Unmarshal p dAtA ≠ .error .outOfFuel
      ∧ Version.Unmarshal v dAtA ≠ .error .outOfFuel
      ∧ skipConnection dAtA ≠ .error .outOfFuel)
    ∧ ∀ fuel, dAtA.length + 1 ≤ fuel →
        unmarshalLoop ConnectionEnd.unmarshalField dAtA fuel 0 m = ConnectionEnd.Unmarshal m dAtA
        ∧ unmarshalLoop Counterparty.unmarshalField dAtA fuel 0 c = Counterparty.Unmarshal c dAtA
        ∧ unmarshalLoop MerklePrefix.unmarshalField dAtA fuel 0 p = MerklePrefix.Unmarshal p dAtA
        ∧ unmarshalLoop Version.unmarshalField dAtA fuel 0 v = Version.Unmarshal v dAtA := by
  refine ⟨⟨ConnectionEnd.connectionEnd_field_progress dAtA hl i m h0,
      Counterparty.counterparty_field_progress dAtA hl i c h0,
      MerklePrefix.merkle_field_progress dAtA hl i p h0,
      Version.version_field_progress dAtA hl i v h0⟩,
    (skipConnection_returns dAtA hl).2, ?_,
    ⟨(m.connectionEnd_Unmarshal_returns dAtA hl).ne_outOfFuel,
      (c.counterparty_Unmarshal_returns dAtA hl).ne_outOfFuel,
      (p.merkle_Unmarshal_returns dAtA hl).ne_outOfFuel,
      (v.version_Unmarshal_returns dAtA hl).ne_outOfFuel,
      (skipConnection_returns dAtA hl).1.ne_outOfFuel⟩, ?_⟩
  · cases hr : readBytes dAtA i with
    | error e => trivial
    | ok r =>
      obtain ⟨s, i'⟩ := r
      exact ((readBytes_progress dAtA i hl h0).1 s i' hr).2.2
  · intro fuel hf
    refine ⟨?_, ?_, ?_, ?_⟩
    · exact unmarshalLoop_fuel _ dAtA
        (fun i m h0 => ConnectionEnd.connectionEnd_field_progress dAtA hl i m h0) fuel
        (dAtA.length + 1) 0 m (le_refl _) (by omega) (by omega) (by omega) (by push_cast; omega)
    · exact unmarshalLoop_fuel _ dAtA
        (fun i m h0 => Counterparty.counterparty_field_progress dAtA hl i m h0) fuel
        (dAtA.length + 1) 0 c (le_refl _) (by omega) (by omega) (by omega) (by push_cast; omega)
    · exact unmarshalLoop_fuel _ dAtA
        (fun i m h0 => MerklePrefix.merkle_field_progress dAtA hl i m h0) fuel
        (dAtA.length + 1) 0 p (le_refl _) (by omega) (by omega) (by omega) (by push_cast; omega)
    · exact unmarshalLoop_fuel _ dAtA
        (fun i m h0 => Version.version_field_progress dAtA hl i m h0) fuel
        (dAtA.length + 1) 0 v (le_refl _) (by omega) (by omega) (by omega) (by push_cast; omega)

theorem Unmarshal_terminates_witness :
    (Progress sampleGarbage.length 0 (ConnectionEnd.unmarshalField sampleGarbage 0 {})
      ∧ Progress sampleGarbage.length 0 (Counterparty.unmarshalField sampleGarbage 0 {})
      ∧ Progress sampleGarbage.length 0 (MerklePrefix.unmarshalField sampleGarbage 0 {})
      ∧ Progress sampleGarbage.length 0 (Version.unmarshalField sampleGarbage 0 {}))
    ∧ SkipsForward (skipConnection sampleGarbage)
    ∧ ShorterSlice sampleGarbage.length (readBytes sampleGarbage 0)
    ∧ (ConnectionEnd.Unmarshal {} sampleGarbage ≠ .error .outOfFuel
      ∧ Counterparty.Unmarshal {} sampleGarbage ≠ .error .outOfFuel
      ∧ MerklePrefix.Unmarshal {} sampleGarbage ≠ .error .outOfFuel
      ∧ Version.Unmarshal {} sampleGarbage ≠ .error .outOfFuel
      ∧ skipConnection sampleGarbage ≠ .error .outOfFuel)
    ∧ ∀ fuel, sampleGarbage.length + 1 ≤ fuel →
        unmarshalLoop ConnectionEnd.unmarshalField sampleGarbage fuel 0 {}
          = ConnectionEnd.Unmarshal {} sampleGarbage
        ∧ unmarshalLoop Counterparty.unmarshalField sampleGarbage fuel 0 {}
          = Counterparty.Unmarshal {} sampleGarbage
        ∧ unmarshalLoop MerklePrefix.unmarshalField sampleGarbage fuel 0 {}
          = MerklePrefix.Unmarshal {} sampleGarbage
        ∧ unmarshalLoop Version.unmarshalField sampleGarbage fuel 0 {}
          = Version.Unmarshal {} sampleGarbage :=
  Unmarshal_terminates sampleGarbage 0 {} {} {} {} (by decide) (by decide)

/-! ## Truncated encodings -/

theorem take_ite_default {α β : Type} [DecidableEq β] (x d : β) (g : β → α) (p : Prop)
    [Decidable p] (k : Nat) (h : p ↔ 0 < k) :
    (if (if p then x else d) = d then [] else [g (if p then x else d)])
      = (if x = d then [] else [g x]).take k := by
  by_cases hp : p
  · have hk : 0 < k := h.1 hp
    obtain ⟨k', rfl⟩ := Nat.exists_eq_succ_of_ne_zero (Nat.pos_iff_ne_zero.1 hk)
    by_cases hx : x = d <;> simp [hp, hx]
  · have hk : k = 0 := by
      rcases Nat.eq_zero_or_pos k with h0 | h0
      · exact h0
      · exact absurd (h.2 h0) hp
    subst hk
    simp [hp]

theorem take_option_toList {α β : Type} (o : Option β) (g : β → α) (p : Prop)
    [Decidable p] (k : Nat) (h : p ↔ 0 < k) :
    ((if p then o else none).map g).toList = ((o.map g).toList).take k := by
  by_cases hp : p
  · have hk : 0 < k := h.1 hp
    obtain ⟨k', rfl⟩ := Nat.exists_eq_succ_of_ne_zero (Nat.pos_iff_ne_zero.1 hk)
    cases o <;> simp [hp]
  · have hk : k = 0 := by
      rcases Nat.eq_zero_or_pos k with h0 | h0
      · exact h0
      · exact absurd (h.2 h0) hp
    subst hk
    simp [hp]

theorem length_ite_singleton {α : Type} (c : Prop) [Decidable c] (x : α) :
    (if c then [] else [x]).length = if c then 0 else 1 := by
  split <;> rfl

theorem length_option_toList {α β : Type} (o : Option β) (g : β → α) [Decidable (o = none)] :
    ((o.map g).toList).length = if o = none then 0 else 1 := by
  cases o <;> simp

theorem ConnectionEnd.truncate_fields (m : ConnectionEnd) (j : Nat) :
    (m.truncate j).fields = m.fields.take j := by
  unfold ConnectionEnd.fields ConnectionEnd.truncate
  simp only [List.take_append_eq_append_take, List.length_append, List.length_map,
    List.map_take, length_ite_singleton, length_option_toList]
  rw [take_ite_default m.ClientId [] (lenField 1) (0 < j) j Iff.rfl,
    take_ite_default m.State 0 (fun s => varintField 3 (toUint64 s)) _
      (j - ((if m.ClientId = [] then 0 else 1) + m.Versions.length)) (by omega),
    take_ite_default m.DelayPeriod 0 (varintField 5) _
      (j - ((if m.ClientId = [] then 0 else 1) + m.Versions.length
        + (if m.State = 0 then 0 else 1) + (if m.Counterparty = none then 0 else 1)))
      (by omega),
    take_option_toList m.Counterparty (fun c => lenField 4 c.wire) _
      (j - ((if m.ClientId = [] then 0 else 1) + m.Versions.length
        + (if m.State = 0 then 0 else 1))) (by omega)]

theorem readVarint_truncated (w : Nat) (dAtA : List Byte) (n : Nat) :
    ∀ (pre : List Byte) (v shift x t : Nat), dAtA = pre ++ (varintAux n v).take t →
      t < (varintAux n v).length → shift + 7 * n ≤ 70 →
      readVarint w dAtA n shift (pre.length : Int) x = .error .ErrUnexpectedEOF := by
  induction n with
  | zero =>
    intro _ _ _ _ t _ ht _
    simp [varintAux] at ht
  | succ n ih =>
    intro pre v shift x t hd ht hs
    unfold readVarint
    rw [if_neg (by omega)]
    unfold varintAux at hd ht
    cases t with
    | zero =>
      rw [if_pos (by subst hd; simp)]
    | succ t =>
      by_cases h : v < 128
      · rw [if_pos h] at ht
        simp at ht
      · rw [if_neg h] at hd ht
        simp only [List.take_succ_cons] at hd
        rw [if_neg (by subst hd; simp; omega), loadByte_at dAtA pre _ (uint8 (v % 128 + 128)) hd]
        simp only [contByte_ge, if_false]
        have h3 := ih (pre ++ [uint8 (v % 128 + 128)]) (v / 128) (shift + 7)
          (x ||| ((uint8 (v % 128 + 128)).val &&& 0x7F) <<< shift % 2 ^ w) t (by simpa using hd)
          (by simpa using ht) (by omega)
        simp only [List.length_append, List.length_singleton, Nat.cast_add, Nat.cast_one] at h3
        exact h3

theorem readVarint_truncated_after (w : Nat) (pre : List Byte) (b : Byte) (v t : Nat)
    (ht : t < (varint v).length) :
    readVarint w (pre ++ b :: (varint v).take t) 10 0 ((pre.length : Int) + 1) 0
      = .error .ErrUnexpectedEOF := by
  have := readVarint_truncated w (pre ++ b :: (varint v).take t) 10 (pre ++ [b]) v 0 0 t
    (by simp [varint]) ht (by decide)
  simpa using this

theorem readBytes_truncated (pre s : List Byte) (b : Byte) (t : Nat)
    (ht : t < (varint s.length ++ s).length)
    (hl : pre.length + 1 + (varint s.length ++ s).length < 2 ^ 63) :
    readBytes (pre ++ b :: (varint s.length ++ s).take t) ((pre.length : Int) + 1)
      = .error .ErrUnexpectedEOF := by
  simp only [List.length_append] at ht hl
  by_cases h : t < (varint s.length).length
  · rw [List.take_append_of_le_length (Nat.le_of_lt h)]
    exact readBytes_error _ _ _ (readVarint_truncated_after 64 pre b s.length t h)
  · have hs : s.length < 2 ^ 63 := by omega
    rw [List.take_append_eq_append_take, List.take_of_length_le (Nat.le_of_not_lt h)]
    generalize hu : t - (varint s.length).length = u
    have hul : (s.take u).length = u := by
      rw [List.length_take]; omega
    have hr := readVarint_varint 64 (pre ++ b :: (varint s.length ++ s.take u)) (pre ++ [b])
      (s.take u) s.length (by simp) (by omega)
    simp only [List.length_append, List.length_singleton, Nat.cast_add, Nat.cast_one] at hr
    unfold readBytes readLength
    rw [hr]
    have e1 : s.length % 2 ^ 64 = s.length := Nat.mod_eq_of_lt (by omega)
    simp only [e1]
    rw [toInt64_natCast _ hs]
    have e2 : ((pre.length : Int) + 1 + ((varint s.length).length : Int))
        = ((pre.length + 1 + (varint s.length).length : Nat) : Int) := by push_cast; rfl
    rw [e2, addInt_natCast _ _ (by omega)]
    rw [if_neg (by omega), if_neg (by omega), if_pos]
    simp only [List.length_append, List.length_cons, hul]
    push_cast
    omega

theorem ConnectionEnd.truncated_lenField (pre s : List Byte) (n t : Nat)
    (hn : n = 1 ∨ n = 2 ∨ n = 4) (h0 : 0 < t) (ht : t < (lenField n s).length)
    (hl : pre.length + (lenField n s).length < 2 ^ 63) (m : ConnectionEnd) :
    ConnectionEnd.unmarshalField (pre ++ (lenField n s).take t) (pre.length : Int) m
      = .error .ErrUnexpectedEOF := by
  obtain ⟨t, rfl⟩ := Nat.exists_eq_succ_of_ne_zero (Nat.pos_iff_ne_zero.1 h0)
  simp only [lenField, List.length_cons] at ht hl
  simp only [lenField, List.take_succ_cons]
  exact ConnectionEnd.field_error_len _ pre _ n hn rfl _
    (readBytes_truncated pre s (tag n 2) t (by omega) (by omega)) m

theorem ConnectionEnd.truncated_State (pre : List Byte) (v t : Nat)
    (h0 : 0 < t) (ht : t < (varintField 3 v).length) (m : ConnectionEnd) :
    ConnectionEnd.unmarshalField (pre ++ (varintField 3 v).take t) (pre.length : Int) m
      = .error .ErrUnexpectedEOF := by
  obtain ⟨t, rfl⟩ := Nat.exists_eq_succ_of_ne_zero (Nat.pos_iff_ne_zero.1 h0)
  simp only [varintField, List.length_cons] at ht
  simp only [varintField, List.take_succ_cons]
  exact ConnectionEnd.field_error_State _ pre _ rfl _
    (readVarint_truncated_after 32 pre (tag 3 0) v t (by omega)) m

theorem ConnectionEnd.truncated_DelayPeriod (pre : List Byte) (v t : Nat)
    (h0 : 0 < t) (ht : t < (varintField 5 v).length) (m : ConnectionEnd) :
    ConnectionEnd.unmarshalField (pre ++ (varintField 5 v).take t) (pre.length : Int) m
      = .error .ErrUnexpectedEOF := by
  obtain ⟨t, rfl⟩ := Nat.exists_eq_succ_of_ne_zero (Nat.pos_iff_ne_zero.1 h0)
  simp only [varintField, List.length_cons] at ht
  simp only [varintField, List.take_succ_cons]
  exact ConnectionEnd.field_error_DelayPeriod _ pre _ rfl _
    (readVarint_truncated_after 64 pre (tag 5 0) v t (by omega)) m

theorem ConnectionEnd.fields_cases (m : ConnectionEnd) :
    ∀ f ∈ m.fields, (∃ n s, (n = 1 ∨ n = 2 ∨ n = 4) ∧ f = lenField n s)
      ∨ (∃ v, f = varintField 3 v) ∨ (∃ v, f = varintField 5 v) := by
  intro f hf
  unfold ConnectionEnd.fields at hf
  simp only [List.mem_append, List.mem_map] at hf
  rcases hf with (((h | ⟨v, _, h⟩) | h) | h) | h
  · by_cases h1 : m.ClientId = []
    · simp [h1] at h
    · simp only [if_neg h1, List.mem_singleton] at h
      exact Or.inl ⟨1, _, Or.inl rfl, h⟩
  · exact Or.inl ⟨2, _, Or.inr (Or.inl rfl), h.symm⟩
  · by_cases h1 : m.State = 0
    · simp [h1] at h
    · simp only [if_neg h1, List.mem_singleton] at h
      exact Or.inr (Or.inl ⟨_, h⟩)
  · cases hc : m.Counterparty with
    | none => simp [hc] at h
    | some c =>
      simp only [hc, Option.map, Option.toList, List.mem_singleton] at h
      exact Or.inl ⟨4, _, Or.inr (Or.inr rfl), h⟩
  · by_cases h1 : m.DelayPeriod = 0
    · simp [h1] at h
    · simp only [if_neg h1, List.mem_singleton] at h
      exact Or.inr (Or.inr ⟨_, h⟩)

theorem ConnectionEnd.truncated_field (m : ConnectionEnd) (pre f : List Byte) (t : Nat)
    (hf : f ∈ m.fields) (h0 : 0 < t) (ht : t < f.length) (hl : pre.length + f.length < 2 ^ 63)
    (x : ConnectionEnd) :
    ConnectionEnd.unmarshalField (pre ++ f.take t) (pre.length : Int) x
      = .error .ErrUnexpectedEOF := by
  rcases m.fields_cases f hf with ⟨n, s, hn, rfl⟩ | ⟨v, rfl⟩ | ⟨v, rfl⟩
  · exact ConnectionEnd.truncated_lenField pre s n t hn h0 ht hl x
  · exact ConnectionEnd.truncated_State pre v t h0 ht x
  · exact ConnectionEnd.truncated_DelayPeriod pre v t h0 ht x

theorem flatten_take_split {α : Type} (L : List (List α)) :
    ∀ k, k < L.flatten.length → ∃ j t, j < L.length ∧ t < (L.getD j []).length
      ∧ k = (L.take j).flatten.length + t
      ∧ L.flatten.take k = (L.take j).flatten ++ (L.getD j []).take t
      ∧ (L.take j).flatten.length + (L.getD j []).length ≤ L.flatten.length
      ∧ L.getD j [] ∈ L := by
  induction L with
  | nil => intro k hk; simp at hk
  | cons x xs ih =>
    intro k hk
    simp only [List.flatten_cons, List.length_append] at hk
    by_cases h : k < x.length
    · refine ⟨0, k, by simp, by simpa using h, by simp, ?_, by simp, by simp⟩
      simp [List.take_append_of_le_length (Nat.le_of_lt h)]
    · obtain ⟨j, t, h1, h2, h3, h4, h5, h6⟩ := ih (k - x.length) (by omega)
      refine ⟨j + 1, t, by simpa using h1, by simpa using h2, ?_, ?_, ?_, ?_⟩
      · simp only [List.take_succ_cons, List.flatten_cons, List.length_append]
        omega
      · simp only [List.flatten_cons, List.take_succ_cons, List.getD_cons_succ,
          List.take_append_eq_append_take, List.take_of_length_le (Nat.le_of_not_lt h), h4,
          List.append_assoc]
      · simp only [List.take_succ_cons, List.flatten_cons, List.length_append,
          List.getD_cons_succ]
        omega
      · simp only [List.getD_cons_succ]
        exact List.mem_cons_of_mem _ h6

theorem ConnectionEnd.truncate_noNil (m : ConnectionEnd) (j : Nat) (hnil : m.NoNilVersion) :
    (m.truncate j).NoNilVersion := by
  intro v hv
  exact hnil v (List.mem_of_mem_take hv)

theorem ConnectionEnd.truncate_wellTyped (m : ConnectionEnd) (j : Nat) (hwt : m.WellTyped) :
    (m.truncate j).WellTyped := by
  obtain ⟨h1, h2, h3⟩ := hwt
  unfold ConnectionEnd.WellTyped ConnectionEnd.truncate
  simp only []
  refine ⟨?_, ?_, ?_⟩ <;> split_ifs <;> first | assumption | decide

/-- C26: truncated encodings are rejected, never mis-decoded. For every
`ConnectionEnd` `m` (no nil `Versions` entry, `State` an `int32`, `DelayPeriod` a
`uint64`, the size within a Go `int`), `Marshal(m)` is the string of the top-level
fields of `m`, and every `k` below its length lies in exactly one field: `k` is `t`
bytes into field `j`. When `t = 0`, a field boundary, `Unmarshal` of the first `k`
bytes into a fresh message succeeds and yields `m.truncate j`, the message whose
fields are the first `j` fields of `m`. When `t > 0`, strictly inside field `j`,
`Unmarshal` of the first `k` bytes returns `io.ErrUnexpectedEOF` whatever message is
decoded into. -/
theorem truncated_rejected (m : ConnectionEnd) (hnil : m.NoNilVersion) (hwt : m.WellTyped)
    (hsz : m.Size < 2 ^ 63) (k : Nat) (hk : k < m.Size) :
    ∃ b, m.Marshal = .ok b ∧ b.length = m.Size ∧ b = m.fields.flatten
      ∧ ∃ j t, j < m.fields.length ∧ t < (m.fields.getD j []).length
        ∧ k = (m.fields.take j).flatten.length + t
        ∧ (t = 0 → (m.truncate j).fields = m.fields.take j
            ∧ ConnectionEnd.Unmarshal {} (b.take k) = .ok (m.truncate j))
        ∧ (0 < t → ∀ x, ConnectionEnd.Unmarshal x (b.take k) = .error .ErrUnexpectedEOF) := by
  have h64 := lt_two_pow_64_of_lt_63 hsz
  have hlen := m.connectionEnd_wire_length hnil hwt h64
  refine ⟨m.wire, m.connectionEnd_Marshal_eq hnil hwt h64, hlen, rfl, ?_⟩
  have hlen2 : m.fields.flatten.length = m.Size := hlen
  obtain ⟨j, t, h1, h2, h3, h4, h5, h6⟩ := flatten_take_split m.fields k (by omega)
  have hw : (m.truncate j).wire = (m.fields.take j).flatten := by
    unfold ConnectionEnd.wire
    rw [m.truncate_fields j]
  have hwl : (m.truncate j).wire.length < 2 ^ 63 := by
    rw [hw]; omega
  refine ⟨j, t, h1, h2, h3, ?_, ?_⟩
  · intro ht
    refine ⟨m.truncate_fields j, ?_⟩
    have e : m.wire.take k = (m.truncate j).wire := by
      unfold ConnectionEnd.wire at hw ⊢
      rw [h4, hw, ht]
      simp
    rw [e, ConnectionEnd.connectionEnd_Unmarshal_wire _ _ (m.truncate_wellTyped j hwt) hwl,
      ConnectionEnd.connectionEnd_merge_empty _ (m.truncate_noNil j hnil)]
  · intro ht x
    have e : m.wire.take k = (m.truncate j).wire ++ (m.fields.getD j []).take t := by
      unfold ConnectionEnd.wire at hw ⊢
      rw [h4, hw]
    have htl : ((m.fields.getD j []).take t).length = t := by
      rw [List.length_take]; omega
    rw [e]
    apply ConnectionEnd.Unmarshal_prefix_error (m.truncate j) x _ _ (m.truncate_wellTyped j hwt)
    · rw [List.length_append, htl, hw]; omega
    · intro h
      rw [h] at htl
      simp at htl
      omega
    · intro m'
      exact ConnectionEnd.truncated_field m _ _ t h6 ht h2 (by rw [hw]; omega) m'

theorem truncated_rejected_witness :
    ∃ b, sampleConnectionEnd.Marshal = .ok b ∧ b.length = sampleConnectionEnd.Size
      ∧ b = sampleConnectionEnd.fields.flatten
      ∧ ∃ j t, j < sampleConnectionEnd.fields.length
        ∧ t < (sampleConnectionEnd.fields.getD j []).length
        ∧ 3 = (sampleConnectionEnd.fields.take j).flatten.length + t
        ∧ (t = 0 → (sampleConnectionEnd.truncate j).fields = sampleConnectionEnd.fields.take j
            ∧ ConnectionEnd.Unmarshal {} (b.take 3) = .ok (sampleConnectionEnd.truncate j))
        ∧ (0 < t → ∀ x, ConnectionEnd.Unmarshal x (b.take 3) = .error .ErrUnexpectedEOF) :=
  truncated_rejected sampleConnectionEnd (by decide) (by decide) (by decide) 3 (by decide)

/-! ## A buffer that is too short -/

theorem overruns_of_at {op b} (h : OverrunsAt op b) : Overruns op b := by
  intro dAtA n B hn hB hlt
  unfold bufAfter
  exact h _ (n - B.length) (by simp; omega) (by omega)

theorem overruns_seq {op1 op2 : List Byte × Int → Except Error (List Byte × Int)} {b1 b2 : List Byte}
    (h1 : Emits op1 b1) (f1 : Overruns op1 b1) (f2 : Overruns op2 b2) :
    Overruns (fun st => match op1 st with
      | .error e => .error e
      | .ok st => op2 st) (b2 ++ b1) := by
  intro dAtA n B hn hB hlt
  simp only [List.length_append] at hlt
  simp only []
  by_cases h : n < B.length + b1.length
  · rw [f1 dAtA n B hn hB h]
  · rw [h1 dAtA n B hn (by omega)]
    simp only []
    exact f2 dAtA n (b1 ++ B) hn (by simp; omega) (by simp; omega)

theorem overruns_skip : Overruns (fun st => .ok st) [] := by
  intro dAtA n B _ hB hlt
  simp at hlt
  omega

theorem overruns_cond {op : List Byte × Int → Except Error (List Byte × Int)} {b : List Byte}
    (c : Prop) [Decidable c] (h : c → Overruns op b) :
    Overruns (fun st => if c then op st else .ok st) (if c then b else []) := by
  by_cases hc : c
  · simp only [if_pos hc]; exact h hc
  · simp only [if_neg hc]; exact overruns_skip

theorem step_cases {op : List Byte × Int → Except Error (List Byte × Int)} {b : List Byte}
    (h : Emits op b) (f : Overruns op b) (dAtA : List Byte) (n : Nat) (B : List Byte)
    (hn : n ≤ dAtA.length) (hB : B.length ≤ n) :
    (n < B.length + b.length ∧ op (bufAfter dAtA n B) = .error .panic)
    ∨ (B.length + b.length ≤ n ∧ op (bufAfter dAtA n B) = .ok (bufAfter dAtA n (b ++ B))) := by
  by_cases hlt : n < B.length + b.length
  · exact Or.inl ⟨hlt, f dAtA n B hn hB hlt⟩
  · exact Or.inr ⟨by omega, h dAtA n B hn (by omega)⟩

theorem storeByte_neg (dAtA : List Byte) (i : Int) (b : Byte) (h : i < 0) :
    storeByte dAtA i b = .error .panic := by
  unfold storeByte
  rw [if_neg (by omega)]

theorem encodeVarintLoop_neg (fuel : Nat) (dAtA : List Byte) (offset : Int) (v : Nat)
    (h : offset < 0) : encodeVarintLoop (fuel + 1) dAtA offset v = .error .panic := by
  unfold encodeVarintLoop
  rw [storeByte_neg _ _ _ h, storeByte_neg _ _ _ h]
  split <;> rfl

theorem writeVarintField_overruns (t : Byte) (v : Nat) (hv : v < 2 ^ 64) :
    OverrunsAt (writeVarintField t v) (t :: varint v) := by
  intro buf i hi hlt
  simp only [List.length_cons, varint_length v hv] at hlt
  unfold writeVarintField
  by_cases h : i < sovConnection v
  · have : encodeVarintConnection buf (i : Int) v = .error .panic := by
      unfold encodeVarintConnection
      simp only []
      rw [encodeVarintLoop_neg 9 _ _ _ (by omega)]
    simp only [this]
  · have hi2 : i = sovConnection v := by omega
    have hj : (buf.take i).length = (varint v).length := by
      rw [varint_length v hv, List.length_take]; omega
    have h1 := encodeVarintConnection_at [] (buf.take i) (buf.drop i) v hv hj
    have e : (([] : List Byte).length + (buf.take i).length : Nat) = i := by
      rw [List.length_take]; simp; omega
    rw [e] at h1
    simp only [List.nil_append, List.take_append_drop, List.length_nil] at h1
    simp only [h1]
    rw [storeByte_neg _ _ _ (by decide)]

theorem copyAt_length (buf s : List Byte) (j : Nat) (h : j + s.length ≤ buf.length) :
    ∃ out, copyAt buf (j : Int) s = .ok out ∧ out.length = buf.length := by
  unfold copyAt
  rw [if_pos (by omega)]
  refine ⟨_, rfl, ?_⟩
  simp only [Int.toNat_ofNat, List.length_append, List.length_take, List.length_drop]
  omega

theorem writeBytesField_overruns (t : Byte) (s : List Byte) (hs : s.length < 2 ^ 64) :
    OverrunsAt (writeBytesField t s) (t :: (varint s.length ++ s)) := by
  intro buf i hi hlt
  simp only [List.length_cons, List.length_append] at hlt
  unfold writeBytesField
  simp only []
  by_cases h : i < s.length
  · have : copyAt buf ((i : Int) - (s.length : Int)) s = .error .panic := by
      unfold copyAt
      rw [if_neg (by omega)]
    rw [this]
  · have e : (i : Int) - (s.length : Int) = ((i - s.length : Nat) : Int) := by omega
    rw [e]
    obtain ⟨out, h1, h2⟩ := copyAt_length buf s (i - s.length) (by omega)
    rw [h1]
    simp only []
    exact writeVarintField_overruns t s.length hs out (i - s.length) (by omega)
      (by simp only [List.length_cons]; omega)

theorem writeMsgField_overruns (t : Byte) (marshalTo : List Byte → Except Error (List Byte × Int))
    (w : List Byte) (hw : w.length < 2 ^ 64) (hM : WritesTail marshalTo w)
    (hF : PanicsShort marshalTo w) :
    OverrunsAt (writeMsgField t marshalTo) (t :: (varint w.length ++ w)) := by
  intro buf i hi hlt
  simp only [List.length_cons, List.length_append] at hlt
  unfold writeMsgField
  simp only []
  rw [if_pos (by omega)]
  simp only [Int.toNat_ofNat]
  have hl : (buf.take i).length = i := by
    rw [List.length_take]; omega
  by_cases h : i < w.length
  · rw [hF (buf.take i) (by omega)]
  · rw [hM (buf.take i) (by omega)]
    simp only []
    rw [toUint64_natCast _ hw]
    have e : (i : Int) - (w.length : Int) = ((i - w.length : Nat) : Int) := by omega
    rw [e]
    exact writeVarintField_overruns t w.length hw _ (i - w.length)
      (by simp only [List.length_append, List.length_take, List.length_drop]; omega)
      (by simp only [List.length_cons]; omega)

theorem overruns_bytesField (t : Byte) (s : List Byte) (hs : s.length < 2 ^ 64) :
    Overruns (fun st => if s.length > 0 then writeBytesField t s st else .ok st)
      (if s = [] then [] else t :: (varint s.length ++ s)) := by
  have h := overruns_cond (s.length > 0) (fun _ => overruns_of_at (writeBytesField_overruns t s hs))
  by_cases hs0 : s = []
  · subst hs0; simpa using h
  · have : s.length > 0 := List.length_pos.2 hs0
    simpa [hs0, this] using h

theorem overruns_varintField (t : Byte) (v : Nat) (hv : v < 2 ^ 64) :
    Overruns (fun st => if v ≠ 0 then writeVarintField t v st else .ok st)
      (if v = 0 then [] else t :: varint v) := by
  have h := overruns_cond (v ≠ 0) (fun _ => overruns_of_at (writeVarintField_overruns t v hv))
  by_cases hs0 : v = 0
  · subst hs0; simpa using h
  · simpa [hs0] using h

theorem overruns_writeFeatures (fs : List (List Byte)) (h : ∀ s ∈ fs, s.length < 2 ^ 64) :
    Overruns (Version.writeFeatures fs) ((fs.map (lenField 2)).flatten) := by
  induction fs with
  | nil => exact overruns_skip
  | cons s rest ih =>
    have hr : ∀ s ∈ rest, s.length < 2 ^ 64 := fun s hs => h s (List.mem_cons_of_mem _ hs)
    have h2 := overruns_of_at (writeBytesField_overruns 0x12 s (h s (List.mem_cons_self _ _)))
    have := overruns_seq (emits_writeFeatures rest hr) (ih hr) h2
    simpa [Version.writeFeatures, lenField, tag_2_2] using this

theorem Version.version_panicsShort (m : Version) (hI : m.Identifier.length < 2 ^ 64)
    (hF : ∀ s ∈ m.Features, s.length < 2 ^ 64) :
    PanicsShort m.MarshalToSizedBuffer m.wire := by
  intro buf hlen
  have h1 : Emits (fun st => if m.Features.length > 0 then Version.writeFeatures m.Features st
      else .ok st) ((m.Features.map (lenField 2)).flatten) := by
    by_cases h0 : m.Features = []
    · simpa [h0] using Emits.skip
    · have hp : m.Features.length > 0 := List.length_pos.2 h0
      simpa [hp] using emits_writeFeatures m.Features hF
  have f1 : Overruns (fun st => if m.Features.length > 0 then Version.writeFeatures m.Features st
      else .ok st) ((m.Features.map (lenField 2)).flatten) := by
    by_cases h0 : m.Features = []
    · simpa [h0] using overruns_skip
    · have hp : m.Features.length > 0 := List.length_pos.2 h0
      simpa [hp] using overruns_writeFeatures m.Features hF
  have h2 := emits_bytesField 0xa m.Identifier hI
  have f2 := overruns_bytesField 0xa m.Identifier hI
  have hw : m.wire = (if m.Identifier = [] then [] else 0xa :: (varint m.Identifier.length
      ++ m.Identifier)) ++ (m.Features.map (lenField 2)).flatten := by
    simp only [Version.wire, lenField, tag_1_2]
  generalize (m.Features.map (lenField 2)).flatten = b1 at h1 f1 hw
  generalize (if m.Identifier = [] then [] else 0xa :: (varint m.Identifier.length
      ++ m.Identifier)) = b2 at h2 f2 hw
  rw [hw] at hlen
  simp only [List.length_append] at hlen
  have s1 := step_cases h1 f1 buf buf.length [] (Nat.le_refl _) (by simp)
  have s2 := step_cases h2 f2 buf buf.length (b1 ++ []) (Nat.le_refl _)
  simp only [List.length_append, List.length_nil] at s1 s2
  unfold Version.MarshalToSizedBuffer
  simp only []
  rw [bufAfter_start]
  rcases s1 with ⟨_, e⟩ | ⟨k1, e⟩
  · rw [e]
  · rw [e]
    simp only []
    rcases s2 (by omega) with ⟨_, e⟩ | ⟨k2, e⟩
    · rw [e]
    · omega

theorem MerklePrefix.merkle_panicsShort (m : MerklePrefix) (hK : m.KeyPrefix.length < 2 ^ 64) :
    PanicsShort m.MarshalToSizedBuffer m.wire := by
  intro buf hlen
  have h1 := emits_bytesField 0xa m.KeyPrefix hK
  have f1 := overruns_bytesField 0xa m.KeyPrefix hK
  have hw : m.wire = (if m.KeyPrefix = [] then [] else 0xa :: (varint m.KeyPrefix.length
      ++ m.KeyPrefix)) := by
    simp only [MerklePrefix.wire, lenField, tag_1_2]
  generalize (if m.KeyPrefix = [] then [] else 0xa :: (varint m.KeyPrefix.length
      ++ m.KeyPrefix)) = b1 at h1 f1 hw
  rw [hw] at hlen
  have s1 := step_cases h1 f1 buf buf.length [] (Nat.le_refl _) (by simp)
  simp only [List.length_append, List.length_nil] at s1
  unfold MerklePrefix.MarshalToSizedBuffer
  simp only []
  rw [bufAfter_start]
  rcases s1 with ⟨_, e⟩ | ⟨k1, e⟩
  · rw [e]
  · omega

theorem Counterparty.counterparty_panicsShort (m : Counterparty) (hC : m.ClientId.length < 2 ^ 64)
    (hN : m.ConnectionId.length < 2 ^ 64)
    (hP : ∀ p, m.Prefix = some p → p.KeyPrefix.length < 2 ^ 64 ∧ p.wire.length < 2 ^ 64) :
    PanicsShort m.MarshalToSizedBuffer m.wire := by
  intro buf hlen
  have h1 : Emits (writeOptMsgField 0x1a MerklePrefix.MarshalToSizedBuffer m.Prefix)
      (optLenField 3 (m.Prefix.map MerklePrefix.wire)) := by
    cases hp : m.Prefix with
    | none => exact Emits.skip
    | some p =>
      simp only [Option.map, optLenField, lenField, tag_3_2]
      exact Emits.of_at (writeMsgField_at 0x1a _ p.wire (hP p hp).2 (p.merkle_writesTail (hP p hp).1))
  have f1 : Overruns (writeOptMsgField 0x1a MerklePrefix.MarshalToSizedBuffer m.Prefix)
      (optLenField 3 (m.Prefix.map MerklePrefix.wire)) := by
    cases hp : m.Prefix with
    | none => exact overruns_skip
    | some p =>
      simp only [Option.map, optLenField, lenField, tag_3_2]
      exact overruns_of_at (writeMsgField_overruns 0x1a _ p.wire (hP p hp).2
        (p.merkle_writesTail (hP p hp).1) (p.merkle_panicsShort (hP p hp).1))
  have h2 := emits_bytesField 0x12 m.ConnectionId hN
  have f2 := overruns_bytesField 0x12 m.ConnectionId hN
  have h3 := emits_bytesField 0xa m.ClientId hC
  have f3 := overruns_bytesField 0xa m.ClientId hC
  have hw : m.wire = (if m.ClientId = [] then [] else 0xa :: (varint m.ClientId.length
      ++ m.ClientId)) ++ ((if m.ConnectionId = [] then [] else 0x12 :: (varint m.ConnectionId.length
      ++ m.ConnectionId)) ++ optLenField 3 (m.Prefix.map MerklePrefix.wire)) := by
    simp only [Counterparty.wire, lenField, tag_1_2, tag_2_2, List.append_assoc]
  generalize optLenField 3 (m.Prefix.map MerklePrefix.wire) = b1 at h1 f1 hw
  generalize (if m.ConnectionId = [] then [] else 0x12 :: (varint m.ConnectionId.length
      ++ m.ConnectionId)) = b2 at h2 f2 hw
  generalize (if m.ClientId = [] then [] else 0xa :: (varint m.ClientId.length
      ++ m.ClientId)) = b3 at h3 f3 hw
  rw [hw] at hlen
  simp only [List.length_append] at hlen
  have s1 := step_cases h1 f1 buf buf.length [] (Nat.le_refl _) (by simp)
  have s2 := step_cases h2 f2 buf buf.length (b1 ++ []) (Nat.le_refl _)
  have s3 := step_cases h3 f3 buf buf.length (b2 ++ (b1 ++ [])) (Nat.le_refl _)
  simp only [List.length_append, List.length_nil] at s1 s2 s3
  unfold Counterparty.MarshalToSizedBuffer
  simp only []
  rw [bufAfter_start]
  rcases s1 with ⟨_, e⟩ | ⟨k1, e⟩
  · rw [e]
  · rw [e]
    simp only []
    rcases s2 (by omega) with ⟨_, e⟩ | ⟨k2, e⟩
    · rw [e]
    · rw [e]
      simp only []
      rcases s3 (by omega) with ⟨_, e⟩ | ⟨k3, e⟩
      · rw [e]
      · omega

theorem overruns_writeVersions (vs : List (Option Version))
    (h : ∀ v ∈ vs, ∃ x, v = some x ∧ x.Identifier.length < 2 ^ 64
      ∧ (∀ s ∈ x.Features, s.length < 2 ^ 64) ∧ x.wire.length < 2 ^ 64) :
    Overruns (ConnectionEnd.writeVersions vs)
      ((vs.map (fun v => lenField 2 (Version.wirePtr v))).flatten) := by
  induction vs with
  | nil => exact overruns_skip
  | cons v rest ih =>
    have hr := fun s hs => h s (List.mem_cons_of_mem _ hs)
    obtain ⟨x, hx, hI, hF, hW⟩ := h v (List.mem_cons_self _ _)
    subst hx
    have h2 := overruns_of_at (writeMsgField_overruns 0x12 _ x.wire hW
      (x.version_writesTail hI hF) (x.version_panicsShort hI hF))
    have := overruns_seq (emits_writeVersions rest hr) (ih hr) h2
    simpa [ConnectionEnd.writeVersions, lenField, tag_2_2, Version.wirePtr,
      Version.MarshalToSizedBufferPtr] using this

theorem ConnectionEnd.connectionEnd_panicsShort (m : ConnectionEnd) (hC : m.ClientId.length < 2 ^ 64)
    (hV : ∀ v ∈ m.Versions, ∃ x, v = some x ∧ x.Identifier.length < 2 ^ 64
      ∧ (∀ s ∈ x.Features, s.length < 2 ^ 64) ∧ x.wire.length < 2 ^ 64)
    (hP : ∀ c, m.Counterparty = some c → c.wire.length < 2 ^ 64 ∧ c.ClientId.length < 2 ^ 64
      ∧ c.ConnectionId.length < 2 ^ 64
      ∧ ∀ p, c.Prefix = some p → p.KeyPrefix.length < 2 ^ 64 ∧ p.wire.length < 2 ^ 64)
    (hD : m.DelayPeriod < 2 ^ 64) :
    PanicsShort m.MarshalToSizedBuffer m.wire := by
  intro buf hlen
  have h1 := emits_varintField 0x28 m.DelayPeriod hD
  have f1 := overruns_varintField 0x28 m.DelayPeriod hD
  have h2 : Emits (writeOptMsgField 0x22 Counterparty.MarshalToSizedBuffer m.Counterparty)
      (optLenField 4 (m.Counterparty.map Counterparty.wire)) := by
    cases hp : m.Counterparty with
    | none => exact Emits.skip
    | some c =>
      simp only [Option.map, optLenField, lenField, tag_4_2]
      obtain ⟨hw, hc1, hc2, hc3⟩ := hP c hp
      exact Emits.of_at (writeMsgField_at 0x22 _ c.wire hw (c.counterparty_writesTail hc1 hc2 hc3))
  have f2 : Overruns (writeOptMsgField 0x22 Counterparty.MarshalToSizedBuffer m.Counterparty)
      (optLenField 4 (m.Counterparty.map Counterparty.wire)) := by
    cases hp : m.Counterparty with
    | none => exact overruns_skip
    | some c =>
      simp only [Option.map, optLenField, lenField, tag_4_2]
      obtain ⟨hw, hc1, hc2, hc3⟩ := hP c hp
      exact overruns_of_at (writeMsgField_overruns 0x22 _ c.wire hw
        (c.counterparty_writesTail hc1 hc2 hc3) (c.counterparty_panicsShort hc1 hc2 hc3))
  have h3 : Emits (fun st => if m.State ≠ 0 then writeVarintField 0x18 (toUint64 m.State) st
      else .ok st) (if m.State = 0 then [] else 0x18 :: varint (toUint64 m.State)) := by
    by_cases h0 : m.State = 0
    · simpa [h0] using Emits.skip
    · simpa [h0] using Emits.of_at (writeVarintField_at 0x18 _ (toUint64_lt m.State))
  have f3 : Overruns (fun st => if m.State ≠ 0 then writeVarintField 0x18 (toUint64 m.State) st
      else .ok st) (if m.State = 0 then [] else 0x18 :: varint (toUint64 m.State)) := by
    by_cases h0 : m.State = 0
    · simpa [h0] using overruns_skip
    · simpa [h0] using overruns_of_at (writeVarintField_overruns 0x18 _ (toUint64_lt m.State))
  have h4 : Emits (fun st => if m.Versions.length > 0 then ConnectionEnd.writeVersions m.Versions st
      else .ok st) ((m.Versions.map (fun v => lenField 2 (Version.wirePtr v))).flatten) := by
    by_cases h0 : m.Versions = []
    · simpa [h0] using Emits.skip
    · have hp : m.Versions.length > 0 := List.length_pos.2 h0
      simpa [hp] using emits_writeVersions m.Versions hV
  have f4 : Overruns (fun st => if m.Versions.length > 0 then ConnectionEnd.writeVersions m.Versions st
      else .ok st) ((m.Versions.map (fun v => lenField 2 (Version.wirePtr v))).flatten) := by
    by_cases h0 : m.Versions = []
    · simpa [h0] using overruns_skip
    · have hp : m.Versions.length > 0 := List.length_pos.2 h0
      simpa [hp] using overruns_writeVersions m.Versions hV
  have h5 := emits_bytesField 0xa m.ClientId hC
  have f5 := overruns_bytesField 0xa m.ClientId hC
  have hw := m.wire_eq
  generalize (if m.DelayPeriod = 0 then [] else 0x28 :: varint m.DelayPeriod) = b1 at h1 f1 hw
  generalize optLenField 4 (m.Counterparty.map Counterparty.wire) = b2 at h2 f2 hw
  generalize (if m.State = 0 then [] else 0x18 :: varint (toUint64 m.State)) = b3 at h3 f3 hw
  generalize (m.Versions.map (fun v => lenField 2 (Version.wirePtr v))).flatten = b4 at h4 f4 hw
  generalize (if m.ClientId = [] then [] else 0xa :: (varint m.ClientId.length
      ++ m.ClientId)) = b5 at h5 f5 hw
  rw [hw] at hlen
  simp only [List.length_append] at hlen
  have s1 := step_cases h1 f1 buf buf.length [] (Nat.le_refl _) (by simp)
  have s2 := step_cases h2 f2 buf buf.length (b1 ++ []) (Nat.le_refl _)
  have s3 := step_cases h3 f3 buf buf.length (b2 ++ (b1 ++ [])) (Nat.le_refl _)
  have s4 := step_cases h4 f4 buf buf.length (b3 ++ (b2 ++ (b1 ++ []))) (Nat.le_refl _)
  have s5 := step_cases h5 f5 buf buf.length (b4 ++ (b3 ++ (b2 ++ (b1 ++ [])))) (Nat.le_refl _)
  simp only [List.length_append, List.length_nil] at s1 s2 s3 s4 s5
  unfold ConnectionEnd.MarshalToSizedBuffer
  simp only []
  rw [bufAfter_start]
  rcases s1 with ⟨_, e⟩ | ⟨k1, e⟩
  · rw [e]
  · rw [e]
    simp only []
    rcases s2 (by omega) with ⟨_, e⟩ | ⟨k2, e⟩
    · rw [e]
    · rw [e]
      simp only []
      rcases s3 (by omega) with ⟨_, e⟩ | ⟨k3, e⟩
      · rw [e]
      · rw [e]
        simp only []
        rcases s4 (by omega) with ⟨_, e⟩ | ⟨k4, e⟩
        · rw [e]
        · rw [e]
          simp only []
          rcases s5 (by omega) with ⟨_, e⟩ | ⟨k5, e⟩
          · rw [e]
          · omega

theorem ConnectionEnd.connectionEnd_panicsShort_of_size (m : ConnectionEnd)
    (hnil : m.NoNilVersion) (hwt : m.WellTyped) (h : m.Size < 2 ^ 64) :
    PanicsShort m.MarshalToSizedBuffer m.wire := by
  obtain ⟨hC, hV, hP⟩ := m.connectionEnd_bounds _ h
  apply m.connectionEnd_panicsShort hC ?_ ?_ hwt.2.2
  · intro v hv
    cases v with
    | none => exact absurd rfl (hnil _ hv)
    | some x =>
      have hx : x.Size < 2 ^ 64 := hV _ hv
      obtain ⟨hI, hF⟩ := x.version_bounds _ hx
      exact ⟨x, rfl, hI, hF, by rw [x.version_wire_length hx]; exact hx⟩
  · intro c hc
    have hx := hP c hc
    obtain ⟨h1, h2, h3⟩ := c.counterparty_bounds _ hx
    refine ⟨by rw [c.counterparty_wire_length hx]; exact hx, h1, h2, ?_⟩
    intro p hp
    exact ⟨p.merkle_bounds _ (h3 p hp), by rw [p.merkle_wire_length (h3 p hp)]; exact h3 p hp⟩

/-! ## XXX_Marshal -/

theorem slice_zero (dAtA : List Byte) (n : Nat) (h : n ≤ dAtA.length) :
    slice dAtA 0 (n : Int) = .ok (dAtA.take n) := by
  unfold slice
  rw [if_pos (by omega)]
  simp

/-- C30, as stated, fails: for the message whose `Versions` holds one nil pointer,
`Size` is 2, and `XXX_Marshal(b, false)` on a slice of capacity 2 panics, whatever
the library function of the other branch is: nothing is written or returned. -/
theorem XXX_Marshal_nil_version :
    sampleNilVersion.Size = 2
    ∧ ([0, 0] ++ [] : List Byte).length = 2
    ∧ ¬ ∃ messageInfoMarshal,
        ConnectionEnd.XXX_Marshal messageInfoMarshal sampleNilVersion [0, 0] [] false
          ≠ .error .panic := by
  refine ⟨by decide, by decide, ?_⟩
  rintro ⟨mi, h⟩
  exact h rfl

/-- C30, amended: the non-deterministic branch of `XXX_Marshal` for a `ConnectionEnd`
`m` without a nil `Versions` entry (`State` an `int32`, `DelayPeriod` a `uint64`, the
size within a Go `int`) and a slice `b` whose backing array up to the capacity is
`b ++ spare`. `Marshal(m)` succeeds with `Size(m)` bytes. When `cap(b) ≥ Size(m)`
the call leaves the encoding in the last `Size(m)` bytes of `b[:cap(b)]`, the bytes
before them unchanged, and returns the first `Size(m)` bytes of `b[:cap(b)]`; when
`cap(b) = Size(m)` the returned bytes are `Marshal(m)`; when `cap(b) < Size(m)` the
call panics. -/
theorem XXX_Marshal_sized
    (messageInfoMarshal : List Byte → List Byte → ConnectionEnd → Bool
      → Except Error (List Byte × List Byte))
    (m : ConnectionEnd) (hnil : m.NoNilVersion) (hwt : m.WellTyped) (hsz : m.Size < 2 ^ 63)
    (b spare : List Byte) :
    ∃ enc, m.Marshal = .ok enc ∧ enc.length = m.Size
      ∧ (m.Size ≤ (b ++ spare).length →
          m.XXX_Marshal messageInfoMarshal b spare false
            = .ok ((((b ++ spare).take ((b ++ spare).length - m.Size)) ++ enc).take m.Size,
                ((b ++ spare).take ((b ++ spare).length - m.Size)) ++ enc))
      ∧ ((b ++ spare).length = m.Size →
          m.XXX_Marshal messageInfoMarshal b spare false = .ok (enc, enc))
      ∧ ((b ++ spare).length < m.Size →
          m.XXX_Marshal messageInfoMarshal b spare false = .error .panic) := by
  have h64 := lt_two_pow_64_of_lt_63 hsz
  have hlen := m.connectionEnd_wire_length hnil hwt h64
  have hW := m.connectionEnd_writesTail_of_size hnil hwt h64
  have hF := m.connectionEnd_panicsShort_of_size hnil hwt h64
  have hge : m.Size ≤ (b ++ spare).length →
      m.XXX_Marshal messageInfoMarshal b spare false
        = .ok ((((b ++ spare).take ((b ++ spare).length - m.Size)) ++ m.wire).take m.Size,
            ((b ++ spare).take ((b ++ spare).length - m.Size)) ++ m.wire) := by
    intro h
    unfold ConnectionEnd.XXX_Marshal
    simp only [Bool.false_eq_true, if_false]
    rw [hW (b ++ spare) (by rw [hlen]; exact h)]
    simp only []
    rw [slice_zero _ _ (by simp only [List.length_append, List.length_take]; omega), hlen]
  refine ⟨m.wire, m.connectionEnd_Marshal_eq hnil hwt h64, hlen, hge, ?_, ?_⟩
  · intro h
    rw [hge (Nat.le_of_eq h.symm), h]
    simp only [Nat.sub_self, List.take_zero, List.nil_append]
    rw [← hlen, List.take_length]
  · intro h
    unfold ConnectionEnd.XXX_Marshal
    simp only [Bool.false_eq_true, if_false]
    rw [hF (b ++ spare) (by rw [hlen]; exact h)]

theorem XXX_Marshal_sized_witness :
    ∃ enc, sampleUpdate.Marshal = .ok enc ∧ enc.length = sampleUpdate.Size
      ∧ (sampleUpdate.Size ≤ ([7, 7] ++ List.replicate 20 9).length →
          sampleUpdate.XXX_Marshal (fun _ _ _ _ => .error .panic) [7, 7] (List.replicate 20 9) false
            = .ok (((([7, 7] ++ List.replicate 20 9).take
                      (([7, 7] ++ List.replicate 20 9).length - sampleUpdate.Size)) ++ enc).take
                    sampleUpdate.Size,
                (([7, 7] ++ List.replicate 20 9).take
                  (([7, 7] ++ List.replicate 20 9).length - sampleUpdate.Size)) ++ enc))
      ∧ (([7, 7] ++ List.replicate 20 9).length = sampleUpdate.Size →
          sampleUpdate.XXX_Marshal (fun _ _ _ _ => .error .panic) [7, 7] (List.replicate 20 9) false
            = .ok (enc, enc))
      ∧ (([7, 7] ++ List.replicate 20 9).length < sampleUpdate.Size →
          sampleUpdate.XXX_Marshal (fun _ _ _ _ => .error .panic) [7, 7] (List.replicate 20 9) false
            = .error .panic) :=
  XXX_Marshal_sized (fun _ _ _ _ => .error .panic) sampleUpdate (by decide) (by decide) (by decide)
    [7, 7] (List.replicate 20 9)

/-! ## The state enumeration tables -/

/-- C32: the state name and value tables are inverse bijections over the four
states. For every `i` in 0..3 the name table has a name for `i` and the value table
maps that name back to `i`; for every entry of the value table the name table maps
its number back to its name; the keys of the name table are 0, 1, 2, 3, those of the
value table are the four names, both tables have four entries with distinct keys; and
the constants `UNINITIALIZED_UNSPECIFIED`, `INIT`, `TRYOPEN`, `OPEN` are 0, 1, 2, 3,
named `STATE_UNINITIALIZED_UNSPECIFIED`, `STATE_INIT`, `STATE_TRYOPEN`, `STATE_OPEN`
in the name table. -/
theorem state_tables_inverse :
    (∀ i : Int, 0 ≤ i → i ≤ 3 →
      ∃ s, ConnectionEnd_State_name.lookup i = some s
        ∧ ConnectionEnd_State_value.lookup s = some i)
    ∧ (∀ e ∈ ConnectionEnd_State_value,
        ConnectionEnd_State_value.lookup e.1 = some e.2
        ∧ ConnectionEnd_State_name.lookup e.2 = some e.1)
    ∧ ConnectionEnd_State_name.map Prod.fst = [0, 1, 2, 3]
    ∧ ConnectionEnd_State_value.map Prod.fst
        = ConnectionEnd_State_name.map Prod.snd
    ∧ ConnectionEnd_State_name.length = 4 ∧ ConnectionEnd_State_value.length = 4
    ∧ (ConnectionEnd_State_name.map Prod.fst).Nodup
    ∧ (ConnectionEnd_State_value.map Prod.fst).Nodup
    ∧ (ConnectionEnd_STATE_UNINITIALIZED_UNSPECIFIED = 0
        ∧ ConnectionEnd_State_name.lookup ConnectionEnd_STATE_UNINITIALIZED_UNSPECIFIED
            = some "STATE_UNINITIALIZED_UNSPECIFIED")
    ∧ (ConnectionEnd_STATE_INIT = 1
        ∧ ConnectionEnd_State_name.lookup ConnectionEnd_STATE_INIT = some "STATE_INIT")
    ∧ (ConnectionEnd_STATE_TRYOPEN = 2
        ∧ ConnectionEnd_State_name.lookup ConnectionEnd_STATE_TRYOPEN = some "STATE_TRYOPEN")
    ∧ (ConnectionEnd_STATE_OPEN = 3
        ∧ ConnectionEnd_State_name.lookup ConnectionEnd_STATE_OPEN = some "STATE_OPEN") := by
  refine ⟨?_, by decide, by decide, by decide, by decide, by decide, by decide, by decide,
    by decide, by decide, by decide, by decide⟩
  intro i h0 h3
  have hi : i = 0 ∨ i = 1 ∨ i = 2 ∨ i = 3 := by omega
  rcases hi with rfl | rfl | rfl | rfl
  · exact ⟨"STATE_UNINITIALIZED_UNSPECIFIED", by decide, by decide⟩
  · exact ⟨"STATE_INIT", by decide, by decide⟩
  · exact ⟨"STATE_TRYOPEN", by decide, by decide⟩
  · exact ⟨"STATE_OPEN", by decide, by decide⟩

/-! ## The same bytes further on in a buffer -/

theorem loadByte_append (pre p : List Byte) (j : Nat) :
    loadByte (pre ++ p) ((pre.length + j : Nat) : Int) = loadByte p (j : Int) := by
  unfold loadByte
  rw [if_pos (by omega), if_pos (by omega)]
  simp only [Int.toNat_ofNat]
  rw [List.getElem?_append_right (by omega)]
  simp

theorem readVarint_shifted (w : Nat) (p : List Byte) (n : Nat) :
    ∀ (shift j x : Nat),
      (∃ (v j' : Nat), j < j' ∧ j' ≤ p.length ∧ ∀ pre : List Byte,
          readVarint w (pre ++ p) n shift ((pre.length + j : Nat) : Int) x
            = .ok (v, ((pre.length + j' : Nat) : Int)))
      ∨ (∃ e, ∀ pre : List Byte,
          readVarint w (pre ++ p) n shift ((pre.length + j : Nat) : Int) x = .error e) := by
  induction n with
  | zero =>
    intro shift j x
    exact Or.inr ⟨.ErrIntOverflowConnection, fun pre => rfl⟩
  | succ n ih =>
    intro shift j x
    by_cases hs : shift ≥ 64
    · exact Or.inr ⟨.ErrIntOverflowConnection, fun pre => by
        unfold readVarint; rw [if_pos hs]⟩
    · by_cases hj : j ≥ p.length
      · exact Or.inr ⟨.ErrUnexpectedEOF, fun pre => by
          unfold readVarint
          rw [if_neg hs, if_pos (by simp only [List.length_append]; omega)]⟩
      · have hj' : j < p.length := by omega
        have hb : loadByte p (j : Int) = .ok p[j] := by
          unfold loadByte
          rw [if_pos (by omega)]
          simp only [Int.toNat_ofNat, List.getElem?_eq_getElem hj']
        by_cases hlt : p[j].val < 0x80
        · refine Or.inl ⟨x ||| ((p[j].val &&& 0x7F) <<< shift) % 2 ^ w, j + 1, by omega,
            by omega, fun pre => ?_⟩
          unfold readVarint
          rw [if_neg hs, if_neg (by simp only [List.length_append]; omega),
            loadByte_append, hb]
          simp only [hlt, if_true]
          congr 2
        · rcases ih (shift + 7) (j + 1) (x ||| ((p[j].val &&& 0x7F) <<< shift) % 2 ^ w) with
            ⟨v, j', h1, h2, h3⟩ | ⟨e, h3⟩
          · refine Or.inl ⟨v, j', by omega, h2, fun pre => ?_⟩
            unfold readVarint
            rw [if_neg hs, if_neg (by simp only [List.length_append]; omega),
              loadByte_append, hb]
            simp only [hlt, if_false]
            have := h3 pre
            rw [← this]
            congr 1
          · refine Or.inr ⟨e, fun pre => ?_⟩
            unfold readVarint
            rw [if_neg hs, if_neg (by simp only [List.length_append]; omega),
              loadByte_append, hb]
            simp only [hlt, if_false]
            have := h3 pre
            rw [← this]
            congr 1

theorem slice_append (pre p : List Byte) (a b : Nat) (hab : a ≤ b) (hb : b ≤ p.length) :
    slice (pre ++ p) ((pre.length + a : Nat) : Int) ((pre.length + b : Nat) : Int)
      = .ok ((p.take b).drop a) := by
  unfold slice
  rw [if_pos (by simp only [List.length_append]; omega)]
  simp only [Int.toNat_ofNat]
  congr 1
  rw [List.take_append_eq_append_take, List.take_of_length_le (by omega),
    List.drop_append_eq_append_drop, List.drop_of_length_le (by omega)]
  simp only [List.nil_append, Nat.add_sub_cancel_left]

theorem addInt_exact (a b : Int) (ha : 0 ≤ a) (hb : 0 ≤ b) (h : a + b < 2 ^ 63) :
    addInt a b = a + b := by
  unfold addInt toInt64 toUint64
  have h1 : (a + b) % 2 ^ 64 = a + b := Int.emod_eq_of_lt (by omega) (by omega)
  rw [h1]
  have h2 : (a + b).toNat % 2 ^ 64 = (a + b).toNat := Nat.mod_eq_of_lt (by omega)
  rw [h2, if_pos (by omega)]
  omega

theorem addInt_wrap (a b : Int) (ha : 0 ≤ a) (hb : 0 ≤ b) (ha' : a < 2 ^ 63) (hb' : b < 2 ^ 63)
    (h : 2 ^ 63 ≤ a + b) : addInt a b < 0 := by
  rcases addInt_nonneg a b ha hb ha' hb' with h1 | h1
  · have := (addInt_range a b).2
    omega
  · exact h1

theorem addInt_shifted (d1 d2 l a : Nat) (L : Int) (h0 : 0 ≤ L) (hL : L < 2 ^ 63) (ha : a ≤ l)
    (hd : d1 ≤ d2) (hl : d2 + l < 2 ^ 63) :
    (∃ b : Nat, a ≤ b ∧ (b : Int) = a + L ∧ b ≤ l
        ∧ addInt ((d1 + a : Nat) : Int) L = ((d1 + b : Nat) : Int)
        ∧ addInt ((d2 + a : Nat) : Int) L = ((d2 + b : Nat) : Int))
    ∨ (0 ≤ addInt ((d1 + a : Nat) : Int) L
        ∧ ((d1 + l : Nat) : Int) < addInt ((d1 + a : Nat) : Int) L
        ∧ 0 ≤ addInt ((d2 + a : Nat) : Int) L
        ∧ ((d2 + l : Nat) : Int) < addInt ((d2 + a : Nat) : Int) L)
    ∨ (0 ≤ addInt ((d1 + a : Nat) : Int) L
        ∧ ((d1 + l : Nat) : Int) < addInt ((d1 + a : Nat) : Int) L
        ∧ addInt ((d2 + a : Nat) : Int) L < 0)
    ∨ (addInt ((d1 + a : Nat) : Int) L < 0 ∧ addInt ((d2 + a : Nat) : Int) L < 0) := by
  by_cases h2 : ((d2 + a : Nat) : Int) + L < 2 ^ 63
  · have e1 := addInt_exact ((d1 + a : Nat) : Int) L (by omega) h0 (by omega)
    have e2 := addInt_exact ((d2 + a : Nat) : Int) L (by omega) h0 h2
    by_cases hfit : (a : Int) + L ≤ l
    · refine Or.inl ⟨((a : Int) + L).toNat, by omega, by omega, by omega, ?_, ?_⟩
      · rw [e1]; omega
      · rw [e2]; omega
    · exact Or.inr (Or.inl ⟨by omega, by omega, by omega, by omega⟩)
  · have w2 := addInt_wrap ((d2 + a : Nat) : Int) L (by omega) h0 (by omega) hL (by omega)
    by_cases h1 : ((d1 + a : Nat) : Int) + L < 2 ^ 63
    · have e1 := addInt_exact ((d1 + a : Nat) : Int) L (by omega) h0 h1
      exact Or.inr (Or.inr (Or.inl ⟨by omega, by omega, w2⟩))
    · have w1 := addInt_wrap ((d1 + a : Nat) : Int) L (by omega) h0 (by omega) hL (by omega)
      exact Or.inr (Or.inr (Or.inr ⟨w1, w2⟩))

theorem readLength_of (dAtA : List Byte) (i i1 : Int) (v : Nat)
    (h : readVarint 64 dAtA 10 0 i 0 = .ok (v, i1)) :
    readLength dAtA i
      = if toInt64 v < 0 then .error .ErrInvalidLengthConnection
        else if addInt i1 (toInt64 v) < 0 then .error .ErrInvalidLengthConnection
        else if addInt i1 (toInt64 v) > dAtA.length then .error .ErrUnexpectedEOF
        else .ok (i1, addInt i1 (toInt64 v)) := by
  unfold readLength
  rw [h]

theorem readLength_shifted (p pre1 pre2 : List Byte) (j : Nat)
    (hd : pre1.length ≤ pre2.length) (hl : pre2.length + p.length < 2 ^ 63) :
    (∃ a b : Nat, j < a ∧ a ≤ b ∧ b ≤ p.length
        ∧ readLength (pre1 ++ p) ((pre1.length + j : Nat) : Int)
            = .ok (((pre1.length + a : Nat) : Int), ((pre1.length + b : Nat) : Int))
        ∧ readLength (pre2 ++ p) ((pre2.length + j : Nat) : Int)
            = .ok (((pre2.length + a : Nat) : Int), ((pre2.length + b : Nat) : Int)))
    ∨ (∃ e, readLength (pre1 ++ p) ((pre1.length + j : Nat) : Int) = .error e
        ∧ readLength (pre2 ++ p) ((pre2.length + j : Nat) : Int) = .error e)
    ∨ (readLength (pre1 ++ p) ((pre1.length + j : Nat) : Int) = .error .ErrUnexpectedEOF
        ∧ readLength (pre2 ++ p) ((pre2.length + j : Nat) : Int)
            = .error .ErrInvalidLengthConnection) := by
  rcases readVarint_shifted 64 p 10 0 j 0 with ⟨v, j', h1, h2, h3⟩ | ⟨e, h3⟩
  · have r1 := readLength_of _ _ _ _ (h3 pre1)
    have r2 := readLength_of _ _ _ _ (h3 pre2)
    have hlen1 : (((pre1 ++ p).length : Nat) : Int) = ((pre1.length + p.length : Nat) : Int) := by
      rw [List.length_append]
    have hlen2 : (((pre2 ++ p).length : Nat) : Int) = ((pre2.length + p.length : Nat) : Int) := by
      rw [List.length_append]
    rw [hlen1] at r1
    rw [hlen2] at r2
    by_cases hneg : toInt64 v < 0
    · rw [if_pos hneg] at r1 r2
      exact Or.inr (Or.inl ⟨_, r1, r2⟩)
    · rw [if_neg hneg] at r1 r2
      rcases addInt_shifted pre1.length pre2.length p.length j' (toInt64 v) (by omega)
        (toInt64_range v).2 h2 hd hl with ⟨b, hb1, hb2, hb3, e1, e2⟩ | ⟨a1, a2, a3, a4⟩ |
        ⟨a1, a2, a3⟩ | ⟨a1, a2⟩
      · rw [e1, if_neg (by omega), if_neg (by omega)] at r1
        rw [e2, if_neg (by omega), if_neg (by omega)] at r2
        exact Or.inl ⟨j', b, h1, hb1, hb3, r1, r2⟩
      · rw [if_neg (by omega), if_pos a2] at r1
        rw [if_neg (by omega), if_pos a4] at r2
        exact Or.inr (Or.inl ⟨_, r1, r2⟩)
      · rw [if_neg (by omega), if_pos a2] at r1
        rw [if_pos a3] at r2
        exact Or.inr (Or.inr ⟨r1, r2⟩)
      · rw [if_pos a1] at r1
        rw [if_pos a2] at r2
        exact Or.inr (Or.inl ⟨_, r1, r2⟩)
  · refine Or.inr (Or.inl ⟨e, ?_, ?_⟩)
    · unfold readLength; rw [h3 pre1]
    · unfold readLength; rw [h3 pre2]

theorem readBytes_shifted (p pre1 pre2 : List Byte) (j : Nat)
    (hd : pre1.length ≤ pre2.length) (hl : pre2.length + p.length < 2 ^ 63) :
    Shifted p.length pre1.length pre2.length j
      (readBytes (pre1 ++ p) ((pre1.length + j : Nat) : Int))
      (readBytes (pre2 ++ p) ((pre2.length + j : Nat) : Int)) := by
  unfold readBytes
  rcases readLength_shifted p pre1 pre2 j hd hl with ⟨a, b, h1, h2, h3, e1, e2⟩ |
    ⟨e, e1, e2⟩ | ⟨e1, e2⟩
  · rw [e1, e2]
    simp only []
    rw [slice_append pre1 p a b h2 h3, slice_append pre2 p a b h2 h3]
    exact Or.inl ⟨_, b, by omega, h3, rfl, rfl⟩
  · rw [e1, e2]
    exact Or.inr (Or.inl ⟨e, rfl, rfl⟩)
  · rw [e1, e2]
    exact Or.inr (Or.inr ⟨rfl, rfl⟩)

theorem slice_append_rest (pre p : List Byte) (j : Nat) (hj : j ≤ p.length) :
    slice (pre ++ p) ((pre.length + j : Nat) : Int) ((pre ++ p).length : Int)
      = .ok (p.drop j) := by
  have := slice_append pre p j p.length hj (Nat.le_refl _)
  rw [List.take_length] at this
  rw [List.length_append]
  exact this

theorem skipField_append_error (pre p : List Byte) (j : Nat) (hj : j ≤ p.length) (e : Error)
    (h : skipConnection (p.drop j) = .error e) :
    skipField (pre ++ p) ((pre.length + j : Nat) : Int) = .error e := by
  unfold skipField
  simp only [slice_append_rest pre p j hj, h]

theorem skipField_append_ok (pre p : List Byte) (j : Nat) (hj : j ≤ p.length) (skippy : Int)
    (h : skipConnection (p.drop j) = .ok skippy) :
    skipField (pre ++ p) ((pre.length + j : Nat) : Int)
      = if skippy < 0 ∨ addInt ((pre.length + j : Nat) : Int) skippy < 0
          then .error .ErrInvalidLengthConnection
        else if addInt ((pre.length + j : Nat) : Int) skippy > ((pre.length + p.length : Nat) : Int)
          then .error .ErrUnexpectedEOF
        else .ok (addInt ((pre.length + j : Nat) : Int) skippy) := by
  unfold skipField
  simp only [slice_append_rest pre p j hj, h]
  simp only [List.length_append]

theorem skipField_shifted (p pre1 pre2 : List Byte) (j : Nat) (hj : j ≤ p.length)
    (hd : pre1.length ≤ pre2.length) (hl : pre2.length + p.length < 2 ^ 63) :
    (∃ j' : Nat, j < j' ∧ j' ≤ p.length
        ∧ skipField (pre1 ++ p) ((pre1.length + j : Nat) : Int)
            = .ok ((pre1.length + j' : Nat) : Int)
        ∧ skipField (pre2 ++ p) ((pre2.length + j : Nat) : Int)
            = .ok ((pre2.length + j' : Nat) : Int))
    ∨ (∃ e, skipField (pre1 ++ p) ((pre1.length + j : Nat) : Int) = .error e
        ∧ skipField (pre2 ++ p) ((pre2.length + j : Nat) : Int) = .error e)
    ∨ (skipField (pre1 ++ p) ((pre1.length + j : Nat) : Int) = .error .ErrUnexpectedEOF
        ∧ skipField (pre2 ++ p) ((pre2.length + j : Nat) : Int)
            = .error .ErrInvalidLengthConnection) := by
  cases hs : skipConnection (p.drop j) with
  | error e =>
    exact Or.inr (Or.inl ⟨e, skipField_append_error pre1 p j hj e hs,
      skipField_append_error pre2 p j hj e hs⟩)
  | ok skippy =>
    have r1 := skipField_append_ok pre1 p j hj skippy hs
    have r2 := skipField_append_ok pre2 p j hj skippy hs
    have hp := (skipConnection_progress (p.drop j)
      (by rw [List.length_drop]; omega)).1 skippy hs
    rcases addInt_shifted pre1.length pre2.length p.length j skippy (by omega) hp.2 hj hd hl
      with ⟨b, hb1, hb2, hb3, e1, e2⟩ | ⟨a1, a2, a3, a4⟩ | ⟨a1, a2, a3⟩ | ⟨a1, a2⟩
    · rw [e1, if_neg (by omega), if_neg (by omega)] at r1
      rw [e2, if_neg (by omega), if_neg (by omega)] at r2
      exact Or.inl ⟨b, by omega, hb3, r1, r2⟩
    · rw [if_neg (by omega), if_pos a2] at r1
      rw [if_neg (by omega), if_pos a4] at r2
      exact Or.inr (Or.inl ⟨_, r1, r2⟩)
    · rw [if_neg (by omega), if_pos a2] at r1
      rw [if_pos (Or.inr a3)] at r2
      exact Or.inr (Or.inr ⟨r1, r2⟩)
    · rw [if_pos (Or.inr a1)] at r1
      rw [if_pos (Or.inr a2)] at r2
      exact Or.inr (Or.inl ⟨_, r1, r2⟩)

theorem Shifted.mono {α : Type} {l d1 d2 j0 j1 : Nat} {r1 r2 : Except Error (α × Int)}
    (h : Shifted l d1 d2 j1 r1 r2) (hj : j0 ≤ j1) : Shifted l d1 d2 j0 r1 r2 := by
  rcases h with ⟨a, j, h1, h2, h3, h4⟩ | h | h
  · exact Or.inl ⟨a, j, by omega, h2, h3, h4⟩
  · exact Or.inr (Or.inl h)
  · exact Or.inr (Or.inr h)

theorem readVarint_Shifted (w : Nat) (p pre1 pre2 : List Byte) (j : Nat) :
    Shifted p.length pre1.length pre2.length j
      (readVarint w (pre1 ++ p) 10 0 ((pre1.length + j : Nat) : Int) 0)
      (readVarint w (pre2 ++ p) 10 0 ((pre2.length + j : Nat) : Int) 0) := by
  rcases readVarint_shifted w p 10 0 j 0 with ⟨v, j', h1, h2, h3⟩ | ⟨e, h3⟩
  · exact Or.inl ⟨v, j', h1, h2, h3 pre1, h3 pre2⟩
  · exact Or.inr (Or.inl ⟨e, h3 pre1, h3 pre2⟩)

theorem ConnectionEnd.field_shifted_body (p pre1 pre2 : List Byte) (i1 i2 : Int)
    (wire1 wire2 j : Nat) (m : ConnectionEnd)
    (hd : pre1.length ≤ pre2.length) (hl : pre2.length + p.length < 2 ^ 63)
    (ht1 : readVarint 64 (pre1 ++ p) 10 0 i1 0 = .ok (wire1, ((pre1.length + j : Nat) : Int)))
    (ht2 : readVarint 64 (pre2 ++ p) 10 0 i2 0 = .ok (wire2, ((pre2.length + j : Nat) : Int)))
    (hf : toInt32 (wire2 >>> 3) = toInt32 (wire1 >>> 3)) (hw : wire2 &&& 0x7 = wire1 &&& 0x7)
    (h1 : 1 ≤ toInt32 (wire1 >>> 3)) (h5 : toInt32 (wire1 >>> 3) ≤ 5) :
    Shifted p.length pre1.length pre2.length j
      (ConnectionEnd.unmarshalField (pre1 ++ p) i1 m)
      (ConnectionEnd.unmarshalField (pre2 ++ p) i2 m) := by
  have hB := readBytes_shifted p pre1 pre2 j hd hl
  have hV32 := readVarint_Shifted 32 p pre1 pre2 j
  have hV64 := readVarint_Shifted 64 p pre1 pre2 j
  unfold ConnectionEnd.unmarshalField
  rw [ht1, ht2]
  simp only [hf, hw]
  generalize toInt32 (wire1 >>> 3) = f at h1 h5
  generalize wire1 &&& 0x7 = w
  have hf' : f = 1 ∨ f = 2 ∨ f = 3 ∨ f = 4 ∨ f = 5 := by omega
  by_cases h4 : w = 4
  · simp only [h4, if_true]
    exact Or.inr (Or.inl ⟨_, rfl, rfl⟩)
  · rcases hf' with rfl | rfl | rfl | rfl | rfl
    · simp only [h4, ↓reduceIte, Int.reduceLE, Int.reduceEq, ne_eq]
      by_cases hw2 : w = 2
      · simp only [hw2, not_true_eq_false, ↓reduceIte]
        rcases hB with ⟨s, j', a1, a2, e1, e2⟩ | ⟨e, e1, e2⟩ | ⟨e1, e2⟩
        · rw [e1, e2]
          exact Or.inl ⟨_, j', a1, a2, rfl, rfl⟩
        · rw [e1, e2]
          exact Or.inr (Or.inl ⟨e, rfl, rfl⟩)
        · rw [e1, e2]
          exact Or.inr (Or.inr ⟨rfl, rfl⟩)
      · simp only [hw2, not_false_eq_true, ↓reduceIte]
        exact Or.inr (Or.inl ⟨_, rfl, rfl⟩)
    · simp only [h4, ↓reduceIte, Int.reduceLE, Int.reduceEq, ne_eq]
      by_cases hw2 : w = 2
      · simp only [hw2, not_true_eq_false, ↓reduceIte]
        rcases hB with ⟨s, j', a1, a2, e1, e2⟩ | ⟨e, e1, e2⟩ | ⟨e1, e2⟩
        · rw [e1, e2]
          simp only []
          cases Version.Unmarshal {} s with
          | error e => exact Or.inr (Or.inl ⟨e, rfl, rfl⟩)
          | ok v => exact Or.inl ⟨_, j', a1, a2, rfl, rfl⟩
        · rw [e1, e2]
          exact Or.inr (Or.inl ⟨e, rfl, rfl⟩)
        · rw [e1, e2]
          exact Or.inr (Or.inr ⟨rfl, rfl⟩)
      · simp only [hw2, not_false_eq_true, ↓reduceIte]
        exact Or.inr (Or.inl ⟨_, rfl, rfl⟩)
    · simp only [h4, ↓reduceIte, Int.reduceLE, Int.reduceEq, ne_eq]
      by_cases hw0 : w = 0
      · simp only [hw0, not_true_eq_false, ↓reduceIte]
        rcases hV32 with ⟨x, j', a1, a2, e1, e2⟩ | ⟨e, e1, e2⟩ | ⟨e1, e2⟩
        · rw [e1, e2]
          exact Or.inl ⟨_, j', a1, a2, rfl, rfl⟩
        · rw [e1, e2]
          exact Or.inr (Or.inl ⟨e, rfl, rfl⟩)
        · rw [e1, e2]
          exact Or.inr (Or.inr ⟨rfl, rfl⟩)
      · simp only [hw0, not_false_eq_true, ↓reduceIte]
        exact Or.inr (Or.inl ⟨_, rfl, rfl⟩)
    · simp only [h4, ↓reduceIte, Int.reduceLE, Int.reduceEq, ne_eq]
      by_cases hw2 : w = 2
      · simp only [hw2, not_true_eq_false, ↓reduceIte]
        rcases hB with ⟨s, j', a1, a2, e1, e2⟩ | ⟨e, e1, e2⟩ | ⟨e1, e2⟩
        · rw [e1, e2]
          simp only []
          cases Counterparty.Unmarshal (m.Counterparty.getD {}) s with
          | error e => exact Or.inr (Or.inl ⟨e, rfl, rfl⟩)
          | ok v => exact Or.inl ⟨_, j', a1, a2, rfl, rfl⟩
        · rw [e1, e2]
          exact Or.inr (Or.inl ⟨e, rfl, rfl⟩)
        · rw [e1, e2]
          exact Or.inr (Or.inr ⟨rfl, rfl⟩)
      · simp only [hw2, not_false_eq_true, ↓reduceIte]
        exact Or.inr (Or.inl ⟨_, rfl, rfl⟩)
    · simp only [h4, ↓reduceIte, Int.reduceLE, Int.reduceEq, ne_eq]
      by_cases hw0 : w = 0
      · simp only [hw0, not_true_eq_false, ↓reduceIte]
        rcases hV64 with ⟨x, j', a1, a2, e1, e2⟩ | ⟨e, e1, e2⟩ | ⟨e1, e2⟩
        · rw [e1, e2]
          exact Or.inl ⟨_, j', a1, a2, rfl, rfl⟩
        · rw [e1, e2]
          exact Or.inr (Or.inl ⟨e, rfl, rfl⟩)
        · rw [e1, e2]
          exact Or.inr (Or.inr ⟨rfl, rfl⟩)
      · simp only [hw0, not_false_eq_true, ↓reduceIte]
        exact Or.inr (Or.inl ⟨_, rfl, rfl⟩)

theorem ConnectionEnd.field_shifted (p pre1 pre2 : List Byte) (j : Nat) (m : ConnectionEnd)
    (hd : pre1.length ≤ pre2.length) (hl : pre2.length + p.length < 2 ^ 63)
    (hj : j ≤ p.length) :
    Shifted p.length pre1.length pre2.length j
      (ConnectionEnd.unmarshalField (pre1 ++ p) ((pre1.length + j : Nat) : Int) m)
      (ConnectionEnd.unmarshalField (pre2 ++ p) ((pre2.length + j : Nat) : Int) m) := by
  rcases readVarint_shifted 64 p 10 0 j 0 with ⟨wire, j', h1, h2, h3⟩ | ⟨e, h3⟩
  · by_cases hf : 1 ≤ toInt32 (wire >>> 3) ∧ toInt32 (wire >>> 3) ≤ 5
    · exact (ConnectionEnd.field_shifted_body p pre1 pre2 _ _ wire wire j' m hd hl (h3 pre1)
        (h3 pre2) rfl rfl hf.1 hf.2).mono (Nat.le_of_lt h1)
    · unfold ConnectionEnd.unmarshalField
      rw [h3 pre1, h3 pre2]
      simp only []
      by_cases h4 : wire &&& 0x7 = 4
      · simp only [h4, if_true]
        exact Or.inr (Or.inl ⟨_, rfl, rfl⟩)
      · by_cases h0 : toInt32 (wire >>> 3) ≤ 0
        · simp only [h4, h0, if_true, if_false]
          exact Or.inr (Or.inl ⟨_, rfl, rfl⟩)
        · have n1 : ¬ toInt32 (wire >>> 3) = 1 := by omega
          have n2 : ¬ toInt32 (wire >>> 3) = 2 := by omega
          have n3 : ¬ toInt32 (wire >>> 3) = 3 := by omega
          have n4 : ¬ toInt32 (wire >>> 3) = 4 := by omega
          have n5 : ¬ toInt32 (wire >>> 3) = 5 := by omega
          simp only [h4, h0, n1, n2, n3, n4, n5, if_false]
          rcases skipField_shifted p pre1 pre2 j hj hd hl with ⟨j2, a1, a2, e1, e2⟩ | ⟨e, e1, e2⟩ | ⟨e1, e2⟩
          · rw [e1, e2]
            exact Or.inl ⟨m, j2, a1, a2, rfl, rfl⟩
          · rw [e1, e2]
            exact Or.inr (Or.inl ⟨e, rfl, rfl⟩)
          · rw [e1, e2]
            exact Or.inr (Or.inr ⟨rfl, rfl⟩)
  · refine Or.inr (Or.inl ⟨e, ?_, ?_⟩)
    · unfold ConnectionEnd.unmarshalField; rw [h3 pre1]
    · unfold ConnectionEnd.unmarshalField; rw [h3 pre2]

theorem unmarshalLoop_shifted {α : Type} (field : List Byte → Int → α → Except Error (α × Int))
    (p pre1 pre2 : List Byte)
    (hfield : ∀ (j : Nat) (m : α), j ≤ p.length →
      Shifted p.length pre1.length pre2.length j
        (field (pre1 ++ p) ((pre1.length + j : Nat) : Int) m)
        (field (pre2 ++ p) ((pre2.length + j : Nat) : Int) m))
    (fuel1 : Nat) : ∀ (fuel2 j : Nat) (m : α), j ≤ p.length → p.length + 1 ≤ fuel1 + j →
      p.length + 1 ≤ fuel2 + j →
      SameOrOverflow (unmarshalLoop field (pre1 ++ p) fuel1 ((pre1.length + j : Nat) : Int) m)
        (unmarshalLoop field (pre2 ++ p) fuel2 ((pre2.length + j : Nat) : Int) m) := by
  induction fuel1 with
  | zero => intro fuel2 j m hj h1 _; omega
  | succ fuel1 ih =>
    intro fuel2 j m hj h1 h2
    cases fuel2 with
    | zero => omega
    | succ fuel2 =>
      rw [unmarshalLoop, unmarshalLoop]
      by_cases hlt : j < p.length
      · rw [if_pos (by simp only [List.length_append]; omega),
          if_pos (by simp only [List.length_append]; omega)]
        rcases hfield j m hj with ⟨m', j', a1, a2, e1, e2⟩ | ⟨e, e1, e2⟩ | ⟨e1, e2⟩
        · rw [e1, e2]
          simp only []
          exact ih fuel2 j' m' a2 (by omega) (by omega)
        · rw [e1, e2]
          exact Or.inl rfl
        · rw [e1, e2]
          exact Or.inr ⟨rfl, rfl⟩
      · rw [if_neg (by simp only [List.length_append]; omega),
          if_neg (by simp only [List.length_append]; omega),
          if_neg (by simp only [List.length_append]; omega),
          if_neg (by simp only [List.length_append]; omega)]
        exact Or.inl rfl

theorem ConnectionEnd.Unmarshal_tag_shifted (xS xL : Nat) (p : List Byte) (m : ConnectionEnd)
    (hxS : xS < 2 ^ 64) (hxL : xL < 2 ^ 64)
    (hd : (varint xS).length ≤ (varint xL).length)
    (hl : (varint xL ++ p).length < 2 ^ 63)
    (hf : toInt32 (xL >>> 3) = toInt32 (xS >>> 3)) (hw : xL &&& 0x7 = xS &&& 0x7)
    (h1 : 1 ≤ toInt32 (xS >>> 3)) (h5 : toInt32 (xS >>> 3) ≤ 5) :
    SameOrOverflow (ConnectionEnd.Unmarshal m (varint xS ++ p))
      (ConnectionEnd.Unmarshal m (varint xL ++ p)) := by
  have hl' : (varint xL).length + p.length < 2 ^ 63 := by
    rw [List.length_append] at hl; exact hl
  have hS := varintAux_length_pos 10 xS (by decide)
  have hL := varintAux_length_pos 10 xL (by decide)
  have hbody := ConnectionEnd.field_shifted_body p (varint xS) (varint xL) 0 0 xS xL 0 m hd hl'
    (readVarint_first p xS hxS) (readVarint_first p xL hxL) hf hw h1 h5
  unfold ConnectionEnd.Unmarshal
  rw [unmarshalLoop, unmarshalLoop]
  rw [if_pos (by simp only [List.length_append]; unfold varint; omega),
    if_pos (by simp only [List.length_append]; unfold varint; omega)]
  rcases hbody with ⟨m', j', a1, a2, e1, e2⟩ | ⟨e, e1, e2⟩ | ⟨e1, e2⟩
  · rw [e1, e2]
    simp only []
    exact unmarshalLoop_shifted ConnectionEnd.unmarshalField p (varint xS) (varint xL)
      (fun j m hj => ConnectionEnd.field_shifted p (varint xS) (varint xL) j m hd hl' hj)
      _ _ j' m' a2 (by simp only [List.length_append]; unfold varint; omega)
      (by simp only [List.length_append]; unfold varint; omega)
  · rw [e1, e2]
    exact Or.inl rfl
  · rw [e1, e2]
    exact Or.inr ⟨rfl, rfl⟩

/-! ## Field numbers modulo 2^32 -/

/-- C31, as stated, fails twice. With field number 1 and the payload
`varint(2^63 - 11)`, a length prefix, `Unmarshal` after the one-byte tag returns
`io.ErrUnexpectedEOF` and after the six-byte tag with `2^32` added to the field
number `ErrInvalidLengthConnection`: not the same result. And the tag 4, whose field
number is 0, is rejected as an end group, not as an illegal tag. -/
theorem field_number_result_differs :
    ConnectionEnd.Unmarshal {} (varint (1 <<< 3 ||| 2) ++ varint (2 ^ 63 - 11))
      = .error .ErrUnexpectedEOF
    ∧ ConnectionEnd.Unmarshal {} (varint ((2 ^ 32 + 1) <<< 3 ||| 2) ++ varint (2 ^ 63 - 11))
      = .error .ErrInvalidLengthConnection
    ∧ toInt32 (4 >>> 3) ≤ 0
    ∧ ConnectionEnd.Unmarshal {} (varint 4 ++ []) = .error (.wiretypeEndGroup "ConnectionEnd") := by
  decide

/-- C31, amended: field numbers are taken modulo 2^32 when decoding. For every `k`
in 1..5 with declared wire type `w` and every payload `p` (the longer input shorter
than `2^63` bytes), the signed 32-bit truncation of the field number `2^32 + k` is
`k`, and `Unmarshal(varint(((2^32 + k) << 3) | w) ++ p)` gives the same result, error
or message, as `Unmarshal(varint((k << 3) | w) ++ p)`, except that where the latter
returns `io.ErrUnexpectedEOF` the former may return `ErrInvalidLengthConnection`. A
first tag `x` whose truncated field number is `≤ 0` is rejected: as an end group when
its wire type is 4, as an illegal tag otherwise. -/
theorem field_number_mod_2_32 (k : Nat) (h1 : 1 ≤ k) (h5 : k ≤ 5) (p : List Byte)
    (m : ConnectionEnd)
    (hl : (varint ((2 ^ 32 + k) <<< 3 ||| ConnectionEnd.declaredWireType k) ++ p).length < 2 ^ 63)
    (x : Nat) (hx : x < 2 ^ 64) (rest : List Byte) (h0 : toInt32 (x >>> 3) ≤ 0) :
    (toInt32 (((2 ^ 32 + k) <<< 3 ||| ConnectionEnd.declaredWireType k) >>> 3) = k
      ∧ toInt32 ((k <<< 3 ||| ConnectionEnd.declaredWireType k) >>> 3) = k)
    ∧ (ConnectionEnd.Unmarshal m (varint (k <<< 3 ||| ConnectionEnd.declaredWireType k) ++ p)
          = ConnectionEnd.Unmarshal m
              (varint ((2 ^ 32 + k) <<< 3 ||| ConnectionEnd.declaredWireType k) ++ p)
        ∨ (ConnectionEnd.Unmarshal m (varint (k <<< 3 ||| ConnectionEnd.declaredWireType k) ++ p)
              = .error .ErrUnexpectedEOF
            ∧ ConnectionEnd.Unmarshal m
                (varint ((2 ^ 32 + k) <<< 3 ||| ConnectionEnd.declaredWireType k) ++ p)
              = .error .ErrInvalidLengthConnection))
    ∧ ConnectionEnd.Unmarshal m (varint x ++ rest)
        = (if x &&& 0x7 = 4 then .error (.wiretypeEndGroup "ConnectionEnd")
           else .error (.illegalTag "ConnectionEnd" (toInt32 (x >>> 3)) x)) := by
  have hk : k = 1 ∨ k = 2 ∨ k = 3 ∨ k = 4 ∨ k = 5 := by omega
  refine ⟨?_, ?_, ?_⟩
  · rcases hk with rfl | rfl | rfl | rfl | rfl <;> decide
  · rcases hk with rfl | rfl | rfl | rfl | rfl <;>
      exact ConnectionEnd.Unmarshal_tag_shifted _ _ p m (by decide) (by decide) (by decide) hl
        (by decide) (by decide) (by decide) (by decide)
  · by_cases h4 : x &&& 0x7 = 4
    · rw [if_pos h4]
      exact ConnectionEnd.Unmarshal_endGroup m rest x hx h4
    · rw [if_neg h4]
      exact ConnectionEnd.Unmarshal_illegalTag m rest x hx h4 h0

theorem field_number_mod_2_32_witness :
    (toInt32 (((2 ^ 32 + 3) <<< 3 ||| ConnectionEnd.declaredWireType 3) >>> 3) = 3
      ∧ toInt32 ((3 <<< 3 ||| ConnectionEnd.declaredWireType 3) >>> 3) = 3)
    ∧ (ConnectionEnd.Unmarshal {}
            (varint (3 <<< 3 ||| ConnectionEnd.declaredWireType 3) ++ [5, 0x0a, 1, 65])
          = ConnectionEnd.Unmarshal {}
              (varint ((2 ^ 32 + 3) <<< 3 ||| ConnectionEnd.declaredWireType 3)
                ++ [5, 0x0a, 1, 65])
        ∨ (ConnectionEnd.Unmarshal {}
                (varint (3 <<< 3 ||| ConnectionEnd.declaredWireType 3) ++ [5, 0x0a, 1, 65])
              = .error .ErrUnexpectedEOF
            ∧ ConnectionEnd.Unmarshal {}
                (varint ((2 ^ 32 + 3) <<< 3 ||| ConnectionEnd.declaredWireType 3)
                  ++ [5, 0x0a, 1, 65])
              = .error .ErrInvalidLengthConnection))
    ∧ ConnectionEnd.Unmarshal {} (varint (2 ^ 32 <<< 3 ||| 2) ++ [1])
        = (if (2 ^ 32 <<< 3 ||| 2) &&& 0x7 = 4 then .error (.wiretypeEndGroup "ConnectionEnd")
           else .error (.illegalTag "ConnectionEnd" (toInt32 ((2 ^ 32 <<< 3 ||| 2) >>> 3))
                  (2 ^ 32 <<< 3 ||| 2))) :=
  field_number_mod_2_32 3 (by decide) (by decide) [5, 0x0a, 1, 65] {} (by decide)
    (2 ^ 32 <<< 3 ||| 2) (by decide) [1] (by decide)

end connection

namespace testing

open connection (Byte)

/-! ## Slot calculators -/

/-- C11, as stated, fails for `HandlePacketAcknowledgement`: two packets with the
same source port, source channel and sequence but the destination ports `transfer`
and `bank` lead to different proof keys on a store whose keys start with the length
of the port identifier. -/
theorem ack_proof_key_differs :
    transferPacket.SourcePort = { transferPacket with DestinationPort := "bank" }.SourcePort
    ∧ transferPacket.SourceChannel = { transferPacket with DestinationPort := "bank" }.SourceChannel
    ∧ transferPacket.Sequence = { transferPacket with DestinationPort := "bank" }.Sequence
    ∧ HandlePacketAcknowledgement.storageKey lengthStore transferPacket
        = .ok "0x080b010000000000000000000000000000000000000000000000000000000001"
    ∧ HandlePacketAcknowledgement.storageKey lengthStore
          { transferPacket with DestinationPort := "bank" }
        = .ok "0x040b010000000000000000000000000000000000000000000000000000000001" := by
  decide

/-- C11, amended: the storage key for which `RecvPacket` and `HandlePacketRecv`
request a proof is a function of the packet's `SourcePort`, `SourceChannel` and
`Sequence` only, and the storage key for which `HandlePacketAcknowledgement`
requests a proof is a function of the packet's `DestinationPort`,
`DestinationChannel` and `Sequence` only: two packets that agree on the three fields
an operation uses lead to the same proof key in that operation, whatever their other
fields. -/
theorem proof_key_of_identity {N : Nat} {H : Type} (store : Ibcstore N) (p q a b : Packet H)
    (hp : p.SourcePort = q.SourcePort) (hc : p.SourceChannel = q.SourceChannel)
    (hs : p.Sequence = q.Sequence)
    (gp : a.DestinationPort = b.DestinationPort)
    (gc : a.DestinationChannel = b.DestinationChannel) (gs : a.Sequence = b.Sequence) :
    RecvPacket.storageKey store p = RecvPacket.storageKey store q
    ∧ HandlePacketRecv.storageKey store p = HandlePacketRecv.storageKey store q
    ∧ HandlePacketAcknowledgement.storageKey store a
        = HandlePacketAcknowledgement.storageKey store b := by
  simp only [RecvPacket.storageKey, HandlePacketRecv.storageKey,
    HandlePacketAcknowledgement.storageKey, hp, hc, hs, gp, gc, gs, and_self]

theorem proof_key_of_identity_witness :
    RecvPacket.storageKey lengthStore transferPacket
      = RecvPacket.storageKey lengthStore
          { transferPacket with DestinationPort := "bank", Data := [], TimeoutTimestamp := 5 }
    ∧ HandlePacketRecv.storageKey lengthStore transferPacket
      = HandlePacketRecv.storageKey lengthStore
          { transferPacket with DestinationPort := "bank", Data := [], TimeoutTimestamp := 5 }
    ∧ HandlePacketAcknowledgement.storageKey lengthStore transferPacket
        = HandlePacketAcknowledgement.storageKey lengthStore
            { transferPacket with SourcePort := "bank", Data := [], TimeoutHeight := (1, 1) } :=
  proof_key_of_identity lengthStore transferPacket
    { transferPacket with DestinationPort := "bank", Data := [], TimeoutTimestamp := 5 }
    transferPacket
    { transferPacket with SourcePort := "bank", Data := [], TimeoutHeight := (1, 1) }
    rfl rfl rfl rfl rfl rfl

/-- C12: OpenInit carries no counterparty connection id. For every chain,
counterparty and pair of connection pointers of which `connection` points to a
connection `c` (whatever `counterpartyConnection` points to), `ConnectionOpenInit`
submits the message `ConnectionOpenInit.msg counterparty c` and returns what
`WaitIfNoError` makes of the submission; in that message `Counterparty.ConnectionId`
is the empty string, `ClientId` is `c.ClientID`, `ConnectionId` is `c.ID` and
`Counterparty.ClientId` is `c.CounterpartyClientID`. -/
theorem ConnectionOpenInit_message (client : Client)
    (submit : Submit ibcconnection.IBCMsgsMsgConnectionOpenInit) (h : Harness)
    (counterparty : Chain) (connection counterpartyConnection : ConnPtr) (c : TestConnection)
    (hc : h.load connection = .ok c) :
    ConnectionOpenInit client submit h counterparty connection counterpartyConnection
      = .ok (WaitIfNoError client (submit (ConnectionOpenInit.msg counterparty c)).1
          (submit (ConnectionOpenInit.msg counterparty c)).2)
    ∧ (ConnectionOpenInit.msg counterparty c).Counterparty.ConnectionId = ""
    ∧ (ConnectionOpenInit.msg counterparty c).ClientId = c.ClientID
    ∧ (ConnectionOpenInit.msg counterparty c).ConnectionId = c.ID
    ∧ (ConnectionOpenInit.msg counterparty c).Counterparty.ClientId = c.CounterpartyClientID := by
  refine ⟨?_, rfl, rfl, rfl, rfl⟩
  simp only [ConnectionOpenInit, hc]

theorem ConnectionOpenInit_message_witness :
    ConnectionOpenInit sampleClient (sampleSubmit _) sampleTwoConnections sampleChain 0 1
      = .ok (WaitIfNoError sampleClient
          (sampleSubmit _ (ConnectionOpenInit.msg sampleChain
            { ID := "connection-0-7-3", ClientID := "ibft2-0-7-3",
              NextChannelVersion := "ics20-1", CounterpartyClientID := "ibft2-0-8-3" })).1
          (sampleSubmit _ (ConnectionOpenInit.msg sampleChain
            { ID := "connection-0-7-3", ClientID := "ibft2-0-7-3",
              NextChannelVersion := "ics20-1", CounterpartyClientID := "ibft2-0-8-3" })).2)
    ∧ (ConnectionOpenInit.msg sampleChain
        { ID := "connection-0-7-3", ClientID := "ibft2-0-7-3",
          NextChannelVersion := "ics20-1", CounterpartyClientID := "ibft2-0-8-3" }).Counterparty.ConnectionId = ""
    ∧ (ConnectionOpenInit.msg sampleChain
        { ID := "connection-0-7-3", ClientID := "ibft2-0-7-3",
          NextChannelVersion := "ics20-1", CounterpartyClientID := "ibft2-0-8-3" }).ClientId
        = "ibft2-0-7-3"
    ∧ (ConnectionOpenInit.msg sampleChain
        { ID := "connection-0-7-3", ClientID := "ibft2-0-7-3",
          NextChannelVersion := "ics20-1", CounterpartyClientID := "ibft2-0-8-3" }).ConnectionId
        = "connection-0-7-3"
    ∧ (ConnectionOpenInit.msg sampleChain
        { ID := "connection-0-7-3", ClientID := "ibft2-0-7-3",
          NextChannelVersion := "ics20-1", CounterpartyClientID := "ibft2-0-8-3" }).Counterparty.ClientId
        = "ibft2-0-8-3" :=
  ConnectionOpenInit_message sampleClient (sampleSubmit _) sampleTwoConnections sampleChain 0 1
    { ID := "connection-0-7-3", ClientID := "ibft2-0-7-3",
      NextChannelVersion := "ics20-1", CounterpartyClientID := "ibft2-0-8-3" } (by decide)

/-- C13: channels are bound to exactly one connection. `ChannelOpenInit` submits
`ChannelOpenInit.msg`, whose channel has `ConnectionHops` equal to `[connectionID]`,
the state `uint8(channeltypes.INIT)` and an empty counterparty `ChannelId`; once the
slot calculator and the proof query have succeeded, `ChannelOpenTry` submits
`ChannelOpenTry.msg`, whose channel has `ConnectionHops` equal to `[connectionID]`,
the state `uint8(channeltypes.TRYOPEN)` and the counterparty `ChannelId`
`counterpartyCh.ID`. -/
theorem channel_single_hop {N : Nat} (consts : channeltypes) (store : Ibcstore N)
    (queryProof : String → String → Except GoError Proof) (client : Client)
    (submitInit : Submit ibcchannel.IBCMsgsMsgChannelOpenInit)
    (submitTry : Submit ibcchannel.IBCMsgsMsgChannelOpenTry)
    (ch counterpartyCh : TestChannel) (order : Int) (connectionID storageKey : String)
    (proof : Proof)
    (hkey : ChannelStateCommitmentSlot store counterpartyCh.PortID counterpartyCh.ID
      = .ok storageKey)
    (hproof : queryProof ch.ClientID storageKey = .ok proof) :
    (ChannelOpenInit consts client submitInit ch counterpartyCh order connectionID
        = WaitIfNoError client
            (submitInit (ChannelOpenInit.msg consts ch counterpartyCh order connectionID)).1
            (submitInit (ChannelOpenInit.msg consts ch counterpartyCh order connectionID)).2
      ∧ (ChannelOpenInit.msg consts ch counterpartyCh order connectionID).Channel.ConnectionHops
          = [connectionID]
      ∧ (ChannelOpenInit.msg consts ch counterpartyCh order connectionID).Channel.State
          = uint8OfInt consts.INIT
      ∧ (ChannelOpenInit.msg consts ch counterpartyCh order connectionID).Channel.Counterparty.ChannelId
          = "")
    ∧ (ChannelOpenTry consts store queryProof client submitTry ch counterpartyCh order connectionID
        = .ok (WaitIfNoError client
            (submitTry (ChannelOpenTry.msg consts ch counterpartyCh order connectionID proof)).1
            (submitTry (ChannelOpenTry.msg consts ch counterpartyCh order connectionID proof)).2)
      ∧ (ChannelOpenTry.msg consts ch counterpartyCh order connectionID proof).Channel.ConnectionHops
          = [connectionID]
      ∧ (ChannelOpenTry.msg consts ch counterpartyCh order connectionID proof).Channel.State
          = uint8OfInt consts.TRYOPEN
      ∧ (ChannelOpenTry.msg consts ch counterpartyCh order connectionID proof).Channel.Counterparty.ChannelId
          = counterpartyCh.ID) := by
  refine ⟨⟨rfl, rfl, rfl, rfl⟩, ?_, rfl, rfl, rfl⟩
  simp only [ChannelOpenTry, hkey, hproof]

theorem channel_single_hop_witness :
    (ChannelOpenInit sampleStates sampleClient (sampleSubmit _) channelA channelB 1
          "connection-0-7-3"
        = WaitIfNoError sampleClient
            (sampleSubmit _ (ChannelOpenInit.msg sampleStates channelA channelB 1 "connection-0-7-3")).1
            (sampleSubmit _ (ChannelOpenInit.msg sampleStates channelA channelB 1 "connection-0-7-3")).2
      ∧ (ChannelOpenInit.msg sampleStates channelA channelB 1 "connection-0-7-3").Channel.ConnectionHops
          = ["connection-0-7-3"]
      ∧ (ChannelOpenInit.msg sampleStates channelA channelB 1 "connection-0-7-3").Channel.State = 1
      ∧ (ChannelOpenInit.msg sampleStates channelA channelB 1
          "connection-0-7-3").Channel.Counterparty.ChannelId = "")
    ∧ (ChannelOpenTry sampleStates zeroStore sampleQueryProof sampleClient (sampleSubmit _)
          channelA channelB 1 "connection-0-7-3"
        = .ok (WaitIfNoError sampleClient
            (sampleSubmit _ (ChannelOpenTry.msg sampleStates channelA channelB 1 "connection-0-7-3"
              { Height := 10, Data := [1] })).1
            (sampleSubmit _ (ChannelOpenTry.msg sampleStates channelA channelB 1 "connection-0-7-3"
              { Height := 10, Data := [1] })).2)
      ∧ (ChannelOpenTry.msg sampleStates channelA channelB 1 "connection-0-7-3"
          { Height := 10, Data := [1] }).Channel.ConnectionHops = ["connection-0-7-3"]
      ∧ (ChannelOpenTry.msg sampleStates channelA channelB 1 "connection-0-7-3"
          { Height := 10, Data := [1] }).Channel.State = 2
      ∧ (ChannelOpenTry.msg sampleStates channelA channelB 1 "connection-0-7-3"
          { Height := 10, Data := [1] }).Channel.Counterparty.ChannelId = "channel-8-3") :=
  channel_single_hop sampleStates zeroStore sampleQueryProof sampleClient (sampleSubmit _)
    (sampleSubmit _) channelA channelB 1 "connection-0-7-3"
    "0x0000000000000000000000000000000000000000000000000000000000000000"
    { Height := 10, Data := [1] } (by decide) rfl

/-! ## Header polling -/

theorem UpdateHeader_ok (chain : Chain) : ∀ (polls : List (Except GoError ContractState))
    (chain1 : Chain) (rest : List (Except GoError ContractState)),
    UpdateHeader chain polls = .ok (chain1, rest) →
    ∃ skipped state,
      polls = skipped.map .ok ++ .ok state :: rest
      ∧ chain1 = { chain with LastContractState := some state }
      ∧ (chain.LastContractState = none → skipped = [])
      ∧ (∀ last, chain.LastContractState = some last →
          last.Number < state.Number ∧ ∀ s ∈ skipped, s.Number ≤ last.Number) := by
  intro polls
  induction polls with
  | nil => intro chain1 rest h; simp [UpdateHeader] at h
  | cons x xs ih =>
    intro chain1 rest h
    cases x with
    | error e => simp [UpdateHeader] at h
    | ok state =>
      simp only [UpdateHeader] at h
      by_cases hacc : UpdateHeader.accepts chain state = true
      · simp only [hacc, if_true, Except.ok.injEq, Prod.mk.injEq] at h
        refine ⟨[], state, ?_, h.1.symm, fun _ => rfl, ?_⟩
        · simp [h.2]
        · intro last hlast
          simp only [UpdateHeader.accepts, hlast, decide_eq_true_eq] at hacc
          exact ⟨hacc, by simp⟩
      · simp only [hacc] at h
        obtain ⟨skipped, st, hp, hc, hnone, hsome⟩ := ih chain1 rest h
        refine ⟨state :: skipped, st, ?_, hc, ?_, ?_⟩
        · simp [hp]
        · intro hn
          simp [UpdateHeader.accepts, hn] at hacc
        · intro last hlast
          obtain ⟨h1, h2⟩ := hsome last hlast
          refine ⟨h1, ?_⟩
          intro s hs
          simp only [List.mem_cons] at hs
          rcases hs with rfl | hs
          · simpa [UpdateHeader.accepts, hlast] using hacc
          · exact h2 s hs

theorem updateHeaders_chain (n : Nat) : ∀ (chain1 : Chain)
    (polls : List (Except GoError ContractState)) (chains : List Chain),
    (∃ s, chain1.LastContractState = some s) →
    updateHeaders n chain1 polls = .ok chains →
    chains.length = n ∧ List.Chain Chain.recordedBelow chain1 chains := by
  induction n with
  | zero =>
    intro chain1 polls chains _ h
    simp only [updateHeaders, Except.ok.injEq] at h
    subst h
    exact ⟨rfl, List.Chain.nil⟩
  | succ n ih =>
    intro chain1 polls chains hs h
    simp only [updateHeaders] at h
    cases hu : UpdateHeader chain1 polls with
    | error e => simp [hu] at h
    | ok r =>
      obtain ⟨chain2, rest⟩ := r
      simp only [hu] at h
      cases hr : updateHeaders n chain2 rest with
      | error e => simp [hr] at h
      | ok cs =>
        simp only [hr, Except.ok.injEq] at h
        subst h
        obtain ⟨skipped, st, -, hc, -, hsome⟩ := UpdateHeader_ok chain1 polls chain2 rest hu
        obtain ⟨s1, hs1⟩ := hs
        have hbelow : chain1.recordedBelow chain2 :=
          ⟨s1, st, hs1, by rw [hc], (hsome s1 hs1).1⟩
        obtain ⟨hl, hch⟩ := ih chain2 rest cs ⟨st, by rw [hc]⟩ hr
        exact ⟨by simp [hl], List.Chain.cons hbelow hch⟩

/-- C16: height polling only moves forward. Whenever `UpdateHeader` returns, the
responses it consumed are a run of skipped states followed by the state it stored;
when no state was held before the call nothing was skipped (the first polled state
is stored), and when a state was held the stored state has a strictly greater header
number and every skipped state an equal or lower one. Over any number of further
calls that return, the recorded header number is strictly increasing from call to
call. -/
theorem UpdateHeader_forward (chain chain1 : Chain)
    (polls rest : List (Except GoError ContractState)) (n : Nat) (chains : List Chain)
    (h1 : UpdateHeader chain polls = .ok (chain1, rest))
    (hn : updateHeaders n chain1 rest = .ok chains) :
    (∃ skipped state,
      polls = skipped.map .ok ++ .ok state :: rest
      ∧ chain1 = { chain with LastContractState := some state }
      ∧ (chain.LastContractState = none → skipped = [])
      ∧ (∀ last, chain.LastContractState = some last →
          last.Number < state.Number ∧ ∀ s ∈ skipped, s.Number ≤ last.Number))
    ∧ chains.length = n
    ∧ List.Chain Chain.recordedBelow chain1 chains := by
  have hok := UpdateHeader_ok chain polls chain1 rest h1
  refine ⟨hok, ?_⟩
  obtain ⟨skipped, st, -, hc, -, -⟩ := hok
  exact updateHeaders_chain n chain1 rest chains ⟨st, by rw [hc]⟩ hn

theorem UpdateHeader_forward_witness :
    (∃ skipped state,
      samplePolls = skipped.map .ok ++ .ok state :: [.ok { Number := 9 }]
      ∧ sampleChainAt 8 = { sampleChainAt 5 with LastContractState := some state }
      ∧ ((sampleChainAt 5).LastContractState = none → skipped = [])
      ∧ (∀ last, (sampleChainAt 5).LastContractState = some last →
          last.Number < state.Number ∧ ∀ s ∈ skipped, s.Number ≤ last.Number))
    ∧ [sampleChainAt 9].length = 1
    ∧ List.Chain Chain.recordedBelow (sampleChainAt 8) [sampleChainAt 9] :=
  UpdateHeader_forward (sampleChainAt 5) (sampleChainAt 8) samplePolls [.ok { Number := 9 }] 1
    [sampleChainAt 9] rfl rfl

/-! ## Waiting for a receipt -/

/-- C14: submission errors are surfaced unchanged. For every transaction and every
non-nil error `err`, `WaitIfNoError(ctx)(tx, err)` returns exactly `err` and asks
the client for no receipt; with a nil error it returns exactly what
`WaitForReceiptAndGet(ctx, tx)` returns, receipt query included. -/
theorem WaitIfNoError_surfaces (client : Client) (tx : Option Transaction) (err : GoError) :
    WaitIfNoError client tx (some err) = { err := some err, receiptQueries := [] }
    ∧ WaitIfNoError client tx none = WaitForReceiptAndGet client tx := by
  refine ⟨rfl, ?_⟩
  simp only [WaitIfNoError]
  split
  · rename_i h; rw [h]
  · rename_i h; rw [h]

/-- C15: a transition counts as applied only when its receipt says so.
`WaitForReceiptAndGet` returns nil exactly when the client returned a receipt and
the receipt has `Status` 1; an error of the client is returned as it is, and a
receipt with any other `Status` gives a non-nil error. -/
theorem WaitForReceiptAndGet_nil_iff (client : Client) (tx : Option Transaction) :
    ((WaitForReceiptAndGet client tx).err = none
      ↔ ∃ rc, client.WaitForReceiptAndGet tx = .ok rc ∧ rc.Status = 1)
    ∧ (∀ err, client.WaitForReceiptAndGet tx = .error err →
        (WaitForReceiptAndGet client tx).err = some err)
    ∧ (∀ rc, client.WaitForReceiptAndGet tx = .ok rc → rc.Status ≠ 1 →
        (WaitForReceiptAndGet client tx).err ≠ none) := by
  unfold WaitForReceiptAndGet
  cases h : client.WaitForReceiptAndGet tx with
  | error e => simp
  | ok rc =>
    by_cases hs : rc.Status = 1
    · simp [hs]
    · simp [hs]

/-! ## Identifiers -/

theorem digitChar_value : ∀ d : Fin 10, (Nat.digitChar d.val).toNat - 48 = d.val := by
  decide

theorem toDigitsCore_value (fuel : Nat) : ∀ (n : Nat) (acc : List Char), n < fuel →
    decimalValue (Nat.toDigitsCore 10 fuel n acc)
      = acc.foldl (fun a c => 10 * a + (c.toNat - 48)) n := by
  induction fuel with
  | zero => intro n acc h; omega
  | succ fuel ih =>
    intro n acc h
    have hd : (Nat.digitChar (n % 10)).toNat - 48 = n % 10 :=
      digitChar_value ⟨n % 10, Nat.mod_lt n (by decide)⟩
    rw [Nat.toDigitsCore]
    by_cases h0 : n / 10 = 0
    · simp only [h0, if_true]
      unfold decimalValue
      simp only [List.foldl_cons, hd]
      congr 1
      omega
    · simp only [h0, if_false]
      rw [ih (n / 10) _ (by omega)]
      simp only [List.foldl_cons, hd]
      congr 1
      omega

theorem decimalValue_formatUint (n : Nat) : decimalValue (formatUint n).data = n := by
  unfold formatUint Nat.repr Nat.toDigits
  simp only [List.asString]
  rw [toDigitsCore_value (n + 1) n [] (by omega)]
  rfl

theorem formatUint_injective : Function.Injective formatUint := by
  intro a b h
  rw [← decimalValue_formatUint a, ← decimalValue_formatUint b, h]

theorem connectionIDAt_injective (chainID : Int) (IBCID : Nat) :
    Function.Injective (connectionIDAt chainID IBCID) := by
  intro a b h
  unfold connectionIDAt at h
  have h1 := congrArg String.data h
  simp only [String.data_append, List.append_assoc, List.append_cancel_left_eq] at h1
  exact formatUint_injective (String.ext (List.append_cancel_right h1))

/-! ## Connections of a chain -/

theorem addTestConnections_eq (args : List (String × String)) : ∀ h : Harness,
    addTestConnections args h
      = (List.range' h.objects.length args.length,
          { chain := { h.chain with
              Connections := h.chain.Connections ++ List.range' h.objects.length args.length }
            objects := h.objects
              ++ newConnections h.chain.chainID h.chain.IBCID h.chain.Connections.length args }) := by
  induction args with
  | nil =>
    intro h
    simp [addTestConnections, newConnections]
  | cons x rest ih =>
    intro h
    obtain ⟨a, b⟩ := x
    simp only [addTestConnections, AddTestConnection, ConstructNextTestConnection, ih]
    simp [newConnections, connectionIDAt, List.range'_succ]

theorem length_newConnections (chainID : Int) (IBCID : Nat) (args : List (String × String)) :
    ∀ n : Nat, (newConnections chainID IBCID n args).length = args.length := by
  induction args with
  | nil => intro n; rfl
  | cons x rest ih =>
    intro n
    obtain ⟨a, b⟩ := x
    simp [newConnections, ih]

theorem getElem?_append_length (a : List TestConnection) (x : TestConnection)
    (xs : List TestConnection) : (a ++ x :: xs)[a.length]? = some x := by
  rw [List.getElem?_append_right (le_refl _)]
  simp

theorem map_getElem_range' (b : List TestConnection) : ∀ a : List TestConnection,
    (List.range' a.length b.length).map (fun p => (a ++ b)[p]?) = b.map some := by
  induction b with
  | nil => intro a; simp
  | cons x xs ih =>
    intro a
    have h := ih (a ++ [x])
    simp only [List.length_append, List.length_singleton, List.append_assoc,
      List.singleton_append] at h
    simp only [List.length_cons, List.range'_succ, List.map_cons, h,
      getElem?_append_length]

theorem map_ID_newConnections (chainID : Int) (IBCID : Nat) (args : List (String × String)) :
    ∀ n : Nat, (newConnections chainID IBCID n args).map TestConnection.ID
      = (List.range' n args.length).map (connectionIDAt chainID IBCID) := by
  induction args with
  | nil => intro n; simp [newConnections]
  | cons x rest ih =>
    intro n
    obtain ⟨a, b⟩ := x
    simp [newConnections, ih, List.range'_succ]

theorem ConstructNextTestConnection_load (a b : String) (h : Harness) :
    (ConstructNextTestConnection a b h).2.load (ConstructNextTestConnection a b h).1
      = .ok { ID := connectionIDAt h.chain.chainID h.chain.IBCID h.chain.Connections.length
              ClientID := a
              NextChannelVersion := DefaultChannelVersion
              CounterpartyClientID := b } := by
  simp only [ConstructNextTestConnection, Harness.load, getElem?_append_length]
  rfl

/-- C17: connection identifiers are unique within a chain. Starting from a chain that
tracks no connection, after the calls of `AddTestConnection` for any list of client
id pairs, the entries of `chain.Connections` point to connection objects whose IDs
are, in order, the identifiers built from the indices 0, 1, ..., and these are
pairwise distinct. `ConstructNextTestConnection` leaves the chain, so
`chain.Connections`, unchanged, and a second call in a row returns an object with
the same ID as the first. -/
theorem AddTestConnection_ids_distinct (args : List (String × String)) (h : Harness)
    (hempty : h.chain.Connections = []) :
    (∃ conns : List TestConnection,
      (addTestConnections args h).2.connections = conns.map some
      ∧ conns.map TestConnection.ID
          = (List.range args.length).map (connectionIDAt h.chain.chainID h.chain.IBCID)
      ∧ (conns.map TestConnection.ID).Nodup)
    ∧ ∀ a b a' b' : String,
        (ConstructNextTestConnection a b h).2.chain = h.chain
        ∧ ∃ c c', (ConstructNextTestConnection a b h).2.load (ConstructNextTestConnection a b h).1
              = .ok c
          ∧ (ConstructNextTestConnection a' b' (ConstructNextTestConnection a b h).2).2.load
              (ConstructNextTestConnection a' b' (ConstructNextTestConnection a b h).2).1 = .ok c'
          ∧ c.ID = c'.ID := by
  constructor
  · refine ⟨newConnections h.chain.chainID h.chain.IBCID 0 args, ?_, ?_, ?_⟩
    · rw [addTestConnections_eq]
      simp only [Harness.connections, hempty, List.nil_append, List.length_nil]
      have := map_getElem_range' (newConnections h.chain.chainID h.chain.IBCID 0 args) h.objects
      rw [length_newConnections] at this
      exact this
    · rw [map_ID_newConnections, List.range_eq_range']
    · rw [map_ID_newConnections]
      exact (List.nodup_range' 0 args.length).map (connectionIDAt_injective _ _)
  · intro a b a' b'
    refine ⟨rfl, ?_⟩
    exact ⟨_, _, ConstructNextTestConnection_load a b h,
      ConstructNextTestConnection_load a' b' _, rfl⟩

theorem AddTestConnection_ids_distinct_witness :
    (∃ conns : List TestConnection,
      (addTestConnections [("ibft2-0-7-3", "ibft2-0-8-3"), ("ibft2-1-7-3", "ibft2-1-8-3")]
          sampleHarness).2.connections = conns.map some
      ∧ conns.map TestConnection.ID = (List.range 2).map (connectionIDAt 7 3)
      ∧ (conns.map TestConnection.ID).Nodup)
    ∧ ∀ a b a' b' : String,
        (ConstructNextTestConnection a b sampleHarness).2.chain = sampleChain
        ∧ ∃ c c', (ConstructNextTestConnection a b sampleHarness).2.load
              (ConstructNextTestConnection a b sampleHarness).1 = .ok c
          ∧ (ConstructNextTestConnection a' b' (ConstructNextTestConnection a b sampleHarness).2).2.load
              (ConstructNextTestConnection a' b' (ConstructNextTestConnection a b sampleHarness).2).1
                = .ok c'
          ∧ c.ID = c'.ID :=
  AddTestConnection_ids_distinct [("ibft2-0-7-3", "ibft2-0-8-3"), ("ibft2-1-7-3", "ibft2-1-8-3")]
    sampleHarness rfl

/-- C18, as stated, fails: on a chain with identifier 7 and IBC identifier 3 that
tracks no connection, `ConstructNextTestConnection` returns a connection whose ID is
`connection-0-7-3`, not `connection-0-7`. -/
theorem connection_id_carries_ibc_id :
    ∃ c, (ConstructNextTestConnection "ibft2-0-7-3" "ibft2-0-8-3" sampleHarness).2.load
          (ConstructNextTestConnection "ibft2-0-7-3" "ibft2-0-8-3" sampleHarness).1 = .ok c
      ∧ c.ID = "connection-0-7-3"
      ∧ c.ID ≠ "connection-" ++ formatUint sampleHarness.chain.Connections.length ++ "-"
          ++ formatInt sampleHarness.chain.chainID :=
  ⟨_, rfl, by decide, by decide⟩

/-- C18, amended: for every chain, the ID of the connection
`ConstructNextTestConnection` returns is exactly
`"connection-" ++ decimal(n) ++ "-" ++ decimal(chainID) ++ "-" ++ decimal(IBCID)`,
where `n` is the number of connections already tracked on the chain. -/
theorem ConstructNextTestConnection_id (clientID counterpartyClientID : String) (h : Harness) :
    ∃ c, (ConstructNextTestConnection clientID counterpartyClientID h).2.load
          (ConstructNextTestConnection clientID counterpartyClientID h).1 = .ok c
      ∧ c.ID = "connection-" ++ formatUint h.chain.Connections.length ++ "-"
          ++ formatInt h.chain.chainID ++ "-" ++ formatUint h.chain.IBCID :=
  ⟨_, ConstructNextTestConnection_load clientID counterpartyClientID h, rfl⟩

/-! ## Channels of a connection -/

/-- C19 at a concrete input: on a chain with identifier 7 and IBC identifier 3 that
tracks the connections `connection-0-7-3` and `connection-1-7-3`, two calls of
`AddTestChannel` on the first connection and a call of `NextTestChannel` on the
second all return a channel with the ID `channel-7-3`. -/
theorem channel_ids_collide :
    ∃ ch1 h1 ch2 h2 ch3,
      AddTestChannel 0 "transfer" sampleTwoConnections = .ok (ch1, h1)
      ∧ AddTestChannel 0 "transfer" h1 = .ok (ch2, h2)
      ∧ NextTestChannel 1 "transfer" h2 = .ok (ch3, h2)
      ∧ (h2.connections.map (Option.map TestConnection.ID))
          = [some "connection-0-7-3", some "connection-1-7-3"]
      ∧ ch1.ID = "channel-7-3" ∧ ch2.ID = "channel-7-3" ∧ ch3.ID = "channel-7-3" :=
  ⟨_, _, _, _, _, rfl, rfl, rfl, by decide, by decide, by decide, by decide⟩

theorem NextTestChannel_ok (conn : ConnPtr) (portID : String) (h : Harness) (c : TestConnection)
    (hc : h.load conn = .ok c) :
    NextTestChannel conn portID h
      = .ok ({ PortID := portID
               ID := "channel-" ++ formatInt h.chain.chainID ++ "-" ++ formatUint h.chain.IBCID
               ClientID := c.ClientID
               CounterpartyClientID := c.CounterpartyClientID
               Version := c.NextChannelVersion }, h) := by
  simp only [NextTestChannel, hc]

theorem load_eq_ok (h : Harness) (conn : ConnPtr) (c : TestConnection) :
    h.load conn = .ok c ↔ h.objects[conn]? = some c := by
  unfold Harness.load
  cases h.objects[conn]? with
  | none => simp
  | some d => simp

/-- C20: `NextTestChannel` does not record the channel, `AddTestChannel` does. For
every chain, every connection object `c` behind a pointer `conn` and every port,
`NextTestChannel` returns a channel and leaves the whole state (the chain and every
connection object) as it was; `AddTestChannel` returns the same channel, leaves the
chain and every other connection object as they were, and leaves behind `conn` the
object `c` with exactly that channel appended to `Channels`. The channel's `PortID`,
`ClientID`, `CounterpartyClientID` and `Version` are `portID`, `c.ClientID`,
`c.CounterpartyClientID` and `c.NextChannelVersion`. -/
theorem NextTestChannel_frame (conn : ConnPtr) (portID : String) (h : Harness)
    (c : TestConnection) (hc : h.load conn = .ok c) :
    ∃ ch h',
      NextTestChannel conn portID h = .ok (ch, h)
      ∧ AddTestChannel conn portID h = .ok (ch, h')
      ∧ h'.chain = h.chain
      ∧ h'.load conn = .ok { c with Channels := c.Channels ++ [ch] }
      ∧ h'.objects.length = h.objects.length
      ∧ (∀ p, p ≠ conn → h'.objects[p]? = h.objects[p]?)
      ∧ ch.PortID = portID ∧ ch.ClientID = c.ClientID
      ∧ ch.CounterpartyClientID = c.CounterpartyClientID
      ∧ ch.Version = c.NextChannelVersion := by
  have hlt : conn < h.objects.length := by
    rw [load_eq_ok] at hc
    exact (List.getElem?_eq_some_iff.mp hc).1
  have hadd : ∀ ch, NextTestChannel conn portID h = .ok (ch, h) →
      AddTestChannel conn portID h = .ok (ch,
        { h with objects := h.objects.set conn { c with Channels := c.Channels ++ [ch] } }) := by
    intro ch hn
    simp only [AddTestChannel, hn, hc]
  have hnext := NextTestChannel_ok conn portID h c hc
  refine ⟨_, _, hnext, hadd _ hnext, ?_, ?_, ?_, ?_, rfl, rfl, rfl, rfl⟩
  · rfl
  · rw [load_eq_ok]
    simp only [List.getElem?_set_self hlt]
  · simp only [List.length_set]
  · intro p hp
    simp only [List.getElem?_set_ne (Ne.symm hp)]

theorem NextTestChannel_frame_witness :
    ∃ ch h',
      NextTestChannel 1 "transfer" sampleTwoConnections = .ok (ch, sampleTwoConnections)
      ∧ AddTestChannel 1 "transfer" sampleTwoConnections = .ok (ch, h')
      ∧ h'.chain = sampleTwoConnections.chain
      ∧ h'.load 1 = .ok { ID := "connection-1-7-3"
                          ClientID := "ibft2-1-7-3"
                          NextChannelVersion := "ics20-1"
                          CounterpartyClientID := "ibft2-1-8-3"
                          Channels := [] ++ [ch] }
      ∧ h'.objects.length = sampleTwoConnections.objects.length
      ∧ (∀ p, p ≠ 1 → h'.objects[p]? = sampleTwoConnections.objects[p]?)
      ∧ ch.PortID = "transfer" ∧ ch.ClientID = "ibft2-1-7-3"
      ∧ ch.CounterpartyClientID = "ibft2-1-8-3"
      ∧ ch.Version = "ics20-1" :=
  NextTestChannel_frame 1 "transfer" sampleTwoConnections
    { ID := "connection-1-7-3"
      ClientID := "ibft2-1-7-3"
      NextChannelVersion := "ics20-1"
      CounterpartyClientID := "ibft2-1-8-3"
      Channels := [] } (by decide)

/-! ## Client identifiers -/

theorem clientIDAt_injective (chainID : Int) (IBCID : Nat) (clientType : String) :
    Function.Injective (clientIDAt chainID IBCID clientType) := by
  intro a b h
  unfold clientIDAt at h
  have h1 := congrArg String.data h
  simp only [String.data_append, List.append_assoc, List.append_cancel_left_eq] at h1
  exact formatUint_injective (String.ext (List.append_cancel_right h1))

theorem newClientIDs_eq (types : List String) : ∀ chain : Chain,
    newClientIDs types chain
      = (clientIDsFrom chain.chainID chain.IBCID chain.ClientIDs.length types,
          { chain with ClientIDs := chain.ClientIDs
              ++ clientIDsFrom chain.chainID chain.IBCID chain.ClientIDs.length types }) := by
  induction types with
  | nil => intro chain; simp [newClientIDs, clientIDsFrom]
  | cons t rest ih =>
    intro chain
    simp only [newClientIDs, NewClientID, ih]
    simp [clientIDsFrom, clientIDAt, formatInt, formatUint]

theorem getElem?_clientIDsFrom (chainID : Int) (IBCID : Nat) (types : List String) :
    ∀ (n i : Nat), (clientIDsFrom chainID IBCID n types)[i]?
      = (types[i]?).map fun t => clientIDAt chainID IBCID t (n + i) := by
  induction types with
  | nil => intro n i; simp [clientIDsFrom]
  | cons t rest ih =>
    intro n i
    cases i with
    | zero => simp [clientIDsFrom]
    | succ i =>
      simp only [clientIDsFrom, List.getElem?_cons_succ, ih]
      have : n + 1 + i = n + (i + 1) := by omega
      rw [this]

/-- C21: `NewClientID` appends a new client id. For every chain and client type, a
call returns an id and leaves the chain as it was except that `ClientIDs` is its
previous value with exactly that id appended. After the calls for any list of client
types on a chain with an empty `ClientIDs` list, `ClientIDs` is the list of the ids
returned, and the id returned by a call differs from the id returned by every
earlier call for the same client type. -/
theorem NewClientID_appends (types : List String) (chain : Chain)
    (hempty : chain.ClientIDs = []) :
    (∀ (clientType : String) (c : Chain),
      (NewClientID clientType c).2
        = { c with ClientIDs := c.ClientIDs ++ [(NewClientID clientType c).1] })
    ∧ (newClientIDs types chain).2.ClientIDs = (newClientIDs types chain).1
    ∧ ∀ (i j : Nat) (t a b : String), i < j →
        types[i]? = some t → types[j]? = some t →
        (newClientIDs types chain).1[i]? = some a →
        (newClientIDs types chain).1[j]? = some b → a ≠ b := by
  refine ⟨fun _ _ => rfl, ?_, ?_⟩
  · rw [newClientIDs_eq]
    simp [hempty]
  · intro i j t a b hij hi hj ha hb hab
    rw [newClientIDs_eq] at ha hb
    simp only [getElem?_clientIDsFrom, hi, hj, Option.map_some', Option.some.injEq] at ha hb
    rw [← ha, ← hb] at hab
    have := clientIDAt_injective _ _ _ hab
    omega

theorem NewClientID_appends_witness :
    (∀ (clientType : String) (c : Chain),
      (NewClientID clientType c).2
        = { c with ClientIDs := c.ClientIDs ++ [(NewClientID clientType c).1] })
    ∧ (newClientIDs ["ibft2", "mock", "ibft2"] sampleChain).2.ClientIDs
        = (newClientIDs ["ibft2", "mock", "ibft2"] sampleChain).1
    ∧ ∀ (i j : Nat) (t a b : String), i < j →
        ["ibft2", "mock", "ibft2"][i]? = some t → ["ibft2", "mock", "ibft2"][j]? = some t →
        (newClientIDs ["ibft2", "mock", "ibft2"] sampleChain).1[i]? = some a →
        (newClientIDs ["ibft2", "mock", "ibft2"] sampleChain).1[j]? = some b → a ≠ b :=
  NewClientID_appends ["ibft2", "mock", "ibft2"] sampleChain rfl

/-! ## Proof queries -/

theorem bigUint64_of_uint64 (x : Int) (h0 : 0 ≤ x) (h1 : x < 2 ^ 64) :
    ((bigUint64 x : Nat) : Int) = x := by
  unfold bigUint64
  have : x.natAbs < 2 ^ 64 := by omega
  rw [Nat.mod_eq_of_lt this]
  omega

/-- C33: `QueryProof` refuses keys that are not 0x-prefixed before touching the
chain. For every storage key that does not start with `0x` it returns a nil proof
and the error `storageKey must be hex string`, and no query was sent. For a key that
starts with `0x`, when the client state is found and the contract-state query
answers with a state `s`, it has sent the client-state query and then the
contract-state query for the bytes of the key at the latest height of the client, and
returns the proof whose `Height` is `s.ParsedHeader.Base.Number.Uint64()`, the header
number of `s` when that is a `uint64`, and whose `Data` is `s.StorageProofRLP(0)`;
when the contract-state query answers with an error, that error is returned with a
nil proof. -/
theorem QueryProof_refuses (ibft2GetClientState : String → Except String ClientState)
    (clientGetContractState : List (List Byte) → Int → Except GoError ContractState)
    (counterpartyClientID storageKey : String) :
    (HasPrefix storageKey "0x" = false →
      QueryProof ibft2GetClientState clientGetContractState counterpartyClientID storageKey
        = { queries := []
            outcome := .ok (.error (.message "storageKey must be hex string")) })
    ∧ (HasPrefix storageKey "0x" = true → ∀ cs, ibft2GetClientState counterpartyClientID = .ok cs →
        (∀ s, clientGetContractState [stringBytes storageKey]
              (connection.toInt64 cs.LatestHeight) = .ok s →
          QueryProof ibft2GetClientState clientGetContractState counterpartyClientID storageKey
            = { queries := [.clientState counterpartyClientID,
                  .contractState [stringBytes storageKey] (connection.toInt64 cs.LatestHeight)]
                outcome := .ok (.ok { Height := bigUint64 s.Number
                                      Data := s.StorageProofRLP 0 }) }
          ∧ (0 ≤ s.Number → s.Number < 2 ^ 64 → ((bigUint64 s.Number : Nat) : Int) = s.Number))
        ∧ (∀ err, clientGetContractState [stringBytes storageKey]
              (connection.toInt64 cs.LatestHeight) = .error err →
          QueryProof ibft2GetClientState clientGetContractState counterpartyClientID storageKey
            = { queries := [.clientState counterpartyClientID,
                  .contractState [stringBytes storageKey] (connection.toInt64 cs.LatestHeight)]
                outcome := .ok (.error err) })) := by
  refine ⟨?_, ?_⟩
  · intro h
    simp [QueryProof, h]
  · intro h cs hcs
    refine ⟨?_, ?_⟩
    · intro s hs
      refine ⟨?_, bigUint64_of_uint64 s.Number⟩
      simp [QueryProof, GetContractState, GetClientState, h, hcs, hs]
    · intro err hs
      simp [QueryProof, GetContractState, GetClientState, h, hcs, hs]

theorem QueryProof_refuses_witness :
    QueryProof sampleClientStates sampleContractStates "ibft2-0-7-3" "ab"
      = { queries := []
          outcome := .ok (.error (.message "storageKey must be hex string")) }
    ∧ QueryProof sampleClientStates sampleContractStates "ibft2-0-7-3" "0xab"
      = { queries := [.clientState "ibft2-0-7-3", .contractState [[48, 120, 97, 98]] 12]
          outcome := .ok (.ok { Height := 12, Data := [0, 1] }) } :=
  ⟨(QueryProof_refuses sampleClientStates sampleContractStates "ibft2-0-7-3" "ab").1 (by decide),
    (((QueryProof_refuses sampleClientStates sampleContractStates "ibft2-0-7-3" "0xab").2
      (by decide) { LatestHeight := 12 } rfl).1
        { Number := 12
          StorageProofRLP := fun i => [connection.uint8 i, connection.uint8 1] } rfl).1⟩

/-! ## The packet image of the submissions -/

theorem packetToCallData_injective {H : Type} (p q : Packet H)
    (h : packetToCallData p = packetToCallData q) : p = q := by
  cases p
  cases q
  simp only [packetToCallData, ibcchannel.PacketData.mk.injEq] at h
  simp only [Packet.mk.injEq]
  exact h

/-- C34: all packet submissions carry the same packet image. `packetToCallData`
copies each of the eight packet fields unchanged, so it is injective; `SendPacket`
submits `packetToCallData(packet)` and `RecvPacket`, once it has its proof, a message
whose `Packet` is `packetToCallData(packet)`; `HandlePacketRecv` and
`HandlePacketAcknowledgement`, once they have their proofs, submit a message whose
`Packet`, built inline in the type of the routing module, is the image of
`packetToCallData(packet)` in that type: each of the eight fields has the same
value. -/
theorem packet_image_shared {N : Nat} {H : Type} (store : Ibcstore N)
    (queryProof : String → String → Except GoError Proof) (client : Client)
    (submitSend : Submit (ibcchannel.PacketData H))
    (submitRecv : Submit (ibcchannel.IBCMsgsMsgPacketRecv H))
    (submitHandle : Submit (ibcroutingmodule.IBCMsgsMsgPacketRecv H))
    (submitAck : Submit (ibcroutingmodule.IBCMsgsMsgPacketAcknowledgement H))
    (ch counterpartyCh : TestChannel) (packet : Packet H) (acknowledgement : List Byte)
    (key keyAck : String) (proof proofAck : Proof)
    (hkey : RecvPacket.storageKey store packet = .ok key)
    (hproof : queryProof ch.ClientID key = .ok proof)
    (hkeyAck : HandlePacketAcknowledgement.storageKey store packet = .ok keyAck)
    (hproofAck : queryProof ch.ClientID keyAck = .ok proofAck) :
    ((packetToCallData packet).Sequence = packet.Sequence
      ∧ (packetToCallData packet).SourcePort = packet.SourcePort
      ∧ (packetToCallData packet).SourceChannel = packet.SourceChannel
      ∧ (packetToCallData packet).DestinationPort = packet.DestinationPort
      ∧ (packetToCallData packet).DestinationChannel = packet.DestinationChannel
      ∧ (packetToCallData packet).Data = packet.Data
      ∧ (packetToCallData packet).TimeoutHeight = packet.TimeoutHeight
      ∧ (packetToCallData packet).TimeoutTimestamp = packet.TimeoutTimestamp)
    ∧ (∀ p q : Packet H, packetToCallData p = packetToCallData q → p = q)
    ∧ (∀ d : ibcchannel.PacketData H,
        (ibcroutingmodule.PacketData.ofCallData d).Sequence = d.Sequence
        ∧ (ibcroutingmodule.PacketData.ofCallData d).SourcePort = d.SourcePort
        ∧ (ibcroutingmodule.PacketData.ofCallData d).SourceChannel = d.SourceChannel
        ∧ (ibcroutingmodule.PacketData.ofCallData d).DestinationPort = d.DestinationPort
        ∧ (ibcroutingmodule.PacketData.ofCallData d).DestinationChannel = d.DestinationChannel
        ∧ (ibcroutingmodule.PacketData.ofCallData d).Data = d.Data
        ∧ (ibcroutingmodule.PacketData.ofCallData d).TimeoutHeight = d.TimeoutHeight
        ∧ (ibcroutingmodule.PacketData.ofCallData d).TimeoutTimestamp = d.TimeoutTimestamp)
    ∧ SendPacket client submitSend packet
        = WaitIfNoError client (submitSend (packetToCallData packet)).1
            (submitSend (packetToCallData packet)).2
    ∧ RecvPacket store queryProof client submitRecv ch counterpartyCh packet
        = .ok (WaitIfNoError client
            (submitRecv { Packet := packetToCallData packet
                          Proof := proof.Data
                          ProofHeight := proof.Height }).1
            (submitRecv { Packet := packetToCallData packet
                          Proof := proof.Data
                          ProofHeight := proof.Height }).2)
    ∧ HandlePacketRecv store queryProof client submitHandle ch counterpartyCh packet
        = .ok (WaitIfNoError client
            (submitHandle
              { Packet := ibcroutingmodule.PacketData.ofCallData (packetToCallData packet)
                Proof := proof.Data
                ProofHeight := proof.Height }).1
            (submitHandle
              { Packet := ibcroutingmodule.PacketData.ofCallData (packetToCallData packet)
                Proof := proof.Data
                ProofHeight := proof.Height }).2)
    ∧ HandlePacketAcknowledgement store queryProof client submitAck ch counterpartyCh packet
          acknowledgement
        = .ok (WaitIfNoError client
            (submitAck
              { Packet := ibcroutingmodule.PacketData.ofCallData (packetToCallData packet)
                Acknowledgement := acknowledgement
                Proof := proofAck.Data
                ProofHeight := proofAck.Height }).1
            (submitAck
              { Packet := ibcroutingmodule.PacketData.ofCallData (packetToCallData packet)
                Acknowledgement := acknowledgement
                Proof := proofAck.Data
                ProofHeight := proofAck.Height }).2) := by
  have hkey2 : HandlePacketRecv.storageKey store packet = .ok key := hkey
  refine ⟨⟨rfl, rfl, rfl, rfl, rfl, rfl, rfl, rfl⟩, packetToCallData_injective,
    fun d => ⟨rfl, rfl, rfl, rfl, rfl, rfl, rfl, rfl⟩, rfl, ?_, ?_, ?_⟩
  · simp only [RecvPacket, hkey, hproof]
  · simp only [HandlePacketRecv, hkey2, hproof]
    rfl
  · simp only [HandlePacketAcknowledgement, hkeyAck, hproofAck]
    rfl

theorem packet_image_shared_witness :
    SendPacket sampleClient (sampleSubmit _) transferPacket
        = WaitIfNoError sampleClient (sampleSubmit _ (packetToCallData transferPacket)).1
            (sampleSubmit _ (packetToCallData transferPacket)).2
    ∧ RecvPacket lengthStore sampleQueryProof sampleClient (sampleSubmit _) channelA channelB
          transferPacket
        = .ok (WaitIfNoError sampleClient
            (sampleSubmit _ ({ Packet := packetToCallData transferPacket
                               Proof := [1]
                               ProofHeight := 10 } : ibcchannel.IBCMsgsMsgPacketRecv (Nat × Nat))).1
            (sampleSubmit _ ({ Packet := packetToCallData transferPacket
                               Proof := [1]
                               ProofHeight := 10 } : ibcchannel.IBCMsgsMsgPacketRecv (Nat × Nat))).2)
    ∧ HandlePacketRecv lengthStore sampleQueryProof sampleClient (sampleSubmit _) channelA
          channelB transferPacket
        = .ok (WaitIfNoError sampleClient
            (sampleSubmit _
              ({ Packet := ibcroutingmodule.PacketData.ofCallData (packetToCallData transferPacket)
                 Proof := [1]
                 ProofHeight := 10 }
                : ibcroutingmodule.IBCMsgsMsgPacketRecv (Nat × Nat))).1
            (sampleSubmit _
              ({ Packet := ibcroutingmodule.PacketData.ofCallData (packetToCallData transferPacket)
                 Proof := [1]
                 ProofHeight := 10 }
                : ibcroutingmodule.IBCMsgsMsgPacketRecv (Nat × Nat))).2)
    ∧ HandlePacketAcknowledgement lengthStore sampleQueryProof sampleClient (sampleSubmit _)
          channelA channelB transferPacket [1]
        = .ok (WaitIfNoError sampleClient
            (sampleSubmit _
              ({ Packet := ibcroutingmodule.PacketData.ofCallData (packetToCallData transferPacket)
                 Acknowledgement := [1]
                 Proof := [1]
                 ProofHeight := 10 }
                : ibcroutingmodule.IBCMsgsMsgPacketAcknowledgement (Nat × Nat))).1
            (sampleSubmit _
              ({ Packet := ibcroutingmodule.PacketData.ofCallData (packetToCallData transferPacket)
                 Acknowledgement := [1]
                 Proof := [1]
                 ProofHeight := 10 }
                : ibcroutingmodule.IBCMsgsMsgPacketAcknowledgement (Nat × Nat))).2) :=
  (packet_image_shared lengthStore sampleQueryProof sampleClient (sampleSubmit _) (sampleSubmit _)
    (sampleSubmit _) (sampleSubmit _) channelA channelB transferPacket [1]
    "0x080b010000000000000000000000000000000000000000000000000000000000"
    "0x080b010000000000000000000000000000000000000000000000000000000001"
    { Height := 10, Data := [1] } { Height := 10, Data := [1] }
    (by decide) rfl (by decide) rfl).2.2.2

end testing

namespace protocol

open connection (Byte)

/-! ## Connection handshake -/

theorem connState_set (s : ConnStore) (id : String) (e : ConnectionEnd) (k : String) :
    connState (s.set id e) k = if k = id then e.state else connState s k := by
  unfold connState ConnStore.set
  by_cases h : k = id <;> simp [h]

/-- C7: connection state only moves forward. For every store, every verifier and
every operation of the connection handshake, the state of every connection after
the call is its state before the call or the next state along
UNINITIALIZED → INIT → OPEN or UNINITIALIZED → TRYOPEN → OPEN. -/
theorem connState_forward (cfg : Config) (verify : Verifier) (s : ConnStore) (op : ConnOp)
    (id : String) :
    connState (storeAfter s (op.run cfg verify s)) id = connState s id
      ∨ (connState s id).next (connState (storeAfter s (op.run cfg verify s)) id) = true := by
  cases op with
  | openInit c cl ccl pre d vs =>
    simp only [ConnOp.run, OpenInit]
    split
    · left; rfl
    · rename_i hs
      split
      · left; rfl
      · simp only [storeAfter, connState_set]
        by_cases hk : id = c
        · subst hk
          have : connState s id = .UNINITIALIZED := by
            unfold connState
            cases h : s id with
            | none => rfl
            | some e => simp [h] at hs
          right; simp [this, ConnState.next]
        · left; simp [hk]
  | openTry c cc ccl pre d vs cl proof h =>
    simp only [ConnOp.run, OpenTry]
    split
    · left; rfl
    · rename_i hs
      split
      · left; rfl
      · split
        · left; rfl
        · simp only [storeAfter, connState_set]
          by_cases hk : id = c
          · subst hk
            have : connState s id = .UNINITIALIZED := by
              unfold connState
              cases h : s id with
              | none => rfl
              | some e => simp [h] at hs
            right; simp [this, ConnState.next]
          · left; simp [hk]
  | openAck c cc v proof h =>
    simp only [ConnOp.run, OpenAck]
    cases hs : s c with
    | none => left; rfl
    | some e =>
      simp only []
      split
      · left; rfl
      · rename_i hst
        split
        · left; rfl
        · simp only [storeAfter, connState_set]
          by_cases hk : id = c
          · subst hk
            have : connState s id = .INIT := by
              unfold connState; rw [hs]; simpa using hst
            right; simp [this, ConnState.next]
          · left; simp [hk]
  | openConfirm c proof h =>
    simp only [ConnOp.run, OpenConfirm]
    cases hs : s c with
    | none => left; rfl
    | some e =>
      simp only []
      split
      · left; rfl
      · rename_i hst
        split
        · left; rfl
        · simp only [storeAfter, connState_set]
          by_cases hk : id = c
          · subst hk
            have : connState s id = .TRYOPEN := by
              unfold connState; rw [hs]; simpa using hst
            right; simp [this, ConnState.next]
          · left; simp [hk]

/-- C8: a connection cannot reach OPEN without the counterparty's step being
proved. With a sound verifier, when the local connection is in INIT and the
counterparty ConnectionEnd at the proof height is still in INIT, `OpenAck` returns
an error and the local connection stays in INIT. -/
theorem OpenAck_fails_when_counterparty_INIT (cfg : Config) (verify : Verifier)
    (remote : Nat → ConnStore) (hsound : verify.Sound remote) (s : ConnStore)
    (connectionId counterpartyConnectionId : String) (chosenVersion : Version)
    (proofTry : List Byte) (proofHeight : Nat)
    (hlocal : connState s connectionId = .INIT)
    (hremote : connState (remote proofHeight) counterpartyConnectionId = .INIT) :
    (∃ err, OpenAck cfg verify s connectionId counterpartyConnectionId chosenVersion proofTry
        proofHeight = .error err)
    ∧ connState (storeAfter s (OpenAck cfg verify s connectionId counterpartyConnectionId
        chosenVersion proofTry proofHeight)) connectionId = .INIT := by
  have key : ∃ err, OpenAck cfg verify s connectionId counterpartyConnectionId chosenVersion
      proofTry proofHeight = .error err := by
    unfold OpenAck
    cases hs : s connectionId with
    | none => exact ⟨_, rfl⟩
    | some e =>
      simp only []
      split
      · exact ⟨_, rfl⟩
      · split
        · exact ⟨_, rfl⟩
        · rename_i hv
          have hv' : verify proofHeight proofTry e.counterparty.keyPrefix counterpartyConnectionId
              (expectedTry cfg e connectionId chosenVersion) = true := by
            simpa using hv
          have := hsound _ _ _ _ _ hv'
          unfold connState at hremote
          rw [this] at hremote
          simp [expectedTry] at hremote
  obtain ⟨err, herr⟩ := key
  exact ⟨⟨err, herr⟩, by rw [herr]; exact hlocal⟩

theorem idealVerifier_sound (remote : Nat → ConnStore) : (idealVerifier remote).Sound remote := by
  intro h proof pre id e hv
  simpa [idealVerifier] using hv

theorem OpenAck_fails_when_counterparty_INIT_witness :
    (∃ err, OpenAck ⟨[105, 98, 99], []⟩ (idealVerifier sampleRemote) sampleLocal "a" "b"
        ⟨"1", []⟩ [] 7 = .error err)
    ∧ connState (storeAfter sampleLocal (OpenAck ⟨[105, 98, 99], []⟩ (idealVerifier sampleRemote)
        sampleLocal "a" "b" ⟨"1", []⟩ [] 7)) "a" = .INIT :=
  OpenAck_fails_when_counterparty_INIT ⟨[105, 98, 99], []⟩ (idealVerifier sampleRemote)
    sampleRemote (idealVerifier_sound sampleRemote) sampleLocal "a" "b" ⟨"1", []⟩ [] 7
    (by decide) (by decide)

/-! ## Packet receive -/

/-- C10: ordered and unordered receive. With proofs the verifier accepts: on an
ORDERED channel whose next expected sequence is at most `n`, `Recv` of a packet `o`
with sequence `n + 1` fails with `UnexpectedSequence`; on an UNORDERED channel a
packet `p` that has not been received and has not timed out is accepted whatever its
sequence, and a later `Recv` of a packet `q` with the same
`(sourcePort, sourceChannel, sequence)` fails with `PacketAlreadyReceived`. -/
theorem Recv_ordering (verify : PacketVerifier) (app : Packet → List Byte) (st : RecvState)
    (o p q : Packet) (proofO proofP proofQ : List Byte) (hO hP hQ n : Nat)
    (ho : verify hO proofO o = true) (hp : verify hP proofP p = true)
    (hq : verify hQ proofQ q = true)
    (hordered : st.ordering (o.destinationPort, o.destinationChannel) = .ORDERED)
    (hnext : st.nextRecvSequence (o.destinationPort, o.destinationChannel) ≤ n)
    (hseq : o.sequence = n + 1)
    (hunordered : st.ordering (p.destinationPort, p.destinationChannel) = .UNORDERED)
    (hnew : p.identity ∉ st.received) (hlive : timedOut st p = false)
    (hid : q.identity = p.identity)
    (hch : (q.destinationPort, q.destinationChannel) = (p.destinationPort, p.destinationChannel)) :
    Recv verify app st o proofO hO = .error .UnexpectedSequence
    ∧ ∃ st' ack, Recv verify app st p proofP hP = .ok (st', ack)
        ∧ Recv verify app st' q proofQ hQ = .error .PacketAlreadyReceived := by
  constructor
  · unfold Recv
    simp only [ho, hordered]
    rw [if_neg (by simp), if_pos ⟨trivial, by omega⟩]
  · unfold Recv
    simp only [hp, hq, hunordered, hlive, hnew, hch, hid]
    simp [hunordered]

theorem Recv_ordering_witness :
    Recv (fun _ _ _ => true) (fun _ => [1]) sampleRecvState (samplePacket "ordered" 2) [] 5
        = .error .UnexpectedSequence
    ∧ ∃ st' ack, Recv (fun _ _ _ => true) (fun _ => [1]) sampleRecvState
          (samplePacket "unordered" 7) [] 5 = .ok (st', ack)
        ∧ Recv (fun _ _ _ => true) (fun _ => [1]) st' (samplePacket "unordered" 7) [] 6
          = .error .PacketAlreadyReceived :=
  Recv_ordering (fun _ _ _ => true) (fun _ => [1]) sampleRecvState (samplePacket "ordered" 2)
    (samplePacket "unordered" 7) (samplePacket "unordered" 7) [] [] [] 5 5 6 1 rfl rfl rfl
    (by decide) (by decide) rfl (by decide) (by decide) (by decide) rfl rfl

end protocol
